import Mathlib

/-!
The slot map `basic_jar` (include/neolib/core/jar.hpp) and the registry `ecs`
(src/ecs/ecs.cpp) of neolib.

A shallow embedding of the cookie-indexed slot map and of the registry of
components, systems, archetypes, entity ids and handles.  Vectors are lists in
the order of the C++ vector (`back()` is the last element), unsigned machine
integers are naturals with the wrap-around written out where it can happen,
and a call yields its outcome together with the object as the call leaves it,
because an exception leaves the object behind in a modified state.
-/

namespace neolib

/-- Build parameters of one instantiation of `basic_jar`: the width in bits of
`CookieType` (an unsigned integer type, `cookie` or `small_cookie` in the
library), whether `NDEBUG` is defined, in which case `assert` expands to
nothing, and whether `value_type` is a pointer type (`std::is_pointer_v`). -/
structure config where
  cookie_bits : Nat
  cookie_bits_ge : 8 ≤ cookie_bits
  cookie_bits_le : cookie_bits ≤ 64
  ndebug : Bool
  pointer_value_type : Bool

/-- Exceptions an operation of the jar, of the registry or of the entity info
metadata can leave with. -/
inductive exception where
  | cookie_invalid
  | cookie_already_added
  | cookies_exhausted
  | no_pointer_value_type_cookie_lookup
  | length_error
  | bad_alloc
  | constructor_error
  | uuid_exists
  | entity_archetype_not_found
  | component_not_found
  | system_not_found
  | entity_ids_exhausted
  | handle_ids_exhausted
  | invalid_handle_id
  | invalid_field_index
  deriving DecidableEq, Repr

/-- How a call ends: it returns, it throws, it stops the process on a failed
`assert`, or it runs into behaviour the language leaves undefined (an
out-of-range `operator[]`, `pop_back` on an empty vector). -/
inductive result (ρ : Type) where
  | returned (r : ρ)
  | thrown (e : exception)
  | aborted
  | undefined
  deriving DecidableEq, Repr

/-- What the surroundings do to one `add`: nothing, the constructor of
`value_type` throws inside `items().emplace`, or `allocated_cookies().insert`
throws `std::bad_alloc`. -/
inductive fault where
  | none
  | construct
  | allocate
  deriving DecidableEq, Repr

/-- The data members of `basic_jar` (the mutex apart). -/
structure basic_jar (α : Type) where
  iNextAvailableCookie : Nat
  iAllocatedCookies : List Nat
  iItems : List α
  iFreeCookies : List Nat
  iReverseIndices : List Nat
  deriving DecidableEq, Repr

/-- The largest value of `std::size_t`. -/
def SIZE_MAX : Nat := 2 ^ 64 - 1

/-- Modelled from the spec: the sentinel `invalid_cookie<cookie_type>` is
declared in a header that is not among the files; it is the value the counter
must never hand out, taken as the all-ones value of the cookie type, the way
line 197 builds INVALID_REVERSE_INDEX. -/
def INVALID_COOKIE (cfg : config) : Nat := 2 ^ cfg.cookie_bits - 1

/-- The value `static_cast<reverse_index_t>(~reverse_index_t{})`. -/
def INVALID_REVERSE_INDEX : Nat := SIZE_MAX

/-- The value of `aCookie + 1` as C++ computes it: a cookie type narrower than `int`
is promoted and cannot overflow, a wider one wraps at its own width. -/
def promoted_succ (cfg : config) (aCookie : Nat) : Nat :=
  if cfg.cookie_bits < 32 then aCookie + 1 else (aCookie + 1) % 2 ^ cfg.cookie_bits

/-- The value of `items().size() - 1` in `std::size_t`: it wraps for an empty vector. -/
def size_minus_one (n : Nat) : Nat :=
  if n = 0 then SIZE_MAX else n - 1

/-- The effect of `std::swap(v[i], v.back())`; `none` when `i` is out of range. -/
def swap_with_back {β : Type} (v : List β) (i : Nat) : Option (List β) :=
  match v[i]?, v.getLast? with
  | some x, some y => some ((v.set i y).set (v.length - 1) x)
  | _, _ => Option.none

/-- The jar `basic_jar()` constructs. -/
def basic_jar.new {α : Type} : basic_jar α :=
  { iNextAvailableCookie := 0, iAllocatedCookies := [], iItems := [],
    iFreeCookies := [], iReverseIndices := [] }

/-- `basic_jar::empty`. -/
def empty {α : Type} (j : basic_jar α) : Bool :=
  j.iItems.isEmpty

/-- `basic_jar::size`. -/
def size {α : Type} (j : basic_jar α) : Nat :=
  j.iItems.length

/-- `basic_jar::contains`: the cookie is within the reverse index and its slot
is not a hole. -/
def contains {α : Type} (j : basic_jar α) (aCookie : Nat) : Bool :=
  match j.iReverseIndices[aCookie]? with
  | some reverseIndex => reverseIndex != INVALID_REVERSE_INDEX
  | Option.none => false

/-- `basic_jar::operator[]`. -/
def lookup {α : Type} (j : basic_jar α) (aCookie : Nat) : result α :=
  match j.iReverseIndices[aCookie]? with
  | Option.none => result.thrown exception.cookie_invalid
  | some reverseIndex =>
    if reverseIndex = INVALID_REVERSE_INDEX then result.thrown exception.cookie_invalid
    else
      match j.iItems[reverseIndex]? with
      | some v => result.returned v
      | Option.none => result.undefined

/-- `basic_jar::next_cookie`. -/
def next_cookie {α : Type} (cfg : config) (j : basic_jar α) : result Nat × basic_jar α :=
  match j.iFreeCookies.getLast? with
  | some nextCookie =>
    (result.returned nextCookie, { j with iFreeCookies := j.iFreeCookies.dropLast })
  | Option.none =>
    let nextCookie := (j.iNextAvailableCookie + 1) % 2 ^ cfg.cookie_bits
    let j1 := { j with iNextAvailableCookie := nextCookie }
    if nextCookie = INVALID_COOKIE cfg then (result.thrown exception.cookies_exhausted, j1)
    else if !cfg.ndebug && decide (nextCookie ∈ j1.iFreeCookies) then (result.aborted, j1)
    else (result.returned nextCookie, j1)

/-- `basic_jar::return_cookie`. -/
def return_cookie {α : Type} (cfg : config) (j : basic_jar α) (aCookie : Nat) :
    result Unit × basic_jar α :=
  if !cfg.ndebug && decide (aCookie ∈ j.iFreeCookies) then (result.aborted, j)
  else (result.returned (), { j with iFreeCookies := j.iFreeCookies ++ [aCookie] })

/-- `basic_jar::add(cookie_type, Args&&...)`; the position of the new item is
returned.  `vector::insert` of `count` holes is reported as `length_error`
when the vector would pass SIZE_MAX elements, which no vector can hold; short of
that, memory is taken to suffice. -/
def add {α : Type} (cfg : config) (j : basic_jar α) (aCookie : Nat) (aItem : α) (f : fault) :
    result Nat × basic_jar α :=
  if !cfg.ndebug && decide (aCookie ∈ j.iFreeCookies) then (result.aborted, j)
  else
    let n := j.iReverseIndices.length
    let count := (promoted_succ cfg aCookie + 2 ^ 64 - n) % 2 ^ 64
    if n ≤ aCookie ∧ SIZE_MAX < n + count then (result.thrown exception.length_error, j)
    else
      let j1 :=
        if n ≤ aCookie then
          { j with iReverseIndices :=
              j.iReverseIndices ++ List.replicate count INVALID_REVERSE_INDEX }
        else j
      match j1.iReverseIndices[aCookie]? with
      | Option.none => (result.undefined, j1)
      | some reverseIndex =>
        if reverseIndex ≠ INVALID_REVERSE_INDEX then
          (result.thrown exception.cookie_already_added, j1)
        else
          match f with
          | fault.construct => (result.thrown exception.constructor_error, j1)
          | fault.allocate =>
            (result.thrown exception.bad_alloc,
              { j1 with iItems := (j1.iItems ++ [aItem]).dropLast })
          | fault.none =>
            (result.returned j1.iItems.length,
              { j1 with
                iItems := j1.iItems ++ [aItem]
                iAllocatedCookies := j1.iAllocatedCookies ++ [aCookie]
                iReverseIndices :=
                  j1.iReverseIndices.set aCookie ((j1.iItems ++ [aItem]).length - 1) })

/-- `basic_jar::insert`. -/
def insert {α : Type} (cfg : config) (j : basic_jar α) (aItem : α) (f : fault) :
    result Nat × basic_jar α :=
  match next_cookie cfg j with
  | (result.returned cookie, j1) =>
    match add cfg j1 cookie aItem f with
    | (result.returned _, j2) => (result.returned cookie, j2)
    | (result.thrown e, j2) =>
      match return_cookie cfg j2 cookie with
      | (result.returned _, j3) => (result.thrown e, j3)
      | (result.thrown e1, j3) => (result.thrown e1, j3)
      | (result.aborted, j3) => (result.aborted, j3)
      | (result.undefined, j3) => (result.undefined, j3)
    | (result.aborted, j2) => (result.aborted, j2)
    | (result.undefined, j2) => (result.undefined, j2)
  | (result.thrown e, j1) => (result.thrown e, j1)
  | (result.aborted, j1) => (result.aborted, j1)
  | (result.undefined, j1) => (result.undefined, j1)

/-- `basic_jar::emplace`: the value is built in place from the arguments. -/
def emplace {α : Type} (cfg : config) (j : basic_jar α) (aArgs : α) (f : fault) :
    result Nat × basic_jar α :=
  match next_cookie cfg j with
  | (result.returned cookie, j1) =>
    match add cfg j1 cookie aArgs f with
    | (result.returned _, j2) => (result.returned cookie, j2)
    | (result.thrown e, j2) =>
      match return_cookie cfg j2 cookie with
      | (result.returned _, j3) => (result.thrown e, j3)
      | (result.thrown e1, j3) => (result.thrown e1, j3)
      | (result.aborted, j3) => (result.aborted, j3)
      | (result.undefined, j3) => (result.undefined, j3)
    | (result.aborted, j2) => (result.aborted, j2)
    | (result.undefined, j2) => (result.undefined, j2)
  | (result.thrown e, j1) => (result.thrown e, j1)
  | (result.aborted, j1) => (result.aborted, j1)
  | (result.undefined, j1) => (result.undefined, j1)

/-- The swap branch of `remove`: item and cookie at `reverseIndex` change place
with the last ones and the moved cookie is pointed at the vacated position. -/
def swap_to_back {α : Type} (j : basic_jar α) (reverseIndex : Nat) : Option (basic_jar α) :=
  match swap_with_back j.iItems reverseIndex,
      swap_with_back j.iAllocatedCookies reverseIndex with
  | some items, some cookies =>
    match cookies[reverseIndex]? with
    | some cookie =>
      if cookie < j.iReverseIndices.length then
        some { j with
          iItems := items
          iAllocatedCookies := cookies
          iReverseIndices := j.iReverseIndices.set cookie reverseIndex }
      else Option.none
    | Option.none => Option.none
  | _, _ => Option.none

/-- `basic_jar::remove(cookie_type)`, which `erase` by cookie comes down to; the
position `std::next(items().begin(), reverseIndex)` is returned. -/
def remove {α : Type} (cfg : config) (j : basic_jar α) (aCookie : Nat) :
    result Nat × basic_jar α :=
  if !cfg.ndebug && decide (aCookie ∈ j.iFreeCookies) then (result.aborted, j)
  else
    match j.iReverseIndices[aCookie]? with
    | Option.none => (result.thrown exception.cookie_invalid, j)
    | some reverseIndex =>
      if reverseIndex = INVALID_REVERSE_INDEX then (result.thrown exception.cookie_invalid, j)
      else
        let swapped :=
          if reverseIndex < size_minus_one j.iItems.length then swap_to_back j reverseIndex
          else some j
        match swapped with
        | Option.none => (result.undefined, j)
        | some j1 =>
          if j1.iItems.isEmpty || j1.iAllocatedCookies.isEmpty then (result.undefined, j1)
          else
            let j2 := { j1 with
              iItems := j1.iItems.dropLast
              iAllocatedCookies := j1.iAllocatedCookies.dropLast }
            if j2.iItems.length < reverseIndex then (result.undefined, j2)
            else
              let j3 := { j2 with
                iReverseIndices := j2.iReverseIndices.set aCookie INVALID_REVERSE_INDEX }
              match return_cookie cfg j3 aCookie with
              | (result.returned _, j4) => (result.returned reverseIndex, j4)
              | (result.thrown e, j4) => (result.thrown e, j4)
              | (result.aborted, j4) => (result.aborted, j4)
              | (result.undefined, j4) => (result.undefined, j4)

/-- A call that ends the process (a failed assertion) or leaves defined behaviour. -/
def result.fatal {ρ : Type} : result ρ → Bool
  | result.aborted => true
  | result.undefined => true
  | _ => false

/-- The reverse index after `add` has padded it with holes up to `aCookie`. -/
def grown (ri : List Nat) (aCookie : Nat) : List Nat :=
  if ri.length ≤ aCookie then
    ri ++ List.replicate (aCookie + 1 - ri.length) INVALID_REVERSE_INDEX
  else ri

/-- The jar invariant of the data model: `allocatedCookies` runs parallel to
`items`; every allocated cookie `c` has `reverseIndex[c] < items.size()` and
`allocatedCookies[reverseIndex[c]] == c`; every dense position `i` has
`reverseIndex[allocatedCookies[i]] == i`; and, the positions being `size_t`
values, none of them is the sentinel. -/
def jar_invariant {α : Type} (j : basic_jar α) : Prop :=
  j.iAllocatedCookies.length = j.iItems.length ∧
  (∀ c, c < j.iReverseIndices.length →
    j.iReverseIndices.getD c INVALID_REVERSE_INDEX = INVALID_REVERSE_INDEX ∨
    (j.iReverseIndices.getD c INVALID_REVERSE_INDEX < j.iItems.length ∧
      j.iAllocatedCookies[j.iReverseIndices.getD c INVALID_REVERSE_INDEX]? = some c)) ∧
  (∀ i, i < j.iItems.length →
    j.iReverseIndices[j.iAllocatedCookies.getD i 0]? = some i) ∧
  j.iItems.length ≤ INVALID_REVERSE_INDEX

instance {α : Type} (j : basic_jar α) : Decidable (jar_invariant j) := by
  unfold jar_invariant
  infer_instance

/-- The cookies that are live: those `contains` answers true for, in increasing order. -/
def live_cookies {α : Type} (j : basic_jar α) : List Nat :=
  (List.range j.iReverseIndices.length).filter (fun c => contains j c)

/-- What every jar built through `insert`, `emplace` and `remove` satisfies:
the jar invariant, no stored cookie is the sentinel, and, where assertions are
compiled in, the free list holds no cookie twice. -/
def well_formed {α : Type} (cfg : config) (j : basic_jar α) : Prop :=
  jar_invariant j ∧
  (∀ c ∈ j.iAllocatedCookies, c < INVALID_COOKIE cfg) ∧
  (∀ c ∈ j.iFreeCookies, c < INVALID_COOKIE cfg) ∧
  (cfg.ndebug = false → j.iFreeCookies.Nodup)

/-- What holds in addition as long as the counter has never run out: the
counter is below the sentinel, the free list holds no cookie twice and no live
cookie, and no cookie in use is above the counter. -/
def unexhausted {α : Type} (cfg : config) (j : basic_jar α) : Prop :=
  j.iNextAvailableCookie < INVALID_COOKIE cfg ∧
  j.iFreeCookies.Nodup ∧
  (∀ c ∈ j.iFreeCookies, contains j c = false ∧ c ≤ j.iNextAvailableCookie) ∧
  (∀ c, contains j c = true → c ≤ j.iNextAvailableCookie)

/-- The jars a program can arrive at from `basic_jar()` by calls of `insert`,
`emplace` and `remove(cookie)`, whether a call returns or throws; a call that
ends the process leaves no jar behind. -/
inductive reachable {α : Type} (cfg : config) : basic_jar α → Prop where
  | new : reachable cfg basic_jar.new
  | insert (j : basic_jar α) (aItem : α) (f : fault) :
      reachable cfg j → (insert cfg j aItem f).1.fatal = false →
      reachable cfg (insert cfg j aItem f).2
  | emplace (j : basic_jar α) (aArgs : α) (f : fault) :
      reachable cfg j → (emplace cfg j aArgs f).1.fatal = false →
      reachable cfg (emplace cfg j aArgs f).2
  | remove (j : basic_jar α) (aCookie : Nat) :
      reachable cfg j → (remove cfg j aCookie).1.fatal = false →
      reachable cfg (remove cfg j aCookie).2

/-- The jars arrived at the same way while no call has failed with
`cookies_exhausted`. -/
inductive reachable_unexhausted {α : Type} (cfg : config) : basic_jar α → Prop where
  | new : reachable_unexhausted cfg basic_jar.new
  | insert (j : basic_jar α) (aItem : α) (f : fault) :
      reachable_unexhausted cfg j → (insert cfg j aItem f).1.fatal = false →
      (insert cfg j aItem f).1 ≠ result.thrown exception.cookies_exhausted →
      reachable_unexhausted cfg (insert cfg j aItem f).2
  | emplace (j : basic_jar α) (aArgs : α) (f : fault) :
      reachable_unexhausted cfg j → (emplace cfg j aArgs f).1.fatal = false →
      (emplace cfg j aArgs f).1 ≠ result.thrown exception.cookies_exhausted →
      reachable_unexhausted cfg (emplace cfg j aArgs f).2
  | remove (j : basic_jar α) (aCookie : Nat) :
      reachable_unexhausted cfg j → (remove cfg j aCookie).1.fatal = false →
      reachable_unexhausted cfg (remove cfg j aCookie).2

/-- The jar after `n` more calls `insert(aItem)`. -/
def insert_many {α : Type} (cfg : config) (j : basic_jar α) (aItem : α) : Nat → basic_jar α
  | 0 => j
  | n + 1 => (insert cfg (insert_many cfg j aItem n) aItem fault.none).2

/-- A `small_jar` (16-bit cookies) built without assertions. -/
def small_release : config := ⟨16, by decide, by decide, true, false⟩

/-- A `small_jar` (16-bit cookies) built with assertions. -/
def small_debug : config := ⟨16, by decide, by decide, false, false⟩

/-- A small jar with two items, 10 under cookie 1 and 20 under cookie 2. -/
def two_items : basic_jar Nat :=
  (insert small_debug (insert small_debug basic_jar.new 10 fault.none).2 20 fault.none).2

/-- The jar `two_items` after the public `return_cookie(1)`: cookie 1 is live and
on the free list at once. -/
def stale_jar : basic_jar Nat :=
  (return_cookie small_debug two_items 1).2

/-- The jar `two_items` after `remove(1)`. -/
def erased_once : basic_jar Nat :=
  (remove small_debug two_items 1).2

/-- A `small_jar` after 65534 calls `insert(0)`: the counter stands at 65534,
one short of the sentinel 65535, and the free list is empty. -/
def full_small_jar : basic_jar Nat :=
  insert_many small_release basic_jar.new 0 65534

/-- The same 65534 inserts in a build with assertions. -/
def full_small_debug : basic_jar Nat :=
  insert_many small_debug basic_jar.new 0 65534

/-- The jar `full_small_debug` after three more calls `insert(0)`. -/
def wrapped_jar : basic_jar Nat :=
  insert_many small_debug full_small_debug 0 3

/-! ## The registry of ecs.cpp

The class `ecs` is declared in ecs.hpp, which is not among the files; the
members used below are the ones ecs.cpp names.  Identifiers of components,
systems and archetypes are 128-bit values compared by equality only and are
natural numbers here.  Every operation returns its outcome together with the
registry it leaves behind. -/

/-- The widths in bits of the unsigned integer types `entity_id` and `handle_id`
(declared in ecs_ids.hpp, which is not among the files). -/
structure ecs_config where
  entity_id_bits : Nat
  handle_id_bits : Nat
  entity_id_bits_ge : 8 ≤ entity_id_bits
  entity_id_bits_le : entity_id_bits ≤ 64
  handle_id_bits_ge : 8 ≤ handle_id_bits
  handle_id_bits_le : handle_id_bits ≤ 64

/-- Modelled from the spec: entity id 0 is reserved as "no entity". -/
def null_entity : Nat := 0

/-- Modelled from the spec: handle id 0 is reserved as "no handle". -/
def null_id : Nat := 0

/-- The null pointer stored in a released slot of the handle array. -/
def nullptr : Nat := 0

/-- The identifier `entity_info::meta::id()` of entity_info.hpp. -/
def entity_info_id : Nat := 0x867e30c2af8e452ea5420dd0d101e42d

/-- The creation flags tested by ecs.cpp. -/
structure ecs_flags where
  PopulateEntityInfo : Bool
  CreatePaused : Bool
  Turbo : Bool
  deriving DecidableEq, Repr

/-- What the registry signals to its surroundings: the four events it triggers,
the two calls to the power service, and the call `aTimer.again()` by which the
timer callback reschedules the timer. -/
inductive event where
  | EntityCreated (aEntityId : Nat)
  | EntityDestroyed (aEntityId : Nat)
  | SystemsPaused
  | SystemsResumed
  | enable_turbo_mode
  | enable_green_mode
  | timer_again
  deriving DecidableEq, Repr

/-- Modelled from the spec: an archetype is a named, identifier-keyed entity
template. -/
structure entity_archetype where
  id : Nat
  name : String
  deriving DecidableEq, Repr

/-- Modelled from the spec: a component instance owns a map from entity id to
component value, one value per entity that has the component. -/
structure component_instance (δ : Type) where
  records : List (Nat × δ)
  deriving DecidableEq, Repr

/-- `find` of the associative containers `archetype_registry_t`,
`component_factories_t`, `components_t`, `system_factories_t` and `systems_t`
(declared in ecs.hpp): the value stored under a key, if any. -/
def table_find {β : Type} : List (Nat × β) → Nat → Option β
  | [], _ => Option.none
  | (k, v) :: m, key => if k = key then some v else table_find m key

/-- `emplace` of the same containers: nothing is stored when the key is present,
and the flag tells whether the pair was stored.  The order in which a container
is iterated is fixed in ecs.hpp; nothing here depends on it. -/
def table_emplace {β : Type} (m : List (Nat × β)) (key : Nat) (v : β) :
    List (Nat × β) × Bool :=
  match table_find m key with
  | some _ => (m, false)
  | Option.none => (m ++ [(key, v)], true)

/-- A change made through the reference that a lookup returned: every value
stored under the key is replaced by its image. -/
def table_update {β : Type} (m : List (Nat × β)) (key : Nat) (f : β → β) : List (Nat × β) :=
  m.map (fun p => if p.1 = key then (p.1, f p.2) else p)

/-- Modelled from the spec: `has_entity_record(entityId)` of a component. -/
def has_entity_record {δ : Type} (c : component_instance δ) (aEntityId : Nat) : Bool :=
  (table_find c.records aEntityId).isSome

/-- Modelled from the spec: `destroy_entity_record(entityId)` of a component. -/
def destroy_entity_record {δ : Type} (c : component_instance δ) (aEntityId : Nat) :
    component_instance δ :=
  { records := c.records.filter (fun r => r.1 != aEntityId) }

/-- Modelled from the spec: `populate(entityId, value)` of a component; the
entity has one value afterwards. -/
def populate {δ : Type} (c : component_instance δ) (aEntityId : Nat) (aValue : δ) :
    component_instance δ :=
  { records := c.records.filter (fun r => r.1 != aEntityId) ++ [(aEntityId, aValue)] }

/-- The code that ecs.cpp calls and does not define: the member functions of
`i_system`, the factories and the identifier that `register_component<entity_info>()`
and `register_system<time>()` register, and the constructor of `entity_info`. -/
structure collaborators (δ σ : Type) where
  pause : σ → σ
  resume : σ → σ
  apply : σ → σ
  terminate : σ → σ
  paused : σ → Bool
  world_time : σ → Int
  time_id : Nat
  entity_info_factory : Unit → component_instance δ
  time_factory : Unit → σ
  entity_info : Nat → Int → δ

/-- The data members of `ecs` that ecs.cpp reads and writes, with two records
kept for the statements below: the identifiers whose factory was invoked, in
order, per table, and the events triggered, in order. -/
structure ecs (δ σ : Type) where
  iFlags : ecs_flags
  iArchetypeRegistry : List (Nat × entity_archetype)
  iComponentFactories : List (Nat × (Unit → component_instance δ))
  iComponents : List (Nat × component_instance δ)
  iSystemFactories : List (Nat × (Unit → σ))
  iSystems : List (Nat × σ)
  iFreedEntityIds : List Nat
  iNextEntityId : Nat
  iSystemsPaused : Bool
  iHandles : List Nat
  iFreedHandleIds : List Nat
  iNextHandleId : Nat
  component_factory_calls : List Nat
  system_factory_calls : List Nat
  triggered : List event

def trigger {δ σ : Type} (s : ecs δ σ) (e : event) : ecs δ σ :=
  { s with triggered := s.triggered ++ [e] }

def archetype {δ σ : Type} (s : ecs δ σ) (aArchetypeId : Nat) : result entity_archetype :=
  match table_find s.iArchetypeRegistry aArchetypeId with
  | some existingArchetype => result.returned existingArchetype
  | Option.none => result.thrown exception.entity_archetype_not_found

def component_instantiated {δ σ : Type} (s : ecs δ σ) (aComponentId : Nat) : Bool :=
  (table_find s.iComponents aComponentId).isSome

def component {δ σ : Type} (s : ecs δ σ) (aComponentId : Nat) :
    result (component_instance δ) × ecs δ σ :=
  match table_find s.iComponents aComponentId with
  | some existingComponent => (result.returned existingComponent, s)
  | Option.none =>
    match table_find s.iComponentFactories aComponentId with
    | some existingFactory =>
      let newComponent := existingFactory ()
      (result.returned newComponent,
        { s with
          iComponents := (table_emplace s.iComponents aComponentId newComponent).1
          component_factory_calls := s.component_factory_calls ++ [aComponentId] })
    | Option.none => (result.thrown exception.component_not_found, s)

def system_instantiated {δ σ : Type} (s : ecs δ σ) (aSystemId : Nat) : Bool :=
  (table_find s.iSystems aSystemId).isSome

def all_systems_paused {δ σ : Type} (s : ecs δ σ) : Bool :=
  s.iSystemsPaused

def system {δ σ : Type} (env : collaborators δ σ) (s : ecs δ σ) (aSystemId : Nat) :
    result σ × ecs δ σ :=
  match table_find s.iSystems aSystemId with
  | some existingSystem => (result.returned existingSystem, s)
  | Option.none =>
    match table_find s.iSystemFactories aSystemId with
    | some existingFactory =>
      let created := existingFactory ()
      let newSystem := if all_systems_paused s then env.pause created else created
      (result.returned newSystem,
        { s with
          iSystems := (table_emplace s.iSystems aSystemId newSystem).1
          system_factory_calls := s.system_factory_calls ++ [aSystemId] })
    | Option.none => (result.thrown exception.system_not_found, s)

def next_entity_id {δ σ : Type} (cfg : ecs_config) (s : ecs δ σ) : result Nat × ecs δ σ :=
  match s.iFreedEntityIds.getLast? with
  | some nextId => (result.returned nextId, { s with iFreedEntityIds := s.iFreedEntityIds.dropLast })
  | Option.none =>
    let s1 := { s with iNextEntityId := (s.iNextEntityId + 1) % 2 ^ cfg.entity_id_bits }
    if s1.iNextEntityId = null_entity then (result.thrown exception.entity_ids_exhausted, s1)
    else (result.returned s1.iNextEntityId, s1)

def free_entity_id {δ σ : Type} (s : ecs δ σ) (aId : Nat) : ecs δ σ :=
  { s with iFreedEntityIds := s.iFreedEntityIds ++ [aId] }

def archetype_registered {δ σ : Type} (s : ecs δ σ) (aArchetype : entity_archetype) : Bool :=
  (table_find s.iArchetypeRegistry aArchetype.id).isSome

def register_archetype {δ σ : Type} (s : ecs δ σ) (aArchetype : entity_archetype) :
    result Unit × ecs δ σ :=
  match table_emplace s.iArchetypeRegistry aArchetype.id aArchetype with
  | (m, true) => (result.returned (), { s with iArchetypeRegistry := m })
  | (_, false) => (result.thrown exception.uuid_exists, s)

def component_registered {δ σ : Type} (s : ecs δ σ) (aComponentId : Nat) : Bool :=
  (table_find s.iComponentFactories aComponentId).isSome

def register_component {δ σ : Type} (s : ecs δ σ) (aComponentId : Nat)
    (aFactory : Unit → component_instance δ) : result Unit × ecs δ σ :=
  match table_emplace s.iComponentFactories aComponentId aFactory with
  | (m, true) => (result.returned (), { s with iComponentFactories := m })
  | (_, false) => (result.thrown exception.uuid_exists, s)

def system_registered {δ σ : Type} (s : ecs δ σ) (aSystemId : Nat) : Bool :=
  (table_find s.iSystemFactories aSystemId).isSome

def register_system {δ σ : Type} (s : ecs δ σ) (aSystemId : Nat) (aFactory : Unit → σ) :
    result Unit × ecs δ σ :=
  match table_emplace s.iSystemFactories aSystemId aFactory with
  | (m, true) => (result.returned (), { s with iSystemFactories := m })
  | (_, false) => (result.thrown exception.uuid_exists, s)

/-- The constructor `ecs::ecs(ecs_flags)`; the timer it starts is the function
`apply_systems` below. -/
def ecs.new {δ σ : Type} (env : collaborators δ σ) (aCreationFlags : ecs_flags) : ecs δ σ :=
  let s0 : ecs δ σ :=
    { iFlags := aCreationFlags
      iArchetypeRegistry := []
      iComponentFactories := []
      iComponents := []
      iSystemFactories := []
      iSystems := []
      iFreedEntityIds := []
      iNextEntityId := null_entity
      iSystemsPaused := aCreationFlags.CreatePaused
      iHandles := []
      iFreedHandleIds := []
      iNextHandleId := null_id
      component_factory_calls := []
      system_factory_calls := []
      triggered := [] }
  let s1 :=
    if s0.iFlags.PopulateEntityInfo then
      (register_system (register_component s0 entity_info_id env.entity_info_factory).2
        env.time_id env.time_factory).2
    else s0
  if s1.iFlags.Turbo && !all_systems_paused s1 then trigger s1 event.enable_turbo_mode else s1

/-- The body of the timer callback set up by the constructor: `aTimer.again()`,
then `apply()` on every entry of `systems()`. -/
def apply_systems {δ σ : Type} (env : collaborators δ σ) (s : ecs δ σ) : ecs δ σ :=
  { trigger s event.timer_again with
    iSystems := s.iSystems.map (fun p => (p.1, env.apply p.2)) }

def create_entity {δ σ : Type} (env : collaborators δ σ) (cfg : ecs_config) (s : ecs δ σ)
    (aArchetypeId : Nat) : result Nat × ecs δ σ :=
  match next_entity_id cfg s with
  | (result.returned entityId, s1) =>
    if s1.iFlags.PopulateEntityInfo then
      match component s1 entity_info_id with
      | (result.returned _, s2) =>
        match system env s2 env.time_id with
        | (result.returned theTime, s3) =>
          (result.returned entityId,
            trigger
              { s3 with
                iComponents := table_update s3.iComponents entity_info_id
                  (fun c => populate c entityId
                    (env.entity_info aArchetypeId (env.world_time theTime))) }
              (event.EntityCreated entityId))
        | (result.thrown e, s3) => (result.thrown e, s3)
        | (result.aborted, s3) => (result.aborted, s3)
        | (result.undefined, s3) => (result.undefined, s3)
      | (result.thrown e, s2) => (result.thrown e, s2)
      | (result.aborted, s2) => (result.aborted, s2)
      | (result.undefined, s2) => (result.undefined, s2)
    else (result.returned entityId, trigger s1 (event.EntityCreated entityId))
  | (result.thrown e, s1) => (result.thrown e, s1)
  | (result.aborted, s1) => (result.aborted, s1)
  | (result.undefined, s1) => (result.undefined, s1)

def destroy_entity {δ σ : Type} (s : ecs δ σ) (aEntityId : Nat) (aNotify : Bool) : ecs δ σ :=
  let s1 := if aNotify then trigger s (event.EntityDestroyed aEntityId) else s
  free_entity_id
    { s1 with
      iComponents := s1.iComponents.map (fun p =>
        if has_entity_record p.2 aEntityId then (p.1, destroy_entity_record p.2 aEntityId)
        else p) }
    aEntityId

def pause_all_systems {δ σ : Type} (env : collaborators δ σ) (s : ecs δ σ) : ecs δ σ :=
  if s.iSystemsPaused then s
  else
    let s1 := trigger
      { s with
        iSystems := s.iSystems.map (fun p => (p.1, env.pause p.2))
        iSystemsPaused := true }
      event.SystemsPaused
    if s1.iFlags.Turbo then trigger s1 event.enable_green_mode else s1

def resume_all_systems {δ σ : Type} (env : collaborators δ σ) (s : ecs δ σ) : ecs δ σ :=
  if !s.iSystemsPaused then s
  else
    let s1 := trigger
      { s with
        iSystems := s.iSystems.map (fun p => (p.1, env.resume p.2))
        iSystemsPaused := false }
      event.SystemsResumed
    if s1.iFlags.Turbo then trigger s1 event.enable_turbo_mode else s1

def next_handle_id {δ σ : Type} (cfg : ecs_config) (s : ecs δ σ) : result Nat × ecs δ σ :=
  match s.iFreedHandleIds.getLast? with
  | some nextId => (result.returned nextId, { s with iFreedHandleIds := s.iFreedHandleIds.dropLast })
  | Option.none =>
    let s1 := { s with iNextHandleId := (s.iNextHandleId + 1) % 2 ^ cfg.handle_id_bits }
    if s1.iNextHandleId = null_id then (result.thrown exception.handle_ids_exhausted, s1)
    else (result.returned s1.iNextHandleId, s1)

def free_handle_id {δ σ : Type} (s : ecs δ σ) (aId : Nat) : ecs δ σ :=
  { s with iFreedHandleIds := s.iFreedHandleIds ++ [aId] }

/-- The call `iHandles.resize(n)`; the handle array is declared in ecs.hpp and is
taken to be a sequence with the `size`, `resize` and `operator[]` of
`std::vector`: after `resize(n)` it has `n` elements, new ones null. -/
def resize (v : List Nat) (n : Nat) : List Nat :=
  if n ≤ v.length then v.take n else v ++ List.replicate (n - v.length) nullptr

/-- `to_handle(aId)`: `iHandles[aId]`, undefined outside the array. -/
def to_handle {δ σ : Type} (s : ecs δ σ) (aId : Nat) : result Nat :=
  match s.iHandles[aId]? with
  | some h => result.returned h
  | Option.none => result.undefined

/-- `add_handle`: the array is resized to `nextHandleId` elements when it has at
most that many, and the store `iHandles[nextHandleId] = aHandle` follows; the
store is undefined when `nextHandleId` is not an index of the array. -/
def add_handle {δ σ : Type} (cfg : ecs_config) (s : ecs δ σ) (aHandle : Nat) :
    result Nat × ecs δ σ :=
  match next_handle_id cfg s with
  | (result.returned nextHandleId, s1) =>
    let s2 :=
      if s1.iHandles.length ≤ nextHandleId then
        { s1 with iHandles := resize s1.iHandles nextHandleId }
      else s1
    if nextHandleId < s2.iHandles.length then
      (result.returned nextHandleId, { s2 with iHandles := s2.iHandles.set nextHandleId aHandle })
    else (result.undefined, s2)
  | (result.thrown e, s1) => (result.thrown e, s1)
  | (result.aborted, s1) => (result.aborted, s1)
  | (result.undefined, s1) => (result.undefined, s1)

def update_handle {δ σ : Type} (s : ecs δ σ) (aId : Nat) (aHandle : Nat) :
    result Nat × ecs δ σ :=
  if s.iHandles.length ≤ aId then (result.thrown exception.invalid_handle_id, s)
  else (result.returned aHandle, { s with iHandles := s.iHandles.set aId aHandle })

def release_handle {δ σ : Type} (s : ecs δ σ) (aId : Nat) : result Nat × ecs δ σ :=
  if s.iHandles.length ≤ aId then (result.thrown exception.invalid_handle_id, s)
  else
    match s.iHandles[aId]? with
    | some handle =>
      (result.returned handle, free_handle_id { s with iHandles := s.iHandles.set aId nullptr } aId)
    | Option.none => (result.undefined, s)

/-- One call of an operation of the registry that leaves it in a defined
state. -/
inductive ecs_step {δ σ : Type} (env : collaborators δ σ) (cfg : ecs_config) :
    ecs δ σ → ecs δ σ → Prop where
  | archetype_registration (s : ecs δ σ) (a : entity_archetype) :
    ecs_step env cfg s (register_archetype s a).2
  | component_registration (s : ecs δ σ) (id : Nat) (f : Unit → component_instance δ) :
    ecs_step env cfg s (register_component s id f).2
  | system_registration (s : ecs δ σ) (id : Nat) (f : Unit → σ) :
    ecs_step env cfg s (register_system s id f).2
  | component_access (s : ecs δ σ) (id : Nat) : ecs_step env cfg s (component s id).2
  | system_access (s : ecs δ σ) (id : Nat) : ecs_step env cfg s (system env s id).2
  | entity_creation (s : ecs δ σ) (a : Nat) : ecs_step env cfg s (create_entity env cfg s a).2
  | entity_destruction (s : ecs δ σ) (e : Nat) (n : Bool) :
    ecs_step env cfg s (destroy_entity s e n)
  | pause_all (s : ecs δ σ) : ecs_step env cfg s (pause_all_systems env s)
  | resume_all (s : ecs δ σ) : ecs_step env cfg s (resume_all_systems env s)
  | tick (s : ecs δ σ) : ecs_step env cfg s (apply_systems env s)
  | handle_addition (s : ecs δ σ) (h : Nat) :
    (add_handle cfg s h).1.fatal = false → ecs_step env cfg s (add_handle cfg s h).2
  | handle_update (s : ecs δ σ) (id h : Nat) : ecs_step env cfg s (update_handle s id h).2
  | handle_release (s : ecs δ σ) (id : Nat) :
    (release_handle s id).1.fatal = false → ecs_step env cfg s (release_handle s id).2

/-- The registries reached from a newly constructed one by calls of its
operations. -/
inductive ecs_reachable {δ σ : Type} (env : collaborators δ σ) (cfg : ecs_config) :
    ecs δ σ → Prop where
  | new (aCreationFlags : ecs_flags) : ecs_reachable env cfg (ecs.new env aCreationFlags)
  | step (s s2 : ecs δ σ) :
    ecs_reachable env cfg s → ecs_step env cfg s s2 → ecs_reachable env cfg s2

/-- The ids issued so far, with the id a call returned, if it returned one. -/
def issued_by {ρ : Type} (issued : List ρ) : result ρ → List ρ
  | result.returned e => issued ++ [e]
  | _ => issued

/-- The registries reached from a newly constructed one by `create_entity`
calls, by `destroy_entity` calls on ids that `create_entity` returned, by the
draws of handle ids that `add_handle` makes (`next_handle_id`) and by the returns
of drawn handle ids that `release_handle` makes (`free_handle_id`); with the
entity ids returned and the handle ids drawn so far. -/
inductive id_trace {δ σ : Type} (env : collaborators δ σ) (cfg : ecs_config) :
    ecs δ σ → List Nat → List Nat → Prop where
  | new (aCreationFlags : ecs_flags) : id_trace env cfg (ecs.new env aCreationFlags) [] []
  | created (s : ecs δ σ) (entities handles : List Nat) (a : Nat) :
    id_trace env cfg s entities handles →
    id_trace env cfg (create_entity env cfg s a).2
      (issued_by entities (create_entity env cfg s a).1) handles
  | destroyed (s : ecs δ σ) (entities handles : List Nat) (e : Nat) (n : Bool) :
    id_trace env cfg s entities handles → e ∈ entities →
    id_trace env cfg (destroy_entity s e n) entities handles
  | handle_drawn (s : ecs δ σ) (entities handles : List Nat) :
    id_trace env cfg s entities handles →
    id_trace env cfg (next_handle_id cfg s).2 entities
      (issued_by handles (next_handle_id cfg s).1)
  | handle_freed (s : ecs δ σ) (entities handles : List Nat) (id : Nat) :
    id_trace env cfg s entities handles → id ∈ handles →
    id_trace env cfg (free_handle_id s id) entities handles

/-- Calls of `create_entity`, one per archetype id of the list, stopping at the
first that does not return; the ids returned, in order. -/
def create_entities {δ σ : Type} (env : collaborators δ σ) (cfg : ecs_config) :
    ecs δ σ → List Nat → result (List Nat) × ecs δ σ
  | s, [] => (result.returned [], s)
  | s, a :: rest =>
    match create_entity env cfg s a with
    | (result.returned e, s1) =>
      match create_entities env cfg s1 rest with
      | (result.returned es, s2) => (result.returned (e :: es), s2)
      | (result.thrown x, s2) => (result.thrown x, s2)
      | (result.aborted, s2) => (result.aborted, s2)
      | (result.undefined, s2) => (result.undefined, s2)
    | (result.thrown x, s1) => (result.thrown x, s1)
    | (result.aborted, s1) => (result.aborted, s1)
    | (result.undefined, s1) => (result.undefined, s1)

/-- Calls of `destroy_entity`, one per pair of entity id and notify flag. -/
def destroy_entities {δ σ : Type} : ecs δ σ → List (Nat × Bool) → ecs δ σ
  | s, [] => s
  | s, (e, n) :: rest => destroy_entities (destroy_entity s e n) rest

/-- The registry can populate the entity info of a new entity: with
`PopulateEntityInfo` set, the entity info component and the time system are
instantiated or have a factory. -/
def info_ready {δ σ : Type} (env : collaborators δ σ) (s : ecs δ σ) : Prop :=
  s.iFlags.PopulateEntityInfo = true →
    ((table_find s.iComponents entity_info_id).isSome = true ∨
      (table_find s.iComponentFactories entity_info_id).isSome = true) ∧
    ((table_find s.iSystems env.time_id).isSome = true ∨
      (table_find s.iSystemFactories env.time_id).isSome = true)

/-- Entity and handle ids of 8 bits. -/
def small_ids : ecs_config := ⟨8, 8, by decide, by decide, by decide, by decide⟩

/-- Collaborators for the examples: a system is its paused flag, the time
system has identifier 2 and world time 0, an entity info value is the pair of
archetype id and creation time. -/
def plain_env : collaborators (Nat × Int) Bool where
  pause := fun _ => true
  resume := fun _ => false
  apply := fun t => t
  terminate := fun t => t
  paused := fun t => t
  world_time := fun _ => 0
  time_id := 2
  entity_info_factory := fun _ => ⟨[]⟩
  time_factory := fun _ => false
  entity_info := fun a t => (a, t)

/-- A registry constructed without flags. -/
def plain_ecs : ecs (Nat × Int) Bool := ecs.new plain_env ⟨false, false, false⟩

/-- A registry constructed with `PopulateEntityInfo`. -/
def info_ecs : ecs (Nat × Int) Bool := ecs.new plain_env ⟨true, false, false⟩

/-- The factory of an identifier has been invoked once if an instance is stored
under the identifier and never otherwise, for components and for systems. -/
def factory_calls_match {δ σ : Type} (s : ecs δ σ) : Prop :=
  (∀ id, s.component_factory_calls.count id = if component_instantiated s id then 1 else 0) ∧
  (∀ id, s.system_factory_calls.count id = if system_instantiated s id then 1 else 0)

/-- What every operation keeps: the flags, the registrations and the
instantiations already made, and the agreement of factory calls and instances. -/
def follows {δ σ : Type} (s s2 : ecs δ σ) : Prop :=
  s2.iFlags = s.iFlags ∧
  (∀ id, component_registered s id = true → component_registered s2 id = true) ∧
  (∀ id, component_instantiated s id = true → component_instantiated s2 id = true) ∧
  (∀ id, system_registered s id = true → system_registered s2 id = true) ∧
  (∀ id, system_instantiated s id = true → system_instantiated s2 id = true) ∧
  (factory_calls_match s → factory_calls_match s2)

/-- A registry whose handle array has two slots, as two `add_handle` calls
size it, with handle id 1 released: its slot is null and it is on the free
list. -/
def released_handle : ecs (Nat × Int) Bool :=
  { plain_ecs with iHandles := [0, 0], iFreedHandleIds := [1], iNextHandleId := 2 }

/-- The handle array, the free list of handle ids and the handle id counter. -/
def handle_state {δ σ : Type} (s : ecs δ σ) : List Nat × List Nat × Nat :=
  (s.iHandles, s.iFreedHandleIds, s.iNextHandleId)

/-- Collaborators that count the calls of `apply()`: a system is its paused
flag together with the number of `apply()` calls it has received. -/
def counting_env : collaborators (Nat × Int) (Bool × Nat) where
  pause := fun t => (true, t.2)
  resume := fun t => (false, t.2)
  apply := fun t => (t.1, t.2 + 1)
  terminate := fun t => t
  paused := fun t => t.1
  world_time := fun _ => 0
  time_id := 2
  entity_info_factory := fun _ => ⟨[]⟩
  time_factory := fun _ => (false, 0)
  entity_info := fun a t => (a, t)

/-- A registry constructed with `CreatePaused` in which the systems 5 and 6 are
registered and `system(5)` has been called: system 5 is instantiated, and
paused, and system 6 is not instantiated. -/
def paused_ecs : ecs (Nat × Int) (Bool × Nat) :=
  (system counting_env
    (register_system
      (register_system (ecs.new counting_env ⟨false, true, false⟩) 5 (fun _ => (false, 0))).2
      6 (fun _ => (false, 0))).2
    5).2

/-- A registry constructed without flags in which system 5 is registered and
instantiated; it is not paused. -/
def running_ecs : ecs (Nat × Int) (Bool × Nat) :=
  (system counting_env
    (register_system (ecs.new counting_env ⟨false, false, false⟩) 5 (fun _ => (false, 0))).2
    5).2

/-! ## The metadata of `entity_info` (include/neolib/ecs/entity_info.hpp)

The functions of `entity_info::meta` take the build as a parameter: the field
`debug` exists where `NDEBUG` is not defined. -/

/-- The values of `component_data_field_type` (declared in
i_component_data.hpp) that entity_info.hpp names. -/
inductive component_data_field_type where
  | Uuid
  | Int64
  | Bool
  deriving DecidableEq, Repr

/-- `entity_info::meta::field_count`. -/
def entity_info.meta.field_count (ndebug : Bool) : Nat :=
  if ndebug then 2 else 3

/-- `entity_info::meta::field_type`: the `switch` over the field index. -/
def entity_info.meta.field_type (ndebug : Bool) (aFieldIndex : Nat) :
    result component_data_field_type :=
  match aFieldIndex with
  | 0 => result.returned component_data_field_type.Uuid
  | 1 => result.returned component_data_field_type.Int64
  | 2 =>
    if ndebug then result.thrown exception.invalid_field_index
    else result.returned component_data_field_type.Bool
  | _ => result.thrown exception.invalid_field_index

/-- The array `sFieldNames` of `entity_info::meta::field_name`. -/
def entity_info.meta.sFieldNames (ndebug : Bool) : List String :=
  if ndebug then ["Archetype Id", "Creation Time"]
  else ["Archetype Id", "Creation Time", "Debug"]

/-- `entity_info::meta::field_name`: `sFieldNames[aFieldIndex]`, an access to a
built-in array, undefined outside it. -/
def entity_info.meta.field_name (ndebug : Bool) (aFieldIndex : Nat) : result String :=
  match (entity_info.meta.sFieldNames ndebug)[aFieldIndex]? with
  | some name => result.returned name
  | Option.none => result.undefined

/-! ## The other public operations of the jar and its lock -/

/-- `basic_jar::clear`. -/
def clear {α : Type} (_j : basic_jar α) : basic_jar α :=
  { iNextAvailableCookie := 0, iAllocatedCookies := [], iItems := [],
    iFreeCookies := [], iReverseIndices := [] }

/-- `basic_jar::find`: the position of the item of a live cookie, `end()`
otherwise. -/
def find {α : Type} (j : basic_jar α) (aCookie : Nat) : Nat :=
  if contains j aCookie then j.iReverseIndices.getD aCookie 0 else j.iItems.length

/-- `basic_jar::item_cookie`; the item is given by its position in `items()`,
and a reference to anything else is undefined.  Where `value_type` is a pointer
type the `if constexpr` leaves only the `throw`. -/
def item_cookie {α : Type} (cfg : config) (j : basic_jar α) (aItem : Nat) : result Nat :=
  if !cfg.pointer_value_type then
    if aItem < j.iItems.length then
      match j.iAllocatedCookies[aItem]? with
      | some cookie => result.returned cookie
      | Option.none => result.undefined
    else result.undefined
  else result.thrown exception.no_pointer_value_type_cookie_lookup

/-- `basic_jar::remove(item)`, which `erase(const_iterator)` calls. -/
def remove_item {α : Type} (cfg : config) (j : basic_jar α) (aItem : Nat) :
    result Nat × basic_jar α :=
  match item_cookie cfg j aItem with
  | result.returned cookie => remove cfg j cookie
  | result.thrown e => (result.thrown e, j)
  | result.aborted => (result.aborted, j)
  | result.undefined => (result.undefined, j)

/-- `basic_jar::erase(const_iterator)`: `remove(*aItem)`; the iterator is given
by its position, and one that cannot be dereferenced (`end()` or beyond) is
undefined. -/
def erase {α : Type} (cfg : config) (j : basic_jar α) (aItem : Nat) :
    result Nat × basic_jar α :=
  if aItem < j.iItems.length then remove_item cfg j aItem else (result.undefined, j)

/-- One call of a public operation of the jar that leaves a jar behind; a cookie
passed in is a value of the cookie type. -/
inductive jar_step {α : Type} (cfg : config) : basic_jar α → basic_jar α → Prop where
  | insert (j : basic_jar α) (aItem : α) (f : fault) :
    (insert cfg j aItem f).1.fatal = false → jar_step cfg j (insert cfg j aItem f).2
  | emplace (j : basic_jar α) (aArgs : α) (f : fault) :
    (emplace cfg j aArgs f).1.fatal = false → jar_step cfg j (emplace cfg j aArgs f).2
  | add (j : basic_jar α) (aCookie : Nat) (aItem : α) (f : fault) :
    aCookie < 2 ^ cfg.cookie_bits → (add cfg j aCookie aItem f).1.fatal = false →
    jar_step cfg j (add cfg j aCookie aItem f).2
  | remove (j : basic_jar α) (aCookie : Nat) :
    aCookie < 2 ^ cfg.cookie_bits → (remove cfg j aCookie).1.fatal = false →
    jar_step cfg j (remove cfg j aCookie).2
  | remove_item (j : basic_jar α) (aItem : Nat) :
    (remove_item cfg j aItem).1.fatal = false → jar_step cfg j (remove_item cfg j aItem).2
  | clear (j : basic_jar α) : jar_step cfg j (clear j)
  | next_cookie (j : basic_jar α) :
    (next_cookie cfg j).1.fatal = false → jar_step cfg j (next_cookie cfg j).2
  | return_cookie (j : basic_jar α) (aCookie : Nat) :
    aCookie < 2 ^ cfg.cookie_bits → (return_cookie cfg j aCookie).1.fatal = false →
    jar_step cfg j (return_cookie cfg j aCookie).2

/-- The jars a program can arrive at from `basic_jar()` by calls of the public
operations. -/
inductive reachable_public {α : Type} (cfg : config) : basic_jar α → Prop where
  | new : reachable_public cfg basic_jar.new
  | step (j j2 : basic_jar α) :
    reachable_public cfg j → jar_step cfg j j2 → reachable_public cfg j2

/-- What every jar arrived at by public operations satisfies: the jar
invariant, a reverse index no longer than a vector can be, and cookies of the
cookie type on the free list and among the allocated cookies. -/
def public_invariant {α : Type} (cfg : config) (j : basic_jar α) : Prop :=
  jar_invariant j ∧
  j.iReverseIndices.length ≤ SIZE_MAX ∧
  (∀ c ∈ j.iFreeCookies, c < 2 ^ cfg.cookie_bits) ∧
  (∀ c ∈ j.iAllocatedCookies, c < 2 ^ cfg.cookie_bits)

/-- The jars arrived at from `basic_jar()` by `insert`, `emplace`, `add` and
`remove` calls, with the cookies that `insert` and `emplace` have drawn from
`next_cookie` so far. -/
inductive issue_trace {α : Type} (cfg : config) : basic_jar α → List Nat → Prop where
  | new : issue_trace cfg basic_jar.new []
  | insert (j : basic_jar α) (issued : List Nat) (aItem : α) (f : fault) :
    issue_trace cfg j issued → (insert cfg j aItem f).1.fatal = false →
    issue_trace cfg (insert cfg j aItem f).2 (issued_by issued (next_cookie cfg j).1)
  | emplace (j : basic_jar α) (issued : List Nat) (aArgs : α) (f : fault) :
    issue_trace cfg j issued → (emplace cfg j aArgs f).1.fatal = false →
    issue_trace cfg (emplace cfg j aArgs f).2 (issued_by issued (next_cookie cfg j).1)
  | add (j : basic_jar α) (issued : List Nat) (aCookie : Nat) (aItem : α) (f : fault) :
    issue_trace cfg j issued → aCookie < 2 ^ cfg.cookie_bits →
    (add cfg j aCookie aItem f).1.fatal = false →
    issue_trace cfg (add cfg j aCookie aItem f).2 issued
  | remove (j : basic_jar α) (issued : List Nat) (aCookie : Nat) :
    issue_trace cfg j issued → (remove cfg j aCookie).1.fatal = false →
    issue_trace cfg (remove cfg j aCookie).2 issued

/-- A `small_jar` of pointers, built with assertions. -/
def pointer_debug : config := ⟨16, by decide, by decide, false, true⟩

/-- A `jar` with the 32-bit cookie type, built without assertions. -/
def wide_release : config := ⟨32, by decide, by decide, true, false⟩

/-- What a call does to the mutex of the jar. -/
inductive lock_event where
  | acquire
  | release
  deriving DecidableEq, Repr

/-- The events of a function that opens with `std::scoped_lock lock{ mutex() }`:
the mutex is acquired, the body runs, and the mutex is released when the
function returns or throws; a body that ends the process releases nothing. -/
def scoped_lock (body : List lock_event) (ended : Bool) : List lock_event :=
  lock_event.acquire :: (body ++ if ended then [] else [lock_event.release])

/-- The largest number of acquisitions held at once while the events run,
starting with `held` of them. -/
def max_held : List lock_event → Nat → Nat
  | [], held => held
  | lock_event.acquire :: rest, held => max held (max_held rest (held + 1))
  | lock_event.release :: rest, held => max held (max_held rest (held - 1))

/-- Lock events of `contains`. -/
def contains_locks : List lock_event :=
  scoped_lock [] false

/-- Lock events of `find`, which calls `contains` under its lock. -/
def find_locks : List lock_event :=
  scoped_lock contains_locks false

/-- Lock events of `operator[]`. -/
def lookup_locks {α : Type} (j : basic_jar α) (aCookie : Nat) : List lock_event :=
  scoped_lock [] (lookup j aCookie).fatal

/-- Lock events of `next_cookie`. -/
def next_cookie_locks {α : Type} (cfg : config) (j : basic_jar α) : List lock_event :=
  scoped_lock [] (next_cookie cfg j).1.fatal

/-- Lock events of `return_cookie`. -/
def return_cookie_locks {α : Type} (cfg : config) (j : basic_jar α) (aCookie : Nat) :
    List lock_event :=
  scoped_lock [] (return_cookie cfg j aCookie).1.fatal

/-- Lock events of `add`. -/
def add_locks {α : Type} (cfg : config) (j : basic_jar α) (aCookie : Nat) (aItem : α)
    (f : fault) : List lock_event :=
  scoped_lock [] (add cfg j aCookie aItem f).1.fatal

/-- Lock events of `insert` and of `emplace`, which take no lock of their own:
those of `next_cookie`, then of `add`, then, when `add` threw, of
`return_cookie`. -/
def insert_locks {α : Type} (cfg : config) (j : basic_jar α) (aItem : α) (f : fault) :
    List lock_event :=
  next_cookie_locks cfg j ++
    match next_cookie cfg j with
    | (result.returned cookie, j1) =>
      add_locks cfg j1 cookie aItem f ++
        match add cfg j1 cookie aItem f with
        | (result.thrown _, j2) => return_cookie_locks cfg j2 cookie
        | _ => []
    | _ => []

/-- Lock events of `remove(cookie)`: when the call runs to its end it has called
`return_cookie` under its lock; when it throws `cookie_invalid` or stops at its
assertion it has not. -/
def remove_locks {α : Type} (cfg : config) (j : basic_jar α) (aCookie : Nat) :
    List lock_event :=
  scoped_lock
    (match (remove cfg j aCookie).1 with
      | result.returned _ => scoped_lock [] false
      | _ => [])
    (remove cfg j aCookie).1.fatal

/-- Lock events of `remove(item)`, which calls `remove(cookie)` under its lock. -/
def remove_item_locks {α : Type} (cfg : config) (j : basic_jar α) (aItem : Nat) :
    List lock_event :=
  scoped_lock
    (match item_cookie cfg j aItem with
      | result.returned cookie => remove_locks cfg j cookie
      | _ => [])
    (remove_item cfg j aItem).1.fatal

/-- Lock events of `clear`. -/
def clear_locks : List lock_event :=
  scoped_lock [] false

/-! ## Live entities and paused systems -/

/-- The registries reached from a newly constructed one by `create_entity`
calls and by `destroy_entity` calls on live ids, with the ids that are live:
returned by `create_entity` and not destroyed since. -/
inductive live_trace {δ σ : Type} (env : collaborators δ σ) (cfg : ecs_config) :
    ecs δ σ → List Nat → Prop where
  | new (aCreationFlags : ecs_flags) : live_trace env cfg (ecs.new env aCreationFlags) []
  | created (s : ecs δ σ) (live : List Nat) (a : Nat) :
    live_trace env cfg s live →
    live_trace env cfg (create_entity env cfg s a).2
      (issued_by live (create_entity env cfg s a).1)
  | destroyed (s : ecs δ σ) (live : List Nat) (e : Nat) (n : Bool) :
    live_trace env cfg s live → e ∈ live →
    live_trace env cfg (destroy_entity s e n) (live.erase e)

/-- The registries reached the same way while no `create_entity` call has
failed with `entity_ids_exhausted`. -/
inductive live_trace_unexhausted {δ σ : Type} (env : collaborators δ σ) (cfg : ecs_config) :
    ecs δ σ → List Nat → Prop where
  | new (aCreationFlags : ecs_flags) :
    live_trace_unexhausted env cfg (ecs.new env aCreationFlags) []
  | created (s : ecs δ σ) (live : List Nat) (a : Nat) :
    live_trace_unexhausted env cfg s live →
    (create_entity env cfg s a).1 ≠ result.thrown exception.entity_ids_exhausted →
    live_trace_unexhausted env cfg (create_entity env cfg s a).2
      (issued_by live (create_entity env cfg s a).1)
  | destroyed (s : ecs δ σ) (live : List Nat) (e : Nat) (n : Bool) :
    live_trace_unexhausted env cfg s live → e ∈ live →
    live_trace_unexhausted env cfg (destroy_entity s e n) (live.erase e)

/-- The registry after `n` more calls `create_entity(a)`. -/
def create_many {δ σ : Type} (env : collaborators δ σ) (cfg : ecs_config) (s : ecs δ σ)
    (a : Nat) : Nat → ecs δ σ
  | 0 => s
  | n + 1 => (create_entity env cfg (create_many env cfg s a n) a).2

/-- Modelled from the spec: the paused state of a system, whose class `i_system`
is not among the files.  `pause()` puts a system in the paused state,
`resume()` after `pause()` of a system that was not paused leaves it not
paused, and the time system that the constructor registers is made not
paused. -/
def pause_semantics {δ σ : Type} (env : collaborators δ σ) : Prop :=
  (∀ t, env.paused (env.pause t) = true) ∧
  (∀ t, env.paused t = false → env.paused (env.resume (env.pause t)) = false) ∧
  env.paused (env.time_factory ()) = false

/-- The registries reached from a newly constructed one by `register_system`
calls whose factory makes a system that is not paused, and by `system(id)`,
`pause_all_systems` and `resume_all_systems` calls. -/
inductive pause_trace {δ σ : Type} (env : collaborators δ σ) : ecs δ σ → Prop where
  | new (aCreationFlags : ecs_flags) : pause_trace env (ecs.new env aCreationFlags)
  | register_system (s : ecs δ σ) (aSystemId : Nat) (aFactory : Unit → σ) :
    pause_trace env s → env.paused (aFactory ()) = false →
    pause_trace env (register_system s aSystemId aFactory).2
  | system (s : ecs δ σ) (aSystemId : Nat) :
    pause_trace env s → pause_trace env (system env s aSystemId).2
  | pause_all_systems (s : ecs δ σ) :
    pause_trace env s → pause_trace env (pause_all_systems env s)
  | resume_all_systems (s : ecs δ σ) :
    pause_trace env s → pause_trace env (resume_all_systems env s)

/-! ## Arithmetic of the cookie type -/

theorem pow_cookie_bits_le (cfg : config) : 2 ^ cfg.cookie_bits ≤ 2 ^ 64 :=
  Nat.pow_le_pow_right (by decide) cfg.cookie_bits_le

theorem pow_cookie_bits_ge (cfg : config) : 2 ^ 8 ≤ 2 ^ cfg.cookie_bits :=
  Nat.pow_le_pow_right (by decide) cfg.cookie_bits_ge

theorem INVALID_COOKIE_le (cfg : config) : INVALID_COOKIE cfg ≤ SIZE_MAX := by
  have := pow_cookie_bits_le cfg
  unfold INVALID_COOKIE SIZE_MAX
  omega

theorem INVALID_COOKIE_ge (cfg : config) : 255 ≤ INVALID_COOKIE cfg := by
  have := pow_cookie_bits_ge cfg
  unfold INVALID_COOKIE
  omega

theorem INVALID_COOKIE_succ (cfg : config) : INVALID_COOKIE cfg + 1 = 2 ^ cfg.cookie_bits := by
  have := pow_cookie_bits_ge cfg
  unfold INVALID_COOKIE
  omega

theorem promoted_succ_eq (cfg : config) {c : Nat} (h : c < INVALID_COOKIE cfg) :
    promoted_succ cfg c = c + 1 := by
  have h1 := INVALID_COOKIE_succ cfg
  unfold promoted_succ
  split
  · rfl
  · exact Nat.mod_eq_of_lt (by omega)

theorem add_count_eq (cfg : config) {c n : Nat} (h : c < INVALID_COOKIE cfg) (hn : n ≤ c) :
    (promoted_succ cfg c + 2 ^ 64 - n) % 2 ^ 64 = c + 1 - n := by
  have h1 := INVALID_COOKIE_le cfg
  rw [promoted_succ_eq cfg h]
  have e : c + 1 + 2 ^ 64 - n = (c + 1 - n) + 2 ^ 64 := by omega
  rw [e, Nat.add_mod_right]
  apply Nat.mod_eq_of_lt
  unfold SIZE_MAX at h1
  omega

/-! ## Lists as vectors -/

theorem getElem?_grown (ri : List Nat) (c k : Nat) :
    (grown ri c)[k]? =
      if k < ri.length then ri[k]?
      else if k ≤ c then some INVALID_REVERSE_INDEX else none := by
  unfold grown
  split
  · rw [List.getElem?_append, List.getElem?_replicate]
    split
    · rfl
    · split <;> split <;> first | rfl | omega
  · split
    · rfl
    · rw [List.getElem?_eq_none (by omega)]
      split
      · omega
      · rfl

theorem length_grown (ri : List Nat) (c : Nat) :
    (grown ri c).length = max ri.length (c + 1) := by
  unfold grown
  split
  · rw [List.length_append, List.length_replicate]; omega
  · omega

theorem getElem?_set_dropLast {β : Type} (l : List β) (r i : Nat) (y : β) :
    ((l.set r y).dropLast)[i]? =
      if i + 1 < l.length then (if r = i then some y else l[i]?) else none := by
  rw [List.getElem?_dropLast, List.length_set, List.getElem?_set]
  by_cases h : i + 1 < l.length
  · rw [if_pos (by omega), if_pos h]
    split
    · rw [if_pos (by omega)]
    · rfl
  · rw [if_neg (by omega), if_neg h]

theorem dropLast_set_last {β : Type} (l : List β) (x : β) :
    (l.set (l.length - 1) x).dropLast = l.dropLast := by
  apply List.ext_getElem?
  intro i
  rw [getElem?_set_dropLast, List.getElem?_dropLast]
  split
  · rw [if_neg (by omega), if_pos (by omega)]
  · rw [if_neg (by omega)]

theorem swap_with_back_eq {β : Type} (v : List β) (i : Nat) (x y : β)
    (hx : v[i]? = some x) (hy : v.getLast? = some y) :
    swap_with_back v i = some ((v.set i y).set (v.length - 1) x) := by
  unfold swap_with_back
  rw [hx, hy]

theorem length_le_of_nodup_of_lt {l : List Nat} {N : Nat} (hn : l.Nodup)
    (hb : ∀ x ∈ l, x < N) : l.length ≤ N := by
  have h1 : l.toFinset ⊆ Finset.range N := by
    intro x hx
    rw [List.mem_toFinset] at hx
    exact Finset.mem_range.mpr (hb x hx)
  have h2 := Finset.card_le_card h1
  rw [List.toFinset_card_of_nodup hn, Finset.card_range] at h2
  exact h2

/-! ## The jar invariant in terms of `[i]?` -/

theorem contains_iff {α : Type} (j : basic_jar α) (c : Nat) :
    contains j c = true ↔ ∃ r, j.iReverseIndices[c]? = some r ∧ r ≠ INVALID_REVERSE_INDEX := by
  unfold contains
  cases h : j.iReverseIndices[c]? with
  | none => simp
  | some r => simp

theorem contains_eq_false_iff {α : Type} (j : basic_jar α) (c : Nat) :
    contains j c = false ↔
      j.iReverseIndices[c]? = none ∨ j.iReverseIndices[c]? = some INVALID_REVERSE_INDEX := by
  unfold contains
  cases h : j.iReverseIndices[c]? with
  | none => simp
  | some r => simp

theorem jar_invariant_iff {α : Type} (j : basic_jar α) :
    jar_invariant j ↔
      j.iAllocatedCookies.length = j.iItems.length ∧
      (∀ c r : Nat, j.iReverseIndices[c]? = some r → r ≠ INVALID_REVERSE_INDEX →
        j.iAllocatedCookies[r]? = some c) ∧
      (∀ i c : Nat, j.iAllocatedCookies[i]? = some c → j.iReverseIndices[c]? = some i) ∧
      j.iItems.length ≤ INVALID_REVERSE_INDEX := by
  unfold jar_invariant
  constructor
  · rintro ⟨h1, h2, h3, h4⟩
    refine ⟨h1, ?_, ?_, h4⟩
    · intro c r hr hne
      obtain ⟨hc, hcr⟩ := List.getElem?_eq_some.mp hr
      have := h2 c hc
      rw [List.getD_eq_getElem?_getD, hr] at this
      simp only [Option.getD_some] at this
      rcases this with h | h
      · exact absurd h hne
      · exact h.2
    · intro i c hi
      obtain ⟨hlt, hic⟩ := List.getElem?_eq_some.mp hi
      have := h3 i (by omega)
      rw [List.getD_eq_getElem?_getD, hi] at this
      simpa using this
  · rintro ⟨h1, h2, h3, h4⟩
    refine ⟨h1, ?_, ?_, h4⟩
    · intro c hc
      have hr : j.iReverseIndices[c]? = some (j.iReverseIndices[c]) :=
        List.getElem?_eq_getElem hc
      rw [List.getD_eq_getElem?_getD, hr]
      simp only [Option.getD_some]
      by_cases hne : j.iReverseIndices[c] = INVALID_REVERSE_INDEX
      · exact Or.inl hne
      · right
        have h := h2 c _ hr hne
        obtain ⟨hlt, _⟩ := List.getElem?_eq_some.mp h
        exact ⟨by omega, h⟩
    · intro i hi
      have hlt : i < j.iAllocatedCookies.length := by omega
      have hc : j.iAllocatedCookies[i]? = some (j.iAllocatedCookies[i]) :=
        List.getElem?_eq_getElem hlt
      rw [List.getD_eq_getElem?_getD, hc]
      simpa using h3 i _ hc

/-! ## What the operations compute -/

theorem assert_passes (cfg : config) (free : List Nat) (c : Nat)
    (ha : cfg.ndebug = true ∨ c ∉ free) :
    (!cfg.ndebug && decide (c ∈ free)) = false := by
  rcases ha with h | h <;> simp [h]

theorem assert_fails (cfg : config) (free : List Nat) (c : Nat)
    (hd : cfg.ndebug = false) (hc : c ∈ free) :
    (!cfg.ndebug && decide (c ∈ free)) = true := by
  simp [hd, hc]

theorem grown_eq_self {ri : List Nat} {c : Nat} (h : c < ri.length) : grown ri c = ri := by
  unfold grown
  rw [if_neg (by omega)]

theorem add_of_contains {α : Type} (cfg : config) (j : basic_jar α) (c : Nat) (v : α) (f : fault)
    (ha : cfg.ndebug = true ∨ c ∉ j.iFreeCookies) (hl : contains j c = true) :
    add cfg j c v f = (result.thrown exception.cookie_already_added, j) := by
  obtain ⟨r, hr, hne⟩ := (contains_iff j c).mp hl
  obtain ⟨hlt, _⟩ := List.getElem?_eq_some.mp hr
  unfold add
  rw [assert_passes cfg _ c ha]
  simp only [Bool.false_eq_true, if_false]
  rw [if_neg (by omega), if_neg (by omega)]
  simp only [hr]
  rw [if_pos hne]

theorem add_of_not_contains {α : Type} (cfg : config) (j : basic_jar α) (c : Nat) (v : α)
    (f : fault) (hc : c < INVALID_COOKIE cfg ∨ c < j.iReverseIndices.length)
    (ha : cfg.ndebug = true ∨ c ∉ j.iFreeCookies) (hl : contains j c = false) :
    add cfg j c v f =
      match f with
      | fault.construct =>
        (result.thrown exception.constructor_error,
          { j with iReverseIndices := grown j.iReverseIndices c })
      | fault.allocate =>
        (result.thrown exception.bad_alloc,
          { j with iReverseIndices := grown j.iReverseIndices c })
      | fault.none =>
        (result.returned j.iItems.length,
          { j with
            iItems := j.iItems ++ [v]
            iAllocatedCookies := j.iAllocatedCookies ++ [c]
            iReverseIndices := (grown j.iReverseIndices c).set c j.iItems.length }) := by
  have hle := INVALID_COOKIE_le cfg
  have hg : (grown j.iReverseIndices c)[c]? = some INVALID_REVERSE_INDEX := by
    rw [getElem?_grown]
    rcases (contains_eq_false_iff j c).mp hl with h | h
    · have := List.getElem?_eq_none_iff.mp h
      rw [if_neg (by omega), if_pos (le_refl c)]
    · obtain ⟨hlt, _⟩ := List.getElem?_eq_some.mp h
      rw [if_pos hlt, h]
  unfold add
  rw [assert_passes cfg _ c ha]
  simp only [Bool.false_eq_true, if_false]
  by_cases hn : j.iReverseIndices.length ≤ c
  · have hc : c < INVALID_COOKIE cfg := by
      rcases hc with h | h
      · exact h
      · omega
    rw [add_count_eq cfg hc hn]
    rw [if_neg (by omega), if_pos hn]
    have e : j.iReverseIndices ++ List.replicate (c + 1 - j.iReverseIndices.length)
        INVALID_REVERSE_INDEX = grown j.iReverseIndices c := by
      unfold grown
      rw [if_pos hn]
    simp only [e, hg]
    cases f <;> simp
  · rw [if_neg (by omega), if_neg hn]
    have e : grown j.iReverseIndices c = j.iReverseIndices := grown_eq_self (by omega)
    rw [e] at hg ⊢
    simp only [hg]
    cases f <;> simp


theorem return_cookie_eq {α : Type} (cfg : config) (j : basic_jar α) (c : Nat)
    (ha : cfg.ndebug = true ∨ c ∉ j.iFreeCookies) :
    return_cookie cfg j c =
      (result.returned (), { j with iFreeCookies := j.iFreeCookies ++ [c] }) := by
  unfold return_cookie
  rw [assert_passes cfg _ c ha]
  simp

theorem remove_of_free_debug {α : Type} (cfg : config) (j : basic_jar α) (c : Nat)
    (hd : cfg.ndebug = false) (hc : c ∈ j.iFreeCookies) :
    remove cfg j c = (result.aborted, j) := by
  unfold remove
  rw [assert_fails cfg _ c hd hc]
  simp

theorem remove_of_not_contains {α : Type} (cfg : config) (j : basic_jar α) (c : Nat)
    (ha : cfg.ndebug = true ∨ c ∉ j.iFreeCookies) (hl : contains j c = false) :
    remove cfg j c = (result.thrown exception.cookie_invalid, j) := by
  unfold remove
  rw [assert_passes cfg _ c ha]
  simp only [Bool.false_eq_true, if_false]
  rcases (contains_eq_false_iff j c).mp hl with h | h
  · simp only [h]
  · simp only [h, if_true]

theorem remove_of_contains {α : Type} (cfg : config) (j : basic_jar α) (c r : Nat)
    (hinv : jar_invariant j) (hr : j.iReverseIndices[c]? = some r)
    (hne : r ≠ INVALID_REVERSE_INDEX) (ha : cfg.ndebug = true ∨ c ∉ j.iFreeCookies) :
    ∃ x m, j.iItems.getLast? = some x ∧ j.iAllocatedCookies.getLast? = some m ∧
      remove cfg j c = (result.returned r,
        { j with
          iItems := (j.iItems.set r x).dropLast
          iAllocatedCookies := (j.iAllocatedCookies.set r m).dropLast
          iFreeCookies := j.iFreeCookies ++ [c]
          iReverseIndices := (j.iReverseIndices.set m r).set c INVALID_REVERSE_INDEX }) := by
  obtain ⟨h1, h2, h3, _⟩ := (jar_invariant_iff j).mp hinv
  have hrc := h2 c r hr hne
  obtain ⟨hrlt, _⟩ := List.getElem?_eq_some.mp hrc
  have hrlt' : r < j.iItems.length := by omega
  have hxr : j.iItems[r]? = some (j.iItems[r]) := List.getElem?_eq_getElem hrlt'
  have hx : j.iItems.getLast? = some (j.iItems[j.iItems.length - 1]) := by
    rw [List.getLast?_eq_getElem?]
    exact List.getElem?_eq_getElem (by omega)
  have hm : j.iAllocatedCookies.getLast? =
      some (j.iAllocatedCookies[j.iAllocatedCookies.length - 1]) := by
    rw [List.getLast?_eq_getElem?]
    exact List.getElem?_eq_getElem (by omega)
  have hm' : j.iAllocatedCookies[j.iAllocatedCookies.length - 1]? =
      some (j.iAllocatedCookies[j.iAllocatedCookies.length - 1]) :=
    List.getElem?_eq_getElem (by omega)
  have hmri := h3 _ _ hm'
  obtain ⟨hmlt, _⟩ := List.getElem?_eq_some.mp hmri
  refine ⟨_, _, hx, hm, ?_⟩
  generalize j.iItems[j.iItems.length - 1] = x at hx ⊢
  generalize j.iAllocatedCookies[j.iAllocatedCookies.length - 1] = m at hm hm' hmri hmlt ⊢
  unfold remove
  rw [assert_passes cfg _ c ha]
  simp only [Bool.false_eq_true, if_false, hr, if_neg hne]
  have hs : size_minus_one j.iItems.length = j.iItems.length - 1 := by
    unfold size_minus_one
    rw [if_neg (by omega)]
  rw [hs]
  by_cases hlast : r < j.iItems.length - 1
  · rw [if_pos hlast]
    have hsw : swap_to_back j r = some { j with
        iItems := (j.iItems.set r x).set (j.iItems.length - 1) (j.iItems[r])
        iAllocatedCookies := (j.iAllocatedCookies.set r m).set (j.iAllocatedCookies.length - 1) c
        iReverseIndices := j.iReverseIndices.set m r } := by
      unfold swap_to_back
      rw [swap_with_back_eq _ _ _ _ hxr hx, swap_with_back_eq _ _ _ _ hrc hm]
      have e : ((j.iAllocatedCookies.set r m).set (j.iAllocatedCookies.length - 1) c)[r]?
          = some m := by
        rw [List.getElem?_set_ne (by omega), List.getElem?_set_self hrlt]
      simp only [e, if_pos hmlt]
    simp only [hsw]
    have e1 : (((j.iItems.set r x).set (j.iItems.length - 1) (j.iItems[r])).isEmpty
        || ((j.iAllocatedCookies.set r m).set (j.iAllocatedCookies.length - 1) c).isEmpty)
        = false := by
      rw [Bool.or_eq_false_iff]
      constructor
      · rw [List.isEmpty_eq_false, ← List.length_pos, List.length_set, List.length_set]
        omega
      · rw [List.isEmpty_eq_false, ← List.length_pos, List.length_set, List.length_set]
        omega
    rw [e1]
    simp only [Bool.false_eq_true, if_false]
    have d1 : ((j.iItems.set r x).set (j.iItems.length - 1) (j.iItems[r])).dropLast
        = (j.iItems.set r x).dropLast := by
      have := dropLast_set_last (j.iItems.set r x) (j.iItems[r])
      rwa [List.length_set] at this
    have d2 : ((j.iAllocatedCookies.set r m).set (j.iAllocatedCookies.length - 1) c).dropLast
        = (j.iAllocatedCookies.set r m).dropLast := by
      have := dropLast_set_last (j.iAllocatedCookies.set r m) c
      rwa [List.length_set] at this
    rw [d1, d2]
    rw [if_neg (by rw [List.length_dropLast, List.length_set]; omega)]
    rw [return_cookie_eq cfg _ c (by exact ha)]
  · rw [if_neg hlast]
    have hre : r = j.iItems.length - 1 := by omega
    have e1 : (j.iItems.isEmpty || j.iAllocatedCookies.isEmpty) = false := by
      rw [Bool.or_eq_false_iff]
      constructor
      · rw [List.isEmpty_eq_false, ← List.length_pos]; omega
      · rw [List.isEmpty_eq_false, ← List.length_pos]; omega
    simp only [e1, Bool.false_eq_true, if_false]
    rw [if_neg (by rw [List.length_dropLast]; omega)]
    rw [return_cookie_eq cfg _ c (by exact ha)]
    have hmc : m = c := by
      have : j.iAllocatedCookies[j.iAllocatedCookies.length - 1]? = some c := by
        rw [h1, ← hre]; exact hrc
      rw [hm'] at this
      exact Option.some.inj this
    have d1 : (j.iItems.set r x).dropLast = j.iItems.dropLast := by
      rw [hre]; exact dropLast_set_last _ _
    have d2 : (j.iAllocatedCookies.set r m).dropLast = j.iAllocatedCookies.dropLast := by
      rw [hre, ← h1]; exact dropLast_set_last _ _
    rw [d1, d2, hmc, List.set_set]


/-! ## The invariant under `add` -/

theorem lt_length_grown (ri : List Nat) (c : Nat) : c < (grown ri c).length := by
  rw [length_grown]; omega

theorem getElem?_grown_set (ri : List Nat) (c n d : Nat) :
    ((grown ri c).set c n)[d]? =
      if c = d then some n
      else if d < ri.length then ri[d]?
      else if d ≤ c then some INVALID_REVERSE_INDEX else none := by
  rw [List.getElem?_set, getElem?_grown]
  split
  · rw [if_pos (lt_length_grown ri c)]
  · rfl

theorem jar_invariant_grown {α : Type} (j : basic_jar α) (c : Nat) (hinv : jar_invariant j) :
    jar_invariant { j with iReverseIndices := grown j.iReverseIndices c } := by
  obtain ⟨h1, h2, h3, h4⟩ := (jar_invariant_iff j).mp hinv
  refine (jar_invariant_iff _).mpr ⟨h1, ?_, ?_, h4⟩
  · intro d r hd hne
    simp only [getElem?_grown] at hd
    split at hd
    · exact h2 d r hd hne
    · split at hd
      · exact absurd (Option.some.inj hd).symm hne
      · exact absurd hd (by simp)
  · intro i d hi
    have hd := h3 i d hi
    obtain ⟨hlt, _⟩ := List.getElem?_eq_some.mp hd
    simp only [getElem?_grown]
    rw [if_pos hlt]
    exact hd

theorem contains_grown {α : Type} (j : basic_jar α) (c d : Nat) :
    contains { j with iReverseIndices := grown j.iReverseIndices c } d = contains j d := by
  unfold contains
  simp only [getElem?_grown]
  by_cases hlt : d < j.iReverseIndices.length
  · rw [if_pos hlt]
  · rw [if_neg hlt, List.getElem?_eq_none (by omega)]
    by_cases hdc : d ≤ c
    · rw [if_pos hdc]; simp
    · rw [if_neg hdc]

theorem lookup_grown {α : Type} (j : basic_jar α) (c d : Nat) :
    lookup { j with iReverseIndices := grown j.iReverseIndices c } d = lookup j d := by
  unfold lookup
  simp only [getElem?_grown]
  by_cases hlt : d < j.iReverseIndices.length
  · rw [if_pos hlt]
  · rw [if_neg hlt, List.getElem?_eq_none (by omega)]
    by_cases hdc : d ≤ c
    · rw [if_pos hdc]; simp
    · rw [if_neg hdc]

theorem jar_invariant_add {α : Type} (j : basic_jar α) (c : Nat) (v : α)
    (hinv : jar_invariant j) (hl : contains j c = false)
    (hn : j.iItems.length < INVALID_REVERSE_INDEX) :
    jar_invariant { j with
      iItems := j.iItems ++ [v]
      iAllocatedCookies := j.iAllocatedCookies ++ [c]
      iReverseIndices := (grown j.iReverseIndices c).set c j.iItems.length } := by
  obtain ⟨h1, h2, h3, h4⟩ := (jar_invariant_iff j).mp hinv
  refine (jar_invariant_iff _).mpr ⟨?_, ?_, ?_, ?_⟩
  · simp only [List.length_append, List.length_singleton, h1]
  · intro d r hd hne
    simp only [getElem?_grown_set] at hd
    simp only [List.getElem?_append]
    split at hd
    · rename_i hcd
      have hr := Option.some.inj hd
      subst hcd
      rw [if_neg (by omega), ← hr, h1]
      simp
    · split at hd
      · have := h2 d r hd hne
        obtain ⟨hlt, _⟩ := List.getElem?_eq_some.mp this
        rw [if_pos hlt]
        exact this
      · split at hd
        · exact absurd (Option.some.inj hd).symm hne
        · exact absurd hd (by simp)
  · intro i d hi
    simp only [List.getElem?_append] at hi
    simp only [getElem?_grown_set]
    split at hi
    · rename_i hlt
      have hd := h3 i d hi
      obtain ⟨hdlt, _⟩ := List.getElem?_eq_some.mp hd
      have hcd : c ≠ d := by
        intro e
        subst e
        rcases (contains_eq_false_iff j c).mp hl with h | h
        · rw [hd] at h; exact absurd h (by simp)
        · rw [hd] at h
          have := Option.some.inj h
          omega
      rw [if_neg hcd, if_pos hdlt]
      exact hd
    · rename_i hge
      have hlt : i - j.iAllocatedCookies.length < 1 := by
        by_contra hcon
        rw [List.getElem?_eq_none (by simp; omega)] at hi
        exact absurd hi (by simp)
      have hi0 : i - j.iAllocatedCookies.length = 0 := by omega
      rw [hi0] at hi
      have hcd : c = d := by simpa using hi
      rw [if_pos hcd]
      congr 1
      omega
  · simp only [List.length_append, List.length_singleton]
    omega

theorem contains_add {α : Type} (j : basic_jar α) (c : Nat) (v : α) (d : Nat)
    (hn : j.iItems.length < INVALID_REVERSE_INDEX) :
    contains { j with
      iItems := j.iItems ++ [v]
      iAllocatedCookies := j.iAllocatedCookies ++ [c]
      iReverseIndices := (grown j.iReverseIndices c).set c j.iItems.length } d
      = (decide (c = d) || contains j d) := by
  unfold contains
  simp only [getElem?_grown_set]
  by_cases hcd : c = d
  · rw [if_pos hcd]
    simp [hcd]
    omega
  · rw [if_neg hcd]
    by_cases hlt : d < j.iReverseIndices.length
    · rw [if_pos hlt]
      simp [hcd]
    · rw [if_neg hlt, List.getElem?_eq_none (by omega)]
      by_cases hdc : d ≤ c
      · rw [if_pos hdc]; simp [hcd]
      · rw [if_neg hdc]; simp [hcd]

theorem lookup_add {α : Type} (j : basic_jar α) (c : Nat) (v : α) (d : Nat)
    (hinv : jar_invariant j) (hn : j.iItems.length < INVALID_REVERSE_INDEX) :
    lookup { j with
      iItems := j.iItems ++ [v]
      iAllocatedCookies := j.iAllocatedCookies ++ [c]
      iReverseIndices := (grown j.iReverseIndices c).set c j.iItems.length } d
      = if c = d then result.returned v else lookup j d := by
  obtain ⟨h1, h2, _, _⟩ := (jar_invariant_iff j).mp hinv
  unfold lookup
  simp only [getElem?_grown_set]
  by_cases hcd : c = d
  · rw [if_pos hcd, if_pos hcd]
    simp only [if_neg (Nat.ne_of_lt hn)]
    simp
  · rw [if_neg hcd, if_neg hcd]
    by_cases hlt : d < j.iReverseIndices.length
    · rw [if_pos hlt]
      cases hd : j.iReverseIndices[d]? with
      | none => rfl
      | some r =>
        simp only
        by_cases hne : r = INVALID_REVERSE_INDEX
        · rw [if_pos hne, if_pos hne]
        · rw [if_neg hne, if_neg hne]
          have := h2 d r hd hne
          obtain ⟨hrlt, _⟩ := List.getElem?_eq_some.mp this
          rw [List.getElem?_append_left (by omega)]
    · rw [if_neg hlt, List.getElem?_eq_none (by omega)]
      by_cases hdc : d ≤ c
      · rw [if_pos hdc]; simp
      · rw [if_neg hdc]


/-! ## The invariant under `remove` -/

theorem getElem?_set_set_hole (ri : List Nat) (m r c d : Nat) (hm : m < ri.length)
    (hc : c < ri.length) :
    ((ri.set m r).set c INVALID_REVERSE_INDEX)[d]? =
      if c = d then some INVALID_REVERSE_INDEX
      else if m = d then some r else ri[d]? := by
  rw [List.getElem?_set, List.getElem?_set, List.length_set, if_pos hc, if_pos hm]

/-- The facts about a live cookie and the last dense position that the proofs
about `remove` start from. -/
theorem live_facts {α : Type} (j : basic_jar α) (c r m : Nat) (hinv : jar_invariant j)
    (hr : j.iReverseIndices[c]? = some r) (hne : r ≠ INVALID_REVERSE_INDEX)
    (hm : j.iAllocatedCookies.getLast? = some m) :
    j.iAllocatedCookies[r]? = some c ∧ r < j.iItems.length ∧ c < j.iReverseIndices.length ∧
      j.iAllocatedCookies[j.iItems.length - 1]? = some m ∧
      j.iReverseIndices[m]? = some (j.iItems.length - 1) ∧ m < j.iReverseIndices.length ∧
      (r = j.iItems.length - 1 ↔ c = m) := by
  obtain ⟨h1, h2, h3, _⟩ := (jar_invariant_iff j).mp hinv
  have hrc := h2 c r hr hne
  obtain ⟨hrlt, _⟩ := List.getElem?_eq_some.mp hrc
  obtain ⟨hclt, _⟩ := List.getElem?_eq_some.mp hr
  rw [List.getLast?_eq_getElem?, h1] at hm
  have hmri := h3 _ _ hm
  obtain ⟨hmlt, _⟩ := List.getElem?_eq_some.mp hmri
  refine ⟨hrc, by omega, hclt, hm, hmri, hmlt, ?_, ?_⟩
  · intro e
    rw [e, hm] at hrc
    exact (Option.some.inj hrc).symm
  · intro e
    rw [e, hmri] at hr
    exact (Option.some.inj hr).symm

theorem jar_invariant_remove {α : Type} (j : basic_jar α) (c r : Nat) (x : α) (m : Nat)
    (free : List Nat) (hinv : jar_invariant j) (hr : j.iReverseIndices[c]? = some r)
    (hne : r ≠ INVALID_REVERSE_INDEX) (hm : j.iAllocatedCookies.getLast? = some m) :
    jar_invariant { j with
      iItems := (j.iItems.set r x).dropLast
      iAllocatedCookies := (j.iAllocatedCookies.set r m).dropLast
      iFreeCookies := free
      iReverseIndices := (j.iReverseIndices.set m r).set c INVALID_REVERSE_INDEX } := by
  obtain ⟨h1, h2, h3, h4⟩ := (jar_invariant_iff j).mp hinv
  obtain ⟨hrc, hrlt, hclt, hma, hmri, hmlt, hiff⟩ := live_facts j c r m hinv hr hne hm
  refine (jar_invariant_iff _).mpr ⟨?_, ?_, ?_, ?_⟩
  · simp only [List.length_dropLast, List.length_set, h1]
  · intro d r' hd hne'
    simp only [getElem?_set_set_hole _ _ _ _ _ hmlt hclt] at hd
    simp only [getElem?_set_dropLast]
    by_cases hcd : c = d
    · rw [if_pos hcd] at hd
      exact absurd (Option.some.inj hd).symm hne'
    · rw [if_neg hcd] at hd
      by_cases hmd : m = d
      · rw [if_pos hmd] at hd
        have hrr : r = r' := Option.some.inj hd
        have : r ≠ j.iItems.length - 1 := fun e => hcd ((hiff.mp e).trans hmd)
        rw [if_pos (by omega), if_pos hrr, hmd]
      · rw [if_neg hmd] at hd
        have ha := h2 d r' hd hne'
        obtain ⟨hlt, _⟩ := List.getElem?_eq_some.mp ha
        have hr1 : r ≠ r' := by
          intro e
          rw [← e, hrc] at ha
          exact hcd (Option.some.inj ha)
        have hr2 : r' ≠ j.iItems.length - 1 := by
          intro e
          rw [e, hma] at ha
          exact hmd (Option.some.inj ha)
        rw [if_pos (by omega), if_neg hr1]
        exact ha
  · intro i d hi
    simp only [getElem?_set_dropLast] at hi
    simp only [getElem?_set_set_hole _ _ _ _ _ hmlt hclt]
    by_cases hlt : i + 1 < j.iAllocatedCookies.length
    · rw [if_pos hlt] at hi
      by_cases hri : r = i
      · rw [if_pos hri] at hi
        have hmd : m = d := Option.some.inj hi
        have hcm : c ≠ m := fun e => by
          have := hiff.mpr e
          omega
        rw [if_neg (fun e => hcm (e.trans hmd.symm)), if_pos hmd, hri]
      · rw [if_neg hri] at hi
        have hd := h3 i d hi
        have hcd : c ≠ d := by
          intro e
          rw [← e, hr] at hd
          exact hri (Option.some.inj hd)
        have hmd : m ≠ d := by
          intro e
          rw [← e, hmri] at hd
          have := Option.some.inj hd
          omega
        rw [if_neg hcd, if_neg hmd]
        exact hd
    · rw [if_neg hlt] at hi
      exact absurd hi (by simp)
  · simp only [List.length_dropLast, List.length_set]
    omega

theorem contains_remove {α : Type} (j : basic_jar α) (c r : Nat) (x : α) (m : Nat)
    (free : List Nat) (hinv : jar_invariant j) (hr : j.iReverseIndices[c]? = some r)
    (hne : r ≠ INVALID_REVERSE_INDEX) (hm : j.iAllocatedCookies.getLast? = some m) (d : Nat) :
    contains { j with
      iItems := (j.iItems.set r x).dropLast
      iAllocatedCookies := (j.iAllocatedCookies.set r m).dropLast
      iFreeCookies := free
      iReverseIndices := (j.iReverseIndices.set m r).set c INVALID_REVERSE_INDEX } d
      = (contains j d && !decide (c = d)) := by
  obtain ⟨_, _, _, h4⟩ := (jar_invariant_iff j).mp hinv
  obtain ⟨hrc, hrlt, hclt, hma, hmri, hmlt, hiff⟩ := live_facts j c r m hinv hr hne hm
  unfold contains
  simp only [getElem?_set_set_hole _ _ _ _ _ hmlt hclt]
  by_cases hcd : c = d
  · rw [if_pos hcd]
    simp [hcd]
  · rw [if_neg hcd]
    by_cases hmd : m = d
    · subst hmd
      have : j.iItems.length - 1 ≠ INVALID_REVERSE_INDEX := by omega
      have a1 : (r != INVALID_REVERSE_INDEX) = true := bne_iff_ne.mpr hne
      have a2 : (j.iItems.length - 1 != INVALID_REVERSE_INDEX) = true := bne_iff_ne.mpr this
      rw [if_pos rfl, hmri]
      simp [hcd, a1, a2]
    · rw [if_neg hmd]
      simp [hcd]

theorem lookup_remove {α : Type} (j : basic_jar α) (c r : Nat) (x : α) (m : Nat)
    (free : List Nat) (hinv : jar_invariant j) (hr : j.iReverseIndices[c]? = some r)
    (hne : r ≠ INVALID_REVERSE_INDEX) (hx : j.iItems.getLast? = some x)
    (hm : j.iAllocatedCookies.getLast? = some m) (d : Nat) :
    lookup { j with
      iItems := (j.iItems.set r x).dropLast
      iAllocatedCookies := (j.iAllocatedCookies.set r m).dropLast
      iFreeCookies := free
      iReverseIndices := (j.iReverseIndices.set m r).set c INVALID_REVERSE_INDEX } d
      = if c = d then result.thrown exception.cookie_invalid else lookup j d := by
  obtain ⟨h1, h2, h3, h4⟩ := (jar_invariant_iff j).mp hinv
  obtain ⟨hrc, hrlt, hclt, hma, hmri, hmlt, hiff⟩ := live_facts j c r m hinv hr hne hm
  rw [List.getLast?_eq_getElem?] at hx
  unfold lookup
  simp only [getElem?_set_set_hole _ _ _ _ _ hmlt hclt, getElem?_set_dropLast]
  by_cases hcd : c = d
  · rw [if_pos hcd, if_pos hcd]
    simp
  · rw [if_neg hcd, if_neg hcd]
    by_cases hmd : m = d
    · have hrl : r ≠ j.iItems.length - 1 := fun e => hcd ((hiff.mp e).trans hmd)
      have hl : j.iItems.length - 1 ≠ INVALID_REVERSE_INDEX := by omega
      rw [if_pos hmd, ← hmd, hmri]
      simp only [if_neg hne, if_neg hl, hx]
      rw [if_pos (by omega)]
      simp
    · rw [if_neg hmd]
      cases hd : j.iReverseIndices[d]? with
      | none => rfl
      | some r' =>
        simp only
        by_cases hne' : r' = INVALID_REVERSE_INDEX
        · rw [if_pos hne', if_pos hne']
        · rw [if_neg hne', if_neg hne']
          have ha := h2 d r' hd hne'
          obtain ⟨hlt, _⟩ := List.getElem?_eq_some.mp ha
          have hr1 : r ≠ r' := by
            intro e
            rw [← e, hrc] at ha
            exact hcd (Option.some.inj ha)
          have hr2 : r' ≠ j.iItems.length - 1 := by
            intro e
            rw [e, hma] at ha
            exact hmd (Option.some.inj ha)
          rw [if_pos (by omega), if_neg hr1]


/-! ## Drawing a cookie -/

theorem next_cookie_cases {α : Type} (cfg : config) (j : basic_jar α) :
    (∃ free c, j.iFreeCookies = free ++ [c] ∧
      next_cookie cfg j = (result.returned c, { j with iFreeCookies := free })) ∨
    (j.iFreeCookies = [] ∧
      next_cookie cfg j =
        if (j.iNextAvailableCookie + 1) % 2 ^ cfg.cookie_bits = INVALID_COOKIE cfg then
          (result.thrown exception.cookies_exhausted,
            { j with iNextAvailableCookie := (j.iNextAvailableCookie + 1) % 2 ^ cfg.cookie_bits })
        else
          (result.returned ((j.iNextAvailableCookie + 1) % 2 ^ cfg.cookie_bits),
            { j with
              iNextAvailableCookie := (j.iNextAvailableCookie + 1) % 2 ^ cfg.cookie_bits })) := by
  cases hl : j.iFreeCookies.getLast? with
  | some c =>
    left
    refine ⟨j.iFreeCookies.dropLast, c, ?_, ?_⟩
    · exact (List.dropLast_append_getLast? c (by rw [hl]; exact rfl)).symm
    · unfold next_cookie
      simp only [hl]
  | none =>
    right
    have he : j.iFreeCookies = [] := List.getLast?_eq_none_iff.mp hl
    refine ⟨he, ?_⟩
    unfold next_cookie
    simp only [hl, he, List.getLast?_nil, List.not_mem_nil, decide_False, Bool.and_false,
      Bool.false_eq_true, if_false]

theorem mod_ne_invalid_lt (cfg : config) (n : Nat)
    (h : n % 2 ^ cfg.cookie_bits ≠ INVALID_COOKIE cfg) :
    n % 2 ^ cfg.cookie_bits < INVALID_COOKIE cfg := by
  have h1 := INVALID_COOKIE_succ cfg
  have h2 : n % 2 ^ cfg.cookie_bits < 2 ^ cfg.cookie_bits :=
    Nat.mod_lt _ (by have := pow_cookie_bits_ge cfg; omega)
  omega

/-! ## Well-formed jars -/

theorem well_formed_new {α : Type} (cfg : config) :
    well_formed cfg (basic_jar.new : basic_jar α) := by
  refine ⟨(jar_invariant_iff _).mpr ⟨rfl, ?_, ?_, ?_⟩, ?_, ?_, ?_⟩
  · intro c r h
    simp [basic_jar.new] at h
  · intro i c h
    simp [basic_jar.new] at h
  · simp [basic_jar.new]
  · intro c h
    simp [basic_jar.new] at h
  · intro c h
    simp [basic_jar.new] at h
  · intro _
    simp [basic_jar.new]

theorem nodup_allocated {α : Type} (j : basic_jar α) (hinv : jar_invariant j) :
    j.iAllocatedCookies.Nodup := by
  obtain ⟨_, _, h3, _⟩ := (jar_invariant_iff j).mp hinv
  rw [List.nodup_iff_getElem?_ne_getElem?]
  intro a b hab hb e
  have hbs : j.iAllocatedCookies[b]? = some (j.iAllocatedCookies[b]) :=
    List.getElem?_eq_getElem hb
  have h1 := h3 _ _ hbs
  rw [← e] at hbs
  have h2 := h3 _ _ hbs
  rw [h1] at h2
  have := Option.some.inj h2
  omega

theorem mem_allocated_iff {α : Type} (j : basic_jar α) (hinv : jar_invariant j) (c : Nat) :
    c ∈ j.iAllocatedCookies ↔ contains j c = true := by
  obtain ⟨h1, h2, h3, h4⟩ := (jar_invariant_iff j).mp hinv
  rw [contains_iff, List.mem_iff_getElem?]
  constructor
  · rintro ⟨i, hi⟩
    obtain ⟨hlt, _⟩ := List.getElem?_eq_some.mp hi
    exact ⟨i, h3 i c hi, by omega⟩
  · rintro ⟨r, hr, hne⟩
    exact ⟨r, h2 c r hr hne⟩

theorem length_lt_of_fresh {α : Type} (cfg : config) (j : basic_jar α) (c : Nat)
    (hwf : well_formed cfg j) (hc : c < INVALID_COOKIE cfg) (hl : contains j c = false) :
    j.iItems.length < INVALID_REVERSE_INDEX := by
  obtain ⟨hinv, hA, _, _⟩ := hwf
  have hnd : (j.iAllocatedCookies ++ [c]).Nodup := by
    rw [List.nodup_append]
    refine ⟨nodup_allocated j hinv, List.nodup_singleton c, ?_⟩
    intro a ha hac
    rw [List.mem_singleton] at hac
    subst hac
    rw [mem_allocated_iff j hinv] at ha
    rw [ha] at hl
    exact absurd hl (by simp)
  have hb : ∀ a ∈ j.iAllocatedCookies ++ [c], a < INVALID_COOKIE cfg := by
    intro a ha
    rw [List.mem_append, List.mem_singleton] at ha
    rcases ha with h | h
    · exact hA a h
    · rw [h]; exact hc
  have := length_le_of_nodup_of_lt hnd hb
  have h1 := (jar_invariant_iff j).mp hinv
  have h2 := INVALID_COOKIE_le cfg
  rw [List.length_append, List.length_singleton, h1.1] at this
  unfold INVALID_REVERSE_INDEX
  omega

theorem next_cookie_returned {α : Type} (cfg : config) (j j1 : basic_jar α) (c : Nat)
    (hwf : well_formed cfg j) (h : next_cookie cfg j = (result.returned c, j1)) :
    well_formed cfg j1 ∧ c < INVALID_COOKIE cfg ∧
      (cfg.ndebug = true ∨ c ∉ j1.iFreeCookies) ∧ j1.iItems = j.iItems ∧
      j1.iAllocatedCookies = j.iAllocatedCookies ∧
      j1.iReverseIndices = j.iReverseIndices := by
  obtain ⟨hinv, hA, hF, hN⟩ := hwf
  rcases next_cookie_cases cfg j with ⟨free, c', hf, he⟩ | ⟨hf, he⟩
  · rw [he] at h
    obtain ⟨hc, hj⟩ := Prod.mk.inj h
    have hc' : c' = c := result.returned.inj hc
    subst hc' hj
    refine ⟨⟨hinv, hA, ?_, ?_⟩, ?_, ?_, rfl, rfl, rfl⟩
    · intro a ha
      exact hF a (by rw [hf]; exact List.mem_append_left _ ha)
    · intro hd
      have := hN hd
      rw [hf] at this
      exact (List.nodup_append.mp this).1
    · exact hF c' (by rw [hf]; simp)
    · cases hd : cfg.ndebug with
      | true => exact Or.inl rfl
      | false =>
        right
        have := hN hd
        rw [hf] at this
        intro hmem
        exact (List.nodup_append.mp this).2.2 hmem (List.mem_singleton_self c')
  · rw [he] at h
    split at h
    · exact absurd (Prod.mk.inj h).1 (by simp)
    · rename_i hne
      obtain ⟨hc, hj⟩ := Prod.mk.inj h
      have hc' := result.returned.inj hc
      subst hj
      refine ⟨⟨hinv, hA, hF, hN⟩, ?_, ?_, rfl, rfl, rfl⟩
      · rw [← hc']; exact mod_ne_invalid_lt cfg _ hne
      · right
        show c ∉ j.iFreeCookies
        rw [hf]
        exact List.not_mem_nil c


theorem next_cookie_not_returned {α : Type} (cfg : config) (j : basic_jar α)
    (h : ∀ c j1, next_cookie cfg j ≠ (result.returned c, j1)) :
    j.iFreeCookies = [] ∧
      (j.iNextAvailableCookie + 1) % 2 ^ cfg.cookie_bits = INVALID_COOKIE cfg ∧
      next_cookie cfg j = (result.thrown exception.cookies_exhausted,
        { j with iNextAvailableCookie := INVALID_COOKIE cfg }) := by
  rcases next_cookie_cases cfg j with ⟨free, c, _, he⟩ | ⟨hf, he⟩
  · exact absurd he (h _ _)
  · by_cases hx : (j.iNextAvailableCookie + 1) % 2 ^ cfg.cookie_bits = INVALID_COOKIE cfg
    · rw [if_pos hx, hx] at he
      exact ⟨hf, hx, he⟩
    · rw [if_neg hx] at he
      exact absurd he (h _ _)

theorem emplace_eq_insert {α : Type} (cfg : config) (j : basic_jar α) (v : α) (f : fault) :
    emplace cfg j v f = insert cfg j v f := rfl

theorem insert_of_exhausted {α : Type} (cfg : config) (j j1 : basic_jar α) (v : α) (f : fault)
    (e : exception) (h : next_cookie cfg j = (result.thrown e, j1)) :
    insert cfg j v f = (result.thrown e, j1) := by
  unfold insert
  rw [h]

theorem insert_of_draw {α : Type} (cfg : config) (j j1 : basic_jar α) (c : Nat) (v : α)
    (f : fault) (h : next_cookie cfg j = (result.returned c, j1))
    (hc : c < INVALID_COOKIE cfg ∨ c < j1.iReverseIndices.length)
    (ha : cfg.ndebug = true ∨ c ∉ j1.iFreeCookies) :
    insert cfg j v f =
      if contains j1 c = true then
        (result.thrown exception.cookie_already_added,
          { j1 with iFreeCookies := j1.iFreeCookies ++ [c] })
      else
        match f with
        | fault.none =>
          (result.returned c,
            { j1 with
              iItems := j1.iItems ++ [v]
              iAllocatedCookies := j1.iAllocatedCookies ++ [c]
              iReverseIndices := (grown j1.iReverseIndices c).set c j1.iItems.length })
        | fault.construct =>
          (result.thrown exception.constructor_error,
            { j1 with
              iFreeCookies := j1.iFreeCookies ++ [c]
              iReverseIndices := grown j1.iReverseIndices c })
        | fault.allocate =>
          (result.thrown exception.bad_alloc,
            { j1 with
              iFreeCookies := j1.iFreeCookies ++ [c]
              iReverseIndices := grown j1.iReverseIndices c }) := by
  unfold insert
  rw [h]
  simp only
  by_cases hl : contains j1 c = true
  · rw [if_pos hl, add_of_contains cfg j1 c v f ha hl]
    simp only
    rw [return_cookie_eq cfg j1 c ha]
  · rw [if_neg hl, add_of_not_contains cfg j1 c v f hc ha (by simpa using hl)]
    cases f
    · simp only
    · simp only
      rw [return_cookie_eq cfg _ c (by exact ha)]
    · simp only
      rw [return_cookie_eq cfg _ c (by exact ha)]

theorem well_formed_push {α : Type} (cfg : config) (j : basic_jar α) (c : Nat)
    (hwf : well_formed cfg j) (hc : c < INVALID_COOKIE cfg)
    (ha : cfg.ndebug = true ∨ c ∉ j.iFreeCookies) :
    well_formed cfg { j with iFreeCookies := j.iFreeCookies ++ [c] } := by
  obtain ⟨hinv, hA, hF, hN⟩ := hwf
  refine ⟨hinv, hA, ?_, ?_⟩
  · intro a hmem
    rcases List.mem_append.mp hmem with h | h
    · exact hF a h
    · rw [List.mem_singleton.mp h]; exact hc
  · intro hd
    rcases ha with h | h
    · rw [hd] at h; exact absurd h (by simp)
    · show (j.iFreeCookies ++ [c]).Nodup
      rw [List.nodup_append]
      refine ⟨hN hd, List.nodup_singleton c, ?_⟩
      intro a ha1 ha2
      rw [List.mem_singleton] at ha2
      subst ha2
      exact h ha1

theorem well_formed_grown {α : Type} (cfg : config) (j : basic_jar α) (c : Nat)
    (hwf : well_formed cfg j) :
    well_formed cfg { j with iReverseIndices := grown j.iReverseIndices c } := by
  obtain ⟨hinv, hA, hF, hN⟩ := hwf
  exact ⟨jar_invariant_grown j c hinv, hA, hF, hN⟩

theorem well_formed_add {α : Type} (cfg : config) (j : basic_jar α) (c : Nat) (v : α)
    (hwf : well_formed cfg j) (hc : c < INVALID_COOKIE cfg) (hl : contains j c = false) :
    well_formed cfg { j with
      iItems := j.iItems ++ [v]
      iAllocatedCookies := j.iAllocatedCookies ++ [c]
      iReverseIndices := (grown j.iReverseIndices c).set c j.iItems.length } := by
  have hn := length_lt_of_fresh cfg j c hwf hc hl
  obtain ⟨hinv, hA, hF, hN⟩ := hwf
  refine ⟨jar_invariant_add j c v hinv hl hn, ?_, hF, hN⟩
  intro a hmem
  rcases List.mem_append.mp hmem with h | h
  · exact hA a h
  · rw [List.mem_singleton.mp h]; exact hc

theorem well_formed_insert {α : Type} (cfg : config) (j : basic_jar α) (v : α) (f : fault)
    (hwf : well_formed cfg j) :
    well_formed cfg (insert cfg j v f).2 ∧ (insert cfg j v f).1.fatal = false := by
  by_cases h : ∃ c j1, next_cookie cfg j = (result.returned c, j1)
  · obtain ⟨c, j1, h⟩ := h
    obtain ⟨hwf1, hc, ha, _, _, _⟩ := next_cookie_returned cfg j j1 c hwf h
    rw [insert_of_draw cfg j j1 c v f h (Or.inl hc) ha]
    by_cases hl : contains j1 c = true
    · rw [if_pos hl]
      exact ⟨well_formed_push cfg j1 c hwf1 hc ha, rfl⟩
    · rw [if_neg hl]
      cases f
      · exact ⟨well_formed_add cfg j1 c v hwf1 hc (by simpa using hl), rfl⟩
      · exact ⟨well_formed_push cfg _ c (well_formed_grown cfg j1 c hwf1) hc ha, rfl⟩
      · exact ⟨well_formed_push cfg _ c (well_formed_grown cfg j1 c hwf1) hc ha, rfl⟩
  · have h' : ∀ c j1, next_cookie cfg j ≠ (result.returned c, j1) :=
      fun c j1 e => h ⟨c, j1, e⟩
    obtain ⟨_, _, he⟩ := next_cookie_not_returned cfg j h'
    rw [insert_of_exhausted cfg j _ v f _ he]
    obtain ⟨hinv, hA, hF, hN⟩ := hwf
    exact ⟨⟨hinv, hA, hF, hN⟩, rfl⟩

theorem well_formed_remove {α : Type} (cfg : config) (j : basic_jar α) (c : Nat)
    (hwf : well_formed cfg j) :
    well_formed cfg (remove cfg j c).2 ∧ (remove cfg j c).1 ≠ result.undefined := by
  by_cases ha : cfg.ndebug = true ∨ c ∉ j.iFreeCookies
  · cases hl : contains j c with
    | false =>
      rw [remove_of_not_contains cfg j c ha hl]
      exact ⟨hwf, by simp⟩
    | true =>
      obtain ⟨r, hr, hne⟩ := (contains_iff j c).mp hl
      obtain ⟨hinv, hA, hF, hN⟩ := hwf
      obtain ⟨x, m, hx, hm, he⟩ := remove_of_contains cfg j c r hinv hr hne ha
      rw [he]
      refine ⟨⟨jar_invariant_remove j c r x m _ hinv hr hne hm, ?_, ?_, ?_⟩, by simp⟩
      · intro a hmem
        have hmem' := List.mem_of_mem_dropLast hmem
        rcases List.mem_or_eq_of_mem_set hmem' with h | h
        · exact hA a h
        · rw [h]
          exact hA m (List.mem_of_mem_getLast? hm)
      · intro a hmem
        rcases List.mem_append.mp hmem with h | h
        · exact hF a h
        · rw [List.mem_singleton.mp h]
          exact hA c ((mem_allocated_iff j hinv c).mpr hl)
      · intro hd
        rcases ha with h | h
        · rw [hd] at h; exact absurd h (by simp)
        · show (j.iFreeCookies ++ [c]).Nodup
          rw [List.nodup_append]
          refine ⟨hN hd, List.nodup_singleton c, ?_⟩
          intro a ha1 ha2
          rw [List.mem_singleton] at ha2
          subst ha2
          exact h ha1
  · have hd : cfg.ndebug = false := by
      cases hn : cfg.ndebug with
      | true => exact absurd (Or.inl hn) ha
      | false => rfl
    have hc : c ∈ j.iFreeCookies := by
      by_contra hcon
      exact ha (Or.inr hcon)
    rw [remove_of_free_debug cfg j c hd hc]
    exact ⟨hwf, by simp⟩

theorem reachable_well_formed {α : Type} (cfg : config) (j : basic_jar α)
    (h : reachable cfg j) : well_formed cfg j := by
  induction h with
  | new => exact well_formed_new cfg
  | insert j v f _ _ ih => exact (well_formed_insert cfg j v f ih).1
  | emplace j v f _ _ ih => exact (well_formed_insert cfg j v f ih).1
  | remove j c _ _ ih => exact (well_formed_remove cfg j c ih).1


theorem contains_padded {α : Type} (j : basic_jar α) (ri : List Nat) (k d : Nat)
    (h : ri = j.iReverseIndices ++ List.replicate k INVALID_REVERSE_INDEX) :
    contains { j with iReverseIndices := ri } d = contains j d := by
  unfold contains
  simp only [h, List.getElem?_append, List.getElem?_replicate]
  by_cases hlt : d < j.iReverseIndices.length
  · rw [if_pos hlt]
  · rw [if_neg hlt, List.getElem?_eq_none (by omega)]
    by_cases hk : d - j.iReverseIndices.length < k
    · rw [if_pos hk]; simp
    · rw [if_neg hk]

theorem add_thrown {α : Type} (cfg : config) (j j2 : basic_jar α) (c : Nat) (v : α) (f : fault)
    (e : exception) (h : add cfg j c v f = (result.thrown e, j2)) :
    (cfg.ndebug = true ∨ c ∉ j.iFreeCookies) ∧ j2.iItems = j.iItems ∧
      j2.iAllocatedCookies = j.iAllocatedCookies ∧ j2.iFreeCookies = j.iFreeCookies ∧
      j2.iNextAvailableCookie = j.iNextAvailableCookie ∧
      ∃ k, j2.iReverseIndices = j.iReverseIndices ++ List.replicate k INVALID_REVERSE_INDEX := by
  have ha : cfg.ndebug = true ∨ c ∉ j.iFreeCookies := by
    by_contra hcon
    have hd : cfg.ndebug = false := by
      cases hn : cfg.ndebug with
      | true => exact absurd (Or.inl hn) hcon
      | false => rfl
    have hc : c ∈ j.iFreeCookies := by
      by_contra hc'
      exact hcon (Or.inr hc')
    unfold add at h
    rw [assert_fails cfg _ c hd hc] at h
    simp at h
  refine ⟨ha, ?_⟩
  unfold add at h
  rw [assert_passes cfg _ c ha] at h
  simp only [Bool.false_eq_true, if_false] at h
  split at h
  · obtain ⟨_, hj⟩ := Prod.mk.inj h
    subst hj
    exact ⟨rfl, rfl, rfl, rfl, 0, by simp⟩
  · have key : ∀ j1 : basic_jar α,
        (j1.iItems = j.iItems ∧ j1.iAllocatedCookies = j.iAllocatedCookies ∧
          j1.iFreeCookies = j.iFreeCookies ∧
          j1.iNextAvailableCookie = j.iNextAvailableCookie ∧
          ∃ k, j1.iReverseIndices =
            j.iReverseIndices ++ List.replicate k INVALID_REVERSE_INDEX) →
        (match j1.iReverseIndices[c]? with
          | Option.none => (result.undefined, j1)
          | some reverseIndex =>
            if reverseIndex ≠ INVALID_REVERSE_INDEX then
              (result.thrown exception.cookie_already_added, j1)
            else
              match f with
              | fault.construct => (result.thrown exception.constructor_error, j1)
              | fault.allocate =>
                (result.thrown exception.bad_alloc,
                  { j1 with iItems := (j1.iItems ++ [v]).dropLast })
              | fault.none =>
                (result.returned j1.iItems.length,
                  { j1 with
                    iItems := j1.iItems ++ [v]
                    iAllocatedCookies := j1.iAllocatedCookies ++ [c]
                    iReverseIndices :=
                      j1.iReverseIndices.set c ((j1.iItems ++ [v]).length - 1) }))
          = (result.thrown e, j2) →
        j2.iItems = j.iItems ∧ j2.iAllocatedCookies = j.iAllocatedCookies ∧
          j2.iFreeCookies = j.iFreeCookies ∧
          j2.iNextAvailableCookie = j.iNextAvailableCookie ∧
          ∃ k, j2.iReverseIndices =
            j.iReverseIndices ++ List.replicate k INVALID_REVERSE_INDEX := by
      intro j1 hj1 h1
      split at h1
      · exact absurd (Prod.mk.inj h1).1 (by simp)
      · split at h1
        · obtain ⟨_, hj⟩ := Prod.mk.inj h1
          subst hj
          exact hj1
        · cases f
          · exact absurd (Prod.mk.inj h1).1 (by simp)
          · obtain ⟨_, hj⟩ := Prod.mk.inj h1
            subst hj
            exact hj1
          · obtain ⟨_, hj⟩ := Prod.mk.inj h1
            subst hj
            obtain ⟨a1, a2, a3, a4, a5⟩ := hj1
            exact ⟨by simp [a1], a2, a3, a4, a5⟩
    apply key _ _ h
    split
    · exact ⟨rfl, rfl, rfl, rfl, _, rfl⟩
    · exact ⟨rfl, rfl, rfl, rfl, 0, by simp⟩



theorem swap_to_back_frame {α : Type} (j j1 : basic_jar α) (r : Nat)
    (h : swap_to_back j r = some j1) :
    j1.iReverseIndices.length = j.iReverseIndices.length ∧
      j1.iFreeCookies = j.iFreeCookies ∧
      j1.iNextAvailableCookie = j.iNextAvailableCookie := by
  unfold swap_to_back at h
  split at h
  · split at h
    · split at h
      · have := Option.some.inj h
        subst this
        simp
      · exact absurd h (by simp)
    · exact absurd h (by simp)
  · exact absurd h (by simp)

theorem remove_returned {α : Type} (cfg : config) (j j1 : basic_jar α) (c p : Nat)
    (h : remove cfg j c = (result.returned p, j1)) :
    contains j1 c = false ∧ j1.iFreeCookies = j.iFreeCookies ++ [c] ∧
      j1.iNextAvailableCookie = j.iNextAvailableCookie ∧
      (cfg.ndebug = true ∨ c ∉ j.iFreeCookies) := by
  have ha : cfg.ndebug = true ∨ c ∉ j.iFreeCookies := by
    by_contra hcon
    have hd : cfg.ndebug = false := by
      cases hn : cfg.ndebug with
      | true => exact absurd (Or.inl hn) hcon
      | false => rfl
    have hc : c ∈ j.iFreeCookies := by
      by_contra hc'
      exact hcon (Or.inr hc')
    rw [remove_of_free_debug cfg j c hd hc] at h
    exact absurd (Prod.mk.inj h).1 (by simp)
  refine ⟨?_, ?_, ?_, ha⟩ <;>
  · unfold remove at h
    rw [assert_passes cfg _ c ha] at h
    simp only [Bool.false_eq_true, if_false] at h
    split at h
    · exact absurd (Prod.mk.inj h).1 (by simp)
    · rename_i r hr
      obtain ⟨hclt, _⟩ := List.getElem?_eq_some.mp hr
      split at h
      · exact absurd (Prod.mk.inj h).1 (by simp)
      · split at h
        · exact absurd (Prod.mk.inj h).1 (by simp)
        · rename_i j2 hj2
          have hfr : j2.iReverseIndices.length = j.iReverseIndices.length ∧
              j2.iFreeCookies = j.iFreeCookies ∧
              j2.iNextAvailableCookie = j.iNextAvailableCookie := by
            split at hj2
            · exact swap_to_back_frame j j2 r hj2
            · have := Option.some.inj hj2
              subst this
              exact ⟨rfl, rfl, rfl⟩
          split at h
          · exact absurd (Prod.mk.inj h).1 (by simp)
          · split at h
            · exact absurd (Prod.mk.inj h).1 (by simp)
            · rw [return_cookie_eq cfg _ c (by simpa [hfr.2.1] using ha)] at h
              obtain ⟨_, hj⟩ := Prod.mk.inj h
              subst hj
              first
              | exact (contains_eq_false_iff _ c).mpr (Or.inr (by
                  show (j2.iReverseIndices.set c INVALID_REVERSE_INDEX)[c]? = _
                  exact List.getElem?_set_self (by omega)))
              | exact hfr.2.2
              | exact congrArg (fun l => l ++ [c]) hfr.2.1

theorem contains_congr {α : Type} (j j1 : basic_jar α)
    (h : j1.iReverseIndices = j.iReverseIndices) (d : Nat) : contains j1 d = contains j d := by
  unfold contains
  rw [h]

theorem lookup_congr {α : Type} (j j1 : basic_jar α)
    (h : j1.iReverseIndices = j.iReverseIndices) (hi : j1.iItems = j.iItems) (d : Nat) :
    lookup j1 d = lookup j d := by
  unfold lookup
  rw [h, hi]

theorem contains_of_padded {α : Type} (j j2 : basic_jar α) (k d : Nat)
    (h : j2.iReverseIndices = j.iReverseIndices ++ List.replicate k INVALID_REVERSE_INDEX) :
    contains j2 d = contains j d := by
  rw [← contains_padded j j2.iReverseIndices k d h]
  exact contains_congr _ _ rfl d

theorem next_cookie_frame {α : Type} (cfg : config) (j j1 : basic_jar α) (res : result Nat)
    (h : next_cookie cfg j = (res, j1)) :
    j1.iItems = j.iItems ∧ j1.iAllocatedCookies = j.iAllocatedCookies ∧
      j1.iReverseIndices = j.iReverseIndices := by
  rcases next_cookie_cases cfg j with ⟨free, c, _, he⟩ | ⟨_, he⟩
  · rw [he] at h
    obtain ⟨_, hj⟩ := Prod.mk.inj h
    subst hj
    exact ⟨rfl, rfl, rfl⟩
  · rw [he] at h
    split at h <;>
    · obtain ⟨_, hj⟩ := Prod.mk.inj h
      subst hj
      exact ⟨rfl, rfl, rfl⟩

theorem lookup_of_contains {α : Type} (j : basic_jar α) (c : Nat) (hinv : jar_invariant j)
    (hl : contains j c = true) : ∃ x, lookup j c = result.returned x := by
  obtain ⟨r, hr, hne⟩ := (contains_iff j c).mp hl
  obtain ⟨h1, h2, _, _⟩ := (jar_invariant_iff j).mp hinv
  obtain ⟨hlt, _⟩ := List.getElem?_eq_some.mp (h2 _ _ hr hne)
  have hlt' : r < j.iItems.length := by omega
  refine ⟨j.iItems[r], ?_⟩
  unfold lookup
  simp only [hr, if_neg hne, List.getElem?_eq_getElem hlt']

/-! ## Jars whose counter has not run out -/

theorem unexhausted_new {α : Type} (cfg : config) :
    unexhausted cfg (basic_jar.new : basic_jar α) := by
  have := INVALID_COOKIE_ge cfg
  refine ⟨?_, ?_, ?_, ?_⟩
  · show 0 < INVALID_COOKIE cfg
    omega
  · exact List.nodup_nil
  · intro c h
    simp [basic_jar.new] at h
  · intro c h
    simp [basic_jar.new, contains] at h

theorem next_cookie_unexhausted {α : Type} (cfg : config) (j j1 : basic_jar α) (c : Nat)
    (hu : unexhausted cfg j) (h : next_cookie cfg j = (result.returned c, j1)) :
    unexhausted cfg j1 ∧ contains j1 c = false ∧ c ≤ j1.iNextAvailableCookie ∧
      c ∉ j1.iFreeCookies := by
  obtain ⟨u1, u2, u3, u4⟩ := hu
  rcases next_cookie_cases cfg j with ⟨free, c', hf, he⟩ | ⟨hf, he⟩
  · rw [he] at h
    obtain ⟨hc, hj⟩ := Prod.mk.inj h
    have hc' : c' = c := result.returned.inj hc
    subst hc' hj
    rw [hf] at u2 u3
    have hnd := List.nodup_append.mp u2
    have hc3 := u3 c' (by simp)
    refine ⟨⟨u1, hnd.1, ?_, u4⟩, hc3.1, hc3.2, ?_⟩
    · intro a ha
      exact u3 a (List.mem_append_left _ ha)
    · intro hmem
      exact hnd.2.2 hmem (List.mem_singleton_self c')
  · rw [he] at h
    split at h
    · exact absurd (Prod.mk.inj h).1 (by simp)
    · rename_i hne
      obtain ⟨hc, hj⟩ := Prod.mk.inj h
      have hc' := result.returned.inj hc
      subst hj
      have h1 := INVALID_COOKIE_succ cfg
      have hmod : (j.iNextAvailableCookie + 1) % 2 ^ cfg.cookie_bits
          = j.iNextAvailableCookie + 1 := Nat.mod_eq_of_lt (by omega)
      rw [hmod] at hc' hne ⊢
      subst hc'
      have hfresh : contains j (j.iNextAvailableCookie + 1) = false := by
        cases hl : contains j (j.iNextAvailableCookie + 1) with
        | false => rfl
        | true =>
          have := u4 _ hl
          omega
      refine ⟨⟨?_, ?_, ?_, ?_⟩, hfresh, le_refl _, ?_⟩
      · show j.iNextAvailableCookie + 1 < INVALID_COOKIE cfg
        omega
      · exact u2
      · intro a ha
        have := u3 a ha
        exact ⟨this.1, Nat.le_succ_of_le this.2⟩
      · intro a ha
        exact Nat.le_succ_of_le (u4 a ha)
      · show j.iNextAvailableCookie + 1 ∉ j.iFreeCookies
        rw [hf]
        exact List.not_mem_nil _

theorem unexhausted_add {α : Type} (cfg : config) (j : basic_jar α) (c : Nat) (v : α)
    (hu : unexhausted cfg j) (hl : c ≤ j.iNextAvailableCookie) (hf : c ∉ j.iFreeCookies)
    (hn : j.iItems.length < INVALID_REVERSE_INDEX) :
    unexhausted cfg { j with
      iItems := j.iItems ++ [v]
      iAllocatedCookies := j.iAllocatedCookies ++ [c]
      iReverseIndices := (grown j.iReverseIndices c).set c j.iItems.length } := by
  obtain ⟨u1, u2, u3, u4⟩ := hu
  refine ⟨u1, u2, ?_, ?_⟩
  · intro a ha
    have hca : c ≠ a := fun e => hf (e ▸ ha)
    rw [contains_add j c v a hn]
    exact ⟨by simp [hca, (u3 a ha).1], (u3 a ha).2⟩
  · intro a ha
    rw [contains_add j c v a hn] at ha
    by_cases hca : c = a
    · rw [← hca]; exact hl
    · exact u4 a (by simpa [hca] using ha)

theorem unexhausted_push {α : Type} (cfg : config) (j : basic_jar α) (c : Nat)
    (hu : unexhausted cfg j) (hc : contains j c = false) (hl : c ≤ j.iNextAvailableCookie)
    (hf : c ∉ j.iFreeCookies) (ri : List Nat)
    (hri : ∀ d, contains { j with iReverseIndices := ri } d = contains j d) :
    unexhausted cfg { j with iFreeCookies := j.iFreeCookies ++ [c], iReverseIndices := ri } := by
  obtain ⟨u1, u2, u3, u4⟩ := hu
  have hcon : ∀ d, contains { j with
      iFreeCookies := j.iFreeCookies ++ [c], iReverseIndices := ri } d = contains j d := by
    intro d
    rw [← hri d]
    exact contains_congr _ _ rfl d
  refine ⟨u1, ?_, ?_, ?_⟩
  · show (j.iFreeCookies ++ [c]).Nodup
    rw [List.nodup_append]
    refine ⟨u2, List.nodup_singleton c, ?_⟩
    intro a ha1 ha2
    rw [List.mem_singleton] at ha2
    subst ha2
    exact hf ha1
  · intro a ha
    rw [hcon]
    rcases List.mem_append.mp ha with h | h
    · exact u3 a h
    · rw [List.mem_singleton.mp h]
      exact ⟨hc, hl⟩
  · intro a ha
    rw [hcon] at ha
    exact u4 a ha

theorem insert_unexhausted {α : Type} (cfg : config) (j : basic_jar α) (v : α) (f : fault)
    (hwf : well_formed cfg j) (hu : unexhausted cfg j)
    (hne : (insert cfg j v f).1 ≠ result.thrown exception.cookies_exhausted) :
    unexhausted cfg (insert cfg j v f).2 := by
  by_cases h : ∃ c j1, next_cookie cfg j = (result.returned c, j1)
  · obtain ⟨c, j1, h⟩ := h
    obtain ⟨hwf1, hc, ha, _, _, _⟩ := next_cookie_returned cfg j j1 c hwf h
    obtain ⟨hu1, hl, hle, hnf⟩ := next_cookie_unexhausted cfg j j1 c hu h
    rw [insert_of_draw cfg j j1 c v f h (Or.inl hc) ha, if_neg (by simp [hl])]
    cases f
    · exact unexhausted_add cfg j1 c v hu1 hle hnf (length_lt_of_fresh cfg j1 c hwf1 hc hl)
    · exact unexhausted_push cfg j1 c hu1 hl hle hnf _ (contains_grown j1 c)
    · exact unexhausted_push cfg j1 c hu1 hl hle hnf _ (contains_grown j1 c)
  · have h' : ∀ c j1, next_cookie cfg j ≠ (result.returned c, j1) :=
      fun c j1 e => h ⟨c, j1, e⟩
    obtain ⟨_, _, he⟩ := next_cookie_not_returned cfg j h'
    rw [insert_of_exhausted cfg j _ v f _ he] at hne
    exact absurd rfl hne

theorem remove_unexhausted {α : Type} (cfg : config) (j : basic_jar α) (c : Nat)
    (hwf : well_formed cfg j) (hu : unexhausted cfg j) :
    unexhausted cfg (remove cfg j c).2 := by
  cases hl : contains j c with
  | false =>
    by_cases ha : cfg.ndebug = true ∨ c ∉ j.iFreeCookies
    · rw [remove_of_not_contains cfg j c ha hl]
      exact hu
    · have hd : cfg.ndebug = false := by
        cases hn : cfg.ndebug with
        | true => exact absurd (Or.inl hn) ha
        | false => rfl
      have hc : c ∈ j.iFreeCookies := by
        by_contra hcon
        exact ha (Or.inr hcon)
      rw [remove_of_free_debug cfg j c hd hc]
      exact hu
  | true =>
    obtain ⟨u1, u2, u3, u4⟩ := hu
    have hnf : c ∉ j.iFreeCookies := by
      intro hmem
      have := (u3 c hmem).1
      rw [hl] at this
      exact absurd this (by simp)
    obtain ⟨r, hr, hne⟩ := (contains_iff j c).mp hl
    obtain ⟨x, m, hx, hm, he⟩ := remove_of_contains cfg j c r hwf.1 hr hne (Or.inr hnf)
    rw [he]
    refine ⟨u1, ?_, ?_, ?_⟩
    · show (j.iFreeCookies ++ [c]).Nodup
      rw [List.nodup_append]
      refine ⟨u2, List.nodup_singleton c, ?_⟩
      intro a ha1 ha2
      rw [List.mem_singleton] at ha2
      subst ha2
      exact hnf ha1
    · intro a ha
      rw [contains_remove j c r x m _ hwf.1 hr hne hm a]
      rcases List.mem_append.mp ha with h | h
      · exact ⟨by simp [(u3 a h).1], (u3 a h).2⟩
      · rw [List.mem_singleton.mp h]
        exact ⟨by simp, u4 c hl⟩
    · intro a ha
      rw [contains_remove j c r x m _ hwf.1 hr hne hm a] at ha
      exact u4 a (by
        cases hh : contains j a with
        | true => rfl
        | false => rw [hh] at ha; simp at ha)

theorem reachable_unexhausted_spec {α : Type} (cfg : config) (j : basic_jar α)
    (h : reachable_unexhausted cfg j) : well_formed cfg j ∧ unexhausted cfg j := by
  induction h with
  | new => exact ⟨well_formed_new cfg, unexhausted_new cfg⟩
  | insert j v f _ _ hne ih =>
    exact ⟨(well_formed_insert cfg j v f ih.1).1, insert_unexhausted cfg j v f ih.1 ih.2 hne⟩
  | emplace j v f _ _ hne ih =>
    exact ⟨(well_formed_insert cfg j v f ih.1).1, insert_unexhausted cfg j v f ih.1 ih.2 hne⟩
  | remove j c _ _ ih =>
    exact ⟨(well_formed_remove cfg j c ih.1).1, remove_unexhausted cfg j c ih.1 ih.2⟩

theorem reachable_of_unexhausted {α : Type} (cfg : config) (j : basic_jar α)
    (h : reachable_unexhausted cfg j) : reachable cfg j := by
  induction h with
  | new => exact reachable.new
  | insert j v f _ hf _ ih => exact reachable.insert j v f ih hf
  | emplace j v f _ hf _ ih => exact reachable.emplace j v f ih hf
  | remove j c _ hf ih => exact reachable.remove j c ih hf

theorem insert_returns {α : Type} (cfg : config) (j : basic_jar α) (v : α)
    (hwf : well_formed cfg j) (hu : unexhausted cfg j)
    (hx : j.iFreeCookies ≠ [] ∨
      (j.iNextAvailableCookie + 1) % 2 ^ cfg.cookie_bits ≠ INVALID_COOKIE cfg) :
    ∃ c j1, next_cookie cfg j = (result.returned c, j1) ∧ well_formed cfg j1 ∧
      unexhausted cfg j1 ∧ c < INVALID_COOKIE cfg ∧ contains j1 c = false ∧
      c ≤ j1.iNextAvailableCookie ∧ c ∉ j1.iFreeCookies ∧
      j1.iItems.length < INVALID_REVERSE_INDEX ∧
      insert cfg j v fault.none = (result.returned c,
        { j1 with
          iItems := j1.iItems ++ [v]
          iAllocatedCookies := j1.iAllocatedCookies ++ [c]
          iReverseIndices := (grown j1.iReverseIndices c).set c j1.iItems.length }) := by
  have hdraw : ∃ c j1, next_cookie cfg j = (result.returned c, j1) := by
    rcases next_cookie_cases cfg j with ⟨free, c, _, he⟩ | ⟨hf, he⟩
    · exact ⟨c, _, he⟩
    · rcases hx with h | h
      · exact absurd hf h
      · rw [if_neg h] at he
        exact ⟨_, _, he⟩
  obtain ⟨c, j1, h⟩ := hdraw
  obtain ⟨hwf1, hc, ha, _, _, _⟩ := next_cookie_returned cfg j j1 c hwf h
  obtain ⟨hu1, hl, hle, hnf⟩ := next_cookie_unexhausted cfg j j1 c hu h
  refine ⟨c, j1, h, hwf1, hu1, hc, hl, hle, hnf, length_lt_of_fresh cfg j1 c hwf1 hc hl, ?_⟩
  rw [insert_of_draw cfg j j1 c v fault.none h (Or.inl hc) ha, if_neg (by simp [hl])]

theorem insert_many_succ {α : Type} (cfg : config) (j : basic_jar α) (v : α) (n : Nat) :
    insert_many cfg j v (n + 1) = (insert cfg (insert_many cfg j v n) v fault.none).2 := rfl

theorem insert_many_spec {α : Type} (cfg : config) (v : α) (n : Nat)
    (hn : n < INVALID_COOKIE cfg) :
    reachable_unexhausted cfg (insert_many cfg basic_jar.new v n) ∧
      (insert_many cfg basic_jar.new v n).iFreeCookies = [] ∧
      (insert_many cfg basic_jar.new v n).iNextAvailableCookie = n ∧
      ∀ c, 1 ≤ c → c ≤ n → contains (insert_many cfg basic_jar.new v n) c = true := by
  induction n with
  | zero =>
    refine ⟨reachable_unexhausted.new, rfl, rfl, ?_⟩
    intro c h1 h2
    omega
  | succ n ih =>
    obtain ⟨hr, hf, hcnt, hlive⟩ := ih (by omega)
    obtain ⟨hwf, hu⟩ := reachable_unexhausted_spec cfg _ hr
    have h1 := INVALID_COOKIE_succ cfg
    have hmod : ((insert_many cfg basic_jar.new v n).iNextAvailableCookie + 1)
        % 2 ^ cfg.cookie_bits = n + 1 := by
      rw [hcnt]
      exact Nat.mod_eq_of_lt (by omega)
    have hx : ((insert_many cfg basic_jar.new v n).iNextAvailableCookie + 1)
        % 2 ^ cfg.cookie_bits ≠ INVALID_COOKIE cfg := by
      rw [hmod]
      omega
    obtain ⟨c, j1, hd, _, _, _, _, _, _, hlen, hins⟩ :=
      insert_returns cfg _ v hwf hu (Or.inr hx)
    have hd' : next_cookie cfg (insert_many cfg basic_jar.new v n) =
        (result.returned (n + 1),
          { insert_many cfg basic_jar.new v n with iNextAvailableCookie := n + 1 }) := by
      rcases next_cookie_cases cfg (insert_many cfg basic_jar.new v n) with
        ⟨free, c', hf', _⟩ | ⟨_, he⟩
      · rw [hf] at hf'
        exact absurd hf' (by simp)
      · rw [if_neg hx, hmod] at he
        exact he
    rw [hd'] at hd
    obtain ⟨hc, hj⟩ := Prod.mk.inj hd
    have hc' := result.returned.inj hc
    subst hc' hj
    have hres : (insert cfg (insert_many cfg basic_jar.new v n) v fault.none).1
        = result.returned (n + 1) := by rw [hins]
    rw [insert_many_succ]
    refine ⟨reachable_unexhausted.insert _ v fault.none hr ?_ ?_, ?_, ?_, ?_⟩
    · rw [hres]; rfl
    · rw [hres]; simp
    · rw [hins]; exact hf
    · rw [hins]
    · intro c hc1 hc2
      rw [hins]
      have := contains_add { insert_many cfg basic_jar.new v n with
        iNextAvailableCookie := n + 1 } (n + 1) v c hlen
      rw [this]
      by_cases hcn : n + 1 = c
      · simp [hcn]
      · have hold : contains { insert_many cfg basic_jar.new v n with
            iNextAvailableCookie := n + 1 } c = true :=
          (contains_congr (insert_many cfg basic_jar.new v n) _ rfl c).trans
            (hlive c hc1 (by omega))
        simp [hold]

theorem insert_of_exhausted_counter {α : Type} (cfg : config) (j : basic_jar α) (v : α)
    (f : fault) (hf : j.iFreeCookies = [])
    (hx : (j.iNextAvailableCookie + 1) % 2 ^ cfg.cookie_bits = INVALID_COOKIE cfg) :
    insert cfg j v f = (result.thrown exception.cookies_exhausted,
      { j with iNextAvailableCookie := INVALID_COOKIE cfg }) := by
  rcases next_cookie_cases cfg j with ⟨free, c, hf', _⟩ | ⟨_, he⟩
  · rw [hf] at hf'
    exact absurd hf' (by simp)
  · rw [if_pos hx, hx] at he
    exact insert_of_exhausted cfg j _ v f _ he

theorem two_items_reachable : reachable_unexhausted small_debug two_items :=
  reachable_unexhausted.insert _ _ _
    (reachable_unexhausted.insert _ _ _ reachable_unexhausted.new (by decide) (by decide))
    (by decide) (by decide)

theorem full_small_jar_spec :
    reachable_unexhausted small_release full_small_jar ∧
      full_small_jar.iFreeCookies = [] ∧ full_small_jar.iNextAvailableCookie = 65534 ∧
      ∀ c, 1 ≤ c → c ≤ 65534 → contains full_small_jar c = true :=
  insert_many_spec small_release 0 65534 (by decide)

theorem full_small_jar_insert (v : Nat) :
    insert small_release full_small_jar v fault.none =
      (result.thrown exception.cookies_exhausted,
        { full_small_jar with iNextAvailableCookie := INVALID_COOKIE small_release }) := by
  obtain ⟨_, hf, hc, _⟩ := full_small_jar_spec
  apply insert_of_exhausted_counter small_release full_small_jar v fault.none hf
  rw [hc]
  decide

theorem live_cookies_perm {α : Type} (j : basic_jar α) (hinv : jar_invariant j) :
    (live_cookies j).Perm j.iAllocatedCookies := by
  refine (List.perm_ext_iff_of_nodup ?_ (nodup_allocated j hinv)).mpr ?_
  · exact List.Nodup.filter _ (List.nodup_range _)
  · intro a
    rw [mem_allocated_iff j hinv a]
    unfold live_cookies
    rw [List.mem_filter, List.mem_range]
    constructor
    · exact fun h => h.2
    · intro h
      obtain ⟨r, hr, _⟩ := (contains_iff j a).mp h
      obtain ⟨hlt, _⟩ := List.getElem?_eq_some.mp hr
      exact ⟨hlt, h⟩

theorem next_cookie_of_free {α : Type} (cfg : config) (j : basic_jar α) (l : List Nat) (c : Nat)
    (hf : j.iFreeCookies = l ++ [c]) :
    next_cookie cfg j = (result.returned c, { j with iFreeCookies := l }) := by
  unfold next_cookie
  simp only [hf, List.getLast?_concat, List.dropLast_concat]

theorem remove_live {α : Type} (cfg : config) (j : basic_jar α) (c : Nat)
    (hinv : jar_invariant j) (hl : contains j c = true)
    (ha : cfg.ndebug = true ∨ c ∉ j.iFreeCookies) :
    ∃ p j1, remove cfg j c = (result.returned p, j1) ∧ jar_invariant j1 ∧
      j1.iFreeCookies = j.iFreeCookies ++ [c] ∧
      j1.iNextAvailableCookie = j.iNextAvailableCookie ∧
      j1.iItems.length + 1 = j.iItems.length ∧
      j1.iReverseIndices[c]? = some INVALID_REVERSE_INDEX ∧
      j1.iReverseIndices.length = j.iReverseIndices.length ∧
      (∀ d, contains j1 d = (contains j d && !decide (c = d))) ∧
      (∀ d, lookup j1 d =
        if c = d then result.thrown exception.cookie_invalid else lookup j d) := by
  obtain ⟨r, hr, hne⟩ := (contains_iff j c).mp hl
  obtain ⟨x, m, hx, hm, he⟩ := remove_of_contains cfg j c r hinv hr hne ha
  obtain ⟨_, hrlt, hclt, _, _, hmlt, _⟩ := live_facts j c r m hinv hr hne hm
  refine ⟨r, _, he, jar_invariant_remove j c r x m _ hinv hr hne hm, rfl, rfl, ?_, ?_,
    by simp, contains_remove j c r x m _ hinv hr hne hm,
    lookup_remove j c r x m _ hinv hr hne hx hm⟩
  · show ((j.iItems.set r x).dropLast).length + 1 = j.iItems.length
    rw [List.length_dropLast, List.length_set]
    omega
  · show ((j.iReverseIndices.set m r).set c INVALID_REVERSE_INDEX)[c]? = _
    rw [getElem?_set_set_hole _ _ _ _ _ hmlt hclt, if_pos rfl]

theorem insert_from_free {α : Type} (cfg : config) (j : basic_jar α) (l : List Nat) (c : Nat)
    (v : α) (hinv : jar_invariant j) (hf : j.iFreeCookies = l ++ [c])
    (hh : j.iReverseIndices[c]? = some INVALID_REVERSE_INDEX)
    (ha : cfg.ndebug = true ∨ c ∉ l) (hlen : j.iItems.length < INVALID_REVERSE_INDEX) :
    ∃ j1, insert cfg j v fault.none = (result.returned c, j1) ∧ jar_invariant j1 ∧
      j1.iFreeCookies = l ∧ j1.iNextAvailableCookie = j.iNextAvailableCookie ∧
      j1.iItems = j.iItems ++ [v] ∧
      (∀ d, j1.iReverseIndices[d]? =
        if c = d then some j.iItems.length else j.iReverseIndices[d]?) ∧
      (∀ d, contains j1 d = (decide (c = d) || contains j d)) ∧
      (∀ d, lookup j1 d = if c = d then result.returned v else lookup j d) := by
  have hd := next_cookie_of_free cfg j l c hf
  obtain ⟨hclt, _⟩ := List.getElem?_eq_some.mp hh
  have hl : contains { j with iFreeCookies := l } c = false :=
    (contains_eq_false_iff _ c).mpr (Or.inr hh)
  have hins := insert_of_draw cfg j _ c v fault.none hd (Or.inr hclt) ha
  rw [if_neg (by simp [hl])] at hins
  refine ⟨_, hins, jar_invariant_add { j with iFreeCookies := l } c v hinv hl hlen,
    rfl, rfl, rfl, ?_, fun d => contains_add { j with iFreeCookies := l } c v d hlen,
    fun d => lookup_add { j with iFreeCookies := l } c v d hinv hlen⟩
  intro d
  show ((grown j.iReverseIndices c).set c j.iItems.length)[d]? = _
  rw [grown_eq_self hclt, List.getElem?_set, if_pos hclt]


theorem insert_at_counter {α : Type} (cfg : config) (j : basic_jar α) (v : α)
    (hf : j.iFreeCookies = []) (hn : j.iNextAvailableCookie + 1 < INVALID_COOKIE cfg)
    (hl : contains j (j.iNextAvailableCookie + 1) = false) :
    insert cfg j v fault.none =
      (result.returned (j.iNextAvailableCookie + 1),
        { iNextAvailableCookie := j.iNextAvailableCookie + 1
          iAllocatedCookies := j.iAllocatedCookies ++ [j.iNextAvailableCookie + 1]
          iItems := j.iItems ++ [v]
          iFreeCookies := []
          iReverseIndices :=
            (grown j.iReverseIndices (j.iNextAvailableCookie + 1)).set
              (j.iNextAvailableCookie + 1) j.iItems.length }) := by
  have h1 := INVALID_COOKIE_succ cfg
  have hmod : (j.iNextAvailableCookie + 1) % 2 ^ cfg.cookie_bits
      = j.iNextAvailableCookie + 1 := Nat.mod_eq_of_lt (by omega)
  have hd : next_cookie cfg j = (result.returned (j.iNextAvailableCookie + 1),
      { j with iNextAvailableCookie := j.iNextAvailableCookie + 1 }) := by
    rcases next_cookie_cases cfg j with ⟨free, c', hf', _⟩ | ⟨_, he⟩
    · rw [hf] at hf'
      exact absurd hf' (by simp)
    · rw [hmod, if_neg (by omega)] at he
      exact he
  rw [insert_of_draw cfg j _ _ v fault.none hd (Or.inl hn)
    (Or.inr (by show _ ∉ j.iFreeCookies; rw [hf]; exact List.not_mem_nil _))]
  have hl1 : contains { j with iNextAvailableCookie := j.iNextAvailableCookie + 1 }
      (j.iNextAvailableCookie + 1) = false := (contains_congr j _ rfl _).trans hl
  rw [if_neg (by simp [hl1])]
  simp only [hf]

theorem jar_invariant_items {α β : Type} (j : basic_jar α) (items : List β)
    (h : items.length = j.iItems.length) (hinv : jar_invariant j) :
    jar_invariant (⟨j.iNextAvailableCookie, j.iAllocatedCookies, items, j.iFreeCookies,
      j.iReverseIndices⟩ : basic_jar β) := by
  unfold jar_invariant at hinv ⊢
  simp only [h]
  exact hinv

theorem insert_at_free {α : Type} (cfg : config) (j : basic_jar α) (l : List Nat) (c : Nat)
    (v : α) (hf : j.iFreeCookies = l ++ [c])
    (hh : j.iReverseIndices[c]? = some INVALID_REVERSE_INDEX)
    (ha : cfg.ndebug = true ∨ c ∉ l) :
    insert cfg j v fault.none =
      (result.returned c,
        { iNextAvailableCookie := j.iNextAvailableCookie
          iAllocatedCookies := j.iAllocatedCookies ++ [c]
          iItems := j.iItems ++ [v]
          iFreeCookies := l
          iReverseIndices := j.iReverseIndices.set c j.iItems.length }) := by
  have hd := next_cookie_of_free cfg j l c hf
  obtain ⟨hclt, _⟩ := List.getElem?_eq_some.mp hh
  have hl : contains { j with iFreeCookies := l } c = false :=
    (contains_eq_false_iff _ c).mpr (Or.inr hh)
  rw [insert_of_draw cfg j _ c v fault.none hd (Or.inr hclt) ha, if_neg (by simp [hl])]
  simp only [grown_eq_self hclt]

theorem insert_many_zero_free {α : Type} (cfg : config) (v : α) (n : Nat)
    (hn : n < INVALID_COOKIE cfg) :
    contains (insert_many cfg basic_jar.new v n) 0 = false := by
  induction n with
  | zero => rfl
  | succ n ih =>
    obtain ⟨hr, hf, hcnt, _⟩ := insert_many_spec cfg v n (by omega)
    obtain ⟨hwf, _⟩ := reachable_unexhausted_spec cfg _ hr
    have hl : contains (insert_many cfg basic_jar.new v n)
        ((insert_many cfg basic_jar.new v n).iNextAvailableCookie + 1) = false := by
      cases h : contains (insert_many cfg basic_jar.new v n)
        ((insert_many cfg basic_jar.new v n).iNextAvailableCookie + 1) with
      | false => rfl
      | true =>
        have := (reachable_unexhausted_spec cfg _ hr).2.2.2.2 _ h
        omega
    have hins := insert_at_counter cfg _ v hf (by rw [hcnt]; exact hn) hl
    rw [insert_many_succ, hins]
    have hlen := length_lt_of_fresh cfg _ _ hwf (by rw [hcnt]; exact hn) hl
    have := contains_add (insert_many cfg basic_jar.new v n)
      ((insert_many cfg basic_jar.new v n).iNextAvailableCookie + 1) v 0 hlen
    rw [ih (by omega)] at this
    simpa using this

theorem next_cookie_of_counter {α : Type} (cfg : config) (j : basic_jar α) (c : Nat)
    (hf : j.iFreeCookies = [])
    (hc : (j.iNextAvailableCookie + 1) % 2 ^ cfg.cookie_bits = c)
    (hne : c ≠ INVALID_COOKIE cfg) :
    next_cookie cfg j = (result.returned c, { j with iNextAvailableCookie := c }) := by
  rcases next_cookie_cases cfg j with ⟨free, c', hf', _⟩ | ⟨_, he⟩
  · rw [hf] at hf'
    exact absurd hf' (by simp)
  · rw [hc, if_neg hne] at he
    exact he

/-- Three inserts into a full jar, in a build with assertions: the first throws
`cookies_exhausted` and leaves the counter on the sentinel, the second wraps the
counter and binds cookie 0, the third draws cookie 1, which is live, fails with
`cookie_already_added` and returns cookie 1 to the free list.  A live cookie is
then on the free list and `remove` of it stops at the assertion. -/
theorem wrapped_after_exhaustion {α : Type} (cfg : config) (j : basic_jar α) (v : α)
    (hr : reachable cfg j) (hd : cfg.ndebug = false) (hf : j.iFreeCookies = [])
    (hx : j.iNextAvailableCookie + 1 = INVALID_COOKIE cfg)
    (h0 : contains j 0 = false) (h1 : contains j 1 = true) (h2 : contains j 2 = true) :
    reachable cfg (insert_many cfg j v 3) ∧
      contains (insert_many cfg j v 3) 1 = true ∧
      contains (insert_many cfg j v 3) 2 = true ∧
      (insert_many cfg j v 3).iFreeCookies = [1] ∧
      remove cfg (insert_many cfg j v 3) 1 = (result.aborted, insert_many cfg j v 3) := by
  have h3 : insert_many cfg j v 3 =
      (insert cfg (insert cfg (insert cfg j v fault.none).2 v fault.none).2 v
        fault.none).2 := rfl
  rw [h3]
  have hI := INVALID_COOKIE_ge cfg
  have hS := INVALID_COOKIE_succ cfg
  have hpos : 0 < 2 ^ cfg.cookie_bits := by omega
  have hwf := reachable_well_formed cfg j hr
  have e1 : insert cfg j v fault.none = (result.thrown exception.cookies_exhausted,
      { j with iNextAvailableCookie := INVALID_COOKIE cfg }) :=
    insert_of_exhausted_counter cfg j v fault.none hf
      (by rw [hx]; exact Nat.mod_eq_of_lt (by omega))
  have r1 := reachable.insert j v fault.none hr (by rw [e1]; rfl)
  rw [e1]
  rw [e1] at r1
  simp only at r1 ⊢
  generalize hj1 : ({ j with iNextAvailableCookie := INVALID_COOKIE cfg } : basic_jar α) = j1
    at r1 ⊢
  have f1 : j1.iFreeCookies = [] := by rw [← hj1]; exact hf
  have c1 : j1.iNextAvailableCookie = INVALID_COOKIE cfg := by rw [← hj1]
  have k1 : ∀ d, contains j1 d = contains j d := fun d =>
    contains_congr j j1 (by rw [← hj1]) d
  have w1 := reachable_well_formed cfg j1 r1
  have d2 := next_cookie_of_counter cfg j1 0 f1
    (by rw [c1, hS]; exact Nat.mod_self _) (by omega)
  obtain ⟨w1', _, _, _, _, _⟩ := next_cookie_returned cfg j1 _ 0 w1 d2
  have l0 : contains { j1 with iNextAvailableCookie := 0 } 0 = false :=
    (contains_congr j1 _ rfl 0).trans ((k1 0).trans h0)
  have e2 := insert_of_draw cfg j1 _ 0 v fault.none d2 (Or.inl (by omega))
    (Or.inr (by show 0 ∉ j1.iFreeCookies; rw [f1]; exact List.not_mem_nil 0))
  rw [if_neg (by simp [l0])] at e2
  have hlen := length_lt_of_fresh cfg _ 0 w1' (by omega) l0
  have r2 := reachable.insert j1 v fault.none r1 (by rw [e2]; rfl)
  have k2 : ∀ d, contains (insert cfg j1 v fault.none).2 d = (decide (0 = d) || contains j d) := by
    intro d
    rw [e2]
    have hc : contains { j1 with iNextAvailableCookie := 0 } d = contains j d :=
      (contains_congr j1 _ rfl d).trans (k1 d)
    exact (contains_add { j1 with iNextAvailableCookie := 0 } 0 v d hlen).trans (by rw [hc])
  have f2 : (insert cfg j1 v fault.none).2.iFreeCookies = [] := by rw [e2]; exact f1
  have c2 : (insert cfg j1 v fault.none).2.iNextAvailableCookie = 0 := by rw [e2]
  generalize (insert cfg j1 v fault.none).2 = j2 at r2 k2 f2 c2 ⊢
  have w2 := reachable_well_formed cfg j2 r2
  have d3 := next_cookie_of_counter cfg j2 1 f2
    (by rw [c2]; exact Nat.mod_eq_of_lt (by omega)) (by omega)
  have l1 : contains { j2 with iNextAvailableCookie := 1 } 1 = true :=
    (contains_congr j2 _ rfl 1).trans (by rw [k2 1, h1]; simp)
  have e3 := insert_of_draw cfg j2 _ 1 v fault.none d3 (Or.inl (by omega))
    (Or.inr (by show 1 ∉ j2.iFreeCookies; rw [f2]; exact List.not_mem_nil 1))
  rw [if_pos l1] at e3
  have r3 := reachable.insert j2 v fault.none r2 (by rw [e3]; rfl)
  have k3 : ∀ d, contains (insert cfg j2 v fault.none).2 d = contains j2 d := by
    intro d
    rw [e3]
    exact contains_congr j2 _ rfl d
  have f3 : (insert cfg j2 v fault.none).2.iFreeCookies = [1] := by
    rw [e3]
    show j2.iFreeCookies ++ [1] = [1]
    rw [f2]
    rfl
  refine ⟨r3, ?_, ?_, f3, ?_⟩
  · rw [k3 1, k2 1, h1]; simp
  · rw [k3 2, k2 2, h2]; simp
  · exact remove_of_free_debug cfg _ 1 hd (by rw [f3]; simp)

theorem full_small_debug_spec :
    reachable_unexhausted small_debug full_small_debug ∧
      full_small_debug.iFreeCookies = [] ∧ full_small_debug.iNextAvailableCookie = 65534 ∧
      ∀ c, 1 ≤ c → c ≤ 65534 → contains full_small_debug c = true :=
  insert_many_spec small_debug 0 65534 (by decide)

theorem wrapped_jar_spec :
    reachable small_debug wrapped_jar ∧ contains wrapped_jar 1 = true ∧
      contains wrapped_jar 2 = true ∧ wrapped_jar.iFreeCookies = [1] ∧
      remove small_debug wrapped_jar 1 = (result.aborted, wrapped_jar) :=
  wrapped_after_exhaustion small_debug full_small_debug 0
    (reachable_of_unexhausted _ _ full_small_debug_spec.1) rfl full_small_debug_spec.2.1
    (by rw [full_small_debug_spec.2.2.1]; decide)
    (insert_many_zero_free small_debug 0 65534 (by decide))
    (full_small_debug_spec.2.2.2 1 (by decide) (by decide))
    (full_small_debug_spec.2.2.2 2 (by decide) (by decide))

theorem add_already_added {α : Type} (cfg : config) (j j2 : basic_jar α) (c : Nat) (v : α)
    (f : fault) (h : add cfg j c v f = (result.thrown exception.cookie_already_added, j2)) :
    contains j c = true := by
  have ha := (add_thrown cfg j j2 c v f _ h).1
  by_contra hl
  have hl : contains j c = false := by simpa using hl
  have hget := (contains_eq_false_iff j c).mp hl
  unfold add at h
  rw [assert_passes cfg _ c ha] at h
  simp only [Bool.false_eq_true, if_false] at h
  split at h
  · simp at h
  · by_cases hn : j.iReverseIndices.length ≤ c
    · simp only [if_pos hn] at h
      simp only [List.getElem?_append, List.getElem?_replicate] at h
      rw [if_neg (by omega)] at h
      split at h
      · simp at h
      · rename_i r hr
        split at hr
        · simp only [Option.some.injEq] at hr
          rw [if_neg (by simpa using hr.symm)] at h
          cases f <;> simp at h
        · simp at hr
    · simp only [if_neg hn] at h
      split at h
      · simp at h
      · rename_i r hr
        rcases hget with h1 | h1
        · rw [h1] at hr; simp at hr
        · rw [h1] at hr
          simp only [Option.some.injEq] at hr
          rw [if_neg (by simpa using hr.symm)] at h
          cases f <;> simp at h

/-! ## The tables of the registry -/

theorem table_find_append {β : Type} (m : List (Nat × β)) (k key : Nat) (v : β) :
    table_find (m ++ [(k, v)]) key =
      match table_find m key with
      | some x => some x
      | Option.none => if k = key then some v else Option.none := by
  induction m with
  | nil => simp [table_find]
  | cons p m ih =>
    obtain ⟨k1, v1⟩ := p
    simp only [List.cons_append, table_find]
    by_cases h : k1 = key
    · simp [h]
    · simp only [if_neg h]
      exact ih

theorem table_find_map {β γ : Type} (f : Nat × β → Nat × γ) (hf : ∀ p, (f p).1 = p.1)
    (m : List (Nat × β)) (key : Nat) :
    table_find (m.map f) key = (table_find m key).map (fun v => (f (key, v)).2) := by
  induction m with
  | nil => simp [table_find]
  | cons p m ih =>
    obtain ⟨k1, v1⟩ := p
    have h1 : f (k1, v1) = (k1, (f (k1, v1)).2) := Prod.ext (hf _) rfl
    rw [List.map_cons, h1]
    simp only [table_find]
    by_cases h : k1 = key
    · subst h; simp
    · simp only [if_neg h]
      exact ih

theorem table_find_update {β : Type} (m : List (Nat × β)) (key k : Nat) (f : β → β) :
    table_find (table_update m key f) k =
      if k = key then (table_find m k).map f else table_find m k := by
  unfold table_update
  rw [table_find_map _ (fun p => by by_cases h : p.1 = key <;> simp [h])]
  by_cases h : k = key
  · simp [h]
  · simp only [if_neg h]
    cases table_find m k <;> simp

theorem table_emplace_of_some {β : Type} (m : List (Nat × β)) (key : Nat) (v x : β)
    (h : table_find m key = some x) : table_emplace m key v = (m, false) := by
  unfold table_emplace
  simp only [h]

theorem table_emplace_of_none {β : Type} (m : List (Nat × β)) (key : Nat) (v : β)
    (h : table_find m key = Option.none) : table_emplace m key v = (m ++ [(key, v)], true) := by
  unfold table_emplace
  simp only [h]

theorem table_find_filter {δ : Type} (m : List (Nat × δ)) (e key : Nat) :
    table_find (m.filter (fun r => r.1 != e)) key =
      if key = e then Option.none else table_find m key := by
  induction m with
  | nil => simp [table_find]
  | cons p m ih =>
    obtain ⟨k1, v1⟩ := p
    by_cases h1 : k1 = e
    · subst h1
      rw [List.filter_cons_of_neg (by simp), ih]
      by_cases h2 : key = k1
      · simp [h2]
      · simp only [if_neg h2, table_find]
        rw [if_neg (fun h => h2 h.symm)]
    · rw [List.filter_cons_of_pos (by simpa using h1)]
      simp only [table_find]
      by_cases h2 : k1 = key
      · subst h2
        simp [h1]
      · simp only [if_neg h2]
        exact ih

theorem register_component_of_registered {δ σ : Type} (s : ecs δ σ) (id : Nat)
    (f : Unit → component_instance δ) (h : component_registered s id = true) :
    register_component s id f = (result.thrown exception.uuid_exists, s) := by
  unfold component_registered at h
  obtain ⟨x, hx⟩ := Option.isSome_iff_exists.mp h
  unfold register_component
  rw [table_emplace_of_some _ _ _ x hx]

theorem register_component_of_fresh {δ σ : Type} (s : ecs δ σ) (id : Nat)
    (f : Unit → component_instance δ) (h : component_registered s id = false) :
    register_component s id f =
      (result.returned (), { s with iComponentFactories := s.iComponentFactories ++ [(id, f)] }) := by
  unfold component_registered at h
  unfold register_component
  rw [table_emplace_of_none _ _ _ (by simpa using h)]

theorem register_system_of_registered {δ σ : Type} (s : ecs δ σ) (id : Nat)
    (f : Unit → σ) (h : system_registered s id = true) :
    register_system s id f = (result.thrown exception.uuid_exists, s) := by
  unfold system_registered at h
  obtain ⟨x, hx⟩ := Option.isSome_iff_exists.mp h
  unfold register_system
  rw [table_emplace_of_some _ _ _ x hx]

theorem register_system_of_fresh {δ σ : Type} (s : ecs δ σ) (id : Nat)
    (f : Unit → σ) (h : system_registered s id = false) :
    register_system s id f =
      (result.returned (), { s with iSystemFactories := s.iSystemFactories ++ [(id, f)] }) := by
  unfold system_registered at h
  unfold register_system
  rw [table_emplace_of_none _ _ _ (by simpa using h)]

theorem register_archetype_of_registered {δ σ : Type} (s : ecs δ σ) (a : entity_archetype)
    (h : archetype_registered s a = true) :
    register_archetype s a = (result.thrown exception.uuid_exists, s) := by
  unfold archetype_registered at h
  obtain ⟨x, hx⟩ := Option.isSome_iff_exists.mp h
  unfold register_archetype
  rw [table_emplace_of_some _ _ _ x hx]

theorem register_archetype_of_fresh {δ σ : Type} (s : ecs δ σ) (a : entity_archetype)
    (h : archetype_registered s a = false) :
    register_archetype s a =
      (result.returned (), { s with iArchetypeRegistry := s.iArchetypeRegistry ++ [(a.id, a)] }) := by
  unfold archetype_registered at h
  unfold register_archetype
  rw [table_emplace_of_none _ _ _ (by simpa using h)]

theorem table_find_append_self {β : Type} (m : List (Nat × β)) (key : Nat) (v : β)
    (h : table_find m key = Option.none) : table_find (m ++ [(key, v)]) key = some v := by
  rw [table_find_append, h]
  simp

/-! ## Lazy instantiation -/

theorem table_find_append_ne {β : Type} (m : List (Nat × β)) (k key : Nat) (v : β)
    (h : key ≠ k) : table_find (m ++ [(k, v)]) key = table_find m key := by
  rw [table_find_append]
  cases table_find m key with
  | some x => rfl
  | none =>
    simp only
    rw [if_neg (fun hk : k = key => h hk.symm)]

theorem component_of_instantiated {δ σ : Type} (s : ecs δ σ) (id : Nat)
    (c : component_instance δ) (h : table_find s.iComponents id = some c) :
    component s id = (result.returned c, s) := by
  unfold component
  simp only [h]

theorem component_of_factory {δ σ : Type} (s : ecs δ σ) (id : Nat)
    (f : Unit → component_instance δ) (h1 : table_find s.iComponents id = Option.none)
    (h2 : table_find s.iComponentFactories id = some f) :
    component s id = (result.returned (f ()),
      { s with
        iComponents := s.iComponents ++ [(id, f ())]
        component_factory_calls := s.component_factory_calls ++ [id] }) := by
  unfold component
  simp only [h1, h2, table_emplace_of_none _ _ _ h1]

theorem component_of_unknown {δ σ : Type} (s : ecs δ σ) (id : Nat)
    (h1 : table_find s.iComponents id = Option.none)
    (h2 : table_find s.iComponentFactories id = Option.none) :
    component s id = (result.thrown exception.component_not_found, s) := by
  unfold component
  simp only [h1, h2]

theorem system_of_instantiated {δ σ : Type} (env : collaborators δ σ) (s : ecs δ σ) (id : Nat)
    (t : σ) (h : table_find s.iSystems id = some t) :
    system env s id = (result.returned t, s) := by
  unfold system
  simp only [h]

theorem system_of_factory {δ σ : Type} (env : collaborators δ σ) (s : ecs δ σ) (id : Nat)
    (f : Unit → σ) (h1 : table_find s.iSystems id = Option.none)
    (h2 : table_find s.iSystemFactories id = some f) :
    system env s id =
      (result.returned (if s.iSystemsPaused then env.pause (f ()) else f ()),
      { s with
        iSystems := s.iSystems ++ [(id, if s.iSystemsPaused then env.pause (f ()) else f ())]
        system_factory_calls := s.system_factory_calls ++ [id] }) := by
  unfold system all_systems_paused
  simp only [h1, h2, table_emplace_of_none _ _ _ h1]

theorem system_of_unknown {δ σ : Type} (env : collaborators δ σ) (s : ecs δ σ) (id : Nat)
    (h1 : table_find s.iSystems id = Option.none)
    (h2 : table_find s.iSystemFactories id = Option.none) :
    system env s id = (result.thrown exception.system_not_found, s) := by
  unfold system
  simp only [h1, h2]

theorem component_cases {δ σ : Type} (s : ecs δ σ) (id : Nat) :
    (∃ c, table_find s.iComponents id = some c ∧ component s id = (result.returned c, s)) ∨
    (table_find s.iComponents id = Option.none ∧
      ∃ f, table_find s.iComponentFactories id = some f ∧
        component s id = (result.returned (f ()),
          { s with
            iComponents := s.iComponents ++ [(id, f ())]
            component_factory_calls := s.component_factory_calls ++ [id] })) ∨
    (table_find s.iComponents id = Option.none ∧
      table_find s.iComponentFactories id = Option.none ∧
      component s id = (result.thrown exception.component_not_found, s)) := by
  cases h1 : table_find s.iComponents id with
  | some c => exact Or.inl ⟨c, rfl, component_of_instantiated s id c h1⟩
  | none =>
    cases h2 : table_find s.iComponentFactories id with
    | some f => exact Or.inr (Or.inl ⟨rfl, f, rfl, component_of_factory s id f h1 h2⟩)
    | none => exact Or.inr (Or.inr ⟨rfl, rfl, component_of_unknown s id h1 h2⟩)

theorem system_cases {δ σ : Type} (env : collaborators δ σ) (s : ecs δ σ) (id : Nat) :
    (∃ t, table_find s.iSystems id = some t ∧ system env s id = (result.returned t, s)) ∨
    (table_find s.iSystems id = Option.none ∧
      ∃ f, table_find s.iSystemFactories id = some f ∧
        system env s id =
          (result.returned (if s.iSystemsPaused then env.pause (f ()) else f ()),
          { s with
            iSystems := s.iSystems ++
              [(id, if s.iSystemsPaused then env.pause (f ()) else f ())]
            system_factory_calls := s.system_factory_calls ++ [id] })) ∨
    (table_find s.iSystems id = Option.none ∧
      table_find s.iSystemFactories id = Option.none ∧
      system env s id = (result.thrown exception.system_not_found, s)) := by
  cases h1 : table_find s.iSystems id with
  | some c => exact Or.inl ⟨c, rfl, system_of_instantiated env s id c h1⟩
  | none =>
    cases h2 : table_find s.iSystemFactories id with
    | some f => exact Or.inr (Or.inl ⟨rfl, f, rfl, system_of_factory env s id f h1 h2⟩)
    | none => exact Or.inr (Or.inr ⟨rfl, rfl, system_of_unknown env s id h1 h2⟩)

/-! ## What every operation of the registry keeps -/

theorem follows_refl {δ σ : Type} (s : ecs δ σ) : follows s s :=
  ⟨rfl, fun _ h => h, fun _ h => h, fun _ h => h, fun _ h => h, fun h => h⟩

theorem follows_trans {δ σ : Type} {s s2 s3 : ecs δ σ} (h1 : follows s s2)
    (h2 : follows s2 s3) : follows s s3 :=
  ⟨h2.1.trans h1.1, fun id h => h2.2.1 id (h1.2.1 id h),
    fun id h => h2.2.2.1 id (h1.2.2.1 id h), fun id h => h2.2.2.2.1 id (h1.2.2.2.1 id h),
    fun id h => h2.2.2.2.2.1 id (h1.2.2.2.2.1 id h),
    fun h => h2.2.2.2.2.2 (h1.2.2.2.2.2 h)⟩

/-- An operation that keeps the flags, the factory tables, the identifiers under
which instances are stored and the records of factory calls. -/
theorem follows_of_same {δ σ : Type} (s s2 : ecs δ σ) (hf : s2.iFlags = s.iFlags)
    (h1 : s2.iComponentFactories = s.iComponentFactories)
    (h2 : ∀ id, (table_find s2.iComponents id).isSome = (table_find s.iComponents id).isSome)
    (h3 : s2.iSystemFactories = s.iSystemFactories)
    (h4 : ∀ id, (table_find s2.iSystems id).isSome = (table_find s.iSystems id).isSome)
    (h5 : s2.component_factory_calls = s.component_factory_calls)
    (h6 : s2.system_factory_calls = s.system_factory_calls) : follows s s2 := by
  refine ⟨hf, fun id h => ?_, fun id h => ?_, fun id h => ?_, fun id h => ?_, fun h => ⟨?_, ?_⟩⟩
  · unfold component_registered at h ⊢; rw [h1]; exact h
  · unfold component_instantiated at h ⊢; rw [h2]; exact h
  · unfold system_registered at h ⊢; rw [h3]; exact h
  · unfold system_instantiated at h ⊢; rw [h4]; exact h
  · intro id
    have := h.1 id
    unfold component_instantiated at this ⊢
    rw [h5, h2]; exact this
  · intro id
    have := h.2 id
    unfold system_instantiated at this ⊢
    rw [h6, h4]; exact this

theorem isSome_table_find_map {β : Type} (f : Nat × β → Nat × β) (hf : ∀ p, (f p).1 = p.1)
    (m : List (Nat × β)) (key : Nat) :
    (table_find (m.map f) key).isSome = (table_find m key).isSome := by
  rw [table_find_map f hf]
  cases table_find m key <;> rfl

theorem isSome_table_find_update {β : Type} (m : List (Nat × β)) (key k : Nat) (f : β → β) :
    (table_find (table_update m key f) k).isSome = (table_find m k).isSome := by
  rw [table_find_update]
  by_cases h : k = key
  · rw [if_pos h]; cases table_find m k <;> rfl
  · rw [if_neg h]

theorem follows_trigger {δ σ : Type} (s : ecs δ σ) (e : event) : follows s (trigger s e) :=
  follows_of_same _ _ rfl rfl (fun _ => rfl) rfl (fun _ => rfl) rfl rfl

theorem follows_next_entity_id {δ σ : Type} (cfg : ecs_config) (s : ecs δ σ) :
    follows s (next_entity_id cfg s).2 := by
  unfold next_entity_id
  split
  · exact follows_of_same _ _ rfl rfl (fun _ => rfl) rfl (fun _ => rfl) rfl rfl
  · simp only
    split <;> exact follows_of_same _ _ rfl rfl (fun _ => rfl) rfl (fun _ => rfl) rfl rfl

theorem follows_next_handle_id {δ σ : Type} (cfg : ecs_config) (s : ecs δ σ) :
    follows s (next_handle_id cfg s).2 := by
  unfold next_handle_id
  split
  · exact follows_of_same _ _ rfl rfl (fun _ => rfl) rfl (fun _ => rfl) rfl rfl
  · simp only
    split <;> exact follows_of_same _ _ rfl rfl (fun _ => rfl) rfl (fun _ => rfl) rfl rfl

theorem follows_populate {δ σ : Type} (s : ecs δ σ) (f : component_instance δ → component_instance δ) :
    follows s { s with iComponents := table_update s.iComponents entity_info_id f } :=
  follows_of_same _ _ rfl rfl (fun _ => isSome_table_find_update _ _ _ _) rfl (fun _ => rfl)
    rfl rfl

theorem isSome_table_find_append {β : Type} (m : List (Nat × β)) (k key : Nat) (v : β) :
    (table_find (m ++ [(k, v)]) key).isSome =
      ((table_find m key).isSome || decide (k = key)) := by
  rw [table_find_append]
  cases table_find m key with
  | some x => rfl
  | none => by_cases h : k = key <;> simp [h]

theorem follows_register_component {δ σ : Type} (s : ecs δ σ) (id : Nat)
    (f : Unit → component_instance δ) : follows s (register_component s id f).2 := by
  cases h : component_registered s id with
  | true => rw [register_component_of_registered s id f h]; exact follows_refl s
  | false =>
    rw [register_component_of_fresh s id f h]
    refine ⟨rfl, fun k hk => ?_, fun _ h => h, fun _ h => h, fun _ h => h, fun h => h⟩
    unfold component_registered at hk ⊢
    simp only [isSome_table_find_append, hk, Bool.true_or]

theorem follows_register_system {δ σ : Type} (s : ecs δ σ) (id : Nat)
    (f : Unit → σ) : follows s (register_system s id f).2 := by
  cases h : system_registered s id with
  | true => rw [register_system_of_registered s id f h]; exact follows_refl s
  | false =>
    rw [register_system_of_fresh s id f h]
    refine ⟨rfl, fun _ h => h, fun _ h => h, fun k hk => ?_, fun _ h => h, fun h => h⟩
    unfold system_registered at hk ⊢
    simp only [isSome_table_find_append, hk, Bool.true_or]

theorem follows_register_archetype {δ σ : Type} (s : ecs δ σ) (a : entity_archetype) :
    follows s (register_archetype s a).2 := by
  cases h : archetype_registered s a with
  | true => rw [register_archetype_of_registered s a h]; exact follows_refl s
  | false =>
    rw [register_archetype_of_fresh s a h]
    exact follows_of_same _ _ rfl rfl (fun _ => rfl) rfl (fun _ => rfl) rfl rfl

theorem follows_component {δ σ : Type} (s : ecs δ σ) (id : Nat) :
    follows s (component s id).2 := by
  rcases component_cases s id with ⟨c, _, he⟩ | ⟨h1, f, _, he⟩ | ⟨_, _, he⟩
  · rw [he]; exact follows_refl s
  · rw [he]
    refine ⟨rfl, fun _ h => h, fun k hk => ?_, fun _ h => h, fun _ h => h, fun h => ⟨?_, h.2⟩⟩
    · unfold component_instantiated at hk ⊢
      simp only [isSome_table_find_append, hk, Bool.true_or]
    · intro k
      have hk := h.1 k
      unfold component_instantiated at hk ⊢
      simp only [isSome_table_find_append, List.count_append, hk]
      by_cases hid : id = k
      · subst hid
        simp [h1]
      · have : k ≠ id := fun h => hid h.symm
        simp [hid, this]
  · rw [he]; exact follows_refl s

theorem follows_system {δ σ : Type} (env : collaborators δ σ) (s : ecs δ σ) (id : Nat) :
    follows s (system env s id).2 := by
  rcases system_cases env s id with ⟨c, _, he⟩ | ⟨h1, f, _, he⟩ | ⟨_, _, he⟩
  · rw [he]; exact follows_refl s
  · rw [he]
    refine ⟨rfl, fun _ h => h, fun _ h => h, fun _ h => h, fun k hk => ?_, fun h => ⟨h.1, ?_⟩⟩
    · unfold system_instantiated at hk ⊢
      simp only [isSome_table_find_append, hk, Bool.true_or]
    · intro k
      have hk := h.2 k
      unfold system_instantiated at hk ⊢
      simp only [isSome_table_find_append, List.count_append, hk]
      by_cases hid : id = k
      · subst hid
        simp [h1]
      · have : k ≠ id := fun h => hid h.symm
        simp [hid, this]
  · rw [he]; exact follows_refl s

theorem next_entity_id_of_free {δ σ : Type} (cfg : ecs_config) (s : ecs δ σ) (l : List Nat)
    (x : Nat) (hf : s.iFreedEntityIds = l ++ [x]) :
    next_entity_id cfg s = (result.returned x, { s with iFreedEntityIds := l }) := by
  unfold next_entity_id
  simp only [hf, List.getLast?_concat, List.dropLast_concat]

theorem next_entity_id_of_counter {δ σ : Type} (cfg : ecs_config) (s : ecs δ σ)
    (hf : s.iFreedEntityIds = [])
    (hn : (s.iNextEntityId + 1) % 2 ^ cfg.entity_id_bits ≠ 0) :
    next_entity_id cfg s =
      (result.returned ((s.iNextEntityId + 1) % 2 ^ cfg.entity_id_bits),
        { s with iNextEntityId := (s.iNextEntityId + 1) % 2 ^ cfg.entity_id_bits }) := by
  unfold next_entity_id null_entity
  simp only [hf, List.getLast?_nil]
  rw [if_neg hn]

theorem next_entity_id_exhausted {δ σ : Type} (cfg : ecs_config) (s : ecs δ σ)
    (hf : s.iFreedEntityIds = [])
    (hn : (s.iNextEntityId + 1) % 2 ^ cfg.entity_id_bits = 0) :
    next_entity_id cfg s =
      (result.thrown exception.entity_ids_exhausted, { s with iNextEntityId := 0 }) := by
  unfold next_entity_id null_entity
  simp only [hf, List.getLast?_nil]
  rw [if_pos hn, hn]

theorem next_entity_id_cases {δ σ : Type} (cfg : ecs_config) (s : ecs δ σ) :
    (∃ l x, s.iFreedEntityIds = l ++ [x] ∧
      next_entity_id cfg s = (result.returned x, { s with iFreedEntityIds := l })) ∨
    (s.iFreedEntityIds = [] ∧ (s.iNextEntityId + 1) % 2 ^ cfg.entity_id_bits ≠ 0 ∧
      next_entity_id cfg s =
        (result.returned ((s.iNextEntityId + 1) % 2 ^ cfg.entity_id_bits),
          { s with iNextEntityId := (s.iNextEntityId + 1) % 2 ^ cfg.entity_id_bits })) ∨
    (s.iFreedEntityIds = [] ∧ (s.iNextEntityId + 1) % 2 ^ cfg.entity_id_bits = 0 ∧
      next_entity_id cfg s =
        (result.thrown exception.entity_ids_exhausted, { s with iNextEntityId := 0 })) := by
  rcases List.eq_nil_or_concat s.iFreedEntityIds with hf | ⟨l, x, hf⟩
  · by_cases hn : (s.iNextEntityId + 1) % 2 ^ cfg.entity_id_bits = 0
    · exact Or.inr (Or.inr ⟨hf, hn, next_entity_id_exhausted cfg s hf hn⟩)
    · exact Or.inr (Or.inl ⟨hf, hn, next_entity_id_of_counter cfg s hf hn⟩)
  · rw [List.concat_eq_append] at hf
    exact Or.inl ⟨l, x, hf, next_entity_id_of_free cfg s l x hf⟩

/-- The ways a call of `create_entity` runs: the draw of the id throws; or the
id is drawn and `PopulateEntityInfo` is not set; or the lookup of the entity
info component throws; or the lookup of the time system throws; or the entity
info of the new id is populated. -/
theorem create_entity_cases {δ σ : Type} (env : collaborators δ σ) (cfg : ecs_config)
    (s : ecs δ σ) (a : Nat) :
    (∃ x, (next_entity_id cfg s).1 = result.thrown x ∧
      create_entity env cfg s a = (result.thrown x, (next_entity_id cfg s).2)) ∨
    (∃ e, (next_entity_id cfg s).1 = result.returned e ∧
      (next_entity_id cfg s).2.iFlags.PopulateEntityInfo = false ∧
      create_entity env cfg s a =
        (result.returned e, trigger (next_entity_id cfg s).2 (event.EntityCreated e))) ∨
    (∃ e x, (next_entity_id cfg s).1 = result.returned e ∧
      (next_entity_id cfg s).2.iFlags.PopulateEntityInfo = true ∧
      (component (next_entity_id cfg s).2 entity_info_id).1 = result.thrown x ∧
      create_entity env cfg s a =
        (result.thrown x, (component (next_entity_id cfg s).2 entity_info_id).2)) ∨
    (∃ e c x, (next_entity_id cfg s).1 = result.returned e ∧
      (next_entity_id cfg s).2.iFlags.PopulateEntityInfo = true ∧
      (component (next_entity_id cfg s).2 entity_info_id).1 = result.returned c ∧
      (system env (component (next_entity_id cfg s).2 entity_info_id).2 env.time_id).1 =
        result.thrown x ∧
      create_entity env cfg s a =
        (result.thrown x,
          (system env (component (next_entity_id cfg s).2 entity_info_id).2 env.time_id).2)) ∨
    (∃ e c t, (next_entity_id cfg s).1 = result.returned e ∧
      (next_entity_id cfg s).2.iFlags.PopulateEntityInfo = true ∧
      (component (next_entity_id cfg s).2 entity_info_id).1 = result.returned c ∧
      (system env (component (next_entity_id cfg s).2 entity_info_id).2 env.time_id).1 =
        result.returned t ∧
      create_entity env cfg s a =
        (result.returned e,
          trigger
            { (system env (component (next_entity_id cfg s).2 entity_info_id).2 env.time_id).2
              with
              iComponents := table_update
                (system env (component (next_entity_id cfg s).2 entity_info_id).2
                  env.time_id).2.iComponents
                entity_info_id
                (fun c => populate c e (env.entity_info a (env.world_time t))) }
            (event.EntityCreated e))) := by
  have hn : ∃ r s1, next_entity_id cfg s = (r, s1) ∧
      (r = result.thrown exception.entity_ids_exhausted ∨ ∃ e, r = result.returned e) := by
    rcases next_entity_id_cases cfg s with ⟨l, x, _, he⟩ | ⟨_, _, he⟩ | ⟨_, _, he⟩
    · exact ⟨_, _, he, Or.inr ⟨_, rfl⟩⟩
    · exact ⟨_, _, he, Or.inr ⟨_, rfl⟩⟩
    · exact ⟨_, _, he, Or.inl rfl⟩
  obtain ⟨r, s1, hn, hr⟩ := hn
  unfold create_entity
  rw [hn]
  rcases hr with hr | ⟨e, hr⟩
  · subst hr
    exact Or.inl ⟨_, rfl, rfl⟩
  · subst hr
    right
    simp only
    cases hflag : s1.iFlags.PopulateEntityInfo with
    | false =>
      left
      refine ⟨e, ?_, ?_, ?_⟩ <;> rfl
    | true =>
      right
      simp only [if_true]
      have hc : ∃ rc s2, component s1 entity_info_id = (rc, s2) ∧
          (rc = result.thrown exception.component_not_found ∨ ∃ c, rc = result.returned c) := by
        rcases component_cases s1 entity_info_id with ⟨c, _, he⟩ | ⟨_, f, _, he⟩ | ⟨_, _, he⟩
        · exact ⟨_, _, he, Or.inr ⟨_, rfl⟩⟩
        · exact ⟨_, _, he, Or.inr ⟨_, rfl⟩⟩
        · exact ⟨_, _, he, Or.inl rfl⟩
      obtain ⟨rc, s2, hc, hrc⟩ := hc
      rw [hc]
      rcases hrc with hrc | ⟨c, hrc⟩
      · subst hrc
        left
        refine ⟨e, exception.component_not_found, ?_, ?_, ?_, ?_⟩ <;> first | rfl | trivial
      · subst hrc
        right
        simp only
        have ht : ∃ rt s3, system env s2 env.time_id = (rt, s3) ∧
            (rt = result.thrown exception.system_not_found ∨ ∃ t, rt = result.returned t) := by
          rcases system_cases env s2 env.time_id with ⟨c, _, he⟩ | ⟨_, f, _, he⟩ | ⟨_, _, he⟩
          · exact ⟨_, _, he, Or.inr ⟨_, rfl⟩⟩
          · exact ⟨_, _, he, Or.inr ⟨_, rfl⟩⟩
          · exact ⟨_, _, he, Or.inl rfl⟩
        obtain ⟨rt, s3, ht, hrt⟩ := ht
        rw [ht]
        rcases hrt with hrt | ⟨t, hrt⟩
        · subst hrt
          left
          refine ⟨e, c, exception.system_not_found, ?_, ?_, ?_, ?_, ?_⟩ <;>
            first | rfl | trivial
        · subst hrt
          right
          refine ⟨e, c, t, ?_, ?_, ?_, ?_, ?_⟩ <;> first | rfl | trivial

theorem follows_create_entity {δ σ : Type} (env : collaborators δ σ) (cfg : ecs_config)
    (s : ecs δ σ) (a : Nat) : follows s (create_entity env cfg s a).2 := by
  have h1 := follows_next_entity_id cfg s
  have h2 := follows_trans h1 (follows_component (next_entity_id cfg s).2 entity_info_id)
  have h3 := follows_trans h2
    (follows_system env (component (next_entity_id cfg s).2 entity_info_id).2 env.time_id)
  rcases create_entity_cases env cfg s a with ⟨x, _, he⟩ | ⟨e, _, _, he⟩ | ⟨e, x, _, _, _, he⟩ |
    ⟨e, c, x, _, _, _, _, he⟩ | ⟨e, c, t, _, _, _, _, he⟩
  · rw [he]; exact h1
  · rw [he]; exact follows_trans h1 (follows_trigger _ _)
  · rw [he]; exact h2
  · rw [he]; exact h3
  · rw [he]
    exact follows_trans (follows_trans h3 (follows_populate _ _)) (follows_trigger _ _)

theorem follows_destroy_entity {δ σ : Type} (s : ecs δ σ) (e : Nat) (n : Bool) :
    follows s (destroy_entity s e n) := by
  unfold destroy_entity free_entity_id
  refine follows_of_same _ _ ?_ ?_ (fun id => ?_) ?_ (fun id => ?_) ?_ ?_
  · cases n <;> rfl
  · cases n <;> rfl
  · simp only
    rw [isSome_table_find_map _ (fun p => by split <;> rfl)]
    cases n <;> rfl
  · cases n <;> rfl
  · cases n <;> rfl
  · cases n <;> rfl
  · cases n <;> rfl

theorem follows_pause_all_systems {δ σ : Type} (env : collaborators δ σ) (s : ecs δ σ) :
    follows s (pause_all_systems env s) := by
  have hmid : follows s ({ s with
      iSystems := s.iSystems.map (fun p => (p.1, env.pause p.2))
      iSystemsPaused := true } : ecs δ σ) :=
    follows_of_same _ _ rfl rfl (fun _ => rfl) rfl
      (fun id => isSome_table_find_map (fun p => (p.1, env.pause p.2)) (fun _ => rfl) _ id)
      rfl rfl
  unfold pause_all_systems
  split
  · exact follows_refl s
  · simp only
    split
    · exact follows_trans (follows_trans hmid (follows_trigger _ _)) (follows_trigger _ _)
    · exact follows_trans hmid (follows_trigger _ _)

theorem follows_resume_all_systems {δ σ : Type} (env : collaborators δ σ) (s : ecs δ σ) :
    follows s (resume_all_systems env s) := by
  have hmid : follows s ({ s with
      iSystems := s.iSystems.map (fun p => (p.1, env.resume p.2))
      iSystemsPaused := false } : ecs δ σ) :=
    follows_of_same _ _ rfl rfl (fun _ => rfl) rfl
      (fun id => isSome_table_find_map (fun p => (p.1, env.resume p.2)) (fun _ => rfl) _ id)
      rfl rfl
  unfold resume_all_systems
  split
  · exact follows_refl s
  · simp only
    split
    · exact follows_trans (follows_trans hmid (follows_trigger _ _)) (follows_trigger _ _)
    · exact follows_trans hmid (follows_trigger _ _)

theorem follows_apply_systems {δ σ : Type} (env : collaborators δ σ) (s : ecs δ σ) :
    follows s (apply_systems env s) :=
  follows_of_same s _ rfl rfl (fun _ => rfl) rfl
    (fun id => isSome_table_find_map (fun p => (p.1, env.apply p.2)) (fun _ => rfl) _ id) rfl rfl

theorem follows_handles {δ σ : Type} (s : ecs δ σ) (h f : List Nat) (n : Nat) :
    follows s { s with iHandles := h, iFreedHandleIds := f, iNextHandleId := n } :=
  follows_of_same s _ rfl rfl (fun _ => rfl) rfl (fun _ => rfl) rfl rfl

theorem follows_add_handle {δ σ : Type} (cfg : ecs_config) (s : ecs δ σ) (h : Nat) :
    follows s (add_handle cfg s h).2 := by
  have h1 := follows_next_handle_id cfg s
  unfold add_handle
  rcases hnh : next_handle_id cfg s with ⟨r, s1⟩
  rw [hnh] at h1
  cases r with
  | returned id =>
    simp only
    by_cases hl : s1.iHandles.length ≤ id
    · simp only [if_pos hl]
      split
      · exact follows_trans h1 (follows_handles _ _ _ _)
      · exact follows_trans h1 (follows_handles _ _ _ _)
    · simp only [if_neg hl]
      split
      · exact follows_trans h1 (follows_handles _ _ _ _)
      · exact h1
  | thrown e => exact h1
  | aborted => exact h1
  | undefined => exact h1

theorem follows_update_handle {δ σ : Type} (s : ecs δ σ) (id h : Nat) :
    follows s (update_handle s id h).2 := by
  unfold update_handle
  split
  · exact follows_refl s
  · exact follows_handles _ _ _ _

theorem follows_release_handle {δ σ : Type} (s : ecs δ σ) (id : Nat) :
    follows s (release_handle s id).2 := by
  unfold release_handle
  split
  · exact follows_refl s
  · split
    · exact follows_handles _ _ _ _
    · exact follows_refl s

theorem follows_of_step {δ σ : Type} (env : collaborators δ σ) (cfg : ecs_config)
    (s s2 : ecs δ σ) (h : ecs_step env cfg s s2) : follows s s2 := by
  cases h with
  | archetype_registration a => exact follows_register_archetype s a
  | component_registration id f => exact follows_register_component s id f
  | system_registration id f => exact follows_register_system s id f
  | component_access id => exact follows_component s id
  | system_access id => exact follows_system env s id
  | entity_creation a => exact follows_create_entity env cfg s a
  | entity_destruction e n => exact follows_destroy_entity s e n
  | pause_all => exact follows_pause_all_systems env s
  | resume_all => exact follows_resume_all_systems env s
  | tick => exact follows_apply_systems env s
  | handle_addition h _ => exact follows_add_handle cfg s h
  | handle_update id h => exact follows_update_handle s id h
  | handle_release id _ => exact follows_release_handle s id

theorem ecs_new_eq {δ σ : Type} (env : collaborators δ σ) (fl : ecs_flags) :
    ∃ cf sf tr, ecs.new env fl =
      { iFlags := fl
        iArchetypeRegistry := []
        iComponentFactories := cf
        iComponents := []
        iSystemFactories := sf
        iSystems := []
        iFreedEntityIds := []
        iNextEntityId := 0
        iSystemsPaused := fl.CreatePaused
        iHandles := []
        iFreedHandleIds := []
        iNextHandleId := 0
        component_factory_calls := []
        system_factory_calls := []
        triggered := tr } ∧
      (fl.PopulateEntityInfo = true →
        (table_find cf entity_info_id).isSome = true ∧
        (table_find sf env.time_id).isSome = true) := by
  obtain ⟨p, c, t⟩ := fl
  cases p <;> cases c <;> cases t <;>
    exact ⟨_, _, _, rfl, by
      intro h
      first
      | exact absurd h Bool.false_ne_true
      | exact ⟨by simp [table_find], by simp [table_find]⟩⟩

theorem factory_calls_match_new {δ σ : Type} (env : collaborators δ σ) (fl : ecs_flags) :
    factory_calls_match (ecs.new env fl) := by
  obtain ⟨cf, sf, tr, he, _⟩ := ecs_new_eq env fl
  rw [he]
  exact ⟨fun id => rfl, fun id => rfl⟩

theorem info_ready_new {δ σ : Type} (env : collaborators δ σ) (fl : ecs_flags) :
    info_ready env (ecs.new env fl) := by
  obtain ⟨cf, sf, tr, he, h⟩ := ecs_new_eq env fl
  rw [he]
  intro hp
  exact ⟨Or.inr (h hp).1, Or.inr (h hp).2⟩

theorem info_ready_of_follows {δ σ : Type} (env : collaborators δ σ) (s s2 : ecs δ σ)
    (hf : follows s s2) (h : info_ready env s) : info_ready env s2 := by
  intro hp
  rw [hf.1] at hp
  obtain ⟨h1, h2⟩ := h hp
  exact ⟨h1.imp (hf.2.2.1 _) (hf.2.1 _), h2.imp (hf.2.2.2.2.1 _) (hf.2.2.2.1 _)⟩

theorem ecs_reachable_spec {δ σ : Type} (env : collaborators δ σ) (cfg : ecs_config)
    (s : ecs δ σ) (h : ecs_reachable env cfg s) : factory_calls_match s ∧ info_ready env s := by
  induction h with
  | new fl => exact ⟨factory_calls_match_new env fl, info_ready_new env fl⟩
  | step s s2 _ hs ih =>
    have hf := follows_of_step env cfg s s2 hs
    exact ⟨hf.2.2.2.2.2 ih.1, info_ready_of_follows env s s2 hf ih.2⟩

/-! ## Entity ids -/

theorem component_ids {δ σ : Type} (s : ecs δ σ) (id : Nat) :
    (component s id).2.iFreedEntityIds = s.iFreedEntityIds ∧
      (component s id).2.iNextEntityId = s.iNextEntityId := by
  rcases component_cases s id with ⟨c, _, he⟩ | ⟨_, f, _, he⟩ | ⟨_, _, he⟩ <;>
    rw [he] <;> exact ⟨rfl, rfl⟩

theorem system_ids {δ σ : Type} (env : collaborators δ σ) (s : ecs δ σ) (id : Nat) :
    (system env s id).2.iFreedEntityIds = s.iFreedEntityIds ∧
      (system env s id).2.iNextEntityId = s.iNextEntityId := by
  rcases system_cases env s id with ⟨c, _, he⟩ | ⟨_, f, _, he⟩ | ⟨_, _, he⟩ <;>
    rw [he] <;> exact ⟨rfl, rfl⟩

theorem component_returns {δ σ : Type} (s : ecs δ σ) (id : Nat)
    (h : (table_find s.iComponents id).isSome = true ∨
      (table_find s.iComponentFactories id).isSome = true) :
    ∃ c, (component s id).1 = result.returned c := by
  rcases component_cases s id with ⟨c, _, he⟩ | ⟨_, f, _, he⟩ | ⟨h1, h2, _⟩
  · exact ⟨c, by rw [he]⟩
  · exact ⟨f (), by rw [he]⟩
  · rw [h1, h2] at h
    simp at h

theorem system_returns {δ σ : Type} (env : collaborators δ σ) (s : ecs δ σ) (id : Nat)
    (h : (table_find s.iSystems id).isSome = true ∨
      (table_find s.iSystemFactories id).isSome = true) :
    ∃ t, (system env s id).1 = result.returned t := by
  rcases system_cases env s id with ⟨c, _, he⟩ | ⟨_, f, _, he⟩ | ⟨h1, h2, _⟩
  · exact ⟨c, by rw [he]⟩
  · exact ⟨_, by rw [he]⟩
  · rw [h1, h2] at h
    simp at h

/-- The entity ids a call of `create_entity` leaves free and the counter it
leaves are those its draw `next_entity_id` leaves. -/
theorem create_entity_ids {δ σ : Type} (env : collaborators δ σ) (cfg : ecs_config)
    (s : ecs δ σ) (a : Nat) :
    (create_entity env cfg s a).2.iFreedEntityIds = (next_entity_id cfg s).2.iFreedEntityIds ∧
      (create_entity env cfg s a).2.iNextEntityId = (next_entity_id cfg s).2.iNextEntityId := by
  have hc := component_ids (next_entity_id cfg s).2 entity_info_id
  have hs := system_ids env (component (next_entity_id cfg s).2 entity_info_id).2 env.time_id
  rcases create_entity_cases env cfg s a with ⟨x, _, he⟩ | ⟨e, _, _, he⟩ | ⟨e, x, _, _, _, he⟩ |
    ⟨e, c, x, _, _, _, _, he⟩ | ⟨e, c, t, _, _, _, _, he⟩
  · rw [he]; exact ⟨rfl, rfl⟩
  · rw [he]; exact ⟨rfl, rfl⟩
  · rw [he]; exact hc
  · rw [he]; exact ⟨hs.1.trans hc.1, hs.2.trans hc.2⟩
  · rw [he]; exact ⟨hs.1.trans hc.1, hs.2.trans hc.2⟩

/-- In a registry that can populate the entity info, `create_entity` ends as its
draw `next_entity_id` ends. -/
theorem create_entity_result {δ σ : Type} (env : collaborators δ σ) (cfg : ecs_config)
    (s : ecs δ σ) (a : Nat) (hr : info_ready env s) :
    (create_entity env cfg s a).1 = (next_entity_id cfg s).1 := by
  have h1 := info_ready_of_follows env _ _ (follows_next_entity_id cfg s) hr
  have h2 := info_ready_of_follows env _ _
    (follows_component (next_entity_id cfg s).2 entity_info_id) h1
  rcases create_entity_cases env cfg s a with ⟨x, hn, he⟩ | ⟨e, hn, _, he⟩ |
    ⟨e, x, _, hp, hx, _⟩ | ⟨e, c, x, _, hp, _, hx, _⟩ | ⟨e, c, t, hn, _, _, _, he⟩
  · rw [he, hn]
  · rw [he, hn]
  · obtain ⟨c, hc⟩ := component_returns _ entity_info_id (h1 hp).1
    rw [hc] at hx
    exact absurd hx (by simp)
  · have hp2 : (component (next_entity_id cfg s).2 entity_info_id).2.iFlags.PopulateEntityInfo
        = true := by
      rw [(follows_component (next_entity_id cfg s).2 entity_info_id).1]; exact hp
    obtain ⟨t, ht⟩ := system_returns env _ env.time_id (h2 hp2).2
    rw [ht] at hx
    exact absurd hx (by simp)
  · rw [he, hn]

theorem create_entity_of_free {δ σ : Type} (env : collaborators δ σ) (cfg : ecs_config)
    (s : ecs δ σ) (a : Nat) (l : List Nat) (x : Nat) (hr : info_ready env s)
    (hf : s.iFreedEntityIds = l ++ [x]) :
    (create_entity env cfg s a).1 = result.returned x ∧
      (create_entity env cfg s a).2.iFreedEntityIds = l ∧
      (create_entity env cfg s a).2.iNextEntityId = s.iNextEntityId ∧
      info_ready env (create_entity env cfg s a).2 := by
  have hi := create_entity_ids env cfg s a
  refine ⟨?_, ?_, ?_, info_ready_of_follows env _ _ (follows_create_entity env cfg s a) hr⟩
  · rw [create_entity_result env cfg s a hr, next_entity_id_of_free cfg s l x hf]
  · rw [hi.1, next_entity_id_of_free cfg s l x hf]
  · rw [hi.2, next_entity_id_of_free cfg s l x hf]

theorem create_entities_cons {δ σ : Type} (env : collaborators δ σ) (cfg : ecs_config)
    (s : ecs δ σ) (a : Nat) (rest : List Nat) (e : Nat)
    (h : (create_entity env cfg s a).1 = result.returned e) :
    (create_entities env cfg s (a :: rest)).1 =
        (match (create_entities env cfg (create_entity env cfg s a).2 rest).1 with
          | result.returned es => result.returned (e :: es)
          | result.thrown x => result.thrown x
          | result.aborted => result.aborted
          | result.undefined => result.undefined) ∧
      (create_entities env cfg s (a :: rest)).2 =
        (create_entities env cfg (create_entity env cfg s a).2 rest).2 := by
  have h2 : create_entity env cfg s a = (result.returned e, (create_entity env cfg s a).2) :=
    Prod.ext h rfl
  rw [create_entities, h2]
  simp only
  rcases create_entities env cfg (create_entity env cfg s a).2 rest with ⟨r, s2⟩
  cases r <;> exact ⟨rfl, rfl⟩

theorem create_entities_of_free {δ σ : Type} (env : collaborators δ σ) (cfg : ecs_config) :
    ∀ (bs : List Nat) (s : ecs δ σ) (l d : List Nat), info_ready env s →
      s.iFreedEntityIds = l ++ d → bs.length = d.length →
      (create_entities env cfg s bs).1 = result.returned d.reverse ∧
        (create_entities env cfg s bs).2.iFreedEntityIds = l ∧
        (create_entities env cfg s bs).2.iNextEntityId = s.iNextEntityId := by
  intro bs
  induction bs with
  | nil =>
    intro s l d _ hf hl
    have hd : d = [] := List.length_eq_zero.mp hl.symm
    subst hd
    rw [create_entities]
    exact ⟨rfl, by simpa using hf, rfl⟩
  | cons a rest ih =>
    intro s l d hr hf hl
    rcases List.eq_nil_or_concat d with hd | ⟨d2, x, hd⟩
    · subst hd; simp at hl
    · rw [List.concat_eq_append] at hd
      subst hd
      rw [← List.append_assoc] at hf
      obtain ⟨h1, h2, h3, h4⟩ := create_entity_of_free env cfg s a (l ++ d2) x hr hf
      obtain ⟨g1, g2⟩ := create_entities_cons env cfg s a rest x h1
      obtain ⟨i1, i2, i3⟩ := ih (create_entity env cfg s a).2 l d2 h4 h2
        (by simpa using hl)
      rw [g1, g2, i1]
      exact ⟨by simp, i2, i3.trans h3⟩

theorem follows_create_entities {δ σ : Type} (env : collaborators δ σ) (cfg : ecs_config) :
    ∀ (bs : List Nat) (s : ecs δ σ), follows s (create_entities env cfg s bs).2 := by
  intro bs
  induction bs with
  | nil => intro s; rw [create_entities]; exact follows_refl s
  | cons a rest ih =>
    intro s
    have h1 := follows_create_entity env cfg s a
    have h2 := ih (create_entity env cfg s a).2
    rw [create_entities]
    rcases hce : create_entity env cfg s a with ⟨r, s1⟩
    rw [hce] at h1 h2
    cases r with
    | returned e =>
      simp only at h1 h2 ⊢
      rcases hcr : create_entities env cfg s1 rest with ⟨r2, s2⟩
      rw [hcr] at h2
      cases r2 <;> exact follows_trans h1 h2
    | thrown x => exact h1
    | aborted => exact h1
    | undefined => exact h1

theorem create_entities_length {δ σ : Type} (env : collaborators δ σ) (cfg : ecs_config) :
    ∀ (bs : List Nat) (s : ecs δ σ) (ids : List Nat),
      (create_entities env cfg s bs).1 = result.returned ids → ids.length = bs.length := by
  intro bs
  induction bs with
  | nil =>
    intro s ids h
    rw [create_entities] at h
    simp only [result.returned.injEq] at h
    rw [← h]
  | cons a rest ih =>
    intro s ids h
    rw [create_entities] at h
    rcases hce : create_entity env cfg s a with ⟨r, s1⟩
    rw [hce] at h
    cases r with
    | returned e =>
      simp only at h
      have hi := ih s1
      rcases hcr : create_entities env cfg s1 rest with ⟨r2, s2⟩
      rw [hcr] at h hi
      cases r2 with
      | returned es =>
        simp only [result.returned.injEq] at h
        rw [← h, List.length_cons, List.length_cons, hi es rfl]
      | thrown x => simp at h
      | aborted => simp at h
      | undefined => simp at h
    | thrown x => simp at h
    | aborted => simp at h
    | undefined => simp at h

theorem destroy_entity_ids {δ σ : Type} (s : ecs δ σ) (e : Nat) (n : Bool) :
    (destroy_entity s e n).iFreedEntityIds = s.iFreedEntityIds ++ [e] ∧
      (destroy_entity s e n).iNextEntityId = s.iNextEntityId := by
  cases n <;> exact ⟨rfl, rfl⟩

theorem destroy_entities_spec {δ σ : Type} :
    ∀ (d : List (Nat × Bool)) (s : ecs δ σ),
      (destroy_entities s d).iFreedEntityIds = s.iFreedEntityIds ++ d.map Prod.fst ∧
        (destroy_entities s d).iNextEntityId = s.iNextEntityId ∧
        follows s (destroy_entities s d) := by
  intro d
  induction d with
  | nil => intro s; exact ⟨by simp [destroy_entities], rfl, follows_refl s⟩
  | cons p rest ih =>
    intro s
    obtain ⟨e, n⟩ := p
    obtain ⟨h1, h2, h3⟩ := ih (destroy_entity s e n)
    obtain ⟨g1, g2⟩ := destroy_entity_ids s e n
    rw [destroy_entities]
    refine ⟨?_, ?_, follows_trans (follows_destroy_entity s e n) h3⟩
    · rw [h1, g1]; simp
    · rw [h2, g2]

theorem has_entity_record_destroyed {δ : Type} (c : component_instance δ) (e : Nat) :
    has_entity_record (destroy_entity_record c e) e = false := by
  unfold has_entity_record destroy_entity_record
  simp only [table_find_filter, if_true, Option.isSome_none]

theorem records_destroyed {δ : Type} (c : component_instance δ) (e e2 : Nat) (h : e2 ≠ e) :
    table_find (destroy_entity_record c e).records e2 = table_find c.records e2 := by
  unfold destroy_entity_record
  simp only [table_find_filter, if_neg h]

theorem destroy_entity_components {δ σ : Type} (s : ecs δ σ) (e : Nat) (n : Bool) :
    (destroy_entity s e n).iComponents =
      s.iComponents.map (fun p =>
        if has_entity_record p.2 e then (p.1, destroy_entity_record p.2 e) else p) := by
  cases n <;> rfl

/-! ## Handle ids -/

theorem next_handle_id_of_free {δ σ : Type} (cfg : ecs_config) (s : ecs δ σ) (l : List Nat)
    (x : Nat) (hf : s.iFreedHandleIds = l ++ [x]) :
    next_handle_id cfg s = (result.returned x, { s with iFreedHandleIds := l }) := by
  unfold next_handle_id
  simp only [hf, List.getLast?_concat, List.dropLast_concat]

theorem next_handle_id_of_counter {δ σ : Type} (cfg : ecs_config) (s : ecs δ σ)
    (hf : s.iFreedHandleIds = [])
    (hn : (s.iNextHandleId + 1) % 2 ^ cfg.handle_id_bits ≠ 0) :
    next_handle_id cfg s =
      (result.returned ((s.iNextHandleId + 1) % 2 ^ cfg.handle_id_bits),
        { s with iNextHandleId := (s.iNextHandleId + 1) % 2 ^ cfg.handle_id_bits }) := by
  unfold next_handle_id null_id
  simp only [hf, List.getLast?_nil]
  rw [if_neg hn]

theorem next_handle_id_exhausted {δ σ : Type} (cfg : ecs_config) (s : ecs δ σ)
    (hf : s.iFreedHandleIds = [])
    (hn : (s.iNextHandleId + 1) % 2 ^ cfg.handle_id_bits = 0) :
    next_handle_id cfg s =
      (result.thrown exception.handle_ids_exhausted, { s with iNextHandleId := 0 }) := by
  unfold next_handle_id null_id
  simp only [hf, List.getLast?_nil]
  rw [if_pos hn, hn]

theorem next_handle_id_cases {δ σ : Type} (cfg : ecs_config) (s : ecs δ σ) :
    (∃ l x, s.iFreedHandleIds = l ++ [x] ∧
      next_handle_id cfg s = (result.returned x, { s with iFreedHandleIds := l })) ∨
    (s.iFreedHandleIds = [] ∧ (s.iNextHandleId + 1) % 2 ^ cfg.handle_id_bits ≠ 0 ∧
      next_handle_id cfg s =
        (result.returned ((s.iNextHandleId + 1) % 2 ^ cfg.handle_id_bits),
          { s with iNextHandleId := (s.iNextHandleId + 1) % 2 ^ cfg.handle_id_bits })) ∨
    (s.iFreedHandleIds = [] ∧ (s.iNextHandleId + 1) % 2 ^ cfg.handle_id_bits = 0 ∧
      next_handle_id cfg s =
        (result.thrown exception.handle_ids_exhausted, { s with iNextHandleId := 0 })) := by
  rcases List.eq_nil_or_concat s.iFreedHandleIds with hf | ⟨l, x, hf⟩
  · by_cases hn : (s.iNextHandleId + 1) % 2 ^ cfg.handle_id_bits = 0
    · exact Or.inr (Or.inr ⟨hf, hn, next_handle_id_exhausted cfg s hf hn⟩)
    · exact Or.inr (Or.inl ⟨hf, hn, next_handle_id_of_counter cfg s hf hn⟩)
  · rw [List.concat_eq_append] at hf
    exact Or.inl ⟨l, x, hf, next_handle_id_of_free cfg s l x hf⟩

theorem next_entity_id_handles {δ σ : Type} (cfg : ecs_config) (s : ecs δ σ) :
    (next_entity_id cfg s).2.iFreedHandleIds = s.iFreedHandleIds ∧
      (next_entity_id cfg s).2.iNextHandleId = s.iNextHandleId := by
  rcases next_entity_id_cases cfg s with ⟨l, x, _, he⟩ | ⟨_, _, he⟩ | ⟨_, _, he⟩ <;>
    rw [he] <;> exact ⟨rfl, rfl⟩

theorem next_handle_id_entities {δ σ : Type} (cfg : ecs_config) (s : ecs δ σ) :
    (next_handle_id cfg s).2.iFreedEntityIds = s.iFreedEntityIds ∧
      (next_handle_id cfg s).2.iNextEntityId = s.iNextEntityId := by
  rcases next_handle_id_cases cfg s with ⟨l, x, _, he⟩ | ⟨_, _, he⟩ | ⟨_, _, he⟩ <;>
    rw [he] <;> exact ⟨rfl, rfl⟩

theorem component_handles {δ σ : Type} (s : ecs δ σ) (id : Nat) :
    (component s id).2.iFreedHandleIds = s.iFreedHandleIds ∧
      (component s id).2.iNextHandleId = s.iNextHandleId := by
  rcases component_cases s id with ⟨c, _, he⟩ | ⟨_, f, _, he⟩ | ⟨_, _, he⟩ <;>
    rw [he] <;> exact ⟨rfl, rfl⟩

theorem system_handles {δ σ : Type} (env : collaborators δ σ) (s : ecs δ σ) (id : Nat) :
    (system env s id).2.iFreedHandleIds = s.iFreedHandleIds ∧
      (system env s id).2.iNextHandleId = s.iNextHandleId := by
  rcases system_cases env s id with ⟨c, _, he⟩ | ⟨_, f, _, he⟩ | ⟨_, _, he⟩ <;>
    rw [he] <;> exact ⟨rfl, rfl⟩

theorem create_entity_handles {δ σ : Type} (env : collaborators δ σ) (cfg : ecs_config)
    (s : ecs δ σ) (a : Nat) :
    (create_entity env cfg s a).2.iFreedHandleIds = s.iFreedHandleIds ∧
      (create_entity env cfg s a).2.iNextHandleId = s.iNextHandleId := by
  have hn := next_entity_id_handles cfg s
  have hc := component_handles (next_entity_id cfg s).2 entity_info_id
  have hs := system_handles env (component (next_entity_id cfg s).2 entity_info_id).2
    env.time_id
  have hc2 := And.intro (hc.1.trans hn.1) (hc.2.trans hn.2)
  have hs2 := And.intro (hs.1.trans hc2.1) (hs.2.trans hc2.2)
  rcases create_entity_cases env cfg s a with ⟨x, _, he⟩ | ⟨e, _, _, he⟩ | ⟨e, x, _, _, _, he⟩ |
    ⟨e, c, x, _, _, _, _, he⟩ | ⟨e, c, t, _, _, _, _, he⟩
  · rw [he]; exact hn
  · rw [he]; exact hn
  · rw [he]; exact hc2
  · rw [he]; exact hs2
  · rw [he]; exact hs2

/-- What holds along the calls of `id_trace`: the entity info can be populated,
id 0 is neither free nor issued, and the counters are values of their types. -/
theorem id_trace_spec {δ σ : Type} (env : collaborators δ σ) (cfg : ecs_config)
    (s : ecs δ σ) (entities handles : List Nat) (h : id_trace env cfg s entities handles) :
    info_ready env s ∧
      (0 ∉ s.iFreedEntityIds ∧ 0 ∉ entities ∧ s.iNextEntityId < 2 ^ cfg.entity_id_bits) ∧
      (0 ∉ s.iFreedHandleIds ∧ 0 ∉ handles ∧ s.iNextHandleId < 2 ^ cfg.handle_id_bits) := by
  induction h with
  | new fl =>
    obtain ⟨cf, sf, tr, he, _⟩ := ecs_new_eq env fl
    refine ⟨info_ready_new env fl, ?_, ?_⟩
    · rw [he]
      exact ⟨by simp, by simp, Nat.two_pow_pos _⟩
    · rw [he]
      exact ⟨by simp, by simp, Nat.two_pow_pos _⟩
  | created s entities handles a _ ih =>
    obtain ⟨hr, ⟨h1, h2, h3⟩, h4, h5, h6⟩ := ih
    have hi := create_entity_ids env cfg s a
    have hh := create_entity_handles env cfg s a
    refine ⟨info_ready_of_follows env _ _ (follows_create_entity env cfg s a) hr, ?_,
      by rw [hh.1]; exact h4, h5, by rw [hh.2]; exact h6⟩
    rw [create_entity_result env cfg s a hr, hi.1, hi.2]
    rcases next_entity_id_cases cfg s with ⟨l, x, hf, he⟩ | ⟨hf, hn, he⟩ | ⟨hf, hn, he⟩
    · rw [he]
      rw [hf] at h1
      simp only [List.mem_append, List.mem_singleton, not_or] at h1
      refine ⟨h1.1, ?_, h3⟩
      simp only [issued_by, List.mem_append, List.mem_singleton, not_or]
      exact ⟨h2, h1.2⟩
    · rw [he]
      refine ⟨h1, ?_, Nat.mod_lt _ (Nat.two_pow_pos _)⟩
      simp only [issued_by, List.mem_append, List.mem_singleton, not_or]
      exact ⟨h2, fun h => hn h.symm⟩
    · rw [he]
      exact ⟨h1, h2, Nat.two_pow_pos _⟩
  | destroyed s entities handles e n _ he ih =>
    obtain ⟨hr, ⟨h1, h2, h3⟩, h4, h5, h6⟩ := ih
    obtain ⟨g1, g2⟩ := destroy_entity_ids s e n
    refine ⟨info_ready_of_follows env _ _ (follows_destroy_entity s e n) hr,
      ⟨?_, h2, by rw [g2]; exact h3⟩, ?_, h5, ?_⟩
    · rw [g1]
      simp only [List.mem_append, List.mem_singleton, not_or]
      exact ⟨h1, fun h0 => h2 (h0 ▸ he)⟩
    · cases n <;> exact h4
    · cases n <;> exact h6
  | handle_drawn s entities handles _ ih =>
    obtain ⟨hr, ⟨h1, h2, h3⟩, h4, h5, h6⟩ := ih
    have hi := next_handle_id_entities cfg s
    refine ⟨info_ready_of_follows env _ _ (follows_next_handle_id cfg s) hr,
      ⟨by rw [hi.1]; exact h1, h2, by rw [hi.2]; exact h3⟩, ?_⟩
    rcases next_handle_id_cases cfg s with ⟨l, x, hf, he⟩ | ⟨hf, hn, he⟩ | ⟨hf, hn, he⟩
    · rw [he]
      rw [hf] at h4
      simp only [List.mem_append, List.mem_singleton, not_or] at h4
      refine ⟨h4.1, ?_, h6⟩
      simp only [issued_by, List.mem_append, List.mem_singleton, not_or]
      exact ⟨h5, h4.2⟩
    · rw [he]
      refine ⟨h4, ?_, Nat.mod_lt _ (Nat.two_pow_pos _)⟩
      simp only [issued_by, List.mem_append, List.mem_singleton, not_or]
      exact ⟨h5, fun h => hn h.symm⟩
    · rw [he]
      exact ⟨h4, h5, Nat.two_pow_pos _⟩
  | handle_freed s entities handles id _ hid ih =>
    obtain ⟨hr, h123, h4, h5, h6⟩ := ih
    refine ⟨hr, h123, ?_, h5, h6⟩
    unfold free_handle_id
    simp only [List.mem_append, List.mem_singleton, not_or]
    exact ⟨h4, fun h0 => h5 (h0 ▸ hid)⟩

theorem length_resize (v : List Nat) (n : Nat) : (resize v n).length = n := by
  unfold resize
  split
  · rw [List.length_take]; omega
  · rw [List.length_append, List.length_replicate]; omega

theorem add_handle_of_draw {δ σ : Type} (cfg : ecs_config) (s : ecs δ σ) (h id : Nat)
    (s1 : ecs δ σ) (hd : next_handle_id cfg s = (result.returned id, s1)) :
    add_handle cfg s h =
      if s1.iHandles.length ≤ id then
        (result.undefined, { s1 with iHandles := resize s1.iHandles id })
      else (result.returned id, { s1 with iHandles := s1.iHandles.set id h }) := by
  unfold add_handle
  rw [hd]
  simp only
  by_cases hl : s1.iHandles.length ≤ id
  · simp only [if_pos hl, length_resize, lt_irrefl, if_false]
  · simp only [if_neg hl]
    rw [if_pos (by omega)]

theorem next_handle_id_handles {δ σ : Type} (cfg : ecs_config) (s : ecs δ σ) :
    (next_handle_id cfg s).2.iHandles = s.iHandles := by
  rcases next_handle_id_cases cfg s with ⟨l, x, _, he⟩ | ⟨_, _, he⟩ | ⟨_, _, he⟩ <;>
    rw [he]

theorem handle_state_register_archetype {δ σ : Type} (s : ecs δ σ) (a : entity_archetype) :
    handle_state (register_archetype s a).2 = handle_state s := by
  cases h : archetype_registered s a with
  | true => rw [register_archetype_of_registered s a h]
  | false => rw [register_archetype_of_fresh s a h]; rfl

theorem handle_state_register_component {δ σ : Type} (s : ecs δ σ) (id : Nat)
    (f : Unit → component_instance δ) :
    handle_state (register_component s id f).2 = handle_state s := by
  cases h : component_registered s id with
  | true => rw [register_component_of_registered s id f h]
  | false => rw [register_component_of_fresh s id f h]; rfl

theorem handle_state_register_system {δ σ : Type} (s : ecs δ σ) (id : Nat) (f : Unit → σ) :
    handle_state (register_system s id f).2 = handle_state s := by
  cases h : system_registered s id with
  | true => rw [register_system_of_registered s id f h]
  | false => rw [register_system_of_fresh s id f h]; rfl

theorem handle_state_component {δ σ : Type} (s : ecs δ σ) (id : Nat) :
    handle_state (component s id).2 = handle_state s := by
  rcases component_cases s id with ⟨c, _, he⟩ | ⟨_, f, _, he⟩ | ⟨_, _, he⟩ <;>
    (rw [he]; try rfl)

theorem handle_state_system {δ σ : Type} (env : collaborators δ σ) (s : ecs δ σ) (id : Nat) :
    handle_state (system env s id).2 = handle_state s := by
  rcases system_cases env s id with ⟨c, _, he⟩ | ⟨_, f, _, he⟩ | ⟨_, _, he⟩ <;>
    (rw [he]; try rfl)

theorem handle_state_next_entity_id {δ σ : Type} (cfg : ecs_config) (s : ecs δ σ) :
    handle_state (next_entity_id cfg s).2 = handle_state s := by
  rcases next_entity_id_cases cfg s with ⟨l, x, _, he⟩ | ⟨_, _, he⟩ | ⟨_, _, he⟩ <;>
    rw [he] <;> rfl

theorem handle_state_create_entity {δ σ : Type} (env : collaborators δ σ) (cfg : ecs_config)
    (s : ecs δ σ) (a : Nat) : handle_state (create_entity env cfg s a).2 = handle_state s := by
  have hn := handle_state_next_entity_id cfg s
  have hc := (handle_state_component (next_entity_id cfg s).2 entity_info_id).trans hn
  have hs := (handle_state_system env (component (next_entity_id cfg s).2 entity_info_id).2
    env.time_id).trans hc
  rcases create_entity_cases env cfg s a with ⟨x, _, he⟩ | ⟨e, _, _, he⟩ | ⟨e, x, _, _, _, he⟩ |
    ⟨e, c, x, _, _, _, _, he⟩ | ⟨e, c, t, _, _, _, _, he⟩
  · rw [he]; exact hn
  · rw [he]; exact hn
  · rw [he]; exact hc
  · rw [he]; exact hs
  · rw [he]; exact hs

theorem handle_state_destroy_entity {δ σ : Type} (s : ecs δ σ) (e : Nat) (n : Bool) :
    handle_state (destroy_entity s e n) = handle_state s := by
  cases n <;> rfl

theorem handle_state_pause_all_systems {δ σ : Type} (env : collaborators δ σ) (s : ecs δ σ) :
    handle_state (pause_all_systems env s) = handle_state s := by
  unfold pause_all_systems
  split
  · rfl
  · simp only
    split <;> rfl

theorem handle_state_resume_all_systems {δ σ : Type} (env : collaborators δ σ) (s : ecs δ σ) :
    handle_state (resume_all_systems env s) = handle_state s := by
  unfold resume_all_systems
  split
  · rfl
  · simp only
    split <;> rfl

/-- While the handle array is empty, no handle id is free and the counter stands
at 0, `add_handle` draws id 1, resizes the array to one element and stores at
index 1, outside the array. -/
theorem add_handle_of_empty {δ σ : Type} (cfg : ecs_config) (s : ecs δ σ) (h : Nat)
    (hs : handle_state s = ([], [], 0)) :
    (next_handle_id cfg s).1 = result.returned 1 ∧
      (add_handle cfg s h).1 = result.undefined ∧
      (add_handle cfg s h).2.iHandles.length = 1 := by
  unfold handle_state at hs
  simp only [Prod.mk.injEq] at hs
  obtain ⟨h1, h2, h3⟩ := hs
  have hp : 2 ≤ 2 ^ cfg.handle_id_bits :=
    le_trans (by decide : 2 ≤ 2 ^ 1)
      (Nat.pow_le_pow_right (by decide) (le_trans (by decide) cfg.handle_id_bits_ge))
  have hm : (s.iNextHandleId + 1) % 2 ^ cfg.handle_id_bits = 1 := by
    rw [h3]; exact Nat.mod_eq_of_lt (by omega)
  have hd := next_handle_id_of_counter cfg s h2 (by rw [hm]; decide)
  rw [hm] at hd
  rw [add_handle_of_draw cfg s h 1 _ hd, hd]
  simp only [h1, List.length_nil, Nat.zero_le, if_true, length_resize]
  exact ⟨trivial, trivial, trivial⟩

theorem handle_state_of_step {δ σ : Type} (env : collaborators δ σ) (cfg : ecs_config)
    (s s2 : ecs δ σ) (h : ecs_step env cfg s s2) (hs : handle_state s = ([], [], 0)) :
    handle_state s2 = ([], [], 0) := by
  cases h with
  | archetype_registration a => rw [handle_state_register_archetype]; exact hs
  | component_registration id f => rw [handle_state_register_component]; exact hs
  | system_registration id f => rw [handle_state_register_system]; exact hs
  | component_access id => rw [handle_state_component]; exact hs
  | system_access id => rw [handle_state_system]; exact hs
  | entity_creation a => rw [handle_state_create_entity]; exact hs
  | entity_destruction e n => rw [handle_state_destroy_entity]; exact hs
  | pause_all => rw [handle_state_pause_all_systems]; exact hs
  | resume_all => rw [handle_state_resume_all_systems]; exact hs
  | tick => exact hs
  | handle_addition h hf =>
    rw [(add_handle_of_empty cfg s h hs).2.1] at hf
    exact absurd hf (by decide)
  | handle_update id h =>
    have hl : s.iHandles.length ≤ id := by
      unfold handle_state at hs
      simp only [Prod.mk.injEq] at hs
      rw [hs.1]; exact Nat.zero_le _
    unfold update_handle
    rw [if_pos hl]; exact hs
  | handle_release id _ =>
    have hl : s.iHandles.length ≤ id := by
      unfold handle_state at hs
      simp only [Prod.mk.injEq] at hs
      rw [hs.1]; exact Nat.zero_le _
    unfold release_handle
    rw [if_pos hl]; exact hs

/-- In every registry reached from a newly constructed one the handle array is
empty, no handle id is free and the counter stands at 0: the only operation
that would change them, `add_handle`, does not get past its store. -/
theorem ecs_reachable_handles {δ σ : Type} (env : collaborators δ σ) (cfg : ecs_config)
    (s : ecs δ σ) (h : ecs_reachable env cfg s) : handle_state s = ([], [], 0) := by
  induction h with
  | new fl =>
    obtain ⟨cf, sf, tr, he, _⟩ := ecs_new_eq env fl
    rw [he]; rfl
  | step s s2 _ hs ih => exact handle_state_of_step env cfg s s2 hs ih

/-! ## Pausing, resuming and the timer -/

theorem pause_all_systems_of_paused {δ σ : Type} (env : collaborators δ σ) (s : ecs δ σ)
    (h : s.iSystemsPaused = true) : pause_all_systems env s = s := by
  unfold pause_all_systems
  rw [if_pos h]

theorem pause_all_systems_of_running {δ σ : Type} (env : collaborators δ σ) (s : ecs δ σ)
    (h : s.iSystemsPaused = false) :
    pause_all_systems env s =
      { s with
        iSystems := s.iSystems.map (fun p => (p.1, env.pause p.2))
        iSystemsPaused := true
        triggered := s.triggered ++ [event.SystemsPaused] ++
          (if s.iFlags.Turbo then [event.enable_green_mode] else []) } := by
  unfold pause_all_systems trigger
  rw [if_neg (by simp [h])]
  cases ht : s.iFlags.Turbo <;> simp [ht]

theorem resume_all_systems_of_running {δ σ : Type} (env : collaborators δ σ) (s : ecs δ σ)
    (h : s.iSystemsPaused = false) : resume_all_systems env s = s := by
  unfold resume_all_systems
  rw [if_pos (by simp [h])]

theorem resume_all_systems_of_paused {δ σ : Type} (env : collaborators δ σ) (s : ecs δ σ)
    (h : s.iSystemsPaused = true) :
    resume_all_systems env s =
      { s with
        iSystems := s.iSystems.map (fun p => (p.1, env.resume p.2))
        iSystemsPaused := false
        triggered := s.triggered ++ [event.SystemsResumed] ++
          (if s.iFlags.Turbo then [event.enable_turbo_mode] else []) } := by
  unfold resume_all_systems trigger
  rw [if_neg (by simp [h])]
  cases ht : s.iFlags.Turbo <;> simp [ht]

theorem table_find_map_values {β γ : Type} (g : β → γ) (m : List (Nat × β)) (key : Nat) :
    table_find (m.map (fun p => (p.1, g p.2))) key = (table_find m key).map g := by
  rw [table_find_map (fun p => (p.1, g p.2)) (fun _ => rfl)]

/-! ## The metadata of `entity_info` -/

theorem field_type_thrown_iff (ndebug : Bool) (i : Nat) :
    entity_info.meta.field_type ndebug i = result.thrown exception.invalid_field_index ↔
      entity_info.meta.field_count ndebug ≤ i := by
  cases ndebug <;>
    (match i with
      | 0 => decide
      | 1 => decide
      | 2 => decide
      | n + 3 =>
        simp [entity_info.meta.field_type, entity_info.meta.field_count])

/-! ## The invariant over the public operations -/

theorem add_count_of_succ (cfg : config) {c n : Nat} (hp : promoted_succ cfg c = c + 1)
    (hc : c < SIZE_MAX) (hn : n ≤ c) :
    (promoted_succ cfg c + 2 ^ 64 - n) % 2 ^ 64 = c + 1 - n := by
  rw [hp]
  have e : c + 1 + 2 ^ 64 - n = (c + 1 - n) + 2 ^ 64 := by omega
  rw [e, Nat.add_mod_right]
  apply Nat.mod_eq_of_lt
  unfold SIZE_MAX at hc
  omega

theorem promoted_succ_of_typed (cfg : config) {c : Nat} (hty : c < 2 ^ cfg.cookie_bits)
    (hs : cfg.cookie_bits < 32 ∨ c < INVALID_COOKIE cfg) :
    promoted_succ cfg c = c + 1 ∧ c < SIZE_MAX := by
  rcases hs with h | h
  · have h1 : 2 ^ cfg.cookie_bits ≤ 2 ^ 32 := Nat.pow_le_pow_right (by decide) (by omega)
    refine ⟨?_, ?_⟩
    · unfold promoted_succ
      rw [if_pos h]
    · unfold SIZE_MAX
      omega
  · have := INVALID_COOKIE_le cfg
    exact ⟨promoted_succ_eq cfg h, by omega⟩

/-- `add` of a cookie that is not bound, where `aCookie + 1` does not wrap or the
reverse index already reaches the cookie. -/
theorem add_of_unbound {α : Type} (cfg : config) (j : basic_jar α) (c : Nat) (v : α)
    (f : fault)
    (hs : (promoted_succ cfg c = c + 1 ∧ c < SIZE_MAX) ∨ c < j.iReverseIndices.length)
    (ha : cfg.ndebug = true ∨ c ∉ j.iFreeCookies) (hl : contains j c = false) :
    add cfg j c v f =
      match f with
      | fault.construct =>
        (result.thrown exception.constructor_error,
          { j with iReverseIndices := grown j.iReverseIndices c })
      | fault.allocate =>
        (result.thrown exception.bad_alloc,
          { j with iReverseIndices := grown j.iReverseIndices c })
      | fault.none =>
        (result.returned j.iItems.length,
          { j with
            iItems := j.iItems ++ [v]
            iAllocatedCookies := j.iAllocatedCookies ++ [c]
            iReverseIndices := (grown j.iReverseIndices c).set c j.iItems.length }) := by
  have hg : (grown j.iReverseIndices c)[c]? = some INVALID_REVERSE_INDEX := by
    rw [getElem?_grown]
    rcases (contains_eq_false_iff j c).mp hl with h | h
    · have := List.getElem?_eq_none_iff.mp h
      rw [if_neg (by omega), if_pos (le_refl c)]
    · obtain ⟨hlt, _⟩ := List.getElem?_eq_some.mp h
      rw [if_pos hlt, h]
  unfold add
  rw [assert_passes cfg _ c ha]
  simp only [Bool.false_eq_true, if_false]
  by_cases hn : j.iReverseIndices.length ≤ c
  · have hp : promoted_succ cfg c = c + 1 ∧ c < SIZE_MAX := by
      rcases hs with h | h
      · exact h
      · omega
    have hp2 := hp.2
    rw [add_count_of_succ cfg hp.1 hp.2 hn]
    rw [if_neg (by omega), if_pos hn]
    have e : j.iReverseIndices ++ List.replicate (c + 1 - j.iReverseIndices.length)
        INVALID_REVERSE_INDEX = grown j.iReverseIndices c := by
      unfold grown
      rw [if_pos hn]
    simp only [e, hg]
    cases f <;> simp
  · rw [if_neg (by omega), if_neg hn]
    have e : grown j.iReverseIndices c = j.iReverseIndices := grown_eq_self (by omega)
    rw [e] at hg ⊢
    simp only [hg]
    cases f <;> simp

/-- `add` of the sentinel with a cookie type of 32 bits or more, beyond the
reverse index: `aCookie + 1` wraps to 0, so either nothing is inserted into an
empty reverse index and the access `reverse_indices()[aCookie]` is outside it,
or the count of holes to insert wraps to more than a vector can hold. -/
theorem add_of_sentinel {α : Type} (cfg : config) (j : basic_jar α) (c : Nat) (v : α)
    (f : fault) (hb : 32 ≤ cfg.cookie_bits) (hc : c = INVALID_COOKIE cfg)
    (hn : j.iReverseIndices.length ≤ c) (ha : cfg.ndebug = true ∨ c ∉ j.iFreeCookies) :
    (j.iReverseIndices.length = 0 → (add cfg j c v f).1 = result.undefined) ∧
    (0 < j.iReverseIndices.length →
      add cfg j c v f = (result.thrown exception.length_error, j)) := by
  have hle := INVALID_COOKIE_le cfg
  have hps : promoted_succ cfg c = 0 := by
    unfold promoted_succ
    rw [if_neg (by omega), hc, INVALID_COOKIE_succ, Nat.mod_self]
  constructor
  · intro h0
    have hnil : j.iReverseIndices = [] := List.length_eq_zero.mp h0
    unfold add
    rw [assert_passes cfg _ c ha]
    simp only [Bool.false_eq_true, if_false, hps, h0, hnil]
    simp
  · intro hpos
    unfold add
    rw [assert_passes cfg _ c ha]
    simp only [Bool.false_eq_true, if_false, hps]
    have hcount : (0 + 2 ^ 64 - j.iReverseIndices.length) % 2 ^ 64 =
        2 ^ 64 - j.iReverseIndices.length := by
      rw [Nat.zero_add]
      exact Nat.mod_eq_of_lt (by omega)
    rw [hcount, if_pos]
    refine ⟨hn, ?_⟩
    unfold SIZE_MAX at hle ⊢
    omega

theorem add_of_free_debug {α : Type} (cfg : config) (j : basic_jar α) (c : Nat) (v : α)
    (f : fault) (hd : cfg.ndebug = false) (hc : c ∈ j.iFreeCookies) :
    add cfg j c v f = (result.aborted, j) := by
  unfold add
  rw [assert_fails cfg _ c hd hc]
  simp

theorem assert_of_not_aborted (cfg : config) (free : List Nat) (c : Nat)
    (h : ¬(cfg.ndebug = false ∧ c ∈ free)) : cfg.ndebug = true ∨ c ∉ free := by
  by_cases hc : c ∈ free
  · left
    cases hn : cfg.ndebug with
    | true => rfl
    | false => exact absurd ⟨hn, hc⟩ h
  · exact Or.inr hc

/-- The ways a call of `add` with a cookie of the cookie type ends when it does
not end the process. -/
theorem add_cases {α : Type} (cfg : config) (j : basic_jar α) (c : Nat) (v : α) (f : fault)
    (hty : c < 2 ^ cfg.cookie_bits) :
    (add cfg j c v f).1.fatal = false →
    (cfg.ndebug = true ∨ c ∉ j.iFreeCookies) ∧
    (add cfg j c v f = (result.thrown exception.length_error, j) ∨
      (contains j c = true ∧
        add cfg j c v f = (result.thrown exception.cookie_already_added, j)) ∨
      (contains j c = false ∧
        ((promoted_succ cfg c = c + 1 ∧ c < SIZE_MAX) ∨ c < j.iReverseIndices.length) ∧
        add cfg j c v f =
          match f with
          | fault.construct =>
            (result.thrown exception.constructor_error,
              { j with iReverseIndices := grown j.iReverseIndices c })
          | fault.allocate =>
            (result.thrown exception.bad_alloc,
              { j with iReverseIndices := grown j.iReverseIndices c })
          | fault.none =>
            (result.returned j.iItems.length,
              { j with
                iItems := j.iItems ++ [v]
                iAllocatedCookies := j.iAllocatedCookies ++ [c]
                iReverseIndices := (grown j.iReverseIndices c).set c j.iItems.length }))) := by
  intro hnf
  have ha : cfg.ndebug = true ∨ c ∉ j.iFreeCookies := by
    apply assert_of_not_aborted
    rintro ⟨hd, hc⟩
    rw [add_of_free_debug cfg j c v f hd hc] at hnf
    simp [result.fatal] at hnf
  refine ⟨ha, ?_⟩
  by_cases hl : contains j c = true
  · exact Or.inr (Or.inl ⟨hl, add_of_contains cfg j c v f ha hl⟩)
  · have hl : contains j c = false := by simpa using hl
    by_cases hs : (cfg.cookie_bits < 32 ∨ c < INVALID_COOKIE cfg) ∨ c < j.iReverseIndices.length
    · have hs2 : (promoted_succ cfg c = c + 1 ∧ c < SIZE_MAX) ∨ c < j.iReverseIndices.length :=
        hs.imp (promoted_succ_of_typed cfg hty) id
      exact Or.inr (Or.inr ⟨hl, hs2, add_of_unbound cfg j c v f hs2 ha hl⟩)
    · left
      have h1 : 32 ≤ cfg.cookie_bits := by
        by_contra h; exact hs (Or.inl (Or.inl (by omega)))
      have h2 : ¬c < INVALID_COOKIE cfg := fun h => hs (Or.inl (Or.inr h))
      have h3 : ¬c < j.iReverseIndices.length := fun h => hs (Or.inr h)
      have h4 := INVALID_COOKIE_succ cfg
      have hc : c = INVALID_COOKIE cfg := by omega
      obtain ⟨g1, g2⟩ := add_of_sentinel cfg j c v f h1 hc (by omega) ha
      by_cases h0 : j.iReverseIndices.length = 0
      · rw [g1 h0] at hnf
        simp [result.fatal] at hnf
      · exact g2 (by omega)

theorem length_lt_of_unbound {α : Type} (j : basic_jar α) (c : Nat) (hinv : jar_invariant j)
    (hl : contains j c = false) (hb : max j.iReverseIndices.length (c + 1) ≤ SIZE_MAX) :
    j.iItems.length < INVALID_REVERSE_INDEX := by
  have hnd : (j.iAllocatedCookies ++ [c]).Nodup := by
    rw [List.nodup_append]
    refine ⟨nodup_allocated j hinv, List.nodup_singleton c, ?_⟩
    intro a ha hac
    rw [List.mem_singleton] at hac
    subst hac
    rw [mem_allocated_iff j hinv] at ha
    rw [ha] at hl
    exact absurd hl (by simp)
  have hbd : ∀ a ∈ j.iAllocatedCookies ++ [c], a < max j.iReverseIndices.length (c + 1) := by
    intro a ha
    rw [List.mem_append, List.mem_singleton] at ha
    rcases ha with h | h
    · rw [mem_allocated_iff j hinv, contains_iff] at h
      obtain ⟨r, hr, _⟩ := h
      obtain ⟨hlt, _⟩ := List.getElem?_eq_some.mp hr
      omega
    · omega
  have := length_le_of_nodup_of_lt hnd hbd
  have h1 := (jar_invariant_iff j).mp hinv
  rw [List.length_append, List.length_singleton, h1.1] at this
  unfold INVALID_REVERSE_INDEX
  omega

theorem public_invariant_add {α : Type} (cfg : config) (j : basic_jar α) (c : Nat) (v : α)
    (f : fault) (hP : public_invariant cfg j) (hty : c < 2 ^ cfg.cookie_bits)
    (hnf : (add cfg j c v f).1.fatal = false) : public_invariant cfg (add cfg j c v f).2 := by
  obtain ⟨hinv, hlen, hfree, halloc⟩ := hP
  obtain ⟨ha, h | ⟨hl, h⟩ | ⟨hl, hs, h⟩⟩ := add_cases cfg j c v f hty hnf
  · rw [h]; exact ⟨hinv, hlen, hfree, halloc⟩
  · rw [h]; exact ⟨hinv, hlen, hfree, halloc⟩
  · have hmax : max j.iReverseIndices.length (c + 1) ≤ SIZE_MAX := by
      rcases hs with ⟨_, h2⟩ | h2 <;> omega
    have hgl : (grown j.iReverseIndices c).length ≤ SIZE_MAX := by
      rw [length_grown]; exact hmax
    rw [h]
    cases f with
    | none =>
      refine ⟨jar_invariant_add j c v hinv hl (length_lt_of_unbound j c hinv hl hmax), ?_,
        hfree, ?_⟩
      · simp only [List.length_set]; exact hgl
      · intro a ha'
        simp only [List.mem_append, List.mem_singleton] at ha'
        rcases ha' with h1 | h1
        · exact halloc a h1
        · rw [h1]; exact hty
    | construct => exact ⟨jar_invariant_grown j c hinv, hgl, hfree, halloc⟩
    | allocate => exact ⟨jar_invariant_grown j c hinv, hgl, hfree, halloc⟩

theorem public_invariant_next_cookie {α : Type} (cfg : config) (j : basic_jar α)
    (hP : public_invariant cfg j) :
    public_invariant cfg (next_cookie cfg j).2 ∧
      (next_cookie cfg j).1.fatal = false ∧
      ∀ c, (next_cookie cfg j).1 = result.returned c → c < 2 ^ cfg.cookie_bits := by
  obtain ⟨hinv, hlen, hfree, halloc⟩ := hP
  rcases next_cookie_cases cfg j with ⟨free, c, hf, he⟩ | ⟨hf, he⟩
  · rw [he]
    refine ⟨⟨hinv, hlen, fun a ha => hfree a (by rw [hf]; exact List.mem_append_left _ ha),
      halloc⟩, rfl, fun d hd => ?_⟩
    simp only [result.returned.injEq] at hd
    rw [← hd]
    exact hfree c (by rw [hf]; simp)
  · rw [he]
    split
    · exact ⟨⟨hinv, hlen, hfree, halloc⟩, rfl, fun d hd => by simp at hd⟩
    · refine ⟨⟨hinv, hlen, hfree, halloc⟩, rfl, fun d hd => ?_⟩
      simp only [result.returned.injEq] at hd
      rw [← hd]
      exact Nat.mod_lt _ (Nat.two_pow_pos _)

theorem return_cookie_of_free_debug {α : Type} (cfg : config) (j : basic_jar α) (c : Nat)
    (hd : cfg.ndebug = false) (hc : c ∈ j.iFreeCookies) :
    return_cookie cfg j c = (result.aborted, j) := by
  unfold return_cookie
  rw [assert_fails cfg _ c hd hc]
  simp

theorem return_cookie_cases {α : Type} (cfg : config) (j : basic_jar α) (c : Nat)
    (hnf : (return_cookie cfg j c).1.fatal = false) :
    return_cookie cfg j c =
      (result.returned (), { j with iFreeCookies := j.iFreeCookies ++ [c] }) := by
  apply return_cookie_eq
  apply assert_of_not_aborted
  rintro ⟨hd, hc⟩
  rw [return_cookie_of_free_debug cfg j c hd hc] at hnf
  simp [result.fatal] at hnf

theorem public_invariant_return_cookie {α : Type} (cfg : config) (j : basic_jar α) (c : Nat)
    (hP : public_invariant cfg j) (hty : c < 2 ^ cfg.cookie_bits)
    (hnf : (return_cookie cfg j c).1.fatal = false) :
    public_invariant cfg (return_cookie cfg j c).2 := by
  obtain ⟨hinv, hlen, hfree, halloc⟩ := hP
  rw [return_cookie_cases cfg j c hnf]
  refine ⟨hinv, hlen, fun a ha => ?_, halloc⟩
  simp only [List.mem_append, List.mem_singleton] at ha
  rcases ha with h | h
  · exact hfree a h
  · rw [h]; exact hty

/-- `insert` keeps what `next_cookie`, `add` and `return_cookie` keep. -/
theorem insert_preserves {α : Type} (cfg : config) (v : α) (f : fault)
    (P : basic_jar α → Prop) (Q : Nat → Prop)
    (h1 : ∀ j, P j → P (next_cookie cfg j).2 ∧
      ∀ c, (next_cookie cfg j).1 = result.returned c → Q c)
    (h2 : ∀ j c, P j → Q c → (add cfg j c v f).1.fatal = false → P (add cfg j c v f).2)
    (h3 : ∀ j c, P j → Q c → (return_cookie cfg j c).1.fatal = false →
      P (return_cookie cfg j c).2)
    (j : basic_jar α) (hP : P j) (hnf : (insert cfg j v f).1.fatal = false) :
    P (insert cfg j v f).2 := by
  have g1 := h1 j hP
  unfold insert at hnf ⊢
  rcases hn : next_cookie cfg j with ⟨r, j1⟩
  rw [hn] at g1 hnf
  simp only at g1 hnf ⊢
  cases r with
  | returned c =>
    have g2 := h2 j1 c g1.1 (g1.2 c rfl)
    simp only at hnf ⊢
    rcases hadd : add cfg j1 c v f with ⟨r2, j2⟩
    rw [hadd] at g2 hnf
    simp only at g2 hnf ⊢
    cases r2 with
    | returned p => exact g2 rfl
    | thrown e =>
      have g3 := h3 j2 c (g2 rfl) (g1.2 c rfl)
      simp only at hnf ⊢
      rcases hrc : return_cookie cfg j2 c with ⟨r3, j3⟩
      rw [hrc] at g3 hnf
      simp only at g3 hnf ⊢
      cases r3 with
      | returned u => exact g3 rfl
      | thrown e1 => exact g3 rfl
      | aborted => simp [result.fatal] at hnf
      | undefined => simp [result.fatal] at hnf
    | aborted => simp [result.fatal] at hnf
    | undefined => simp [result.fatal] at hnf
  | thrown e => exact g1.1
  | aborted => exact g1.1
  | undefined => exact g1.1

theorem public_invariant_insert {α : Type} (cfg : config) (j : basic_jar α) (v : α)
    (f : fault) (hP : public_invariant cfg j) (hnf : (insert cfg j v f).1.fatal = false) :
    public_invariant cfg (insert cfg j v f).2 :=
  insert_preserves cfg v f (public_invariant cfg) (fun c => c < 2 ^ cfg.cookie_bits)
    (fun j hj => ⟨(public_invariant_next_cookie cfg j hj).1,
      (public_invariant_next_cookie cfg j hj).2.2⟩)
    (fun j c hj hc hn => public_invariant_add cfg j c v f hj hc hn)
    (fun j c hj hc hn => public_invariant_return_cookie cfg j c hj hc hn) j hP hnf

theorem mem_set_dropLast {l : List Nat} {r m a : Nat} (h : a ∈ (l.set r m).dropLast) :
    a ∈ l ∨ a = m := by
  have h1 := List.mem_of_mem_dropLast h
  exact List.mem_or_eq_of_mem_set h1

theorem public_invariant_remove {α : Type} (cfg : config) (j : basic_jar α) (c : Nat)
    (hP : public_invariant cfg j) (hnf : (remove cfg j c).1.fatal = false) :
    public_invariant cfg (remove cfg j c).2 := by
  obtain ⟨hinv, hlen, hfree, halloc⟩ := hP
  have ha : cfg.ndebug = true ∨ c ∉ j.iFreeCookies := by
    apply assert_of_not_aborted
    rintro ⟨hd, hc⟩
    rw [remove_of_free_debug cfg j c hd hc] at hnf
    simp [result.fatal] at hnf
  by_cases hl : contains j c = true
  · obtain ⟨r, hr, hne⟩ := (contains_iff j c).mp hl
    obtain ⟨x, m, hx, hm, he⟩ := remove_of_contains cfg j c r hinv hr hne ha
    rw [he]
    refine ⟨jar_invariant_remove j c r x m _ hinv hr hne hm, ?_, fun a ha' => ?_,
      fun a ha' => ?_⟩
    · simp only [List.length_set]; exact hlen
    · simp only [List.mem_append, List.mem_singleton] at ha'
      rcases ha' with h | h
      · exact hfree a h
      · rw [h]; exact halloc c ((mem_allocated_iff j hinv c).mpr hl)
    · rcases mem_set_dropLast ha' with h | h
      · exact halloc a h
      · rw [h]; exact halloc m (List.mem_of_mem_getLast? hm)
  · rw [remove_of_not_contains cfg j c ha (by simpa using hl)]
    exact ⟨hinv, hlen, hfree, halloc⟩

theorem public_invariant_remove_item {α : Type} (cfg : config) (j : basic_jar α) (p : Nat)
    (hP : public_invariant cfg j) (hnf : (remove_item cfg j p).1.fatal = false) :
    public_invariant cfg (remove_item cfg j p).2 := by
  unfold remove_item at hnf ⊢
  cases hc : item_cookie cfg j p with
  | returned c =>
    rw [hc] at hnf
    exact public_invariant_remove cfg j c hP hnf
  | thrown e => exact hP
  | aborted => exact hP
  | undefined => exact hP

theorem public_invariant_new {α : Type} (cfg : config) :
    public_invariant cfg (basic_jar.new : basic_jar α) := by
  refine ⟨(well_formed_new cfg).1, Nat.zero_le _, ?_, ?_⟩ <;> intro c hc <;> cases hc

theorem public_invariant_of_step {α : Type} (cfg : config) (j j2 : basic_jar α)
    (hs : jar_step cfg j j2) (hP : public_invariant cfg j) : public_invariant cfg j2 := by
  cases hs with
  | insert v f hnf => exact public_invariant_insert cfg j v f hP hnf
  | emplace v f hnf => exact public_invariant_insert cfg j v f hP hnf
  | add c v f hty hnf => exact public_invariant_add cfg j c v f hP hty hnf
  | remove c hty hnf => exact public_invariant_remove cfg j c hP hnf
  | remove_item p hnf => exact public_invariant_remove_item cfg j p hP hnf
  | clear => exact public_invariant_new cfg
  | next_cookie hnf => exact (public_invariant_next_cookie cfg j hP).1
  | return_cookie c hty hnf => exact public_invariant_return_cookie cfg j c hP hty hnf

theorem reachable_public_invariant {α : Type} (cfg : config) (j : basic_jar α)
    (h : reachable_public cfg j) : public_invariant cfg j := by
  induction h with
  | new => exact public_invariant_new cfg
  | step j j2 _ hs ih => exact public_invariant_of_step cfg j j2 hs ih

/-! ## The length of the reverse index -/

/-- What `add` leaves alone whatever its outcome: the free list and the counter;
and the reverse index is never shorter afterwards. -/
theorem add_frame {α : Type} (cfg : config) (j : basic_jar α) (c : Nat) (v : α) (f : fault) :
    (add cfg j c v f).2.iFreeCookies = j.iFreeCookies ∧
    (add cfg j c v f).2.iNextAvailableCookie = j.iNextAvailableCookie ∧
    j.iReverseIndices.length ≤ (add cfg j c v f).2.iReverseIndices.length := by
  unfold add
  split
  · exact ⟨rfl, rfl, le_refl _⟩
  · simp only []
    split
    · exact ⟨rfl, rfl, le_refl _⟩
    · by_cases hn : j.iReverseIndices.length ≤ c
      · simp only [hn, if_true]
        split
        · simp
        · split
          · simp
          · cases f <;> simp
      · simp only [hn, if_false]
        split
        · simp
        · split
          · simp
          · cases f <;> simp

theorem return_cookie_frame {α : Type} (cfg : config) (j : basic_jar α) (c : Nat) :
    (return_cookie cfg j c).2.iReverseIndices = j.iReverseIndices ∧
    ∀ x ∈ (return_cookie cfg j c).2.iFreeCookies, x ∈ j.iFreeCookies ∨ x = c := by
  unfold return_cookie
  split
  · exact ⟨rfl, fun x hx => Or.inl hx⟩
  · refine ⟨rfl, fun x hx => ?_⟩
    simpa using hx

/-- What `remove` does to the reverse index and the free list whatever its
outcome: the length of the first stays, and the second gains at most the cookie,
which then lies inside the reverse index. -/
theorem remove_frame {α : Type} (cfg : config) (j : basic_jar α) (c : Nat) :
    (remove cfg j c).2.iReverseIndices.length = j.iReverseIndices.length ∧
    ∀ x ∈ (remove cfg j c).2.iFreeCookies,
      x ∈ j.iFreeCookies ∨ (x = c ∧ c < j.iReverseIndices.length) := by
  unfold remove
  split
  · exact ⟨rfl, fun x hx => Or.inl hx⟩
  · split
    · exact ⟨rfl, fun x hx => Or.inl hx⟩
    · rename_i r hr
      obtain ⟨hclt, _⟩ := List.getElem?_eq_some.mp hr
      split
      · exact ⟨rfl, fun x hx => Or.inl hx⟩
      · simp only []
        split
        · exact ⟨rfl, fun x hx => Or.inl hx⟩
        · rename_i j2 hj2
          have hfr : j2.iReverseIndices.length = j.iReverseIndices.length ∧
              j2.iFreeCookies = j.iFreeCookies ∧
              j2.iNextAvailableCookie = j.iNextAvailableCookie := by
            split at hj2
            · exact swap_to_back_frame j j2 r hj2
            · have := Option.some.inj hj2
              subst this
              exact ⟨rfl, rfl, rfl⟩
          split
          · exact ⟨hfr.1, fun x hx => Or.inl (hfr.2.1 ▸ hx)⟩
          · split
            · exact ⟨hfr.1, fun x hx => Or.inl (hfr.2.1 ▸ hx)⟩
            · obtain ⟨g1, g2⟩ := return_cookie_frame cfg
                { j2 with
                  iItems := j2.iItems.dropLast
                  iAllocatedCookies := j2.iAllocatedCookies.dropLast
                  iReverseIndices := j2.iReverseIndices.set c INVALID_REVERSE_INDEX } c
              have g3 : ∀ j4 : basic_jar α,
                  j4 = (return_cookie cfg
                    { j2 with
                      iItems := j2.iItems.dropLast
                      iAllocatedCookies := j2.iAllocatedCookies.dropLast
                      iReverseIndices := j2.iReverseIndices.set c INVALID_REVERSE_INDEX } c).2 →
                  j4.iReverseIndices.length = j.iReverseIndices.length ∧
                  ∀ x ∈ j4.iFreeCookies,
                    x ∈ j.iFreeCookies ∨ (x = c ∧ c < j.iReverseIndices.length) := by
                intro j4 h4
                subst h4
                rw [g1]
                refine ⟨by simp only [List.length_set]; exact hfr.1, fun x hx => ?_⟩
                rcases g2 x hx with h | h
                · exact Or.inl (hfr.2.1 ▸ h)
                · exact Or.inr ⟨h, hclt⟩
              split <;> rename_i heq <;> exact g3 _ (by rw [heq])

theorem next_cookie_reverse_indices {α : Type} (cfg : config) (j : basic_jar α) :
    (next_cookie cfg j).2.iReverseIndices = j.iReverseIndices :=
  (next_cookie_frame cfg j _ _ rfl).2.2

/-- The reverse index is never shorter after `insert`, whatever its outcome. -/
theorem insert_length_le {α : Type} (cfg : config) (j : basic_jar α) (v : α) (f : fault) :
    j.iReverseIndices.length ≤ (insert cfg j v f).2.iReverseIndices.length := by
  have g1 := next_cookie_reverse_indices cfg j
  unfold insert
  rcases hn : next_cookie cfg j with ⟨r, j1⟩
  rw [hn] at g1
  simp only at g1 ⊢
  cases r with
  | returned c =>
    have g2 := (add_frame cfg j1 c v f).2.2
    simp only
    rcases hadd : add cfg j1 c v f with ⟨r2, j2⟩
    rw [hadd] at g2
    simp only at g2 ⊢
    rw [g1] at g2
    cases r2 with
    | returned p => exact g2
    | thrown e =>
      have g3 := (return_cookie_frame cfg j2 c).1
      simp only
      rcases hrc : return_cookie cfg j2 c with ⟨r3, j3⟩
      rw [hrc] at g3
      simp only at g3 ⊢
      cases r3 <;> simp only [g3] <;> exact g2
    | aborted => exact g2
    | undefined => exact g2
  | thrown e => rw [g1]
  | aborted => rw [g1]
  | undefined => rw [g1]

/-- After `add` of a cookie whose successor does not wrap, the reverse index
reaches the cookie whatever the outcome. -/
theorem add_covers {α : Type} (cfg : config) (j : basic_jar α) (c : Nat) (v : α) (f : fault)
    (hs : (promoted_succ cfg c = c + 1 ∧ c < SIZE_MAX) ∨ c < j.iReverseIndices.length)
    (ha : cfg.ndebug = true ∨ c ∉ j.iFreeCookies) :
    c < (add cfg j c v f).2.iReverseIndices.length := by
  by_cases hl : contains j c = true
  · rw [add_of_contains cfg j c v f ha hl]
    obtain ⟨r, hr, _⟩ := (contains_iff j c).mp hl
    exact (List.getElem?_eq_some.mp hr).1
  · rw [add_of_unbound cfg j c v f hs ha (by simpa using hl)]
    cases f <;> simp only [List.length_set, length_grown] <;> omega

theorem insert_covers_of_draw {α : Type} (cfg : config) (j j1 : basic_jar α) (c : Nat) (v : α)
    (f : fault) (h : next_cookie cfg j = (result.returned c, j1))
    (hfree : ∀ x ∈ j1.iFreeCookies, x < j1.iReverseIndices.length)
    (hc : c < (add cfg j1 c v f).2.iReverseIndices.length) :
    (∀ x ∈ (insert cfg j v f).2.iFreeCookies, x < (insert cfg j v f).2.iReverseIndices.length) ∧
      c < (insert cfg j v f).2.iReverseIndices.length := by
  obtain ⟨g1, _, g2⟩ := add_frame cfg j1 c v f
  unfold insert
  rw [h]
  simp only
  rcases hadd : add cfg j1 c v f with ⟨r2, j2⟩
  rw [hadd] at g1 g2 hc
  simp only at g1 g2 hc ⊢
  have hj2 : ∀ x ∈ j2.iFreeCookies, x < j2.iReverseIndices.length := by
    intro x hx
    rw [g1] at hx
    exact lt_of_lt_of_le (hfree x hx) g2
  cases r2 with
  | returned p => exact ⟨hj2, hc⟩
  | thrown e =>
    obtain ⟨g3, g4⟩ := return_cookie_frame cfg j2 c
    simp only
    rcases hrc : return_cookie cfg j2 c with ⟨r3, j3⟩
    rw [hrc] at g3 g4
    simp only at g3 g4 ⊢
    have hj3 : (∀ x ∈ j3.iFreeCookies, x < j3.iReverseIndices.length) ∧
        c < j3.iReverseIndices.length := by
      rw [g3]
      refine ⟨fun x hx => ?_, hc⟩
      rcases g4 x hx with h1 | h1
      · exact hj2 x h1
      · rw [h1]; exact hc
    cases r3 <;> exact hj3
  | aborted => exact ⟨hj2, hc⟩
  | undefined => exact ⟨hj2, hc⟩

/-- After `insert` on a jar whose free cookies lie inside the reverse index,
they still do, and so does the cookie that `next_cookie` handed out. -/
theorem insert_covers {α : Type} (cfg : config) (j : basic_jar α) (v : α) (f : fault)
    (hfree : ∀ x ∈ j.iFreeCookies, x < j.iReverseIndices.length) :
    (∀ x ∈ (insert cfg j v f).2.iFreeCookies, x < (insert cfg j v f).2.iReverseIndices.length) ∧
      ∀ c, (next_cookie cfg j).1 = result.returned c →
        c < (insert cfg j v f).2.iReverseIndices.length := by
  rcases next_cookie_cases cfg j with ⟨free, c, hf, he⟩ | ⟨hf, he⟩
  · have hc : c < j.iReverseIndices.length := hfree c (by rw [hf]; simp)
    obtain ⟨k1, k2⟩ := insert_covers_of_draw cfg j _ c v f he
      (fun x hx => hfree x (by rw [hf]; exact List.mem_append_left _ hx))
      (lt_of_lt_of_le hc (add_frame cfg { j with iFreeCookies := free } c v f).2.2)
    refine ⟨k1, fun d hd => ?_⟩
    rw [he] at hd
    simp only [result.returned.injEq] at hd
    rw [← hd]
    exact k2
  · by_cases hx : (j.iNextAvailableCookie + 1) % 2 ^ cfg.cookie_bits = INVALID_COOKIE cfg
    · rw [if_pos hx] at he
      have hi : insert cfg j v f = (result.thrown exception.cookies_exhausted,
          { j with iNextAvailableCookie :=
            (j.iNextAvailableCookie + 1) % 2 ^ cfg.cookie_bits }) := by
        unfold insert
        rw [he]
      rw [hi, he]
      refine ⟨fun x hx => ?_, fun d hd => ?_⟩
      · simp only [hf] at hx
        cases hx
      · simp at hd
    · rw [if_neg hx] at he
      have hlt : (j.iNextAvailableCookie + 1) % 2 ^ cfg.cookie_bits < 2 ^ cfg.cookie_bits :=
        Nat.mod_lt _ (Nat.two_pow_pos _)
      have hsucc := INVALID_COOKIE_succ cfg
      have hp := promoted_succ_of_typed cfg hlt (Or.inr (by omega))
      obtain ⟨k1, k2⟩ := insert_covers_of_draw cfg j _ _ v f he
        (fun x hx => by simp only [hf] at hx; cases hx)
        (add_covers cfg _ _ v f (Or.inl hp) (Or.inr (by simp only [hf]; simp)))
      refine ⟨k1, fun d hd => ?_⟩
      rw [he] at hd
      simp only [result.returned.injEq] at hd
      rw [← hd]
      exact k2

/-- Along calls of `insert`, `emplace`, `add` and `remove` the free cookies and
the cookies drawn so far lie inside the reverse index. -/
theorem issue_trace_covers {α : Type} (cfg : config) (j : basic_jar α) (issued : List Nat)
    (h : issue_trace cfg j issued) :
    (∀ c ∈ j.iFreeCookies, c < j.iReverseIndices.length) ∧
      ∀ c ∈ issued, c < j.iReverseIndices.length := by
  induction h with
  | new => exact ⟨fun c hc => (by cases hc), fun c hc => (by cases hc)⟩
  | insert j issued v f _ _ ih =>
    obtain ⟨k1, k2⟩ := insert_covers cfg j v f ih.1
    refine ⟨k1, fun c hc => ?_⟩
    cases hr : (next_cookie cfg j).1 with
    | returned d =>
      rw [hr] at hc
      simp only [issued_by, List.mem_append, List.mem_singleton] at hc
      rcases hc with h1 | h1
      · exact lt_of_lt_of_le (ih.2 c h1) (insert_length_le cfg j v f)
      · rw [h1]; exact k2 d hr
    | thrown e =>
      rw [hr] at hc
      exact lt_of_lt_of_le (ih.2 c hc) (insert_length_le cfg j v f)
    | aborted =>
      rw [hr] at hc
      exact lt_of_lt_of_le (ih.2 c hc) (insert_length_le cfg j v f)
    | undefined =>
      rw [hr] at hc
      exact lt_of_lt_of_le (ih.2 c hc) (insert_length_le cfg j v f)
  | emplace j issued v f _ _ ih =>
    show (∀ c ∈ (insert cfg j v f).2.iFreeCookies,
        c < (insert cfg j v f).2.iReverseIndices.length) ∧ _
    obtain ⟨k1, k2⟩ := insert_covers cfg j v f ih.1
    refine ⟨k1, fun c hc => ?_⟩
    show c < (insert cfg j v f).2.iReverseIndices.length
    cases hr : (next_cookie cfg j).1 with
    | returned d =>
      rw [hr] at hc
      simp only [issued_by, List.mem_append, List.mem_singleton] at hc
      rcases hc with h1 | h1
      · exact lt_of_lt_of_le (ih.2 c h1) (insert_length_le cfg j v f)
      · rw [h1]; exact k2 d hr
    | thrown e =>
      rw [hr] at hc
      exact lt_of_lt_of_le (ih.2 c hc) (insert_length_le cfg j v f)
    | aborted =>
      rw [hr] at hc
      exact lt_of_lt_of_le (ih.2 c hc) (insert_length_le cfg j v f)
    | undefined =>
      rw [hr] at hc
      exact lt_of_lt_of_le (ih.2 c hc) (insert_length_le cfg j v f)
  | add j issued c v f _ _ _ ih =>
    obtain ⟨g1, _, g2⟩ := add_frame cfg j c v f
    refine ⟨fun x hx => ?_, fun x hx => lt_of_lt_of_le (ih.2 x hx) g2⟩
    rw [g1] at hx
    exact lt_of_lt_of_le (ih.1 x hx) g2
  | remove j issued c _ _ ih =>
    obtain ⟨g1, g2⟩ := remove_frame cfg j c
    refine ⟨fun x hx => ?_, fun x hx => by rw [g1]; exact ih.2 x hx⟩
    rw [g1]
    rcases g2 x hx with h1 | ⟨h1, h2⟩
    · exact ih.1 x h1
    · rw [h1]; exact h2

/-! ## Example runs of the public operations, and the lock -/

theorem two_items_reachable_public : reachable_public small_debug two_items :=
  reachable_public.step _ _
    (reachable_public.step _ _ reachable_public.new
      (jar_step.insert _ 10 fault.none (by decide)))
    (jar_step.insert _ 20 fault.none (by decide))

theorem erased_once_reachable_public : reachable_public small_debug erased_once :=
  reachable_public.step _ _ two_items_reachable_public
    (jar_step.remove _ 1 (by decide) (by decide))

theorem two_items_issue_trace : issue_trace small_debug two_items [1, 2] :=
  issue_trace.insert _ [1] 20 fault.none
    (issue_trace.insert _ [] 10 fault.none issue_trace.new (by decide)) (by decide)

theorem max_held_scoped_lock (ended : Bool) : max_held (scoped_lock [] ended) 0 = 1 := by
  cases ended <;> rfl

/-! ## Exhaustion of the cookies -/

/-- A jar with an empty free list whose counter stands one short of the
sentinel: the next `insert` throws `cookies_exhausted` and leaves the counter
on the sentinel; the call after that wraps the counter and hands out 0, and the
one after that hands out 1. -/
theorem next_cookie_after_exhaustion {α : Type} (cfg : config) (j : basic_jar α) (v : α)
    (hf : j.iFreeCookies = []) (hx : j.iNextAvailableCookie + 1 = INVALID_COOKIE cfg)
    (h0 : contains j 0 = false) :
    insert cfg j v fault.none = (result.thrown exception.cookies_exhausted,
        { j with iNextAvailableCookie := INVALID_COOKIE cfg }) ∧
      next_cookie cfg { j with iNextAvailableCookie := INVALID_COOKIE cfg } =
        (result.returned 0, { j with iNextAvailableCookie := 0 }) ∧
      (insert cfg { j with iNextAvailableCookie := INVALID_COOKIE cfg } v fault.none).1 =
        result.returned 0 ∧
      next_cookie cfg { j with iNextAvailableCookie := 0 } =
        (result.returned 1, { j with iNextAvailableCookie := 1 }) := by
  have hI := INVALID_COOKIE_ge cfg
  have hS := INVALID_COOKIE_succ cfg
  have e2 : next_cookie cfg { j with iNextAvailableCookie := INVALID_COOKIE cfg } =
      (result.returned 0, { j with iNextAvailableCookie := 0 }) :=
    next_cookie_of_counter cfg { j with iNextAvailableCookie := INVALID_COOKIE cfg } 0 hf
      (by show (INVALID_COOKIE cfg + 1) % 2 ^ cfg.cookie_bits = 0
          rw [hS, Nat.mod_self]) (by omega)
  refine ⟨?_, e2, ?_, ?_⟩
  · exact insert_of_exhausted_counter cfg j v fault.none hf
      (by rw [hx]; exact Nat.mod_eq_of_lt (by omega))
  · rw [insert_of_draw cfg _ _ 0 v fault.none e2 (Or.inl (by omega))
      (Or.inr (by show (0 : Nat) ∉ j.iFreeCookies; rw [hf]; simp))]
    have hc : contains { j with iNextAvailableCookie := 0 } 0 = false := by
      exact (contains_congr j _ rfl 0).trans h0
    rw [if_neg (by simp [hc])]
  · exact next_cookie_of_counter cfg { j with iNextAvailableCookie := 0 } 1 hf
      (by show (0 + 1) % 2 ^ cfg.cookie_bits = 1
          exact Nat.mod_eq_of_lt (by omega)) (by omega)

theorem next_cookie_ne_sentinel {α : Type} (cfg : config) (j : basic_jar α)
    (hf : j.iFreeCookies = []) :
    (next_cookie cfg j).1 ≠ result.returned (INVALID_COOKIE cfg) := by
  rcases next_cookie_cases cfg j with ⟨free, c, hf', _⟩ | ⟨_, he⟩
  · rw [hf] at hf'
    exact absurd hf' (by simp)
  · rw [he]
    split
    · simp
    · rename_i hne
      simp only [ne_eq, result.returned.injEq]
      exact hne

/-! ## The partition of the issued cookies -/

/-- After a successful draw from an unexhausted jar, every cookie from 1 up to
the counter is live, on the free list, or the cookie drawn. -/
theorem next_cookie_covered {α : Type} (cfg : config) (j j1 : basic_jar α) (c : Nat)
    (hu : unexhausted cfg j)
    (hcov : ∀ d, 1 ≤ d → d ≤ j.iNextAvailableCookie →
      contains j d = true ∨ d ∈ j.iFreeCookies)
    (h : next_cookie cfg j = (result.returned c, j1)) :
    ∀ d, 1 ≤ d → d ≤ j1.iNextAvailableCookie →
      contains j1 d = true ∨ d ∈ j1.iFreeCookies ∨ d = c := by
  have hS := INVALID_COOKIE_succ cfg
  rcases next_cookie_cases cfg j with ⟨free, c', hf, he⟩ | ⟨hf, he⟩
  · rw [he] at h
    obtain ⟨hc, hj⟩ := Prod.mk.inj h
    have hc' : c' = c := result.returned.inj hc
    subst hc' hj
    intro d h1 h2
    rcases hcov d h1 h2 with g | g
    · exact Or.inl g
    · rw [hf] at g
      simp only [List.mem_append, List.mem_singleton] at g
      exact Or.inr g
  · rw [he] at h
    split at h
    · exact absurd (Prod.mk.inj h).1 (by simp)
    · obtain ⟨hc, hj⟩ := Prod.mk.inj h
      have hc' := result.returned.inj hc
      subst hj
      have hlt := hu.1
      have hmod : (j.iNextAvailableCookie + 1) % 2 ^ cfg.cookie_bits =
          j.iNextAvailableCookie + 1 := Nat.mod_eq_of_lt (by omega)
      intro d h1 h2
      change d ≤ (j.iNextAvailableCookie + 1) % 2 ^ cfg.cookie_bits at h2
      rw [hmod] at h2 hc'
      by_cases hd : d ≤ j.iNextAvailableCookie
      · rcases hcov d h1 hd with g | g
        · exact Or.inl g
        · exact Or.inr (Or.inl g)
      · exact Or.inr (Or.inr (by omega))

theorem insert_covered {α : Type} (cfg : config) (j : basic_jar α) (v : α) (f : fault)
    (hwf : well_formed cfg j) (hu : unexhausted cfg j)
    (hcov : ∀ d, 1 ≤ d → d ≤ j.iNextAvailableCookie →
      contains j d = true ∨ d ∈ j.iFreeCookies)
    (hne : (insert cfg j v f).1 ≠ result.thrown exception.cookies_exhausted) :
    ∀ d, 1 ≤ d → d ≤ (insert cfg j v f).2.iNextAvailableCookie →
      contains (insert cfg j v f).2 d = true ∨ d ∈ (insert cfg j v f).2.iFreeCookies := by
  by_cases h : ∃ c j1, next_cookie cfg j = (result.returned c, j1)
  · obtain ⟨c, j1, h⟩ := h
    obtain ⟨hwf1, hc, ha, _, _, _⟩ := next_cookie_returned cfg j j1 c hwf h
    obtain ⟨hu1, hl, hle, hnf⟩ := next_cookie_unexhausted cfg j j1 c hu h
    have hcov1 := next_cookie_covered cfg j j1 c hu hcov h
    rw [insert_of_draw cfg j j1 c v f h (Or.inl hc) ha, if_neg (by simp [hl])]
    cases f
    · intro d h1 h2
      have hlen := length_lt_of_fresh cfg j1 c hwf1 hc hl
      rw [contains_add j1 c v d hlen]
      rcases hcov1 d h1 h2 with g | g | g
      · left; simp [g]
      · exact Or.inr g
      · left; simp [g]
    · intro d h1 h2
      have hg : contains { j1 with
          iFreeCookies := j1.iFreeCookies ++ [c]
          iReverseIndices := grown j1.iReverseIndices c } d = contains j1 d :=
        (contains_congr { j1 with iReverseIndices := grown j1.iReverseIndices c } _ rfl d).trans
          (contains_grown j1 c d)
      rw [hg]
      rcases hcov1 d h1 h2 with g | g | g
      · exact Or.inl g
      · exact Or.inr (List.mem_append_left _ g)
      · exact Or.inr (by rw [g]; simp)
    · intro d h1 h2
      have hg : contains { j1 with
          iFreeCookies := j1.iFreeCookies ++ [c]
          iReverseIndices := grown j1.iReverseIndices c } d = contains j1 d :=
        (contains_congr { j1 with iReverseIndices := grown j1.iReverseIndices c } _ rfl d).trans
          (contains_grown j1 c d)
      rw [hg]
      rcases hcov1 d h1 h2 with g | g | g
      · exact Or.inl g
      · exact Or.inr (List.mem_append_left _ g)
      · exact Or.inr (by rw [g]; simp)
  · have h' : ∀ c j1, next_cookie cfg j ≠ (result.returned c, j1) :=
      fun c j1 e => h ⟨c, j1, e⟩
    obtain ⟨_, _, he⟩ := next_cookie_not_returned cfg j h'
    rw [insert_of_exhausted cfg j _ v f _ he] at hne
    exact absurd rfl hne

/-- `remove` stops at its assertion exactly in a build with assertions when the
cookie is on the free list. -/
theorem remove_aborted_iff {α : Type} (cfg : config) (j : basic_jar α) (c : Nat)
    (hinv : jar_invariant j) :
    (remove cfg j c).1 = result.aborted ↔ cfg.ndebug = false ∧ c ∈ j.iFreeCookies := by
  constructor
  · intro h
    by_contra hcon
    have ha := assert_of_not_aborted cfg j.iFreeCookies c hcon
    cases hl : contains j c with
    | false =>
      rw [remove_of_not_contains cfg j c ha hl] at h
      simp at h
    | true =>
      obtain ⟨p, j1, he, _⟩ := remove_live cfg j c hinv hl ha
      rw [he] at h
      simp at h
  · rintro ⟨hd, hc⟩
    rw [remove_of_free_debug cfg j c hd hc]

theorem remove_covered {α : Type} (cfg : config) (j : basic_jar α) (c : Nat)
    (hwf : well_formed cfg j) (hu : unexhausted cfg j)
    (hcov : ∀ d, 1 ≤ d → d ≤ j.iNextAvailableCookie →
      contains j d = true ∨ d ∈ j.iFreeCookies) :
    ∀ d, 1 ≤ d → d ≤ (remove cfg j c).2.iNextAvailableCookie →
      contains (remove cfg j c).2 d = true ∨ d ∈ (remove cfg j c).2.iFreeCookies := by
  cases hl : contains j c with
  | false =>
    by_cases ha : cfg.ndebug = true ∨ c ∉ j.iFreeCookies
    · rw [remove_of_not_contains cfg j c ha hl]
      exact hcov
    · have hab : ¬¬(cfg.ndebug = false ∧ c ∈ j.iFreeCookies) :=
        fun hn => ha (assert_of_not_aborted cfg _ c hn)
      have hab := not_not.mp hab
      rw [remove_of_free_debug cfg j c hab.1 hab.2]
      exact hcov
  | true =>
    have hnf : c ∉ j.iFreeCookies := by
      intro hmem
      have := (hu.2.2.1 c hmem).1
      rw [hl] at this
      exact absurd this (by simp)
    obtain ⟨p, j1, he, _, hfree, hcnt, _, _, _, hcon, _⟩ :=
      remove_live cfg j c hwf.1 hl (Or.inr hnf)
    rw [he]
    intro d h1 h2
    change d ≤ j1.iNextAvailableCookie at h2
    rw [hcnt] at h2
    show contains j1 d = true ∨ d ∈ j1.iFreeCookies
    rw [hcon d, hfree]
    by_cases hcd : c = d
    · right; rw [hcd]; simp
    · rcases hcov d h1 h2 with g | g
      · left; simp [g, hcd]
      · exact Or.inr (List.mem_append_left _ g)

theorem reachable_unexhausted_covered {α : Type} (cfg : config) (j : basic_jar α)
    (h : reachable_unexhausted cfg j) :
    ∀ d, 1 ≤ d → d ≤ j.iNextAvailableCookie →
      contains j d = true ∨ d ∈ j.iFreeCookies := by
  induction h with
  | new =>
    intro d h1 h2
    change d ≤ 0 at h2
    omega
  | insert j v f hr _ hne ih =>
    obtain ⟨hwf, hu⟩ := reachable_unexhausted_spec cfg j hr
    exact insert_covered cfg j v f hwf hu ih hne
  | emplace j v f hr _ hne ih =>
    obtain ⟨hwf, hu⟩ := reachable_unexhausted_spec cfg j hr
    exact insert_covered cfg j v f hwf hu ih hne
  | remove j c hr _ ih =>
    obtain ⟨hwf, hu⟩ := reachable_unexhausted_spec cfg j hr
    exact remove_covered cfg j c hwf hu ih

theorem erased_once_reachable : reachable_unexhausted small_debug erased_once :=
  reachable_unexhausted.remove two_items 1 two_items_reachable (by decide)

/-! ## Live entity ids -/

theorem live_trace_of_unexhausted {δ σ : Type} (env : collaborators δ σ) (cfg : ecs_config)
    (s : ecs δ σ) (live : List Nat) (h : live_trace_unexhausted env cfg s live) :
    live_trace env cfg s live := by
  induction h with
  | new fl => exact live_trace.new fl
  | created s live a _ _ ih => exact live_trace.created s live a ih
  | destroyed s live e n _ he ih => exact live_trace.destroyed s live e n ih he

theorem live_trace_id_trace {δ σ : Type} (env : collaborators δ σ) (cfg : ecs_config)
    (s : ecs δ σ) (live : List Nat) (h : live_trace env cfg s live) :
    ∃ entities, id_trace env cfg s entities [] ∧ ∀ e ∈ live, e ∈ entities := by
  induction h with
  | new fl => exact ⟨[], id_trace.new fl, fun e he => he⟩
  | created s live a _ ih =>
    obtain ⟨entities, ht, hsub⟩ := ih
    refine ⟨_, id_trace.created s entities [] a ht, fun e he => ?_⟩
    cases hr : (create_entity env cfg s a).1 with
    | returned x =>
      rw [hr] at he
      simp only [issued_by, List.mem_append, List.mem_singleton] at he ⊢
      exact he.imp (hsub e) id
    | thrown x => rw [hr] at he; exact hsub e he
    | aborted => rw [hr] at he; exact hsub e he
    | undefined => rw [hr] at he; exact hsub e he
  | destroyed s live e n _ he ih =>
    obtain ⟨entities, ht, hsub⟩ := ih
    exact ⟨entities, id_trace.destroyed s entities [] e n ht (hsub e he),
      fun x hx => hsub x (List.mem_of_mem_erase hx)⟩

theorem live_trace_info_ready {δ σ : Type} (env : collaborators δ σ) (cfg : ecs_config)
    (s : ecs δ σ) (live : List Nat) (h : live_trace env cfg s live) :
    info_ready env s ∧ s.iNextEntityId < 2 ^ cfg.entity_id_bits := by
  obtain ⟨entities, ht, _⟩ := live_trace_id_trace env cfg s live h
  obtain ⟨hr, ⟨_, _, h3⟩, _⟩ := id_trace_spec env cfg s entities [] ht
  exact ⟨hr, h3⟩

/-- While no `create_entity` has failed with `entity_ids_exhausted`: no id is
live twice or on the free list twice, no live id is on the free list, and no id
in use is above the counter. -/
theorem live_trace_unexhausted_spec {δ σ : Type} (env : collaborators δ σ) (cfg : ecs_config)
    (s : ecs δ σ) (live : List Nat) (h : live_trace_unexhausted env cfg s live) :
    live.Nodup ∧ s.iFreedEntityIds.Nodup ∧ (∀ e ∈ live, e ∉ s.iFreedEntityIds) ∧
      (∀ e ∈ live, e ≤ s.iNextEntityId) ∧ (∀ e ∈ s.iFreedEntityIds, e ≤ s.iNextEntityId) := by
  induction h with
  | new fl =>
    obtain ⟨cf, sf, tr, he, _⟩ := ecs_new_eq env fl
    rw [he]
    exact ⟨List.nodup_nil, List.nodup_nil, fun e h => absurd h (by simp),
      fun e h => absurd h (by simp), fun e h => absurd h (by simp)⟩
  | created s live a ht hne ih =>
    obtain ⟨i1, i2, i3, i4, i5⟩ := ih
    obtain ⟨hr, hlt⟩ := live_trace_info_ready env cfg s live
      (live_trace_of_unexhausted env cfg s live ht)
    have hres := create_entity_result env cfg s a hr
    obtain ⟨hfree, hcnt⟩ := create_entity_ids env cfg s a
    rw [hres] at hne ⊢
    rw [hfree, hcnt]
    rcases next_entity_id_cases cfg s with ⟨l, x, hf, he⟩ | ⟨hf, hn, he⟩ | ⟨hf, hn, he⟩
    · rw [he]
      rw [hf] at i2 i3 i5
      have hnd := List.nodup_append.mp i2
      have hxl : x ∉ l := fun hm => hnd.2.2 hm (List.mem_singleton_self x)
      have hxlive : x ∉ live := fun hm => i3 x hm (by simp)
      refine ⟨?_, hnd.1, ?_, ?_, ?_⟩
      · show (live ++ [x]).Nodup
        rw [List.nodup_append]
        refine ⟨i1, List.nodup_singleton x, ?_⟩
        intro b hb1 hb2
        rw [List.mem_singleton] at hb2
        subst hb2
        exact hxlive hb1
      · intro e hm
        show e ∉ l
        simp only [issued_by, List.mem_append, List.mem_singleton] at hm
        rcases hm with g | g
        · exact fun hl => i3 e g (List.mem_append_left _ hl)
        · rw [g]; exact hxl
      · intro e hm
        simp only [issued_by, List.mem_append, List.mem_singleton] at hm
        rcases hm with g | g
        · exact i4 e g
        · rw [g]; exact i5 x (by simp)
      · intro e hm
        exact i5 e (List.mem_append_left _ hm)
    · rw [he]
      have hmod : (s.iNextEntityId + 1) % 2 ^ cfg.entity_id_bits = s.iNextEntityId + 1 := by
        apply Nat.mod_eq_of_lt
        by_contra hge
        have : s.iNextEntityId + 1 = 2 ^ cfg.entity_id_bits := by omega
        rw [this, Nat.mod_self] at hn
        exact hn rfl
      rw [hmod]
      refine ⟨?_, ?_, ?_, ?_, ?_⟩
      · show (live ++ [s.iNextEntityId + 1]).Nodup
        rw [List.nodup_append]
        refine ⟨i1, List.nodup_singleton _, ?_⟩
        intro b hb1 hb2
        rw [List.mem_singleton] at hb2
        have := i4 b hb1
        omega
      · exact i2
      · intro e hm
        show e ∉ s.iFreedEntityIds
        rw [hf]
        simp
      · intro e hm
        show e ≤ s.iNextEntityId + 1
        simp only [issued_by, List.mem_append, List.mem_singleton] at hm
        rcases hm with g | g
        · have := i4 e g
          omega
        · omega
      · intro e hm
        show e ≤ s.iNextEntityId + 1
        have := i5 e hm
        omega
    · rw [he] at hne
      exact absurd rfl hne
  | destroyed s live e n _ he ih =>
    obtain ⟨i1, i2, i3, i4, i5⟩ := ih
    obtain ⟨hfree, hcnt⟩ := destroy_entity_ids s e n
    rw [hfree, hcnt]
    refine ⟨i1.erase e, ?_, ?_, ?_, ?_⟩
    · rw [List.nodup_append]
      refine ⟨i2, List.nodup_singleton e, ?_⟩
      intro b hb1 hb2
      rw [List.mem_singleton] at hb2
      subst hb2
      exact i3 b he hb1
    · intro x hx hm
      rw [List.mem_append, List.mem_singleton] at hm
      rcases hm with g | g
      · exact i3 x (List.mem_of_mem_erase hx) g
      · rw [g] at hx
        exact (List.Nodup.mem_erase_iff i1).mp hx |>.1 rfl
    · intro x hx
      exact i4 x (List.mem_of_mem_erase hx)
    · intro x hx
      rw [List.mem_append, List.mem_singleton] at hx
      rcases hx with g | g
      · exact i5 x g
      · rw [g]; exact i4 e he

/-- While no `create_entity` has failed with `entity_ids_exhausted`, the id that
`create_entity` returns is not live. -/
theorem create_entity_not_live {δ σ : Type} (env : collaborators δ σ) (cfg : ecs_config)
    (s : ecs δ σ) (live : List Nat) (h : live_trace_unexhausted env cfg s live) (a e : Nat)
    (hc : (create_entity env cfg s a).1 = result.returned e) : e ∉ live := by
  obtain ⟨i1, i2, i3, i4, i5⟩ := live_trace_unexhausted_spec env cfg s live h
  obtain ⟨hr, hlt⟩ := live_trace_info_ready env cfg s live
    (live_trace_of_unexhausted env cfg s live h)
  rw [create_entity_result env cfg s a hr] at hc
  rcases next_entity_id_cases cfg s with ⟨l, x, hf, he⟩ | ⟨hf, hn, he⟩ | ⟨hf, hn, he⟩
  · rw [he] at hc
    have hx : x = e := result.returned.inj hc
    rw [← hx]
    exact fun hm => i3 x hm (by rw [hf]; simp)
  · rw [he] at hc
    have hx := result.returned.inj hc
    have hmod : (s.iNextEntityId + 1) % 2 ^ cfg.entity_id_bits = s.iNextEntityId + 1 := by
      apply Nat.mod_eq_of_lt
      by_contra hge
      have : s.iNextEntityId + 1 = 2 ^ cfg.entity_id_bits := by omega
      rw [this, Nat.mod_self] at hn
      exact hn rfl
    rw [hmod] at hx
    intro hm
    have := i4 e hm
    omega
  · rw [he] at hc
    simp at hc

/-- After `n` calls `create_entity` on a new registry, `n` below the number of
values of `entity_id`: the ids from 1 to `n` are live, the free list is empty
and the counter stands at `n`. -/
theorem create_many_spec {δ σ : Type} (env : collaborators δ σ) (cfg : ecs_config)
    (fl : ecs_flags) (a n : Nat) (hn : n < 2 ^ cfg.entity_id_bits) :
    ∃ live, live_trace_unexhausted env cfg (create_many env cfg (ecs.new env fl) a n) live ∧
      (∀ e, 1 ≤ e → e ≤ n → e ∈ live) ∧
      (create_many env cfg (ecs.new env fl) a n).iFreedEntityIds = [] ∧
      (create_many env cfg (ecs.new env fl) a n).iNextEntityId = n := by
  induction n with
  | zero =>
    obtain ⟨cf, sf, tr, he, _⟩ := ecs_new_eq env fl
    refine ⟨[], live_trace_unexhausted.new fl, fun e h1 h2 => by omega, ?_, ?_⟩
    · show (ecs.new env fl).iFreedEntityIds = []
      rw [he]
    · show (ecs.new env fl).iNextEntityId = 0
      rw [he]
  | succ n ih =>
    obtain ⟨live, ht, hlive, hf, hc⟩ := ih (by omega)
    obtain ⟨hr, _⟩ := live_trace_info_ready env cfg _ live
      (live_trace_of_unexhausted env cfg _ live ht)
    have hmod : ((create_many env cfg (ecs.new env fl) a n).iNextEntityId + 1)
        % 2 ^ cfg.entity_id_bits = n + 1 := by
      rw [hc]
      exact Nat.mod_eq_of_lt hn
    have hd := next_entity_id_of_counter cfg _ hf (by rw [hmod]; omega)
    have hres := create_entity_result env cfg _ a hr
    obtain ⟨hfree, hcnt⟩ := create_entity_ids env cfg (create_many env cfg (ecs.new env fl) a n) a
    rw [hd] at hres hfree hcnt
    simp only [hmod] at hres hfree hcnt
    have hstep := live_trace_unexhausted.created _ live a ht (by rw [hres]; simp)
    rw [hres] at hstep
    refine ⟨live ++ [n + 1], hstep, fun e h1 h2 => ?_, ?_, ?_⟩
    · rw [List.mem_append, List.mem_singleton]
      by_cases he : e ≤ n
      · exact Or.inl (hlive e h1 he)
      · exact Or.inr (by omega)
    · show (create_entity env cfg (create_many env cfg (ecs.new env fl) a n) a).2.iFreedEntityIds
        = []
      rw [hfree, hf]
    · show (create_entity env cfg (create_many env cfg (ecs.new env fl) a n) a).2.iNextEntityId
        = n + 1
      rw [hcnt]

/-! ## The paused flag and the paused state -/

theorem ecs_new_systems {δ σ : Type} (env : collaborators δ σ) (fl : ecs_flags) :
    (ecs.new env fl).iSystems = [] ∧
      ∀ id f, table_find (ecs.new env fl).iSystemFactories id = some f →
        f = env.time_factory := by
  obtain ⟨p, c, t⟩ := fl
  cases p <;> cases c <;> cases t <;>
    (refine ⟨rfl, fun id f h => ?_⟩
     simp [ecs.new, register_system, register_component, table_emplace, table_find, trigger,
       all_systems_paused] at h
     try exact h.2.symm)

/-- What the registry keeps along `register_system`, `system(id)`,
`pause_all_systems` and `resume_all_systems` calls: while the flag is set every
instantiated system is the result of `pause()` on a system that was not paused,
while it is clear no instantiated system is paused, and every factory makes a
system that is not paused. -/
theorem pause_trace_spec {δ σ : Type} (env : collaborators δ σ) (s : ecs δ σ)
    (hs : pause_semantics env) (h : pause_trace env s) :
    (∀ id t, table_find s.iSystems id = some t →
      if s.iSystemsPaused then ∃ t0, t = env.pause t0 ∧ env.paused t0 = false
      else env.paused t = false) ∧
    (∀ id f, table_find s.iSystemFactories id = some f → env.paused (f ()) = false) := by
  obtain ⟨H1, H2, H3⟩ := hs
  induction h with
  | new fl =>
    obtain ⟨g1, g2⟩ := ecs_new_systems env fl
    refine ⟨fun id t ht => ?_, fun id f hf => ?_⟩
    · rw [g1] at ht
      simp [table_find] at ht
    · rw [g2 id f hf]
      exact H3
  | register_system s id f _ hf ih =>
    by_cases hr : system_registered s id = true
    · rw [register_system_of_registered s id f hr]
      exact ih
    · rw [register_system_of_fresh s id f (by simpa using hr)]
      refine ⟨ih.1, fun id2 f2 h2 => ?_⟩
      simp only [table_find_append] at h2
      cases h3 : table_find s.iSystemFactories id2 with
      | some x =>
        rw [h3] at h2
        simp only [Option.some.injEq] at h2
        rw [← h2]
        exact ih.2 id2 x h3
      | none =>
        rw [h3] at h2
        simp only at h2
        split at h2
        · simp only [Option.some.injEq] at h2
          rw [← h2]
          exact hf
        · simp at h2
  | system s id _ ih =>
    rcases system_cases env s id with ⟨t, _, he⟩ | ⟨hn, f, hf, he⟩ | ⟨_, _, he⟩
    · rw [he]; exact ih
    · rw [he]
      refine ⟨fun id2 t2 h2 => ?_, ih.2⟩
      simp only [table_find_append] at h2
      cases h3 : table_find s.iSystems id2 with
      | some x =>
        rw [h3] at h2
        simp only [Option.some.injEq] at h2
        rw [← h2]
        exact ih.1 id2 x h3
      | none =>
        rw [h3] at h2
        simp only at h2
        split at h2
        · simp only [Option.some.injEq] at h2
          rw [← h2]
          cases hp : s.iSystemsPaused with
          | true => exact ⟨f (), by simp, ih.2 id f hf⟩
          | false => simpa using ih.2 id f hf
        · simp at h2
    · rw [he]; exact ih
  | pause_all_systems s _ ih =>
    cases hp : s.iSystemsPaused with
    | true =>
      rw [pause_all_systems_of_paused env s hp]
      exact ih
    | false =>
      rw [pause_all_systems_of_running env s hp]
      refine ⟨fun id t ht => ?_, ih.2⟩
      simp only [table_find_map_values, Option.map_eq_some'] at ht
      obtain ⟨t0, h0, h1⟩ := ht
      have := ih.1 id t0 h0
      rw [hp] at this
      simp only [if_true]
      exact ⟨t0, h1.symm, by simpa using this⟩
  | resume_all_systems s _ ih =>
    cases hp : s.iSystemsPaused with
    | false =>
      rw [resume_all_systems_of_running env s hp]
      exact ih
    | true =>
      rw [resume_all_systems_of_paused env s hp]
      refine ⟨fun id t ht => ?_, ih.2⟩
      simp only [table_find_map_values, Option.map_eq_some'] at ht
      obtain ⟨t1, h0, h1⟩ := ht
      have := ih.1 id t1 h0
      rw [hp] at this
      simp only [if_true] at this
      obtain ⟨t0, e, h2⟩ := this
      simp only [Bool.false_eq_true, if_false]
      rw [← h1, e]
      exact H2 t0 h2

theorem counting_env_pause_semantics : pause_semantics counting_env :=
  ⟨fun _ => rfl, fun _ _ => rfl, rfl⟩

theorem paused_ecs_pause_trace : pause_trace counting_env paused_ecs :=
  pause_trace.system _ 5
    (pause_trace.register_system _ 6 _
      (pause_trace.register_system _ 5 _ (pause_trace.new _) rfl) rfl)

/-! ## The handle array along the calls that issue ids -/

/-- C1, as amended. In every jar reached from an empty jar by `insert`,
`emplace` and `remove` calls none of which failed with `cookies_exhausted`, as
long as the free list is not empty or the counter's next value is not the
sentinel, `insert(v)` returns a cookie `c` with `operator[](c)` yielding `v` and
`contains(c)` true, and `remove(c)` then returns and leaves `operator[](c)`
throwing `cookie_invalid` and `contains(c)` false.  With the free list empty
and the sentinel next, `insert(v)` throws `cookies_exhausted` instead. -/
theorem C1_insert_lookup_erase_round_trip {α : Type} (cfg : config) (j : basic_jar α) (v : α)
    (hr : reachable_unexhausted cfg j) :
    ((j.iFreeCookies ≠ [] ∨
        (j.iNextAvailableCookie + 1) % 2 ^ cfg.cookie_bits ≠ INVALID_COOKIE cfg) →
      ∃ c j1, insert cfg j v fault.none = (result.returned c, j1) ∧
        lookup j1 c = result.returned v ∧ contains j1 c = true ∧
        ∃ p j2, remove cfg j1 c = (result.returned p, j2) ∧
          lookup j2 c = result.thrown exception.cookie_invalid ∧ contains j2 c = false) ∧
    (j.iFreeCookies = [] →
      (j.iNextAvailableCookie + 1) % 2 ^ cfg.cookie_bits = INVALID_COOKIE cfg →
      (insert cfg j v fault.none).1 = result.thrown exception.cookies_exhausted) := by
  obtain ⟨hwf, hu⟩ := reachable_unexhausted_spec cfg j hr
  constructor
  · intro hx
    obtain ⟨c, j1, _, hwf1, _, hc, hl, _, hnf, hlen, hins⟩ := insert_returns cfg j v hwf hu hx
    have hinv2 := (well_formed_add cfg j1 c v hwf1 hc hl).1
    have hcon := contains_add j1 c v c hlen
    have hlook := lookup_add j1 c v c hwf1.1 hlen
    rw [if_pos rfl] at hlook
    simp only [decide_True, Bool.true_or] at hcon
    obtain ⟨r, hri, hne⟩ := (contains_iff _ c).mp hcon
    obtain ⟨x, m, hx1, hm, he⟩ := remove_of_contains cfg _ c r hinv2 hri hne (Or.inr hnf)
    refine ⟨c, _, hins, hlook, hcon, r, _, he, ?_, ?_⟩
    · rw [lookup_remove _ c r x m _ hinv2 hri hne hx1 hm c, if_pos rfl]
    · rw [contains_remove _ c r x m _ hinv2 hri hne hm c]
      simp
  · intro hf hx
    rw [insert_of_exhausted_counter cfg j v fault.none hf hx]

/-- C1, at the jar holding 10 and 20: a third `insert` and the `remove` after it. -/
theorem C1_witness :
    ((two_items.iFreeCookies ≠ [] ∨
        (two_items.iNextAvailableCookie + 1) % 2 ^ small_debug.cookie_bits
          ≠ INVALID_COOKIE small_debug) →
      ∃ c j1, insert small_debug two_items 30 fault.none = (result.returned c, j1) ∧
        lookup j1 c = result.returned 30 ∧ contains j1 c = true ∧
        ∃ p j2, remove small_debug j1 c = (result.returned p, j2) ∧
          lookup j2 c = result.thrown exception.cookie_invalid ∧ contains j2 c = false) ∧
    (two_items.iFreeCookies = [] →
      (two_items.iNextAvailableCookie + 1) % 2 ^ small_debug.cookie_bits
        = INVALID_COOKIE small_debug →
      (insert small_debug two_items 30 fault.none).1
        = result.thrown exception.cookies_exhausted) :=
  C1_insert_lookup_erase_round_trip small_debug two_items 30 two_items_reachable

/-- C1 as stated fails at a full jar: after 65534 inserts into a `small_jar`
no call has failed, yet the next `insert` throws `cookies_exhausted` and
returns no cookie. -/
theorem C1_counterexample :
    reachable_unexhausted small_release full_small_jar ∧
      (insert small_release full_small_jar 0 fault.none).1
        = result.thrown exception.cookies_exhausted ∧
      ¬ ∃ c j1, insert small_release full_small_jar 0 fault.none = (result.returned c, j1) := by
  refine ⟨full_small_jar_spec.1, ?_, ?_⟩
  · rw [full_small_jar_insert]
  · rintro ⟨c, j1, h⟩
    rw [full_small_jar_insert] at h
    exact absurd (Prod.mk.inj h).1 (by simp)

/-- C2, as amended. In a jar that satisfies the invariant, for a live cookie
`c` that is not on the free list (or in any case when assertions are compiled
out) and every other live cookie `d`, `remove(c)` returns, `d` is still live
afterwards and `operator[]` yields for `d` the value it yielded before. -/
theorem C2_erase_preserves_other_cookies {α : Type} (cfg : config) (j : basic_jar α)
    (c d : Nat) (hinv : jar_invariant j) (hc : contains j c = true)
    (hd : contains j d = true) (hcd : d ≠ c)
    (ha : cfg.ndebug = true ∨ c ∉ j.iFreeCookies) :
    ∃ p j1 x, remove cfg j c = (result.returned p, j1) ∧ contains j1 d = true ∧
      lookup j d = result.returned x ∧ lookup j1 d = result.returned x := by
  obtain ⟨r, hr, hne⟩ := (contains_iff j c).mp hc
  obtain ⟨x, m, hx, hm, he⟩ := remove_of_contains cfg j c r hinv hr hne ha
  obtain ⟨y, hy⟩ := lookup_of_contains j d hinv hd
  refine ⟨r, _, y, he, ?_, hy, ?_⟩
  · rw [contains_remove j c r x m _ hinv hr hne hm d, hd]
    simp [Ne.symm hcd]
  · rw [lookup_remove j c r x m _ hinv hr hne hx hm d, if_neg (Ne.symm hcd), hy]

/-- C2, at the jar holding 10 under cookie 1 and 20 under cookie 2: `remove(1)`
keeps cookie 2 and its value. -/
theorem C2_witness :
    ∃ p j1 x, remove small_debug two_items 1 = (result.returned p, j1) ∧
      contains j1 2 = true ∧ lookup two_items 2 = result.returned x ∧
      lookup j1 2 = result.returned x :=
  C2_erase_preserves_other_cookies small_debug two_items 1 2 (by decide) (by decide)
    (by decide) (by decide) (Or.inr (by decide))

/-- C2 as stated fails in a build with assertions: `stale_jar`, the jar that
`return_cookie(1)` leaves of one holding cookies 1 and 2, satisfies the
invariant and cookies 1 and 2 are live in it, but cookie 1 is on the free list
too, and `remove(1)` stops at the assertion of line 325 instead of returning. -/
theorem C2_counterexample :
    return_cookie small_debug two_items 1 = (result.returned (), stale_jar) ∧
      jar_invariant stale_jar ∧ contains stale_jar 1 = true ∧ contains stale_jar 2 = true ∧
      (remove small_debug stale_jar 1).1 = result.aborted ∧
      ¬ ∃ p j1, remove small_debug stale_jar 1 = (result.returned p, j1) := by
  refine ⟨by decide, by decide, by decide, by decide, by decide, ?_⟩
  rintro ⟨p, j1, h⟩
  have h1 : (remove small_debug stale_jar 1).1 = result.aborted := by decide
  rw [h] at h1
  exact absurd h1 (by simp)

/-- C3. In every jar reached from an empty jar by `insert`, `emplace` and
`remove` calls, `size()` is the number of live cookies and `empty()` holds
exactly when there is none. -/
theorem C3_size_counts_live_cookies {α : Type} (cfg : config) (j : basic_jar α)
    (hr : reachable cfg j) :
    size j = (live_cookies j).length ∧ (empty j = true ↔ (live_cookies j).length = 0) := by
  have hinv := (reachable_well_formed cfg j hr).1
  have hlen : (live_cookies j).length = j.iItems.length := by
    rw [(live_cookies_perm j hinv).length_eq]
    exact ((jar_invariant_iff j).mp hinv).1
  refine ⟨hlen.symm, ?_⟩
  rw [hlen]
  unfold empty
  rw [List.isEmpty_iff, List.length_eq_zero]

/-- C3, at the jar holding 10 and 20 after `remove(1)`. -/
theorem C3_witness :
    size erased_once = (live_cookies erased_once).length ∧
      (empty erased_once = true ↔ (live_cookies erased_once).length = 0) :=
  C3_size_counts_live_cookies small_debug erased_once
    (reachable.remove two_items 1 (reachable_of_unexhausted _ _ two_items_reachable)
      (by decide))

/-- C4, as amended. In every jar reached from an empty jar by `insert`,
`emplace` and `remove` calls none of which failed with `cookies_exhausted`, as
long as the free list is not empty or the counter's next value is not the
sentinel, `insert(v)` returns a cookie `c` that was not live, and afterwards
`operator[]` yields `v` for `c` and for every other cookie what it yielded
before: the jar is the finite map it was, with `c ↦ v` added. -/
theorem C4_insert_preserves_bindings {α : Type} (cfg : config) (j : basic_jar α) (v : α)
    (hr : reachable_unexhausted cfg j)
    (hx : j.iFreeCookies ≠ [] ∨
      (j.iNextAvailableCookie + 1) % 2 ^ cfg.cookie_bits ≠ INVALID_COOKIE cfg) :
    ∃ c j1, insert cfg j v fault.none = (result.returned c, j1) ∧ contains j c = false ∧
      (∀ d, lookup j1 d = if d = c then result.returned v else lookup j d) ∧
      (∀ d, contains j1 d = (decide (d = c) || contains j d)) ∧
      (∀ d, contains j d = true →
        ∃ x, lookup j d = result.returned x ∧ lookup j1 d = result.returned x) := by
  obtain ⟨hwf, hu⟩ := reachable_unexhausted_spec cfg j hr
  obtain ⟨c, j1, hd, hwf1, _, hc, hl, _, hnf, hlen, hins⟩ := insert_returns cfg j v hwf hu hx
  obtain ⟨g1, _, g3⟩ := next_cookie_frame cfg j j1 _ hd
  have hlj : contains j c = false := by
    rw [← contains_congr j j1 g3 c]; exact hl
  have hlook : ∀ d, lookup { j1 with
      iItems := j1.iItems ++ [v]
      iAllocatedCookies := j1.iAllocatedCookies ++ [c]
      iReverseIndices := (grown j1.iReverseIndices c).set c j1.iItems.length } d
      = if d = c then result.returned v else lookup j d := by
    intro d
    rw [lookup_add j1 c v d hwf1.1 hlen, lookup_congr j j1 g3 g1 d]
    by_cases hcd : c = d
    · rw [if_pos hcd, if_pos hcd.symm]
    · rw [if_neg hcd, if_neg (Ne.symm hcd)]
  refine ⟨c, _, hins, hlj, hlook, ?_, ?_⟩
  · intro d
    rw [contains_add j1 c v d hlen, contains_congr j j1 g3 d]
    by_cases hcd : c = d
    · simp [hcd]
    · simp [hcd, Ne.symm hcd]
  · intro d hd1
    obtain ⟨x, hx1⟩ := lookup_of_contains j d hwf.1 hd1
    refine ⟨x, hx1, ?_⟩
    have hdc : d ≠ c := by
      intro e
      rw [e, hlj] at hd1
      exact absurd hd1 (by simp)
    rw [hlook d, if_neg hdc, hx1]

/-- C4, at the jar holding 10 and 20: a third `insert` keeps both. -/
theorem C4_witness :
    ∃ c j1, insert small_debug two_items 30 fault.none = (result.returned c, j1) ∧
      contains two_items c = false ∧
      (∀ d, lookup j1 d = if d = c then result.returned 30 else lookup two_items d) ∧
      (∀ d, contains j1 d = (decide (d = c) || contains two_items d)) ∧
      (∀ d, contains two_items d = true →
        ∃ x, lookup two_items d = result.returned x ∧ lookup j1 d = result.returned x) :=
  C4_insert_preserves_bindings small_debug two_items 30 two_items_reachable
    (Or.inr (by decide))

/-- C4 as stated fails at a full jar: after 65534 inserts into a `small_jar`
cookie 1 is live, and the next `insert` does not succeed, it throws
`cookies_exhausted`. -/
theorem C4_counterexample :
    reachable_unexhausted small_release full_small_jar ∧
      contains full_small_jar 1 = true ∧
      (insert small_release full_small_jar 1 fault.none).1
        = result.thrown exception.cookies_exhausted := by
  refine ⟨full_small_jar_spec.1, full_small_jar_spec.2.2.2 1 (le_refl 1) (by decide), ?_⟩
  rw [full_small_jar_insert]

/-- C5, as amended. In a jar that satisfies the invariant, for two distinct
live cookies `c1` and `c2` neither of which is on the free list (or in any case
when assertions are compiled out): `remove(c1)` and `remove(c2)` return, the
next `insert(v1)` returns `c2`, the following `insert(v2)` returns `c1`,
`operator[]` then yields `v1` for `c2` and `v2` for `c1`, and the counter is
after either insert what it was at the start. -/
theorem C5_cookie_reuse_is_lifo {α : Type} (cfg : config) (j : basic_jar α) (c1 c2 : Nat)
    (v1 v2 : α) (hinv : jar_invariant j) (h1 : contains j c1 = true)
    (h2 : contains j c2 = true) (hne : c1 ≠ c2)
    (ha : cfg.ndebug = true ∨ (c1 ∉ j.iFreeCookies ∧ c2 ∉ j.iFreeCookies)) :
    ∃ p1 j1 p2 j2 j3 j4, remove cfg j c1 = (result.returned p1, j1) ∧
      remove cfg j1 c2 = (result.returned p2, j2) ∧
      insert cfg j2 v1 fault.none = (result.returned c2, j3) ∧
      insert cfg j3 v2 fault.none = (result.returned c1, j4) ∧
      lookup j3 c2 = result.returned v1 ∧
      lookup j4 c2 = result.returned v1 ∧ lookup j4 c1 = result.returned v2 ∧
      j3.iNextAvailableCookie = j.iNextAvailableCookie ∧
      j4.iNextAvailableCookie = j.iNextAvailableCookie := by
  have ha1 : cfg.ndebug = true ∨ c1 ∉ j.iFreeCookies := ha.imp id (fun h => h.1)
  have ha2 : cfg.ndebug = true ∨ c2 ∉ j.iFreeCookies ++ [c1] :=
    ha.imp id (fun h hmem => by
      rcases List.mem_append.mp hmem with h' | h'
      · exact h.2 h'
      · exact hne (List.mem_singleton.mp h').symm)
  obtain ⟨p1, j1, e1, inv1, f1, n1, len1, hole1, rl1, con1, _⟩ :=
    remove_live cfg j c1 hinv h1 ha1
  have h2' : contains j1 c2 = true := by
    rw [con1 c2, h2]
    simp [hne]
  obtain ⟨p2, j2, e2, inv2, f2, n2, len2, hole2, rl2, con2, _⟩ :=
    remove_live cfg j1 c2 inv1 h2' (by rw [f1]; exact ha2)
  have b0 := ((jar_invariant_iff j).mp hinv).2.2.2
  have hole1' : j2.iReverseIndices[c1]? = some INVALID_REVERSE_INDEX := by
    have hc : contains j2 c1 = false := by
      rw [con2 c1, con1 c1]
      simp
    obtain ⟨hlt, _⟩ := List.getElem?_eq_some.mp hole1
    rcases (contains_eq_false_iff j2 c1).mp hc with h | h
    · have := List.getElem?_eq_none_iff.mp h
      omega
    · exact h
  obtain ⟨j3, e3, inv3, f3, n3, it3, ri3, _, look3⟩ :=
    insert_from_free cfg j2 (j.iFreeCookies ++ [c1]) c2 v1 inv2 (by rw [f2, f1]) hole2 ha2
      (by omega)
  have hole3 : j3.iReverseIndices[c1]? = some INVALID_REVERSE_INDEX := by
    rw [ri3 c1, if_neg (Ne.symm hne)]
    exact hole1'
  have len3 : j3.iItems.length = j2.iItems.length + 1 := by
    rw [it3, List.length_append, List.length_singleton]
  obtain ⟨j4, e4, _, _, n4, _, _, _, look4⟩ :=
    insert_from_free cfg j3 j.iFreeCookies c1 v2 inv3 f3 hole3 ha1 (by omega)
  have l3 : lookup j3 c2 = result.returned v1 := by
    rw [look3 c2, if_pos rfl]
  refine ⟨p1, j1, p2, j2, j3, j4, e1, e2, e3, e4, l3, ?_, ?_, ?_, ?_⟩
  · rw [look4 c2, if_neg hne, l3]
  · rw [look4 c1, if_pos rfl]
  · rw [n3, n2, n1]
  · rw [n4, n3, n2, n1]

/-- C5, at the jar holding 10 under cookie 1 and 20 under cookie 2. -/
theorem C5_witness :
    ∃ p1 j1 p2 j2 j3 j4, remove small_debug two_items 1 = (result.returned p1, j1) ∧
      remove small_debug j1 2 = (result.returned p2, j2) ∧
      insert small_debug j2 30 fault.none = (result.returned 2, j3) ∧
      insert small_debug j3 40 fault.none = (result.returned 1, j4) ∧
      lookup j3 2 = result.returned 30 ∧
      lookup j4 2 = result.returned 30 ∧ lookup j4 1 = result.returned 40 ∧
      j3.iNextAvailableCookie = two_items.iNextAvailableCookie ∧
      j4.iNextAvailableCookie = two_items.iNextAvailableCookie :=
  C5_cookie_reuse_is_lifo small_debug two_items 1 2 30 40 (by decide) (by decide) (by decide)
    (by decide) (Or.inr (by decide))

/-- C5 as stated fails in a build with assertions.  In `stale_jar`, which
`return_cookie(1)` leaves of a jar holding cookies 1 and 2, both cookies are
live and distinct but cookie 1 is on the free list too, and `remove(1)` stops at
the assertion of line 325, so no insert follows.  The same happens in
`wrapped_jar`, which `insert` calls alone lead to: 65534 of them fill a
`small_jar`, the next throws `cookies_exhausted`, the next wraps the counter
and the last returns the live cookie 1 to the free list. -/
theorem C5_counterexample :
    ((return_cookie small_debug two_items 1).2 = stale_jar ∧
      jar_invariant stale_jar ∧ contains stale_jar 1 = true ∧ contains stale_jar 2 = true ∧
      stale_jar.iFreeCookies = [1] ∧
      remove small_debug stale_jar 1 = (result.aborted, stale_jar)) ∧
    (reachable small_debug wrapped_jar ∧ jar_invariant wrapped_jar ∧
      contains wrapped_jar 1 = true ∧ contains wrapped_jar 2 = true ∧
      wrapped_jar.iFreeCookies = [1] ∧
      remove small_debug wrapped_jar 1 = (result.aborted, wrapped_jar)) := by
  refine ⟨by decide, ?_⟩
  obtain ⟨hr, h1, h2, hf, he⟩ := wrapped_jar_spec
  exact ⟨hr, (reachable_well_formed small_debug wrapped_jar hr).1, h1, h2, hf, he⟩

/-- C6. The worked example, for every cookie width and either build: on an
empty jar `insert` of A, B, C returns the cookies 1, 2, 3 and leaves the dense
order [A, B, C]; `remove(2)` leaves the dense order [A, C] with cookie 3 at
dense position 1 and `operator[](3)` yielding C; the `insert` of D that follows
returns cookie 2 and `operator[](2)` yields D. -/
theorem C6_worked_example {α : Type} (cfg : config) (A B C D : α) :
    insert cfg basic_jar.new A fault.none =
      (result.returned 1, ⟨1, [1], [A], [], [INVALID_REVERSE_INDEX, 0]⟩) ∧
    insert cfg ⟨1, [1], [A], [], [INVALID_REVERSE_INDEX, 0]⟩ B fault.none =
      (result.returned 2, ⟨2, [1, 2], [A, B], [], [INVALID_REVERSE_INDEX, 0, 1]⟩) ∧
    insert cfg ⟨2, [1, 2], [A, B], [], [INVALID_REVERSE_INDEX, 0, 1]⟩ C fault.none =
      (result.returned 3,
        ⟨3, [1, 2, 3], [A, B, C], [], [INVALID_REVERSE_INDEX, 0, 1, 2]⟩) ∧
    remove cfg ⟨3, [1, 2, 3], [A, B, C], [], [INVALID_REVERSE_INDEX, 0, 1, 2]⟩ 2 =
      (result.returned 1,
        ⟨3, [1, 3], [A, C], [2], [INVALID_REVERSE_INDEX, 0, INVALID_REVERSE_INDEX, 1]⟩) ∧
    lookup (⟨3, [1, 3], [A, C], [2],
      [INVALID_REVERSE_INDEX, 0, INVALID_REVERSE_INDEX, 1]⟩ : basic_jar α) 3
      = result.returned C ∧
    insert cfg ⟨3, [1, 3], [A, C], [2],
      [INVALID_REVERSE_INDEX, 0, INVALID_REVERSE_INDEX, 1]⟩ D fault.none =
      (result.returned 2,
        ⟨3, [1, 3, 2], [A, C, D], [], [INVALID_REVERSE_INDEX, 0, 2, 1]⟩) ∧
    lookup (⟨3, [1, 3, 2], [A, C, D], [], [INVALID_REVERSE_INDEX, 0, 2, 1]⟩ : basic_jar α) 2
      = result.returned D := by
  have hI := INVALID_COOKIE_ge cfg
  refine ⟨?_, ?_, ?_, ?_, rfl, ?_, rfl⟩
  · exact insert_at_counter cfg basic_jar.new A rfl (by show 0 + 1 < _; omega) rfl
  · exact insert_at_counter cfg ⟨1, [1], [A], [], [INVALID_REVERSE_INDEX, 0]⟩ B rfl
      (by show 1 + 1 < _; omega) rfl
  · exact insert_at_counter cfg ⟨2, [1, 2], [A, B], [], [INVALID_REVERSE_INDEX, 0, 1]⟩ C rfl
      (by show 2 + 1 < _; omega) rfl
  · obtain ⟨x, m, hx, hm, he⟩ := remove_of_contains cfg
      (⟨3, [1, 2, 3], [A, B, C], [], [INVALID_REVERSE_INDEX, 0, 1, 2]⟩ : basic_jar α) 2 1
      (jar_invariant_items
        (⟨3, [1, 2, 3], [0, 0, 0], [], [INVALID_REVERSE_INDEX, 0, 1, 2]⟩ : basic_jar Nat)
        [A, B, C] rfl (by decide))
      rfl (by decide) (Or.inr (List.not_mem_nil 2))
    have hx' : C = x := Option.some.inj hx
    have hm' : 3 = m := Option.some.inj hm
    subst hx' hm'
    exact he
  · exact insert_at_free cfg
      (⟨3, [1, 3], [A, C], [2], [INVALID_REVERSE_INDEX, 0, INVALID_REVERSE_INDEX, 1]⟩ :
        basic_jar α) [] 2 D rfl rfl (Or.inr (List.not_mem_nil 2))

/-- C7. In every jar reached from an empty jar by `insert`, `emplace` and
`remove` calls, `allocatedCookies` holds no cookie twice, and a cookie that
`insert` or `emplace` returns was not live when the call was made. -/
theorem C7_live_cookies_unique {α : Type} (cfg : config) (j : basic_jar α)
    (hr : reachable cfg j) :
    j.iAllocatedCookies.Nodup ∧
      (∀ v f c, (insert cfg j v f).1 = result.returned c → contains j c = false) ∧
      (∀ v f c, (emplace cfg j v f).1 = result.returned c → contains j c = false) := by
  have hwf := reachable_well_formed cfg j hr
  have key : ∀ v f c, (insert cfg j v f).1 = result.returned c → contains j c = false := by
    intro v f c h
    by_cases hd : ∃ c1 j1, next_cookie cfg j = (result.returned c1, j1)
    · obtain ⟨c1, j1, hd⟩ := hd
      obtain ⟨_, hc, ha, _, _, g3⟩ := next_cookie_returned cfg j j1 c1 hwf hd
      rw [insert_of_draw cfg j j1 c1 v f hd (Or.inl hc) ha] at h
      by_cases hl : contains j1 c1 = true
      · rw [if_pos hl] at h
        exact absurd h (by simp)
      · rw [if_neg hl] at h
        cases f
        · have hcc : c1 = c := result.returned.inj h
          rw [← hcc, ← contains_congr j j1 g3 c1]
          simpa using hl
        · exact absurd h (by simp)
        · exact absurd h (by simp)
    · have h' : ∀ c1 j1, next_cookie cfg j ≠ (result.returned c1, j1) :=
        fun c1 j1 e => hd ⟨c1, j1, e⟩
      obtain ⟨_, _, he⟩ := next_cookie_not_returned cfg j h'
      rw [insert_of_exhausted cfg j _ v f _ he] at h
      exact absurd h (by simp)
  exact ⟨nodup_allocated j hwf.1, key, key⟩

/-- C7, at the jar holding 10 and 20 after `remove(1)`. -/
theorem C7_witness :
    erased_once.iAllocatedCookies.Nodup ∧
      (∀ v f c, (insert small_debug erased_once v f).1 = result.returned c →
        contains erased_once c = false) ∧
      (∀ v f c, (emplace small_debug erased_once v f).1 = result.returned c →
        contains erased_once c = false) :=
  C7_live_cookies_unique small_debug erased_once
    (reachable.remove two_items 1 (reachable_of_unexhausted _ _ two_items_reachable)
      (by decide))

/-- C8. `operator[]` fails with `cookie_invalid` exactly when the cookie is out
of range of the reverse index or its slot is a hole, which is exactly when
`contains` is false; otherwise it reads `items[reverseIndex[cookie]]`, and in a
jar that satisfies the invariant that position is within `items`, so a value is
returned. -/
theorem C8_lookup_fails_iff_not_contains {α : Type} (j : basic_jar α) (aCookie : Nat) :
    (lookup j aCookie = result.thrown exception.cookie_invalid ↔
      (j.iReverseIndices.length ≤ aCookie ∨
        j.iReverseIndices[aCookie]? = some INVALID_REVERSE_INDEX)) ∧
    ((j.iReverseIndices.length ≤ aCookie ∨
        j.iReverseIndices[aCookie]? = some INVALID_REVERSE_INDEX) ↔
      contains j aCookie = false) ∧
    (∀ e, lookup j aCookie = result.thrown e → e = exception.cookie_invalid) ∧
    (contains j aCookie = true →
      ∃ r, j.iReverseIndices[aCookie]? = some r ∧
        lookup j aCookie =
          match j.iItems[r]? with
          | some v => result.returned v
          | Option.none => result.undefined) ∧
    (jar_invariant j → contains j aCookie = true →
      ∃ r v, j.iReverseIndices[aCookie]? = some r ∧ r < j.iItems.length ∧
        j.iItems[r]? = some v ∧ lookup j aCookie = result.returned v) := by
  have hnone : j.iReverseIndices.length ≤ aCookie ↔ j.iReverseIndices[aCookie]? = none :=
    List.getElem?_eq_none_iff.symm
  refine ⟨?_, ?_, ?_, ?_, ?_⟩
  · rw [hnone]
    unfold lookup
    cases hr : j.iReverseIndices[aCookie]? with
    | none => simp
    | some r =>
      simp only
      by_cases hne : r = INVALID_REVERSE_INDEX
      · simp [hne]
      · rw [if_neg hne]
        cases j.iItems[r]? <;> simp [hne]
  · rw [hnone, contains_eq_false_iff]
  · intro e he
    unfold lookup at he
    split at he
    · exact (result.thrown.inj he).symm
    · split at he
      · exact (result.thrown.inj he).symm
      · split at he <;> exact absurd he (by simp)
  · intro hl
    obtain ⟨r, hr, hne⟩ := (contains_iff j aCookie).mp hl
    refine ⟨r, hr, ?_⟩
    unfold lookup
    simp only [hr, if_neg hne]
  · intro hinv hl
    obtain ⟨r, hr, hne⟩ := (contains_iff j aCookie).mp hl
    obtain ⟨h1, h2, _, _⟩ := (jar_invariant_iff j).mp hinv
    obtain ⟨hlt, _⟩ := List.getElem?_eq_some.mp (h2 _ _ hr hne)
    have hlt' : r < j.iItems.length := by omega
    refine ⟨r, j.iItems[r], hr, hlt', List.getElem?_eq_getElem hlt', ?_⟩
    unfold lookup
    simp only [hr, if_neg hne, List.getElem?_eq_getElem hlt']

/-- C8, at the jar holding 10 under cookie 1 and 20 under cookie 2. -/
theorem C8_witness :
    ∃ r v, two_items.iReverseIndices[2]? = some r ∧ r < two_items.iItems.length ∧
      two_items.iItems[r]? = some v ∧ lookup two_items 2 = result.returned v :=
  (C8_lookup_fails_iff_not_contains two_items 2).2.2.2.2 (by decide) (by decide)

/-- C9, as amended. `remove` of a cookie that is not allocated (out of range or
a hole) throws `cookie_invalid` and leaves the jar as it was, provided the
cookie is not on the free list or assertions are compiled out; with assertions
compiled in, `remove` of a cookie on the free list stops at the assertion, the
jar as it was.  So after a `remove(c)` that returned, `c` is not allocated and a
second `remove(c)` throws `cookie_invalid` without assertions and stops at the
assertion with them; either way it leaves the free list as the first call left
it. -/
theorem C9_erase_invalid_cookie {α : Type} (cfg : config) (j : basic_jar α) (aCookie : Nat) :
    (contains j aCookie = false → (cfg.ndebug = true ∨ aCookie ∉ j.iFreeCookies) →
      remove cfg j aCookie = (result.thrown exception.cookie_invalid, j)) ∧
    (cfg.ndebug = false → aCookie ∈ j.iFreeCookies →
      remove cfg j aCookie = (result.aborted, j)) ∧
    (∀ p j1, remove cfg j aCookie = (result.returned p, j1) →
      contains j1 aCookie = false ∧ j1.iFreeCookies = j.iFreeCookies ++ [aCookie] ∧
      remove cfg j1 aCookie =
        (if cfg.ndebug = true then result.thrown exception.cookie_invalid
          else result.aborted, j1)) := by
  refine ⟨fun hl ha => remove_of_not_contains cfg j aCookie ha hl,
    fun hd hc => remove_of_free_debug cfg j aCookie hd hc, ?_⟩
  intro p j1 h
  obtain ⟨hl, hf, _, _⟩ := remove_returned cfg j j1 aCookie p h
  refine ⟨hl, hf, ?_⟩
  cases hd : cfg.ndebug with
  | true =>
    rw [if_pos rfl]
    exact remove_of_not_contains cfg j1 aCookie (Or.inl hd) hl
  | false =>
    rw [if_neg (by simp)]
    exact remove_of_free_debug cfg j1 aCookie hd (by rw [hf]; simp)

/-- C9, without assertions: a second `remove(1)` throws `cookie_invalid` and
leaves the jar as it was. -/
theorem C9_witness :
    remove small_release erased_once 1 = (result.thrown exception.cookie_invalid, erased_once) :=
  (C9_erase_invalid_cookie small_release erased_once 1).1 (by decide) (Or.inl rfl)

/-- C9 as stated fails in a build with assertions: after `remove(1)` has
returned, cookie 1 is not allocated, and a second `remove(1)` stops at the
assertion of line 325 instead of throwing `cookie_invalid`. -/
theorem C9_counterexample :
    (remove small_debug two_items 1).1 = result.returned 0 ∧
      contains erased_once 1 = false ∧
      (remove small_debug erased_once 1).1 = result.aborted ∧
      (remove small_debug erased_once 1).1 ≠ result.thrown exception.cookie_invalid := by
  decide

/-- C10. When `insert` or `emplace` has drawn a cookie and binding it throws,
the call throws that same exception, `items` and `allocatedCookies` are as
before the call, no cookie is live that was not, the counter stays where the
draw left it, and the drawn cookie is the last entry of the free list, so the
next draw yields it again. -/
theorem C10_failed_insert_is_atomic {α : Type} (cfg : config) (j j1 j2 : basic_jar α)
    (aItem : α) (f : fault) (cookie : Nat) (e : exception)
    (hdraw : next_cookie cfg j = (result.returned cookie, j1))
    (hbind : add cfg j1 cookie aItem f = (result.thrown e, j2)) :
    ∃ j3, insert cfg j aItem f = (result.thrown e, j3) ∧
      emplace cfg j aItem f = (result.thrown e, j3) ∧
      j3.iItems = j.iItems ∧ j3.iAllocatedCookies = j.iAllocatedCookies ∧
      (∀ d, contains j3 d = contains j d) ∧
      j3.iNextAvailableCookie = j1.iNextAvailableCookie ∧
      j3.iFreeCookies = j1.iFreeCookies ++ [cookie] ∧
      (next_cookie cfg j3).1 = result.returned cookie := by
  obtain ⟨ha, h1, h2, h3, h4, k, h5⟩ := add_thrown cfg j1 j2 cookie aItem f e hbind
  obtain ⟨g1, g2, g3⟩ := next_cookie_frame cfg j j1 _ hdraw
  have hins : insert cfg j aItem f =
      (result.thrown e, { j2 with iFreeCookies := j2.iFreeCookies ++ [cookie] }) := by
    unfold insert
    rw [hdraw]
    simp only
    rw [hbind]
    simp only
    rw [return_cookie_eq cfg j2 cookie (by rw [h3]; exact ha)]
  refine ⟨_, hins, hins, ?_, ?_, ?_, h4, ?_, ?_⟩
  · exact h1.trans g1
  · exact h2.trans g2
  · intro d
    have a1 : contains { j2 with iFreeCookies := j2.iFreeCookies ++ [cookie] } d
        = contains j2 d := contains_congr _ _ rfl d
    rw [a1, contains_of_padded j1 j2 k d h5]
    exact contains_congr _ _ g3 d
  · show j2.iFreeCookies ++ [cookie] = j1.iFreeCookies ++ [cookie]
    rw [h3]
  · unfold next_cookie
    simp only [List.getLast?_concat]

/-- C10, at an empty jar whose first `insert` meets a throwing constructor. -/
theorem C10_witness :
    ∃ j3, insert small_debug (basic_jar.new : basic_jar Nat) 7 fault.construct
        = (result.thrown exception.constructor_error, j3) ∧
      emplace small_debug (basic_jar.new : basic_jar Nat) 7 fault.construct
        = (result.thrown exception.constructor_error, j3) ∧
      j3.iItems = (basic_jar.new : basic_jar Nat).iItems ∧
      j3.iAllocatedCookies = (basic_jar.new : basic_jar Nat).iAllocatedCookies ∧
      (∀ d, contains j3 d = contains (basic_jar.new : basic_jar Nat) d) ∧
      j3.iNextAvailableCookie =
        (next_cookie small_debug (basic_jar.new : basic_jar Nat)).2.iNextAvailableCookie ∧
      j3.iFreeCookies =
        (next_cookie small_debug (basic_jar.new : basic_jar Nat)).2.iFreeCookies ++ [1] ∧
      (next_cookie small_debug j3).1 = result.returned 1 :=
  C10_failed_insert_is_atomic small_debug basic_jar.new
    (next_cookie small_debug (basic_jar.new : basic_jar Nat)).2
    (add small_debug (next_cookie small_debug (basic_jar.new : basic_jar Nat)).2 1 7
      fault.construct).2
    7 fault.construct 1 exception.constructor_error (by decide) (by decide)

/-- C11, as amended. `add(cookie, value)` fails with `cookie_already_added`
exactly when the cookie is already bound (`reverse_indices()[cookie]` is valid)
and the assertion at the head of `add` holds, that is, the build has `NDEBUG`
or the cookie is not on the free list.  When it fails so, the whole jar (items,
allocated cookies, reverse indices, free list, counter) is what it was, and
`operator[]` of the cookie yields what it yielded before. -/
theorem C11_add_fails_iff_already_bound {α : Type} (cfg : config) (j : basic_jar α) (c : Nat)
    (v : α) (f : fault) :
    ((add cfg j c v f).1 = result.thrown exception.cookie_already_added ↔
      contains j c = true ∧ (cfg.ndebug = true ∨ c ∉ j.iFreeCookies)) ∧
    ((add cfg j c v f).1 = result.thrown exception.cookie_already_added →
      (add cfg j c v f).2 = j ∧ lookup (add cfg j c v f).2 c = lookup j c) := by
  have key : (add cfg j c v f).1 = result.thrown exception.cookie_already_added →
      contains j c = true ∧ (cfg.ndebug = true ∨ c ∉ j.iFreeCookies) ∧
        (add cfg j c v f).2 = j := by
    intro h
    have h2 : add cfg j c v f = (result.thrown exception.cookie_already_added,
        (add cfg j c v f).2) := Prod.ext h rfl
    have hl := add_already_added cfg j _ c v f h2
    have ha := (add_thrown cfg j _ c v f _ h2).1
    refine ⟨hl, ha, ?_⟩
    rw [add_of_contains cfg j c v f ha hl]
  refine ⟨⟨fun h => ⟨(key h).1, (key h).2.1⟩, fun h => ?_⟩, fun h => ?_⟩
  · rw [add_of_contains cfg j c v f h.2 h.1]
  · rw [(key h).2.2]
    exact ⟨rfl, rfl⟩

/-- C11 at a concrete jar: with items 10 and 20 under cookies 1 and 2 and
assertions compiled in, `add(1, 99)` fails with `cookie_already_added`, the jar
is unchanged and cookie 1 still yields 10. -/
theorem C11_witness :
    (add small_debug two_items 1 99 fault.none).1 =
        result.thrown exception.cookie_already_added ∧
      (add small_debug two_items 1 99 fault.none).2 = two_items ∧
      lookup (add small_debug two_items 1 99 fault.none).2 1 = result.returned 10 :=
  have h := C11_add_fails_iff_already_bound small_debug two_items 1 99 fault.none
  have h1 := h.1.mpr ⟨by decide, Or.inr (by decide)⟩
  ⟨h1, (h.2 h1).1, (h.2 h1).2.trans (by decide)⟩

/-- C11 as stated fails in a build with assertions: in the jar `stale_jar`
cookie 1 is bound and is also on the free list, and `add(1, 99)` stops at the
assertion of jar.hpp line 293 instead of throwing `cookie_already_added`. -/
theorem C11_counterexample :
    contains stale_jar 1 = true ∧
      add small_debug stale_jar 1 99 fault.none = (result.aborted, stale_jar) := by
  decide

/-- C12. `next_cookie` throws `cookies_exhausted` exactly when the free list is
empty and the incremented counter, computed in the cookie type, is
`INVALID_COOKIE`.  With a non-empty free list it returns the last free cookie
and leaves the counter as it was.  With an empty free list, whenever it returns
it returns the incremented counter, which is also the new counter and is the
old counter plus one unless the counter stood on the sentinel; and it does
return whenever the incremented counter is not the sentinel.  The first cookie
of a new jar is 1. -/
theorem C12_next_cookie_exhaustion {α : Type} (cfg : config) (j : basic_jar α) :
    ((next_cookie cfg j).1 = result.thrown exception.cookies_exhausted ↔
      j.iFreeCookies = [] ∧
        (j.iNextAvailableCookie + 1) % 2 ^ cfg.cookie_bits = INVALID_COOKIE cfg) ∧
    (j.iFreeCookies ≠ [] →
      (∃ c, j.iFreeCookies.getLast? = some c ∧ (next_cookie cfg j).1 = result.returned c) ∧
        (next_cookie cfg j).2.iNextAvailableCookie = j.iNextAvailableCookie) ∧
    (j.iFreeCookies = [] → ∀ c, (next_cookie cfg j).1 = result.returned c →
      c = (j.iNextAvailableCookie + 1) % 2 ^ cfg.cookie_bits ∧
        (next_cookie cfg j).2.iNextAvailableCookie = c ∧
        (j.iNextAvailableCookie < INVALID_COOKIE cfg → c = j.iNextAvailableCookie + 1)) ∧
    (j.iFreeCookies = [] →
      (j.iNextAvailableCookie + 1) % 2 ^ cfg.cookie_bits ≠ INVALID_COOKIE cfg →
      (next_cookie cfg j).1 =
        result.returned ((j.iNextAvailableCookie + 1) % 2 ^ cfg.cookie_bits)) ∧
    (next_cookie cfg (basic_jar.new : basic_jar α)).1 = result.returned 1 := by
  have hpow := pow_cookie_bits_ge cfg
  refine ⟨?_, ?_, ?_, ?_, ?_⟩
  · rcases next_cookie_cases cfg j with ⟨free, c, hf, he⟩ | ⟨hf, he⟩
    · rw [he, hf]; simp
    · rw [he]
      by_cases hx : (j.iNextAvailableCookie + 1) % 2 ^ cfg.cookie_bits = INVALID_COOKIE cfg
      · rw [if_pos hx]; simp [hf, hx]
      · rw [if_neg hx]; simp [hx]
  · intro hne
    rcases next_cookie_cases cfg j with ⟨free, c, hf, he⟩ | ⟨hf, _⟩
    · rw [he]
      exact ⟨⟨c, by rw [hf, List.getLast?_concat], rfl⟩, rfl⟩
    · exact absurd hf hne
  · intro hf c hc
    rcases next_cookie_cases cfg j with ⟨free, c', hf', _⟩ | ⟨_, he⟩
    · rw [hf] at hf'; exact absurd hf' (by simp)
    · rw [he] at hc ⊢
      by_cases hx : (j.iNextAvailableCookie + 1) % 2 ^ cfg.cookie_bits = INVALID_COOKIE cfg
      · rw [if_pos hx] at hc; simp at hc
      · rw [if_neg hx] at hc ⊢
        simp only [result.returned.injEq] at hc
        refine ⟨hc.symm, hc, fun hlt => ?_⟩
        rw [← hc]
        apply Nat.mod_eq_of_lt
        unfold INVALID_COOKIE at hlt
        omega
  · intro hf hx
    rw [next_cookie_of_counter cfg j _ hf rfl hx]
  · rw [next_cookie_of_counter cfg basic_jar.new 1 rfl ?_ ?_]
    · show (0 + 1) % 2 ^ cfg.cookie_bits = 1
      apply Nat.mod_eq_of_lt
      omega
    · have := INVALID_COOKIE_ge cfg
      omega

/-- C12 at concrete jars with 16-bit cookies: a jar whose counter stands at
65534 and whose free list is empty throws `cookies_exhausted`; the jar
`erased_once`, whose free list holds cookie 1, returns 1 and keeps its counter
at 2. -/
theorem C12_witness :
    (next_cookie small_release
        (⟨65534, [], [], [], []⟩ : basic_jar Nat)).1 =
        result.thrown exception.cookies_exhausted ∧
      (next_cookie small_release erased_once).1 = result.returned 1 ∧
      (next_cookie small_release erased_once).2.iNextAvailableCookie = 2 :=
  ⟨(C12_next_cookie_exhaustion small_release (⟨65534, [], [], [], []⟩ : basic_jar Nat)).1.mpr
      ⟨rfl, by decide⟩,
    by decide, by decide⟩

/-- C13. For each of `register_component`, `register_system` and
`register_archetype`: registering an identifier that is already registered
throws `uuid_exists` and leaves the registry as it was; and after a first
registration of a new identifier, which returns, the identifier is registered,
the table holds the factory (or archetype) of that first call, and a second
registration under the same identifier throws `uuid_exists` and leaves the
registry as the first call left it. -/
theorem C13_duplicate_registration {δ σ : Type} (s : ecs δ σ) (id : Nat)
    (f g : Unit → component_instance δ) (fs gs : Unit → σ) (a b : entity_archetype) :
    (component_registered s id = true →
      register_component s id g = (result.thrown exception.uuid_exists, s)) ∧
    (component_registered s id = false →
      (register_component s id f).1 = result.returned () ∧
      component_registered (register_component s id f).2 id = true ∧
      table_find (register_component s id f).2.iComponentFactories id = some f ∧
      register_component (register_component s id f).2 id g =
        (result.thrown exception.uuid_exists, (register_component s id f).2)) ∧
    (system_registered s id = true →
      register_system s id gs = (result.thrown exception.uuid_exists, s)) ∧
    (system_registered s id = false →
      (register_system s id fs).1 = result.returned () ∧
      system_registered (register_system s id fs).2 id = true ∧
      table_find (register_system s id fs).2.iSystemFactories id = some fs ∧
      register_system (register_system s id fs).2 id gs =
        (result.thrown exception.uuid_exists, (register_system s id fs).2)) ∧
    (archetype_registered s b = true →
      register_archetype s b = (result.thrown exception.uuid_exists, s)) ∧
    (archetype_registered s a = false → b.id = a.id →
      (register_archetype s a).1 = result.returned () ∧
      archetype_registered (register_archetype s a).2 a = true ∧
      archetype (register_archetype s a).2 a.id = result.returned a ∧
      register_archetype (register_archetype s a).2 b =
        (result.thrown exception.uuid_exists, (register_archetype s a).2)) := by
  refine ⟨register_component_of_registered s id g, fun h => ?_,
    register_system_of_registered s id gs, fun h => ?_,
    register_archetype_of_registered s b, fun h hb => ?_⟩
  · have hn : table_find s.iComponentFactories id = Option.none := by
      unfold component_registered at h; simpa using h
    rw [register_component_of_fresh s id f h]
    have hr : component_registered
        ({ s with iComponentFactories := s.iComponentFactories ++ [(id, f)] } : ecs δ σ) id
        = true := by
      unfold component_registered
      simp only [table_find_append_self _ _ _ hn, Option.isSome_some]
    exact ⟨rfl, hr, table_find_append_self _ _ _ hn, register_component_of_registered _ id g hr⟩
  · have hn : table_find s.iSystemFactories id = Option.none := by
      unfold system_registered at h; simpa using h
    rw [register_system_of_fresh s id fs h]
    have hr : system_registered
        ({ s with iSystemFactories := s.iSystemFactories ++ [(id, fs)] } : ecs δ σ) id
        = true := by
      unfold system_registered
      simp only [table_find_append_self _ _ _ hn, Option.isSome_some]
    exact ⟨rfl, hr, table_find_append_self _ _ _ hn, register_system_of_registered _ id gs hr⟩
  · have hn : table_find s.iArchetypeRegistry a.id = Option.none := by
      unfold archetype_registered at h; simpa using h
    rw [register_archetype_of_fresh s a h]
    have hr : ∀ c : entity_archetype, c.id = a.id → archetype_registered
        ({ s with iArchetypeRegistry := s.iArchetypeRegistry ++ [(a.id, a)] } : ecs δ σ) c
        = true := by
      intro c hc
      unfold archetype_registered
      simp only [hc, table_find_append_self _ _ _ hn, Option.isSome_some]
    refine ⟨rfl, hr a rfl, ?_, register_archetype_of_registered _ b (hr b hb)⟩
    unfold archetype
    simp only [table_find_append_self _ _ _ hn]

/-- C13 at a concrete registry: after `register_component(5, f)` on a new
registry a second `register_component(5, g)` throws `uuid_exists`, and the
factory under 5 is still `f`. -/
theorem C13_witness :
    (register_component
        (register_component plain_ecs 5 (fun _ => ⟨[(1, (0, 0))]⟩)).2 5 (fun _ => ⟨[]⟩)).1 =
        result.thrown exception.uuid_exists ∧
      (table_find
        (register_component
          (register_component plain_ecs 5 (fun _ => ⟨[(1, (0, 0))]⟩)).2 5
            (fun _ => ⟨[]⟩)).2.iComponentFactories 5).map (fun f => f ()) =
        some ⟨[(1, (0, 0))]⟩ :=
  have h := (C13_duplicate_registration plain_ecs 5 (fun _ => ⟨[(1, (0, 0))]⟩) (fun _ => ⟨[]⟩)
    (fun _ => false) (fun _ => false) ⟨0, ""⟩ ⟨0, ""⟩).2.1 rfl
  ⟨by rw [h.2.2.2], by rw [h.2.2.2, h.2.2.1]; rfl⟩

/-- C14. `component(id)`: when an instance is stored under `id` it is returned
and the registry, the record of factory calls included, is unchanged; otherwise,
when a factory is registered under `id`, the factory is invoked once, its result
is returned and stored under `id`, the instances under other identifiers are
unchanged, and a second `component(id)` returns the stored instance without a
factory call; otherwise `component_not_found` is thrown and the registry is
unchanged.  `system(id)` does the same with `system_not_found`, and a newly
created system is paused first when all systems are paused. -/
theorem C14_registry_get {δ σ : Type} (env : collaborators δ σ) (s : ecs δ σ) (id : Nat) :
    (∀ c, table_find s.iComponents id = some c → component s id = (result.returned c, s)) ∧
    (∀ f, table_find s.iComponents id = Option.none →
      table_find s.iComponentFactories id = some f →
      (component s id).1 = result.returned (f ()) ∧
      table_find (component s id).2.iComponents id = some (f ()) ∧
      (∀ k, k ≠ id →
        table_find (component s id).2.iComponents k = table_find s.iComponents k) ∧
      (component s id).2.component_factory_calls = s.component_factory_calls ++ [id] ∧
      component (component s id).2 id = (result.returned (f ()), (component s id).2)) ∧
    (table_find s.iComponents id = Option.none →
      table_find s.iComponentFactories id = Option.none →
      component s id = (result.thrown exception.component_not_found, s)) ∧
    (∀ t, table_find s.iSystems id = some t → system env s id = (result.returned t, s)) ∧
    (∀ f, table_find s.iSystems id = Option.none →
      table_find s.iSystemFactories id = some f →
      (system env s id).1 =
        result.returned (if all_systems_paused s then env.pause (f ()) else f ()) ∧
      table_find (system env s id).2.iSystems id =
        some (if all_systems_paused s then env.pause (f ()) else f ()) ∧
      (∀ k, k ≠ id →
        table_find (system env s id).2.iSystems k = table_find s.iSystems k) ∧
      (system env s id).2.system_factory_calls = s.system_factory_calls ++ [id] ∧
      system env (system env s id).2 id = ((system env s id).1, (system env s id).2)) ∧
    (table_find s.iSystems id = Option.none →
      table_find s.iSystemFactories id = Option.none →
      system env s id = (result.thrown exception.system_not_found, s)) := by
  refine ⟨component_of_instantiated s id, fun f h1 h2 => ?_, component_of_unknown s id,
    system_of_instantiated env s id, fun f h1 h2 => ?_, system_of_unknown env s id⟩
  · rw [component_of_factory s id f h1 h2]
    exact ⟨rfl, table_find_append_self _ _ _ h1,
      fun k hk => table_find_append_ne _ _ _ _ hk, rfl,
      component_of_instantiated _ id _ (table_find_append_self _ _ _ h1)⟩
  · rw [system_of_factory env s id f h1 h2]
    exact ⟨rfl, table_find_append_self _ _ _ h1,
      fun k hk => table_find_append_ne _ _ _ _ hk, rfl,
      system_of_instantiated env _ id _ (table_find_append_self _ _ _ h1)⟩

/-- C14 at a concrete registry: with a factory registered under 5 and nothing
instantiated, `component(5)` returns what the factory makes and records one
factory call; `component(6)`, with nothing registered under 6, throws
`component_not_found`. -/
theorem C14_witness :
    (component (register_component plain_ecs 5 (fun _ => ⟨[(1, (0, 0))]⟩)).2 5).1 =
        result.returned ⟨[(1, (0, 0))]⟩ ∧
      (component
        (register_component plain_ecs 5 (fun _ => ⟨[(1, (0, 0))]⟩)).2 5).2.component_factory_calls
        = [5] ∧
      (component (register_component plain_ecs 5 (fun _ => ⟨[(1, (0, 0))]⟩)).2 6).1 =
        result.thrown exception.component_not_found :=
  have h := C14_registry_get plain_env
    (register_component plain_ecs 5 (fun _ => ⟨[(1, (0, 0))]⟩)).2 5
  have h5 := h.2.1 (fun _ => ⟨[(1, (0, 0))]⟩) rfl rfl
  have h6 := (C14_registry_get plain_env
    (register_component plain_ecs 5 (fun _ => ⟨[(1, (0, 0))]⟩)).2 6).2.2.1 rfl rfl
  ⟨h5.1, h5.2.2.2.1, by rw [h6]⟩

/-- C15. In every registry reached from a newly constructed one by calls of its
operations, and for every identifier: the component factory and the system
factory of the identifier have each been invoked at most once; an instance is
stored under the identifier exactly when its factory has been invoked once;
`component(id)` (`system(id)`) on an instantiated identifier returns the stored
instance and leaves the registry, the record of factory calls included, as it
was; a `component(id)` (`system(id)`) that returns leaves the identifier
instantiated; every further operation keeps it instantiated; and in a newly
constructed registry nothing is instantiated. -/
theorem C15_lazy_instantiation_once {δ σ : Type} (env : collaborators δ σ)
    (cfg : ecs_config) (s : ecs δ σ)
    (h : ecs_reachable env cfg s) (id : Nat) :
    (s.component_factory_calls.count id ≤ 1 ∧ s.system_factory_calls.count id ≤ 1) ∧
    (component_instantiated s id = true ↔ s.component_factory_calls.count id = 1) ∧
    (system_instantiated s id = true ↔ s.system_factory_calls.count id = 1) ∧
    (component_instantiated s id = true → ∃ c, component s id = (result.returned c, s)) ∧
    (system_instantiated s id = true → ∃ t, system env s id = (result.returned t, s)) ∧
    (∀ c, (component s id).1 = result.returned c →
      component_instantiated (component s id).2 id = true) ∧
    (∀ t, (system env s id).1 = result.returned t →
      system_instantiated (system env s id).2 id = true) ∧
    (∀ s2, ecs_step env cfg s s2 →
      (component_instantiated s id = true → component_instantiated s2 id = true) ∧
      (system_instantiated s id = true → system_instantiated s2 id = true)) ∧
    (∀ fl, component_instantiated (ecs.new env fl) id = false ∧
      system_instantiated (ecs.new env fl) id = false) := by
  obtain ⟨hm, _⟩ := ecs_reachable_spec env cfg s h
  have hc := hm.1 id
  have hs := hm.2 id
  refine ⟨⟨?_, ?_⟩, ?_, ?_, ?_, ?_, ?_, ?_, ?_, ?_⟩
  · rw [hc]; split <;> omega
  · rw [hs]; split <;> omega
  · rw [hc]; cases component_instantiated s id <;> simp
  · rw [hs]; cases system_instantiated s id <;> simp
  · intro hi
    unfold component_instantiated at hi
    obtain ⟨c, hfc⟩ := Option.isSome_iff_exists.mp hi
    exact ⟨c, component_of_instantiated s id c hfc⟩
  · intro hi
    unfold system_instantiated at hi
    obtain ⟨c, hfc⟩ := Option.isSome_iff_exists.mp hi
    exact ⟨c, system_of_instantiated env s id c hfc⟩
  · intro c hr
    rcases component_cases s id with ⟨c', hf, he⟩ | ⟨h1, f, _, he⟩ | ⟨_, _, he⟩
    · rw [he]; unfold component_instantiated; rw [hf]; rfl
    · rw [he]; unfold component_instantiated
      simp only [table_find_append_self _ _ _ h1, Option.isSome_some]
    · rw [he] at hr; exact absurd hr (by simp)
  · intro c hr
    rcases system_cases env s id with ⟨c', hf, he⟩ | ⟨h1, f, _, he⟩ | ⟨_, _, he⟩
    · rw [he]; unfold system_instantiated; rw [hf]; rfl
    · rw [he]; unfold system_instantiated
      simp only [table_find_append_self _ _ _ h1, Option.isSome_some]
    · rw [he] at hr; exact absurd hr (by simp)
  · intro s2 hstep
    have hf := follows_of_step env cfg s s2 hstep
    exact ⟨hf.2.2.1 id, hf.2.2.2.2.1 id⟩
  · intro fl
    obtain ⟨cf, sf, tr, he, _⟩ := ecs_new_eq env fl
    rw [he]
    exact ⟨rfl, rfl⟩

/-- C15 at a concrete registry: after `register_component(5, f)` nothing is
instantiated under 5; after `component(5)` it is; and after a second
`component(5)` the factory of 5 has been invoked once. -/
theorem C15_witness :
    component_instantiated (register_component plain_ecs 5 (fun _ => ⟨[]⟩)).2 5 = false ∧
      component_instantiated
        (component (register_component plain_ecs 5 (fun _ => ⟨[]⟩)).2 5).2 5 = true ∧
      List.count 5
        (component
          (component (register_component plain_ecs 5 (fun _ => ⟨[]⟩)).2 5).2
          5).2.component_factory_calls = 1 :=
  have r1 : ecs_reachable plain_env small_ids
      (register_component plain_ecs 5 (fun _ => ⟨[]⟩)).2 :=
    ecs_reachable.step _ _ (ecs_reachable.new _) (ecs_step.component_registration _ 5 _)
  have r2 := ecs_reachable.step _ _ r1 (ecs_step.component_access _ 5)
  have r3 := ecs_reachable.step _ _ r2 (ecs_step.component_access _ 5)
  have h2 := C15_lazy_instantiation_once plain_env small_ids _ r2 5
  have h3 := C15_lazy_instantiation_once plain_env small_ids _ r3 5
  have hi : component_instantiated
      (component (register_component plain_ecs 5 (fun _ => ⟨[]⟩)).2 5).2 5 = true :=
    (C15_lazy_instantiation_once plain_env small_ids _ r1 5).2.2.2.2.2.1 ⟨[]⟩ rfl
  ⟨rfl, hi, h3.2.1.mp ((h2.2.2.2.2.2.2.2.1 _ (ecs_step.component_access _ 5)).1 hi)⟩

/-- C16. In a registry reached from a newly constructed one by calls of its
operations, let the `create_entity` calls for the archetype ids `as` return the
ids `ids`, one per call, and let every one of these ids then be destroyed once, in the order
and with the notify flags of `d`.  Then the free list is what it was after the
creations followed by the destroyed ids in the order of destruction, so every
id of `ids` is on it; and the next `create_entity` calls, as many as there are
ids, return the destroyed ids in the reverse order of destruction, leave the
free list as it was after the creations and leave the counter as it was. -/
theorem C16_entity_id_reuse {δ σ : Type} (env : collaborators δ σ)
    (cfg : ecs_config) (s : ecs δ σ)
    (hs : ecs_reachable env cfg s) (as bs ids : List Nat) (d : List (Nat × Bool))
    (hc : (create_entities env cfg s as).1 = result.returned ids)
    (hd : (d.map Prod.fst).Perm ids) (hb : bs.length = ids.length) :
    ids.length = as.length ∧
      (destroy_entities (create_entities env cfg s as).2 d).iFreedEntityIds =
        (create_entities env cfg s as).2.iFreedEntityIds ++ d.map Prod.fst ∧
      (∀ e ∈ ids, e ∈ (destroy_entities (create_entities env cfg s as).2 d).iFreedEntityIds) ∧
      (create_entities env cfg (destroy_entities (create_entities env cfg s as).2 d) bs).1 =
        result.returned (d.map Prod.fst).reverse ∧
      (create_entities env cfg
          (destroy_entities (create_entities env cfg s as).2 d) bs).2.iFreedEntityIds =
        (create_entities env cfg s as).2.iFreedEntityIds ∧
      (create_entities env cfg
          (destroy_entities (create_entities env cfg s as).2 d) bs).2.iNextEntityId =
        (create_entities env cfg s as).2.iNextEntityId := by
  have hr := (ecs_reachable_spec env cfg s hs).2
  have hr1 := info_ready_of_follows env _ _ (follows_create_entities env cfg as s) hr
  obtain ⟨h1, h2, h3⟩ := destroy_entities_spec d (create_entities env cfg s as).2
  have hr2 := info_ready_of_follows env _ _ h3 hr1
  obtain ⟨g1, g2, g3⟩ := create_entities_of_free env cfg bs _ _ _ hr2 h1
    (by rw [hb, ← hd.length_eq])
  refine ⟨create_entities_length env cfg as s ids hc, h1, fun e he => ?_, g1, g2, g3.trans h2⟩
  rw [h1]
  exact List.mem_append_right _ (hd.symm.subset he)

/-- C16 at a concrete registry with `PopulateEntityInfo`: three entities get the
ids 1, 2, 3; destroyed in the order 2, 1, 3 they come back in the order
3, 1, 2 and the counter stays at 3. -/
theorem C16_witness :
    (create_entities plain_env small_ids info_ecs [7, 7, 7]).1 = result.returned [1, 2, 3] ∧
      (create_entities plain_env small_ids
        (destroy_entities (create_entities plain_env small_ids info_ecs [7, 7, 7]).2
          [(2, true), (1, false), (3, true)]) [8, 8, 8]).1 = result.returned [3, 1, 2] ∧
      (create_entities plain_env small_ids
        (destroy_entities (create_entities plain_env small_ids info_ecs [7, 7, 7]).2
          [(2, true), (1, false), (3, true)]) [8, 8, 8]).2.iNextEntityId = 3 :=
  have h := C16_entity_id_reuse plain_env small_ids info_ecs (ecs_reachable.new _)
    [7, 7, 7] [8, 8, 8] [1, 2, 3] [(2, true), (1, false), (3, true)] (by decide) (by decide) rfl
  ⟨by decide, h.2.2.2.1, h.2.2.2.2.2.trans (by decide)⟩

/-- C17. After `destroy_entity(e, notify)`, which always returns: no
instantiated component has a record of `e`; the same components are
instantiated, under the same identifiers in the same order; every component
holds for every entity other than `e` the record it held before; `e` has been
appended to the free list of entity ids and the counter is unchanged; and
`EntityDestroyed(e)` has been triggered exactly when `notify` is set. -/
theorem C17_destroy_entity_cascades {δ σ : Type} (s : ecs δ σ) (e : Nat) (n : Bool) :
    (∀ p ∈ (destroy_entity s e n).iComponents, has_entity_record p.2 e = false) ∧
    (∀ id c, table_find (destroy_entity s e n).iComponents id = some c →
      has_entity_record c e = false) ∧
    (destroy_entity s e n).iComponents.map Prod.fst = s.iComponents.map Prod.fst ∧
    (∀ id, component_instantiated (destroy_entity s e n) id = component_instantiated s id) ∧
    (∀ id c, table_find s.iComponents id = some c →
      ∃ c2, table_find (destroy_entity s e n).iComponents id = some c2 ∧
        ∀ e2, e2 ≠ e → table_find c2.records e2 = table_find c.records e2) ∧
    (destroy_entity s e n).iFreedEntityIds = s.iFreedEntityIds ++ [e] ∧
    (destroy_entity s e n).iNextEntityId = s.iNextEntityId ∧
    (destroy_entity s e n).triggered =
      (if n then s.triggered ++ [event.EntityDestroyed e] else s.triggered) := by
  have hmem : ∀ p ∈ (destroy_entity s e n).iComponents, has_entity_record p.2 e = false := by
    intro p hp
    rw [destroy_entity_components, List.mem_map] at hp
    obtain ⟨q, _, hq⟩ := hp
    by_cases hh : has_entity_record q.2 e = true
    · rw [if_pos hh] at hq
      rw [← hq]
      exact has_entity_record_destroyed q.2 e
    · rw [if_neg hh] at hq
      rw [← hq]
      simpa using hh
  have hfind : ∀ id, table_find (destroy_entity s e n).iComponents id =
      (table_find s.iComponents id).map (fun c =>
        if has_entity_record c e then destroy_entity_record c e else c) := by
    intro id
    rw [destroy_entity_components, table_find_map _ (fun p => by split <;> rfl)]
    cases table_find s.iComponents id with
    | none => rfl
    | some c =>
      simp only [Option.map_some']
      by_cases hh : has_entity_record c e = true
      · simp only [hh, if_true]
      · simp only [hh, if_false]
        simp
  refine ⟨hmem, fun id c hc => ?_, ?_, fun id => ?_, fun id c hc => ?_,
    (destroy_entity_ids s e n).1, (destroy_entity_ids s e n).2, ?_⟩
  · rw [hfind] at hc
    cases hs : table_find s.iComponents id with
    | none => rw [hs] at hc; simp at hc
    | some c0 =>
      rw [hs] at hc
      simp only [Option.map_some', Option.some.injEq] at hc
      rw [← hc]
      by_cases hh : has_entity_record c0 e = true
      · rw [if_pos hh]; exact has_entity_record_destroyed c0 e
      · rw [if_neg hh]; simpa using hh
  · rw [destroy_entity_components, List.map_map]
    apply List.map_congr_left
    intro p _
    simp only [Function.comp]
    split <;> rfl
  · unfold component_instantiated
    rw [hfind]
    cases table_find s.iComponents id <;> rfl
  · refine ⟨if has_entity_record c e then destroy_entity_record c e else c,
      by rw [hfind, hc]; rfl, fun e2 he2 => ?_⟩
    by_cases hh : has_entity_record c e = true
    · rw [if_pos hh]; exact records_destroyed c e e2 he2
    · rw [if_neg hh]
  · cases n <;> rfl

/-- C17 at a concrete registry with `PopulateEntityInfo` and the entities 1 and
2: after `destroy_entity(1, true)` the entity info component has no record of
entity 1 and still has that of entity 2, and the free list is `[1]`. -/
theorem C17_witness :
    component_instantiated (create_entities plain_env small_ids info_ecs [7, 7]).2
        entity_info_id = true ∧
      (∀ p ∈ (destroy_entity (create_entities plain_env small_ids info_ecs [7, 7]).2 1
          true).iComponents, has_entity_record p.2 1 = false) ∧
      table_find
        (destroy_entity (create_entities plain_env small_ids info_ecs [7, 7]).2 1
          true).iComponents entity_info_id = some ⟨[(2, (7, 0))]⟩ ∧
      (destroy_entity (create_entities plain_env small_ids info_ecs [7, 7]).2 1
        true).iFreedEntityIds = [1] :=
  ⟨by decide,
    (C17_destroy_entity_cascades (create_entities plain_env small_ids info_ecs [7, 7]).2 1
      true).1,
    by decide, by decide⟩

/-- C19, what the code does instead. In every registry reached from a newly
constructed one the handle array is empty, no handle id is free and the counter
stands at 0, and `add_handle(h)` draws id 1, resizes the array to 1 element
(`iHandles.resize(nextHandleId)`) and stores at index 1, which is outside the
array.  For any registry: whenever the array has at most `id` elements for the
id drawn, it is resized to exactly `id` elements and the store at index `id` is
outside it; only when the array already has more than `id` elements is the
store inside, and then `add_handle` returns `id` and `to_handle(id)` yields
`h`. -/
theorem C19_add_handle_store_out_of_bounds {δ σ : Type} (env : collaborators δ σ)
    (cfg : ecs_config) (s : ecs δ σ)
    (hs : ecs_reachable env cfg s) (h : Nat) :
    (s.iHandles = [] ∧ s.iFreedHandleIds = [] ∧ s.iNextHandleId = 0) ∧
    ((next_handle_id cfg s).1 = result.returned 1 ∧
      (add_handle cfg s h).1 = result.undefined ∧
      (add_handle cfg s h).2.iHandles.length = 1) ∧
    (∀ (s2 : ecs δ σ) id, (next_handle_id cfg s2).1 = result.returned id →
      s2.iHandles.length ≤ id →
      (add_handle cfg s2 h).1 = result.undefined ∧
      (add_handle cfg s2 h).2.iHandles.length = id) ∧
    (∀ (s2 : ecs δ σ) id, (next_handle_id cfg s2).1 = result.returned id →
      id < s2.iHandles.length →
      (add_handle cfg s2 h).1 = result.returned id ∧
      to_handle (add_handle cfg s2 h).2 id = result.returned h) := by
  have hh := ecs_reachable_handles env cfg s hs
  have key : ∀ (s : ecs δ σ) (id : Nat), (next_handle_id cfg s).1 = result.returned id →
      add_handle cfg s h =
        if s.iHandles.length ≤ id then
          (result.undefined,
            { (next_handle_id cfg s).2 with iHandles := resize s.iHandles id })
        else (result.returned id,
          { (next_handle_id cfg s).2 with iHandles := s.iHandles.set id h }) := by
    intro s id hid
    rw [add_handle_of_draw cfg s h id (next_handle_id cfg s).2 (Prod.ext hid rfl),
      next_handle_id_handles]
  refine ⟨?_, add_handle_of_empty cfg s h hh, fun s2 id hid hl => ?_, fun s2 id hid hl => ?_⟩
  · unfold handle_state at hh
    simp only [Prod.mk.injEq] at hh
    exact hh
  · rw [key s2 id hid, if_pos hl]
    exact ⟨rfl, length_resize _ _⟩
  · rw [key s2 id hid, if_neg (by omega)]
    refine ⟨rfl, ?_⟩
    unfold to_handle
    simp only [List.getElem?_set, hl, if_true]

/-- C19 at a concrete registry with 8-bit ids: the first `add_handle` of a new
registry is undefined and leaves a handle array of one element. -/
theorem C19_witness :
    (add_handle small_ids plain_ecs 7).1 = result.undefined ∧
      (add_handle small_ids plain_ecs 7).2.iHandles.length = 1 :=
  (C19_add_handle_store_out_of_bounds plain_env small_ids plain_ecs (ecs_reachable.new _)
    7).2.1.2

/-- C20, as amended. `update_handle(id, h)` and `release_handle(id)` throw
`invalid_handle_id` exactly when `id` is not below the size of the handle
array, and then leave the registry as it was.  For an id below the size, with
no further check, `update_handle` stores `h` in the slot and returns it, so
that `to_handle(id)` yields `h`, and `release_handle` returns the handle
stored, stores the null pointer in the slot and appends `id` to the free
list of handle ids. -/
theorem C20_handle_id_checked_against_size {δ σ : Type} (s : ecs δ σ) (id h : Nat) :
    ((update_handle s id h).1 = result.thrown exception.invalid_handle_id ↔
      s.iHandles.length ≤ id) ∧
    ((release_handle s id).1 = result.thrown exception.invalid_handle_id ↔
      s.iHandles.length ≤ id) ∧
    (s.iHandles.length ≤ id →
      update_handle s id h = (result.thrown exception.invalid_handle_id, s) ∧
      release_handle s id = (result.thrown exception.invalid_handle_id, s)) ∧
    (id < s.iHandles.length →
      update_handle s id h =
        (result.returned h, { s with iHandles := s.iHandles.set id h }) ∧
      to_handle (update_handle s id h).2 id = result.returned h ∧
      ∃ old, s.iHandles[id]? = some old ∧
        release_handle s id =
          (result.returned old,
            { s with
              iHandles := s.iHandles.set id nullptr
              iFreedHandleIds := s.iFreedHandleIds ++ [id] })) := by
  have hu : s.iHandles.length ≤ id →
      update_handle s id h = (result.thrown exception.invalid_handle_id, s) := by
    intro hl
    unfold update_handle
    rw [if_pos hl]
  have hrl : s.iHandles.length ≤ id →
      release_handle s id = (result.thrown exception.invalid_handle_id, s) := by
    intro hl
    unfold release_handle
    rw [if_pos hl]
  have hu2 : id < s.iHandles.length →
      update_handle s id h =
        (result.returned h, { s with iHandles := s.iHandles.set id h }) := by
    intro hl
    unfold update_handle
    rw [if_neg (by omega)]
  have hr2 : id < s.iHandles.length → ∃ old, s.iHandles[id]? = some old ∧
      release_handle s id =
        (result.returned old,
          { s with
            iHandles := s.iHandles.set id nullptr
            iFreedHandleIds := s.iFreedHandleIds ++ [id] }) := by
    intro hl
    refine ⟨s.iHandles[id], List.getElem?_eq_getElem hl, ?_⟩
    unfold release_handle free_handle_id
    rw [if_neg (by omega)]
    simp only [List.getElem?_eq_getElem hl]
  refine ⟨⟨fun ht => ?_, fun hl => by rw [hu hl]⟩, ⟨fun ht => ?_, fun hl => by rw [hrl hl]⟩,
    fun hl => ⟨hu hl, hrl hl⟩, fun hl => ⟨hu2 hl, ?_, hr2 hl⟩⟩
  · by_contra hn
    rw [hu2 (by omega)] at ht
    simp at ht
  · by_contra hn
    obtain ⟨old, _, he⟩ := hr2 (by omega)
    rw [he] at ht
    simp at ht
  · rw [hu2 hl]
    unfold to_handle
    simp only [List.getElem?_set, hl, if_true]

/-- C20 at a concrete registry: with a handle array of two slots,
`release_handle(2)` and `update_handle(5, 9)` throw `invalid_handle_id` and
leave the registry as it was. -/
theorem C20_witness :
    release_handle released_handle 2 =
        (result.thrown exception.invalid_handle_id, released_handle) ∧
      update_handle released_handle 5 9 =
        (result.thrown exception.invalid_handle_id, released_handle) :=
  ⟨((C20_handle_id_checked_against_size released_handle 2 0).2.2.1 (by decide)).2,
    ((C20_handle_id_checked_against_size released_handle 5 9).2.2.1 (by decide)).1⟩

/-- C20 as stated fails: in the registry `released_handle` handle id 1 has been
released and is on the free list, yet `release_handle(1)` returns and puts 1 on
the free list a second time, and `update_handle(1, 9)` returns and stores 9;
`release_handle(0)` returns too and puts `null_id` on the free list. -/
theorem C20_counterexample :
    released_handle.iFreedHandleIds = [1] ∧
      (release_handle released_handle 1).1 = result.returned nullptr ∧
      (release_handle released_handle 1).2.iFreedHandleIds = [1, 1] ∧
      (update_handle released_handle 1 9).1 = result.returned 9 ∧
      (update_handle released_handle 1 9).2.iHandles = [0, 9] ∧
      (release_handle released_handle 0).1 = result.returned nullptr ∧
      (release_handle released_handle 0).2.iFreedHandleIds = [1, 0] := by
  decide

/-- C21, as amended. On each firing the timer callback reschedules the timer
(`aTimer.again()`) and invokes `apply()` exactly once on every instantiated
system: each system stored in `systems()` is replaced by what `apply()` makes
of it, whatever its paused state, and nothing is stored or applied under an
identifier that has no instance, registered or not.  The factories and the
paused flag are unchanged. -/
theorem C21_timer_applies_instantiated_systems {δ σ : Type} (env : collaborators δ σ) (s : ecs δ σ) :
    (apply_systems env s).triggered = s.triggered ++ [event.timer_again] ∧
    (apply_systems env s).iSystems = s.iSystems.map (fun p => (p.1, env.apply p.2)) ∧
    (∀ id, table_find (apply_systems env s).iSystems id =
      (table_find s.iSystems id).map env.apply) ∧
    (∀ id, system_instantiated (apply_systems env s) id = system_instantiated s id) ∧
    (apply_systems env s).iSystemFactories = s.iSystemFactories ∧
    (apply_systems env s).iSystemsPaused = s.iSystemsPaused := by
  refine ⟨rfl, rfl, fun id => table_find_map_values env.apply _ id, fun id => ?_, rfl, rfl⟩
  unfold system_instantiated
  rw [show (apply_systems env s).iSystems = s.iSystems.map (fun p => (p.1, env.apply p.2))
    from rfl, table_find_map_values]
  cases table_find s.iSystems id <;> rfl

/-- C21 at a concrete registry: system 5, not paused, has received no `apply()`
before the tick and one after it. -/
theorem C21_witness :
    table_find running_ecs.iSystems 5 = some (false, 0) ∧
      table_find (apply_systems counting_env running_ecs).iSystems 5 = some (false, 1) :=
  ⟨by decide, ((C21_timer_applies_instantiated_systems counting_env running_ecs).2.2.1 5).trans (by decide)⟩

/-- C21 as stated fails: in `paused_ecs`, constructed with `CreatePaused`,
system 5 is instantiated and in the paused state, and the tick invokes its
`apply()`; system 6 is registered and not paused, having no instance, and the
tick does not invoke its `apply()`. -/
theorem C21_counterexample :
    (table_find paused_ecs.iSystems 5).map counting_env.paused = some true ∧
      table_find paused_ecs.iSystems 5 = some (true, 0) ∧
      table_find (apply_systems counting_env paused_ecs).iSystems 5 = some (true, 1) ∧
      system_registered paused_ecs 6 = true ∧
      table_find paused_ecs.iSystems 6 = Option.none ∧
      table_find (apply_systems counting_env paused_ecs).iSystems 6 = Option.none := by
  decide

/-- C22, as amended. After `pause_all_systems()` all systems are paused; the
tick that follows still invokes `apply()` once on every instantiated system;
`resume_all_systems()` after that tick gives every instantiated system
`resume()` and clears the paused flag; and the next tick invokes `apply()` once
more on every instantiated system.  When the registry was not paused before,
`pause_all_systems()` has given every instantiated system `pause()`. -/
theorem C22_pause_tick_resume_tick {δ σ : Type} (env : collaborators δ σ) (s : ecs δ σ) :
    all_systems_paused (apply_systems env (pause_all_systems env s)) = true ∧
    (apply_systems env (pause_all_systems env s)).iSystems =
      (pause_all_systems env s).iSystems.map (fun p => (p.1, env.apply p.2)) ∧
    (resume_all_systems env (apply_systems env (pause_all_systems env s))).iSystems =
      (pause_all_systems env s).iSystems.map
        (fun p => (p.1, env.resume (env.apply p.2))) ∧
    all_systems_paused
      (apply_systems env
        (resume_all_systems env (apply_systems env (pause_all_systems env s)))) = false ∧
    (apply_systems env
        (resume_all_systems env (apply_systems env (pause_all_systems env s)))).iSystems =
      (pause_all_systems env s).iSystems.map
        (fun p => (p.1, env.apply (env.resume (env.apply p.2)))) ∧
    (s.iSystemsPaused = false →
      (pause_all_systems env s).iSystems = s.iSystems.map (fun p => (p.1, env.pause p.2))) := by
  have hp : (pause_all_systems env s).iSystemsPaused = true := by
    cases h : s.iSystemsPaused with
    | true => rw [pause_all_systems_of_paused env s h]; exact h
    | false => rw [pause_all_systems_of_running env s h]
  have hp2 : (apply_systems env (pause_all_systems env s)).iSystemsPaused = true := hp
  have hr := resume_all_systems_of_paused env _ hp2
  refine ⟨hp, rfl, ?_, ?_, ?_, fun h => ?_⟩
  · rw [hr]
    show ((pause_all_systems env s).iSystems.map (fun p => (p.1, env.apply p.2))).map
      (fun p => (p.1, env.resume p.2)) = _
    rw [List.map_map]
    rfl
  · rw [hr]; rfl
  · rw [hr]
    show (((pause_all_systems env s).iSystems.map (fun p => (p.1, env.apply p.2))).map
      (fun p => (p.1, env.resume p.2))).map (fun p => (p.1, env.apply p.2)) = _
    rw [List.map_map, List.map_map]
    rfl
  · rw [pause_all_systems_of_running env s h]

/-- C22 at a concrete registry: system 5 starts with no `apply()` call; after
pause, tick, resume, tick it is not paused and has received two. -/
theorem C22_witness :
    table_find
      (apply_systems counting_env
        (resume_all_systems counting_env
          (apply_systems counting_env (pause_all_systems counting_env running_ecs)))).iSystems
      5 = some (false, 2) :=
  (congrArg (fun m => table_find m 5) (C22_pause_tick_resume_tick counting_env running_ecs).2.2.2.2.1).trans
    (by decide)

/-- C22 as stated fails: after `pause_all_systems()` system 5 is in the paused
state with no `apply()` call received, and the tick that follows invokes its
`apply()`. -/
theorem C22_counterexample :
    table_find running_ecs.iSystems 5 = some (false, 0) ∧
      all_systems_paused (pause_all_systems counting_env running_ecs) = true ∧
      table_find (pause_all_systems counting_env running_ecs).iSystems 5 = some (true, 0) ∧
      table_find
        (apply_systems counting_env (pause_all_systems counting_env running_ecs)).iSystems 5 =
        some (true, 1) := by
  decide

/-- C23. After `pause_all_systems()` the flag `all_systems_paused()` is true and
after `resume_all_systems()` it is false, from any state.  On a paused registry
`pause_all_systems()` returns the registry as it was, and so does
`resume_all_systems()` on one that is not paused.  Otherwise every instantiated
system receives `pause()` (`resume()`), exactly one `SystemsPaused`
(`SystemsResumed`) event and no event of the other kind is triggered, and with
`Turbo` the power service is told once. -/
theorem C23_pause_resume_toggle {δ σ : Type} (env : collaborators δ σ) (s : ecs δ σ) :
    (all_systems_paused (pause_all_systems env s) = true ∧
      all_systems_paused (resume_all_systems env s) = false) ∧
    (all_systems_paused s = true → pause_all_systems env s = s) ∧
    (all_systems_paused s = false → resume_all_systems env s = s) ∧
    (all_systems_paused s = false →
      (pause_all_systems env s).iSystems = s.iSystems.map (fun p => (p.1, env.pause p.2)) ∧
      (∀ id, table_find (pause_all_systems env s).iSystems id =
        (table_find s.iSystems id).map env.pause) ∧
      (pause_all_systems env s).triggered = s.triggered ++ [event.SystemsPaused] ++
        (if s.iFlags.Turbo then [event.enable_green_mode] else []) ∧
      (pause_all_systems env s).triggered.count event.SystemsPaused =
        s.triggered.count event.SystemsPaused + 1 ∧
      (pause_all_systems env s).triggered.count event.SystemsResumed =
        s.triggered.count event.SystemsResumed) ∧
    (all_systems_paused s = true →
      (resume_all_systems env s).iSystems = s.iSystems.map (fun p => (p.1, env.resume p.2)) ∧
      (∀ id, table_find (resume_all_systems env s).iSystems id =
        (table_find s.iSystems id).map env.resume) ∧
      (resume_all_systems env s).triggered = s.triggered ++ [event.SystemsResumed] ++
        (if s.iFlags.Turbo then [event.enable_turbo_mode] else []) ∧
      (resume_all_systems env s).triggered.count event.SystemsResumed =
        s.triggered.count event.SystemsResumed + 1 ∧
      (resume_all_systems env s).triggered.count event.SystemsPaused =
        s.triggered.count event.SystemsPaused) := by
  unfold all_systems_paused
  refine ⟨⟨?_, ?_⟩, pause_all_systems_of_paused env s, resume_all_systems_of_running env s,
    fun h => ?_, fun h => ?_⟩
  · cases h : s.iSystemsPaused with
    | true => rw [pause_all_systems_of_paused env s h]; exact h
    | false => rw [pause_all_systems_of_running env s h]
  · cases h : s.iSystemsPaused with
    | true => rw [resume_all_systems_of_paused env s h]
    | false => rw [resume_all_systems_of_running env s h]; exact h
  · rw [pause_all_systems_of_running env s h]
    refine ⟨rfl, fun id => table_find_map_values env.pause _ id, rfl, ?_, ?_⟩
    · cases s.iFlags.Turbo <;> simp [List.count_append]
    · cases s.iFlags.Turbo <;> simp [List.count_append]
  · rw [resume_all_systems_of_paused env s h]
    refine ⟨rfl, fun id => table_find_map_values env.resume _ id, rfl, ?_, ?_⟩
    · cases s.iFlags.Turbo <;> simp [List.count_append]
    · cases s.iFlags.Turbo <;> simp [List.count_append]

/-- C23 at a concrete registry: `pause_all_systems()` pauses system 5, sets the
flag and triggers one `SystemsPaused`; a second `pause_all_systems()` changes
nothing. -/
theorem C23_witness :
    all_systems_paused (pause_all_systems counting_env running_ecs) = true ∧
      table_find (pause_all_systems counting_env running_ecs).iSystems 5 = some (true, 0) ∧
      (pause_all_systems counting_env running_ecs).triggered = [event.SystemsPaused] ∧
      pause_all_systems counting_env (pause_all_systems counting_env running_ecs) =
        pause_all_systems counting_env running_ecs :=
  have h := C23_pause_resume_toggle counting_env running_ecs
  have h2 := C23_pause_resume_toggle counting_env (pause_all_systems counting_env running_ecs)
  ⟨h.1.1, ((h.2.2.2.1 rfl).2.1 5).trans (by decide), (h.2.2.2.1 rfl).2.2.1.trans (by decide),
    h2.2.1 h.1.1⟩

/-- C24. `entity_info::meta::field_type(i)` throws `invalid_field_index` exactly
when `i >= field_count()`; below the count it returns `Uuid` for field 0,
`Int64` for field 1 and `Bool` for field 2, which is below the count only where
`NDEBUG` is not defined; `field_count()` is 2 with `NDEBUG` and 3 without. -/
theorem C24_field_type_range (ndebug : Bool) (i : Nat) :
    (entity_info.meta.field_type ndebug i = result.thrown exception.invalid_field_index ↔
      entity_info.meta.field_count ndebug ≤ i) ∧
    (i < entity_info.meta.field_count ndebug →
      (i = 0 → entity_info.meta.field_type ndebug i =
        result.returned component_data_field_type.Uuid) ∧
      (i = 1 → entity_info.meta.field_type ndebug i =
        result.returned component_data_field_type.Int64) ∧
      (i = 2 → entity_info.meta.field_type ndebug i =
        result.returned component_data_field_type.Bool)) ∧
    (i < entity_info.meta.field_count ndebug → i = 0 ∨ i = 1 ∨ (i = 2 ∧ ndebug = false)) ∧
    entity_info.meta.field_count true = 2 ∧ entity_info.meta.field_count false = 3 := by
  refine ⟨field_type_thrown_iff ndebug i, ?_, ?_, rfl, rfl⟩
  · intro hlt
    refine ⟨fun h => by subst h; rfl, fun h => by subst h; rfl, fun h => ?_⟩
    subst h
    cases ndebug
    · rfl
    · exact absurd hlt (by decide)
  · intro hlt
    cases ndebug
    · change i < 3 at hlt
      interval_cases i <;> simp
    · change i < 2 at hlt
      interval_cases i <;> simp

/-- C24 at index 2: with `NDEBUG` it is out of range and `field_type(2)` throws;
without, it is the field `debug` of type `Bool`. -/
theorem C24_witness :
    entity_info.meta.field_type true 2 = result.thrown exception.invalid_field_index ∧
      entity_info.meta.field_type false 2 = result.returned component_data_field_type.Bool :=
  ⟨(C24_field_type_range true 2).1.mpr (by decide), ((C24_field_type_range false 2).2.1 (by decide)).2.2 rfl⟩

/-- C25, what the code does instead. `entity_info::meta::field_name(i)` with
`i >= field_count()` reads `sFieldNames[i]` outside the array, which is
undefined, and throws nothing for any index; below the count it returns the
declared name.  The indices at which the sibling `field_type` throws
`invalid_field_index` are exactly those at which `field_name` is undefined. -/
theorem C25_field_name_unchecked (ndebug : Bool) (i : Nat) :
    (entity_info.meta.field_count ndebug ≤ i →
      entity_info.meta.field_name ndebug i = result.undefined) ∧
    (i < entity_info.meta.field_count ndebug →
      (i = 0 → entity_info.meta.field_name ndebug i = result.returned "Archetype Id") ∧
      (i = 1 → entity_info.meta.field_name ndebug i = result.returned "Creation Time") ∧
      (i = 2 → entity_info.meta.field_name ndebug i = result.returned "Debug")) ∧
    (∀ e, entity_info.meta.field_name ndebug i ≠ result.thrown e) ∧
    (entity_info.meta.field_type ndebug i = result.thrown exception.invalid_field_index ↔
      entity_info.meta.field_name ndebug i = result.undefined) := by
  have hlen : (entity_info.meta.sFieldNames ndebug).length = entity_info.meta.field_count ndebug := by
    cases ndebug <;> rfl
  have hu : entity_info.meta.field_count ndebug ≤ i →
      entity_info.meta.field_name ndebug i = result.undefined := by
    intro h
    unfold entity_info.meta.field_name
    rw [List.getElem?_eq_none (by rw [hlen]; exact h)]
  have hr : i < entity_info.meta.field_count ndebug →
      ∃ n, entity_info.meta.field_name ndebug i = result.returned n := by
    intro h
    unfold entity_info.meta.field_name
    rw [List.getElem?_eq_getElem (by rw [hlen]; exact h)]
    exact ⟨_, rfl⟩
  refine ⟨hu, fun hlt => ⟨fun h => ?_, fun h => ?_, fun h => ?_⟩, fun e he => ?_, ?_⟩
  · subst h; cases ndebug <;> rfl
  · subst h; cases ndebug <;> rfl
  · subst h
    cases ndebug
    · rfl
    · exact absurd hlt (by decide)
  · by_cases h : i < entity_info.meta.field_count ndebug
    · obtain ⟨n, hn⟩ := hr h
      rw [hn] at he
      exact absurd he (by simp)
    · rw [hu (by omega)] at he
      exact absurd he (by simp)
  · constructor
    · intro ht
      exact hu ((field_type_thrown_iff ndebug i).mp ht)
    · intro hun
      by_cases h : i < entity_info.meta.field_count ndebug
      · obtain ⟨n, hn⟩ := hr h
        rw [hn] at hun
        exact absurd hun (by simp)
      · exact (field_type_thrown_iff ndebug i).mpr (by omega)

/-- C25 at the first index out of range in each build: `field_name(2)` with
`NDEBUG` and `field_name(3)` without are undefined, where `field_type(2)` with
`NDEBUG` throws `invalid_field_index`. -/
theorem C25_witness :
    entity_info.meta.field_name true 2 = result.undefined ∧
      entity_info.meta.field_name false 3 = result.undefined ∧
      entity_info.meta.field_type true 2 = result.thrown exception.invalid_field_index :=
  ⟨(C25_field_name_unchecked true 2).1 (by decide), (C25_field_name_unchecked false 3).1 (by decide), by decide⟩

/-- C26. In every jar arrived at from the empty jar by calls of the public
operations (`insert`, `emplace`, `add`, `erase`/`remove` by cookie or by item,
`clear`, and also `next_cookie` and `return_cookie`), each call being one that
returns or throws: `allocatedCookies` and `items` have the same length; every
cookie `c` that is allocated (is in `allocatedCookies`, or has a valid reverse
index) has `reverseIndex[c] < items.size()` and
`allocatedCookies[reverseIndex[c]] == c`; and every `i < items.size()` has
`reverseIndex[allocatedCookies[i]] == i`. -/
theorem C26_structural_invariant {α : Type} (cfg : config) (j : basic_jar α)
    (h : reachable_public cfg j) :
    j.iAllocatedCookies.length = j.iItems.length ∧
      (∀ c, c ∈ j.iAllocatedCookies ∨ contains j c = true →
        ∃ r, j.iReverseIndices[c]? = some r ∧ r < j.iItems.length ∧
          j.iAllocatedCookies[r]? = some c) ∧
      (∀ i, i < j.iItems.length →
        ∃ c, j.iAllocatedCookies[i]? = some c ∧ j.iReverseIndices[c]? = some i) := by
  have hinv := (reachable_public_invariant cfg j h).1
  obtain ⟨h1, h2, h3, _⟩ := (jar_invariant_iff j).mp hinv
  refine ⟨h1, ?_, ?_⟩
  · intro c hc
    have hl : contains j c = true := by
      rcases hc with hc | hc
      · exact (mem_allocated_iff j hinv c).mp hc
      · exact hc
    obtain ⟨r, hr, hne⟩ := (contains_iff j c).mp hl
    have hrc := h2 c r hr hne
    obtain ⟨hrlt, _⟩ := List.getElem?_eq_some.mp hrc
    exact ⟨r, hr, by omega, hrc⟩
  · intro i hi
    have hi' : i < j.iAllocatedCookies.length := by omega
    exact ⟨j.iAllocatedCookies[i], List.getElem?_eq_getElem hi',
      h3 i _ (List.getElem?_eq_getElem hi')⟩

/-- C26, at the jar holding 10 and 20 after `remove(1)`. -/
theorem C26_witness :
    erased_once.iAllocatedCookies.length = erased_once.iItems.length ∧
      (∀ c, c ∈ erased_once.iAllocatedCookies ∨ contains erased_once c = true →
        ∃ r, erased_once.iReverseIndices[c]? = some r ∧ r < erased_once.iItems.length ∧
          erased_once.iAllocatedCookies[r]? = some c) ∧
      (∀ i, i < erased_once.iItems.length →
        ∃ c, erased_once.iAllocatedCookies[i]? = some c ∧
          erased_once.iReverseIndices[c]? = some i) :=
  C26_structural_invariant small_debug erased_once erased_once_reachable_public

/-- C27, as amended. For a jar that satisfies the invariant, with `n` items and
a live cookie `c` at dense position `p = reverseIndex[c]`, in a build with
`NDEBUG` or with `c` not on the free list: `remove(c)` returns the position `p`,
and afterwards `items` and `allocatedCookies` have length `n - 1`; if `p < n - 1`
the former last value `x` and its cookie `m` sit at position `p` and
`reverseIndex[m] == p`; every other dense position below `n - 1` holds what it
held; the reverse index keeps its length and every entry other than that of `c`
and, when a swap took place, of `m`; `reverseIndex[c]` is the sentinel; the free
list is the old one with `c` appended; and the counter is unchanged. -/
theorem C27_erase_postcondition {α : Type} (cfg : config) (j : basic_jar α) (c p : Nat)
    (hinv : jar_invariant j) (hp : j.iReverseIndices[c]? = some p)
    (hlive : p ≠ INVALID_REVERSE_INDEX) (ha : cfg.ndebug = true ∨ c ∉ j.iFreeCookies) :
    ∃ x m j2, j.iItems.getLast? = some x ∧ j.iAllocatedCookies.getLast? = some m ∧
      remove cfg j c = (result.returned p, j2) ∧
      j2.iItems.length = j.iItems.length - 1 ∧
      j2.iAllocatedCookies.length = j.iItems.length - 1 ∧
      (p < j.iItems.length - 1 →
        j2.iItems[p]? = some x ∧ j2.iAllocatedCookies[p]? = some m ∧
          j2.iReverseIndices[m]? = some p) ∧
      (∀ i, i < j.iItems.length - 1 → i ≠ p →
        j2.iItems[i]? = j.iItems[i]? ∧ j2.iAllocatedCookies[i]? = j.iAllocatedCookies[i]?) ∧
      j2.iReverseIndices.length = j.iReverseIndices.length ∧
      (∀ d, d ≠ c → ¬(d = m ∧ p < j.iItems.length - 1) →
        j2.iReverseIndices[d]? = j.iReverseIndices[d]?) ∧
      j2.iReverseIndices[c]? = some INVALID_REVERSE_INDEX ∧
      j2.iFreeCookies = j.iFreeCookies ++ [c] ∧
      j2.iNextAvailableCookie = j.iNextAvailableCookie := by
  obtain ⟨x, m, hx, hm, he⟩ := remove_of_contains cfg j c p hinv hp hlive ha
  obtain ⟨hrc, hrlt, hclt, hma, hmri, hmlt, hiff⟩ := live_facts j c p m hinv hp hlive hm
  have h1 := ((jar_invariant_iff j).mp hinv).1
  refine ⟨x, m, _, hx, hm, he, ?_, ?_, ?_, ?_, ?_, ?_, ?_, rfl, rfl⟩
  · simp only [List.length_dropLast, List.length_set]
  · simp only [List.length_dropLast, List.length_set, h1]
  · intro hlt
    have hcm : c ≠ m := fun e => by have := hiff.mpr e; omega
    refine ⟨?_, ?_, ?_⟩
    · show ((j.iItems.set p x).dropLast)[p]? = some x
      rw [getElem?_set_dropLast, if_pos (by omega), if_pos rfl]
    · show ((j.iAllocatedCookies.set p m).dropLast)[p]? = some m
      rw [getElem?_set_dropLast, if_pos (by omega), if_pos rfl]
    · show ((j.iReverseIndices.set m p).set c INVALID_REVERSE_INDEX)[m]? = some p
      rw [getElem?_set_set_hole _ _ _ _ _ hmlt hclt, if_neg hcm, if_pos rfl]
  · intro i hi hne
    refine ⟨?_, ?_⟩
    · show ((j.iItems.set p x).dropLast)[i]? = j.iItems[i]?
      rw [getElem?_set_dropLast, if_pos (by omega), if_neg hne.symm]
    · show ((j.iAllocatedCookies.set p m).dropLast)[i]? = j.iAllocatedCookies[i]?
      rw [getElem?_set_dropLast, if_pos (by omega), if_neg hne.symm]
  · simp only [List.length_set]
  · intro d hdc hdm
    have hmd : m ≠ d := by
      intro e
      by_cases hlt : p < j.iItems.length - 1
      · exact hdm ⟨e.symm, hlt⟩
      · have hpe : p = j.iItems.length - 1 := by omega
        exact hdc (e.symm.trans (hiff.mp hpe).symm)
    show ((j.iReverseIndices.set m p).set c INVALID_REVERSE_INDEX)[d]? = j.iReverseIndices[d]?
    rw [getElem?_set_set_hole _ _ _ _ _ hmlt hclt, if_neg hdc.symm, if_neg hmd]
  · show ((j.iReverseIndices.set m p).set c INVALID_REVERSE_INDEX)[c]? = _
    rw [getElem?_set_set_hole _ _ _ _ _ hmlt hclt, if_pos rfl]

/-- C27, at the jar holding 10 under cookie 1 and 20 under cookie 2, for
`remove(1)`: 20 and cookie 2 move to position 0. -/
theorem C27_witness :
    ∃ x m j2, two_items.iItems.getLast? = some x ∧
      two_items.iAllocatedCookies.getLast? = some m ∧
      remove small_debug two_items 1 = (result.returned 0, j2) ∧
      j2.iItems.length = two_items.iItems.length - 1 ∧
      j2.iAllocatedCookies.length = two_items.iItems.length - 1 ∧
      (0 < two_items.iItems.length - 1 →
        j2.iItems[0]? = some x ∧ j2.iAllocatedCookies[0]? = some m ∧
          j2.iReverseIndices[m]? = some 0) ∧
      (∀ i, i < two_items.iItems.length - 1 → i ≠ 0 →
        j2.iItems[i]? = two_items.iItems[i]? ∧
          j2.iAllocatedCookies[i]? = two_items.iAllocatedCookies[i]?) ∧
      j2.iReverseIndices.length = two_items.iReverseIndices.length ∧
      (∀ d, d ≠ 1 → ¬(d = m ∧ 0 < two_items.iItems.length - 1) →
        j2.iReverseIndices[d]? = two_items.iReverseIndices[d]?) ∧
      j2.iReverseIndices[1]? = some INVALID_REVERSE_INDEX ∧
      j2.iFreeCookies = two_items.iFreeCookies ++ [1] ∧
      j2.iNextAvailableCookie = two_items.iNextAvailableCookie :=
  C27_erase_postcondition small_debug two_items 1 0 (by decide) (by decide) (by decide)
    (Or.inr (by decide))

/-- C27 as stated fails in a build with assertions: the jar `stale_jar`
satisfies the invariant and cookie 1 is live at position 0, but the cookie is
also on the free list (after the public `return_cookie(1)`), and `remove(1)`
ends the process at the assertion that heads it, removing nothing. -/
theorem C27_counterexample :
    jar_invariant stale_jar ∧ stale_jar.iReverseIndices[1]? = some 0 ∧
      contains stale_jar 1 = true ∧
      remove small_debug stale_jar 1 = (result.aborted, stale_jar) := by
  decide

/-- C28, as amended. For a jar with `n` items and a cookie `c` of the cookie
type that is not bound, in a build with `NDEBUG` or with `c` not on the free
list, and with `c` other than the sentinel when the cookie type has 32 bits or
more and the reverse index does not reach `c`: `add(c, v)`, when neither the
construction of the item nor an allocation throws, returns the position `n` with
`items' = items ++ [v]`, `allocatedCookies' = allocatedCookies ++ [c]`, a reverse
index of length `max(old length, c + 1)` whose new entries are all the sentinel
except `reverseIndex'[c] == n`, every earlier entry other than that of `c`
unchanged, and the free list and the counter unchanged. -/
theorem C28_bind_postcondition {α : Type} (cfg : config) (j : basic_jar α) (c : Nat) (v : α)
    (hty : c < 2 ^ cfg.cookie_bits) (hl : contains j c = false)
    (ha : cfg.ndebug = true ∨ c ∉ j.iFreeCookies)
    (hs : cfg.cookie_bits < 32 ∨ c ≠ INVALID_COOKIE cfg ∨ c < j.iReverseIndices.length) :
    ∃ j2, add cfg j c v fault.none = (result.returned j.iItems.length, j2) ∧
      j2.iItems = j.iItems ++ [v] ∧
      j2.iAllocatedCookies = j.iAllocatedCookies ++ [c] ∧
      j2.iReverseIndices.length = max j.iReverseIndices.length (c + 1) ∧
      j2.iReverseIndices[c]? = some j.iItems.length ∧
      (∀ d, j.iReverseIndices.length ≤ d → d < max j.iReverseIndices.length (c + 1) → d ≠ c →
        j2.iReverseIndices[d]? = some INVALID_REVERSE_INDEX) ∧
      (∀ d, d < j.iReverseIndices.length → d ≠ c →
        j2.iReverseIndices[d]? = j.iReverseIndices[d]?) ∧
      j2.iFreeCookies = j.iFreeCookies ∧
      j2.iNextAvailableCookie = j.iNextAvailableCookie := by
  have hsucc := INVALID_COOKIE_succ cfg
  have hs2 : (promoted_succ cfg c = c + 1 ∧ c < SIZE_MAX) ∨ c < j.iReverseIndices.length := by
    rcases hs with h | h | h
    · exact Or.inl (promoted_succ_of_typed cfg hty (Or.inl h))
    · exact Or.inl (promoted_succ_of_typed cfg hty (Or.inr (by omega)))
    · exact Or.inr h
  refine ⟨_, add_of_unbound cfg j c v fault.none hs2 ha hl, rfl, rfl, ?_, ?_, ?_, ?_, rfl, rfl⟩
  · simp only [List.length_set, length_grown]
  · show ((grown j.iReverseIndices c).set c j.iItems.length)[c]? = _
    rw [getElem?_grown_set, if_pos rfl]
  · intro d h1 h2 h3
    show ((grown j.iReverseIndices c).set c j.iItems.length)[d]? = _
    rw [getElem?_grown_set, if_neg (fun e => h3 e.symm), if_neg (by omega), if_pos (by omega)]
  · intro d h1 h2
    show ((grown j.iReverseIndices c).set c j.iItems.length)[d]? = _
    rw [getElem?_grown_set, if_neg (fun e => h2 e.symm), if_pos h1]

/-- C28, at the jar holding 10 under cookie 1 and 20 under cookie 2, for
`add(5, 30)`: the reverse index grows from 3 entries to 6. -/
theorem C28_witness :
    ∃ j2, add small_debug two_items 5 30 fault.none =
        (result.returned two_items.iItems.length, j2) ∧
      j2.iItems = two_items.iItems ++ [30] ∧
      j2.iAllocatedCookies = two_items.iAllocatedCookies ++ [5] ∧
      j2.iReverseIndices.length = max two_items.iReverseIndices.length (5 + 1) ∧
      j2.iReverseIndices[5]? = some two_items.iItems.length ∧
      (∀ d, two_items.iReverseIndices.length ≤ d →
        d < max two_items.iReverseIndices.length (5 + 1) → d ≠ 5 →
        j2.iReverseIndices[d]? = some INVALID_REVERSE_INDEX) ∧
      (∀ d, d < two_items.iReverseIndices.length → d ≠ 5 →
        j2.iReverseIndices[d]? = two_items.iReverseIndices[d]?) ∧
      j2.iFreeCookies = two_items.iFreeCookies ∧
      j2.iNextAvailableCookie = two_items.iNextAvailableCookie :=
  C28_bind_postcondition small_debug two_items 5 30 (by decide) (by decide)
    (Or.inr (by decide)) (Or.inl (by decide))

/-- C28 as stated fails in two ways.  In a build with assertions, cookie 1 of
`erased_once` is not bound but is on the free list, and `add(1, 99)` ends the
process at the assertion that heads it.  With the 32-bit cookie type, the
sentinel 4294967295 is not bound in an empty jar, `aCookie + 1` wraps to 0, no
hole is inserted and the access `reverse_indices()[aCookie]` is outside the
empty vector; in a jar that holds an item the count of holes wraps instead and
the call throws `length_error`. -/
theorem C28_counterexample :
    (contains erased_once 1 = false ∧
      add small_debug erased_once 1 99 fault.none = (result.aborted, erased_once)) ∧
    (contains (basic_jar.new : basic_jar Nat) 4294967295 = false ∧
      (add wide_release (basic_jar.new : basic_jar Nat) 4294967295 7 fault.none).1 =
        result.undefined) ∧
    (contains (insert wide_release (basic_jar.new : basic_jar Nat) 7 fault.none).2
        4294967295 = false ∧
      (add wide_release (insert wide_release (basic_jar.new : basic_jar Nat) 7 fault.none).2
        4294967295 7 fault.none).1 = result.thrown exception.length_error) := by
  decide

/-- C29, as amended. In every jar arrived at from the empty jar by calls of
`insert`, `emplace`, `add` and `erase`/`remove` that return or throw, the
reverse index is at least as long as (the highest cookie that `insert` and
`emplace` have drawn from `next_cookie` so far) + 1; and none of `insert`,
`emplace`, `add`, `remove`, `next_cookie` and `return_cookie` makes the reverse
index shorter, whatever the jar and the outcome.  (`clear` empties the reverse
index, and `next_cookie` called on its own hands out a cookie without growing
it.) -/
theorem C29_reverse_index_length {α : Type} (cfg : config) (j : basic_jar α)
    (issued : List Nat) (h : issue_trace cfg j issued) :
    (∀ c ∈ issued, c + 1 ≤ j.iReverseIndices.length) ∧
      (∀ v f, j.iReverseIndices.length ≤ (insert cfg j v f).2.iReverseIndices.length) ∧
      (∀ v f, j.iReverseIndices.length ≤ (emplace cfg j v f).2.iReverseIndices.length) ∧
      (∀ c v f, j.iReverseIndices.length ≤ (add cfg j c v f).2.iReverseIndices.length) ∧
      (∀ c, (remove cfg j c).2.iReverseIndices.length = j.iReverseIndices.length) ∧
      (next_cookie cfg j).2.iReverseIndices = j.iReverseIndices ∧
      (∀ c, (return_cookie cfg j c).2.iReverseIndices = j.iReverseIndices) :=
  ⟨fun c hc => (issue_trace_covers cfg j issued h).2 c hc,
    fun v f => insert_length_le cfg j v f,
    fun v f => insert_length_le cfg j v f,
    fun c v f => (add_frame cfg j c v f).2.2,
    fun c => (remove_frame cfg j c).1,
    next_cookie_reverse_indices cfg j,
    fun c => (return_cookie_frame cfg j c).1⟩

/-- C29, at the jar holding 10 under cookie 1 and 20 under cookie 2, whose two
`insert` calls drew the cookies 1 and 2. -/
theorem C29_witness :
    (∀ c ∈ [1, 2], c + 1 ≤ two_items.iReverseIndices.length) ∧
      (∀ v f, two_items.iReverseIndices.length ≤
        (insert small_debug two_items v f).2.iReverseIndices.length) ∧
      (∀ v f, two_items.iReverseIndices.length ≤
        (emplace small_debug two_items v f).2.iReverseIndices.length) ∧
      (∀ c v f, two_items.iReverseIndices.length ≤
        (add small_debug two_items c v f).2.iReverseIndices.length) ∧
      (∀ c, (remove small_debug two_items c).2.iReverseIndices.length =
        two_items.iReverseIndices.length) ∧
      (next_cookie small_debug two_items).2.iReverseIndices = two_items.iReverseIndices ∧
      (∀ c, (return_cookie small_debug two_items c).2.iReverseIndices =
        two_items.iReverseIndices) :=
  C29_reverse_index_length small_debug two_items [1, 2] two_items_issue_trace

/-- C29 as stated fails in two ways.  `clear` on the jar `two_items`, which two
`insert` calls arrive at, cuts the reverse index from 3 entries to none, while
the cookies 1 and 2 have been issued.  And `next_cookie` called on an empty jar
returns cookie 1 and leaves the reverse index empty. -/
theorem C29_counterexample :
    (reachable_public small_debug two_items ∧ two_items.iReverseIndices.length = 3 ∧
      (clear two_items).iReverseIndices.length = 0) ∧
    ((next_cookie small_debug (basic_jar.new : basic_jar Nat)).1 = result.returned 1 ∧
      (next_cookie small_debug (basic_jar.new : basic_jar Nat)).2.iReverseIndices.length
        = 0) :=
  ⟨⟨two_items_reachable_public, by decide, by decide⟩, by decide, by decide⟩

/-- C30, as amended. During one call of `contains`, `operator[]`, `insert`,
`emplace`, `add`, `next_cookie`, `return_cookie` or `clear` the mutex is held at
most once at a time.  `find` acquires it and calls `contains`, which acquires it
again: two acquisitions are held at once.  `remove(cookie)` that runs to its
end calls `return_cookie` under its lock: two at once.  `remove(item)`, which
`erase` by iterator comes down to, acquires the mutex and calls
`remove(cookie)`: three at once when that runs to its end, two otherwise.  So
the jar needs the no-op mutex or a recursive one. -/
theorem C30_lock_nesting {α : Type} (cfg : config) (j : basic_jar α) (aCookie : Nat)
    (aItem : α) (f : fault) (i : Nat) :
    max_held contains_locks 0 = 1 ∧
      max_held (lookup_locks j aCookie) 0 = 1 ∧
      max_held (insert_locks cfg j aItem f) 0 = 1 ∧
      max_held (add_locks cfg j aCookie aItem f) 0 = 1 ∧
      max_held (next_cookie_locks cfg j) 0 = 1 ∧
      max_held (return_cookie_locks cfg j aCookie) 0 = 1 ∧
      max_held clear_locks 0 = 1 ∧
      max_held find_locks 0 = 2 ∧
      (∀ p, (remove cfg j aCookie).1 = result.returned p →
        max_held (remove_locks cfg j aCookie) 0 = 2) ∧
      ((∀ p, (remove cfg j aCookie).1 ≠ result.returned p) →
        max_held (remove_locks cfg j aCookie) 0 = 1) ∧
      (∀ c, item_cookie cfg j i = result.returned c →
        max_held (remove_item_locks cfg j i) 0 = 1 + max_held (remove_locks cfg j c) 0) := by
  refine ⟨rfl, max_held_scoped_lock _, ?_, max_held_scoped_lock _, max_held_scoped_lock _,
    max_held_scoped_lock _, rfl, rfl, ?_, ?_, ?_⟩
  · unfold insert_locks next_cookie_locks
    rcases hn : next_cookie cfg j with ⟨r, j1⟩
    cases r with
    | returned c =>
      simp only [result.fatal]
      unfold add_locks
      rcases hadd : add cfg j1 c aItem f with ⟨r2, j2⟩
      cases r2 with
      | returned p => rfl
      | thrown e =>
        simp only [result.fatal]
        unfold return_cookie_locks
        cases (return_cookie cfg j2 c).1.fatal <;> rfl
      | aborted => rfl
      | undefined => rfl
    | thrown e => rfl
    | aborted => rfl
    | undefined => rfl
  · intro p hp
    unfold remove_locks
    rw [hp]
    rfl
  · intro hp
    unfold remove_locks
    cases hr : (remove cfg j aCookie).1 with
    | returned p => exact absurd hr (hp p)
    | thrown e => rfl
    | aborted => rfl
    | undefined => rfl
  · intro c hc
    unfold remove_item_locks remove_item
    rw [hc]
    simp only
    unfold remove_locks
    cases (remove cfg j c).1 <;> rfl

/-- C30, at the jar holding 10 under cookie 1 and 20 under cookie 2, in a build
with assertions. -/
theorem C30_witness :
    max_held contains_locks 0 = 1 ∧
      max_held (lookup_locks two_items 1) 0 = 1 ∧
      max_held (insert_locks small_debug two_items 30 fault.none) 0 = 1 ∧
      max_held (add_locks small_debug two_items 1 30 fault.none) 0 = 1 ∧
      max_held (next_cookie_locks small_debug two_items) 0 = 1 ∧
      max_held (return_cookie_locks small_debug two_items 1) 0 = 1 ∧
      max_held clear_locks 0 = 1 ∧
      max_held find_locks 0 = 2 ∧
      (∀ p, (remove small_debug two_items 1).1 = result.returned p →
        max_held (remove_locks small_debug two_items 1) 0 = 2) ∧
      ((∀ p, (remove small_debug two_items 1).1 ≠ result.returned p) →
        max_held (remove_locks small_debug two_items 1) 0 = 1) ∧
      (∀ c, item_cookie small_debug two_items 0 = result.returned c →
        max_held (remove_item_locks small_debug two_items 0) 0 =
          1 + max_held (remove_locks small_debug two_items c) 0) :=
  C30_lock_nesting small_debug two_items 1 30 fault.none 0

/-- C30 as stated fails: `find` holds the mutex when `contains` acquires it
again, `remove(1)` on the jar `two_items` holds it when `return_cookie`
acquires it again, and `remove` of the item at position 0 of that jar holds it
twice when `return_cookie` acquires it a third time. -/
theorem C30_counterexample :
    max_held find_locks 0 = 2 ∧
      find_locks = [lock_event.acquire, lock_event.acquire, lock_event.release,
        lock_event.release] ∧
      max_held (remove_locks small_debug two_items 1) 0 = 2 ∧
      max_held (remove_item_locks small_debug two_items 0) 0 = 3 := by
  decide

/-- C31, what the code does instead. Exhaustion is reported once.  After
`INVALID_COOKIE - 1` calls `insert` into an empty jar the cookies from 1 up are
live, the free list is empty, and the next `insert` throws `cookies_exhausted`,
leaving the incremented counter on the sentinel.  With the free list still
empty, the `next_cookie` after that wraps the counter and returns 0, `insert`
returns cookie 0, and the `next_cookie` after that returns 1, a value issued
before and still live.  What holds is that `next_cookie` on an empty free list
never returns the sentinel. -/
theorem C31_exhaustion_reported_once {α : Type} (cfg : config) (v : α) :
    reachable cfg (insert_many cfg (basic_jar.new : basic_jar α) v (INVALID_COOKIE cfg - 1)) ∧
    (∃ j1 j2 : basic_jar α,
      insert cfg (insert_many cfg basic_jar.new v (INVALID_COOKIE cfg - 1)) v fault.none =
        (result.thrown exception.cookies_exhausted, j1) ∧
      j1.iFreeCookies = [] ∧
      contains j1 1 = true ∧
      next_cookie cfg j1 = (result.returned 0, j2) ∧
      (insert cfg j1 v fault.none).1 = result.returned 0 ∧
      j2.iFreeCookies = [] ∧
      (next_cookie cfg j2).1 = result.returned 1) ∧
    (∀ j : basic_jar α, j.iFreeCookies = [] →
      (next_cookie cfg j).1 ≠ result.returned (INVALID_COOKIE cfg)) := by
  have hI := INVALID_COOKIE_ge cfg
  obtain ⟨hr, hf, hc, hlive⟩ := insert_many_spec cfg v (INVALID_COOKIE cfg - 1) (by omega)
  have h0 := insert_many_zero_free cfg v (INVALID_COOKIE cfg - 1) (by omega)
  obtain ⟨e1, e2, e3, e4⟩ := next_cookie_after_exhaustion cfg _ v hf
    (by rw [hc]; omega) h0
  refine ⟨reachable_of_unexhausted cfg _ hr, ⟨_, _, e1, hf, ?_, e2, e3, hf, ?_⟩,
    fun j hj => next_cookie_ne_sentinel cfg j hj⟩
  · exact (contains_congr _ _ rfl 1).trans (hlive 1 (le_refl 1) (by omega))
  · rw [e4]

/-- C31, for the `small_jar` with 16-bit cookies: 65534 inserts, then the
failing one, then cookie 0 and cookie 1 again. -/
theorem C31_witness :
    reachable small_release
      (insert_many small_release (basic_jar.new : basic_jar Nat) 0
        (INVALID_COOKIE small_release - 1)) ∧
    (∃ j1 j2 : basic_jar Nat,
      insert small_release
          (insert_many small_release basic_jar.new 0 (INVALID_COOKIE small_release - 1))
          0 fault.none =
        (result.thrown exception.cookies_exhausted, j1) ∧
      j1.iFreeCookies = [] ∧
      contains j1 1 = true ∧
      next_cookie small_release j1 = (result.returned 0, j2) ∧
      (insert small_release j1 0 fault.none).1 = result.returned 0 ∧
      j2.iFreeCookies = [] ∧
      (next_cookie small_release j2).1 = result.returned 1) ∧
    (∀ j : basic_jar Nat, j.iFreeCookies = [] →
      (next_cookie small_release j).1 ≠ result.returned (INVALID_COOKIE small_release)) :=
  C31_exhaustion_reported_once small_release 0

/-- C32, as amended. In every jar arrived at from an empty jar by `insert`,
`emplace` and `erase(cookie)` calls none of which has failed with
`cookies_exhausted`: the free list holds no cookie twice, no cookie on the free
list is live, and every cookie from 1 up to the counter is live or on the free
list.  The assertions in `next_cookie`, `add` and `return_cookie` do not fire
in an `insert` or `emplace` on such a jar, and the assertion in `remove` does
not fire for a live cookie; it fires exactly for a cookie that is on the free
list, in a build with assertions. -/
theorem C32_issued_cookies_partitioned {α : Type} (cfg : config) (j : basic_jar α)
    (h : reachable_unexhausted cfg j) :
    j.iFreeCookies.Nodup ∧
      (∀ c ∈ j.iFreeCookies, contains j c = false) ∧
      (∀ c, 1 ≤ c → c ≤ j.iNextAvailableCookie →
        contains j c = true ∨ c ∈ j.iFreeCookies) ∧
      (∀ v f, (insert cfg j v f).1.fatal = false) ∧
      (∀ v f, (emplace cfg j v f).1.fatal = false) ∧
      (∀ c, contains j c = true → ∃ p, (remove cfg j c).1 = result.returned p) ∧
      (∀ c, (remove cfg j c).1 = result.aborted ↔
        cfg.ndebug = false ∧ c ∈ j.iFreeCookies) := by
  obtain ⟨hwf, hu⟩ := reachable_unexhausted_spec cfg j h
  refine ⟨hu.2.1, fun c hc => (hu.2.2.1 c hc).1, reachable_unexhausted_covered cfg j h,
    fun v f => (well_formed_insert cfg j v f hwf).2,
    fun v f => (well_formed_insert cfg j v f hwf).2, fun c hl => ?_,
    fun c => remove_aborted_iff cfg j c hwf.1⟩
  have hnf : c ∉ j.iFreeCookies := by
    intro hmem
    have := (hu.2.2.1 c hmem).1
    rw [hl] at this
    exact absurd this (by simp)
  obtain ⟨p, j1, he, _⟩ := remove_live cfg j c hwf.1 hl (Or.inr hnf)
  exact ⟨p, by rw [he]⟩

/-- C32, at the jar holding 10 and 20 after `remove(1)`. -/
theorem C32_witness :
    erased_once.iFreeCookies.Nodup ∧
      (∀ c ∈ erased_once.iFreeCookies, contains erased_once c = false) ∧
      (∀ c, 1 ≤ c → c ≤ erased_once.iNextAvailableCookie →
        contains erased_once c = true ∨ c ∈ erased_once.iFreeCookies) ∧
      (∀ v f, (insert small_debug erased_once v f).1.fatal = false) ∧
      (∀ v f, (emplace small_debug erased_once v f).1.fatal = false) ∧
      (∀ c, contains erased_once c = true →
        ∃ p, (remove small_debug erased_once c).1 = result.returned p) ∧
      (∀ c, (remove small_debug erased_once c).1 = result.aborted ↔
        small_debug.ndebug = false ∧ c ∈ erased_once.iFreeCookies) :=
  C32_issued_cookies_partitioned small_debug erased_once erased_once_reachable

/-- C32 as stated fails in two ways.  In the jar `erased_once`, arrived at by
two `insert` calls and `remove(1)`, a second `remove(1)` in a build with
assertions stops at the assertion that heads `remove`, cookie 1 being on the
free list.  And the jar `wrapped_jar`, arrived at by 65537 `insert` calls on a
`small_jar`, the 65535th of which failed with `cookies_exhausted`, has cookie 1
live and on the free list. -/
theorem C32_counterexample :
    (reachable small_debug erased_once ∧
      remove small_debug erased_once 1 = (result.aborted, erased_once)) ∧
    (reachable small_debug wrapped_jar ∧ contains wrapped_jar 1 = true ∧
      1 ∈ wrapped_jar.iFreeCookies) :=
  ⟨⟨reachable_of_unexhausted _ _ erased_once_reachable, by decide⟩,
    wrapped_jar_spec.1, wrapped_jar_spec.2.1, by rw [wrapped_jar_spec.2.2.2.1]; simp⟩

/-- C33, what the code does instead. As long as no `create_entity` has failed
with `entity_ids_exhausted`, along `create_entity` calls and `destroy_entity`
calls on live ids `create_entity` never returns an id that is live.  After
`2^w - 1` calls `create_entity` on a new registry, `w` being the width of
`entity_id`, every id from 1 up is live and the free list is empty; the next
`create_entity` throws `entity_ids_exhausted` and leaves the counter on
`null_entity`; and the `create_entity` after that returns 1, which is live. -/
theorem C33_entity_ids_after_exhaustion {δ σ : Type} (env : collaborators δ σ)
    (cfg : ecs_config) (fl : ecs_flags) (a : Nat) :
    (∀ (s : ecs δ σ) (live : List Nat), live_trace_unexhausted env cfg s live →
      ∀ b e, (create_entity env cfg s b).1 = result.returned e → e ∉ live) ∧
    (∃ live,
      live_trace env cfg
        (create_many env cfg (ecs.new env fl) a (2 ^ cfg.entity_id_bits - 1)) live ∧
      (∀ e, 1 ≤ e → e ≤ 2 ^ cfg.entity_id_bits - 1 → e ∈ live) ∧
      (create_entity env cfg
        (create_many env cfg (ecs.new env fl) a (2 ^ cfg.entity_id_bits - 1)) a).1 =
        result.thrown exception.entity_ids_exhausted ∧
      live_trace env cfg
        (create_entity env cfg
          (create_many env cfg (ecs.new env fl) a (2 ^ cfg.entity_id_bits - 1)) a).2 live ∧
      (create_entity env cfg
        (create_entity env cfg
          (create_many env cfg (ecs.new env fl) a (2 ^ cfg.entity_id_bits - 1)) a).2 a).1 =
        result.returned 1 ∧
      1 ∈ live) := by
  refine ⟨fun s live h b e hc => create_entity_not_live env cfg s live h b e hc, ?_⟩
  have hpos : 256 ≤ 2 ^ cfg.entity_id_bits := by
    have := Nat.pow_le_pow_right (show 0 < 2 by decide) cfg.entity_id_bits_ge
    omega
  obtain ⟨live, ht, hlive, hf, hc⟩ :=
    create_many_spec env cfg fl a (2 ^ cfg.entity_id_bits - 1) (by omega)
  have hlt := live_trace_of_unexhausted env cfg _ live ht
  obtain ⟨hr, _⟩ := live_trace_info_ready env cfg _ live hlt
  have hmod : ((create_many env cfg (ecs.new env fl) a
      (2 ^ cfg.entity_id_bits - 1)).iNextEntityId + 1) % 2 ^ cfg.entity_id_bits = 0 := by
    rw [hc]
    have : 2 ^ cfg.entity_id_bits - 1 + 1 = 2 ^ cfg.entity_id_bits := by omega
    rw [this, Nat.mod_self]
  have hd := next_entity_id_exhausted cfg _ hf hmod
  have hres := create_entity_result env cfg _ a hr
  obtain ⟨hfree, hcnt⟩ := create_entity_ids env cfg
    (create_many env cfg (ecs.new env fl) a (2 ^ cfg.entity_id_bits - 1)) a
  rw [hd] at hres hfree hcnt
  have hstep := live_trace.created _ live a hlt
  rw [hres] at hstep
  have hstep : live_trace env cfg (create_entity env cfg
      (create_many env cfg (ecs.new env fl) a (2 ^ cfg.entity_id_bits - 1)) a).2 live := hstep
  obtain ⟨hr2, _⟩ := live_trace_info_ready env cfg _ live hstep
  refine ⟨live, hlt, hlive, hres, hstep, ?_, hlive 1 (le_refl 1) (by omega)⟩
  rw [create_entity_result env cfg _ a hr2]
  have hf2 : (create_entity env cfg (create_many env cfg (ecs.new env fl) a
      (2 ^ cfg.entity_id_bits - 1)) a).2.iFreedEntityIds = [] := by
    rw [hfree]; exact hf
  have hc2 : (create_entity env cfg (create_many env cfg (ecs.new env fl) a
      (2 ^ cfg.entity_id_bits - 1)) a).2.iNextEntityId = 0 := by
    rw [hcnt]
  have hmod2 : ((create_entity env cfg (create_many env cfg (ecs.new env fl) a
      (2 ^ cfg.entity_id_bits - 1)) a).2.iNextEntityId + 1) % 2 ^ cfg.entity_id_bits = 1 := by
    rw [hc2]
    exact Nat.mod_eq_of_lt (by omega)
  rw [next_entity_id_of_counter cfg _ hf2 (by rw [hmod2]; omega)]
  simp only [hmod2]

/-- C33, for entity ids of 8 bits and a registry without flags: 255 entities,
the failing call, then id 1 again. -/
theorem C33_witness :
    (∀ (s : ecs (Nat × Int) Bool) (live : List Nat),
      live_trace_unexhausted plain_env small_ids s live →
      ∀ b e, (create_entity plain_env small_ids s b).1 = result.returned e → e ∉ live) ∧
    (∃ live,
      live_trace plain_env small_ids
        (create_many plain_env small_ids (ecs.new plain_env ⟨false, false, false⟩) 0
          (2 ^ small_ids.entity_id_bits - 1)) live ∧
      (∀ e, 1 ≤ e → e ≤ 2 ^ small_ids.entity_id_bits - 1 → e ∈ live) ∧
      (create_entity plain_env small_ids
        (create_many plain_env small_ids (ecs.new plain_env ⟨false, false, false⟩) 0
          (2 ^ small_ids.entity_id_bits - 1)) 0).1 =
        result.thrown exception.entity_ids_exhausted ∧
      live_trace plain_env small_ids
        (create_entity plain_env small_ids
          (create_many plain_env small_ids (ecs.new plain_env ⟨false, false, false⟩) 0
            (2 ^ small_ids.entity_id_bits - 1)) 0).2 live ∧
      (create_entity plain_env small_ids
        (create_entity plain_env small_ids
          (create_many plain_env small_ids (ecs.new plain_env ⟨false, false, false⟩) 0
            (2 ^ small_ids.entity_id_bits - 1)) 0).2 0).1 =
        result.returned 1 ∧
      1 ∈ live) :=
  C33_entity_ids_after_exhaustion plain_env small_ids ⟨false, false, false⟩ 0

/-- C34, as amended. For a jar whose value type is not a pointer and which
satisfies the invariant, and every dense position `i < size()`:
`item_cookie(items[i])` returns `allocatedCookies[i]`, and `erase` of the
iterator at position `i` ends as `remove(allocatedCookies[i])` ends, with the
same outcome and the same jar; where the assertion that heads `remove` holds,
both return the position `i`. -/
theorem C34_erase_by_iterator {α : Type} (cfg : config) (j : basic_jar α) (i : Nat)
    (hp : cfg.pointer_value_type = false) (hinv : jar_invariant j)
    (hi : i < j.iItems.length) :
    ∃ c, j.iAllocatedCookies[i]? = some c ∧
      item_cookie cfg j i = result.returned c ∧
      erase cfg j i = remove cfg j c ∧
      (cfg.ndebug = true ∨ c ∉ j.iFreeCookies → (erase cfg j i).1 = result.returned i) := by
  obtain ⟨h1, _, h3, h4⟩ := (jar_invariant_iff j).mp hinv
  have hi2 : i < j.iAllocatedCookies.length := by omega
  have hc : j.iAllocatedCookies[i]? = some j.iAllocatedCookies[i] :=
    List.getElem?_eq_getElem hi2
  have hic : item_cookie cfg j i = result.returned j.iAllocatedCookies[i] := by
    unfold item_cookie
    rw [hp]
    simp only [Bool.not_false, if_true, if_pos hi, hc]
  have he : erase cfg j i = remove cfg j j.iAllocatedCookies[i] := by
    unfold erase remove_item
    rw [if_pos hi, hic]
  refine ⟨_, hc, hic, he, fun ha => ?_⟩
  have hne : i ≠ INVALID_REVERSE_INDEX := by
    unfold INVALID_REVERSE_INDEX at h4 ⊢
    omega
  obtain ⟨x, m, _, _, hr⟩ := remove_of_contains cfg j _ i hinv (h3 i _ hc) hne ha
  rw [he, hr]

/-- C34, at the jar holding 10 under cookie 1 and 20 under cookie 2, for the
iterator at position 1. -/
theorem C34_witness :
    ∃ c, two_items.iAllocatedCookies[1]? = some c ∧
      item_cookie small_debug two_items 1 = result.returned c ∧
      erase small_debug two_items 1 = remove small_debug two_items c ∧
      (small_debug.ndebug = true ∨ c ∉ two_items.iFreeCookies →
        (erase small_debug two_items 1).1 = result.returned 1) :=
  C34_erase_by_iterator small_debug two_items 1 rfl (by decide) (by decide)

/-- C34 as stated fails for a jar of pointers: `item_cookie` throws
`no_pointer_value_type_cookie_lookup`, and so does `erase` of the iterator at
position 0 of the jar `two_items`, which removes nothing, while `remove` of the
cookie at that position returns position 0 and removes the item. -/
theorem C34_counterexample :
    jar_invariant two_items ∧ two_items.iAllocatedCookies[0]? = some 1 ∧
      item_cookie pointer_debug two_items 0 =
        result.thrown exception.no_pointer_value_type_cookie_lookup ∧
      erase pointer_debug two_items 0 =
        (result.thrown exception.no_pointer_value_type_cookie_lookup, two_items) ∧
      (remove pointer_debug two_items 1).1 = result.returned 0 ∧
      (remove pointer_debug two_items 1).2.iItems = [20] := by
  decide

/-- C35. From any jar, after `clear()` the jar is the freshly constructed one:
`size()` is 0, `contains(c)` is false for every cookie, the free list and the
reverse index are empty, the counter is 0, the next `insert` returns cookie 1,
and whatever is computed from the jar afterwards is what is computed from a new
jar. -/
theorem C35_clear_resets {α : Type} (cfg : config) (j : basic_jar α) (v : α) :
    clear j = basic_jar.new ∧
      size (clear j) = 0 ∧
      (∀ c, contains (clear j) c = false) ∧
      (clear j).iFreeCookies = [] ∧
      (clear j).iReverseIndices = [] ∧
      (clear j).iNextAvailableCookie = 0 ∧
      (insert cfg (clear j) v fault.none).1 = result.returned 1 ∧
      (∀ (β : Type) (later : basic_jar α → β), later (clear j) = later basic_jar.new) := by
  have hI := INVALID_COOKIE_ge cfg
  have hnew : clear j = (basic_jar.new : basic_jar α) := rfl
  refine ⟨hnew, rfl, fun c => rfl, rfl, rfl, rfl, ?_, fun β later => by rw [hnew]⟩
  rw [hnew, insert_at_counter cfg basic_jar.new v rfl
    (by show 0 + 1 < INVALID_COOKIE cfg; omega) rfl]
  rfl

/-- C35, at the jar holding 10 and 20, in a build with assertions. -/
theorem C35_witness :
    clear two_items = basic_jar.new ∧
      size (clear two_items) = 0 ∧
      (∀ c, contains (clear two_items) c = false) ∧
      (clear two_items).iFreeCookies = [] ∧
      (clear two_items).iReverseIndices = [] ∧
      (clear two_items).iNextAvailableCookie = 0 ∧
      (insert small_debug (clear two_items) 30 fault.none).1 = result.returned 1 ∧
      (∀ (β : Type) (later : basic_jar Nat → β),
        later (clear two_items) = later basic_jar.new) :=
  C35_clear_resets small_debug two_items 30

/-- C36. Along every sequence of `register_system`, `system(id)`,
`pause_all_systems` and `resume_all_systems` calls on a newly constructed
registry, with systems whose `pause()` and `resume()` do what the spec says and
that are made not paused: every instantiated system is in the paused state if
and only if `all_systems_paused()` is true; and `system(id)` for a registered
system that has no instance, called while the registry is paused, returns and
stores the new system after `pause()`, in the paused state. -/
theorem C36_paused_flag_agrees {δ σ : Type} (env : collaborators δ σ) (s : ecs δ σ)
    (hs : pause_semantics env) (h : pause_trace env s) :
    (∀ id t, table_find s.iSystems id = some t →
      (env.paused t = true ↔ all_systems_paused s = true)) ∧
    (∀ id f, table_find s.iSystems id = Option.none →
      table_find s.iSystemFactories id = some f → all_systems_paused s = true →
      (system env s id).1 = result.returned (env.pause (f ())) ∧
        table_find (system env s id).2.iSystems id = some (env.pause (f ())) ∧
        env.paused (env.pause (f ())) = true ∧
        all_systems_paused (system env s id).2 = true) := by
  obtain ⟨g1, g2⟩ := pause_trace_spec env s hs h
  refine ⟨fun id t ht => ?_, fun id f hn hf hp => ?_⟩
  · have := g1 id t ht
    unfold all_systems_paused
    cases hp : s.iSystemsPaused with
    | true =>
      rw [hp] at this
      simp only [if_true] at this
      obtain ⟨t0, e, _⟩ := this
      rw [e]
      simp [hs.1 t0]
    | false =>
      rw [hp] at this
      simp only [Bool.false_eq_true, if_false] at this
      simp [this]
  · unfold all_systems_paused at hp
    rw [system_of_factory env s id f hn hf]
    simp only [hp, if_true]
    refine ⟨trivial, ?_, hs.1 _, ?_⟩
    · exact table_find_append_self _ _ _ hn
    · rfl

/-- C36 at a concrete registry, constructed with `CreatePaused`: system 5,
instantiated while the registry is paused, is in the paused state, and system 6,
when first asked for, is returned paused. -/
theorem C36_witness :
    (∀ id t, table_find paused_ecs.iSystems id = some t →
      (counting_env.paused t = true ↔ all_systems_paused paused_ecs = true)) ∧
    (∀ id f, table_find paused_ecs.iSystems id = Option.none →
      table_find paused_ecs.iSystemFactories id = some f →
      all_systems_paused paused_ecs = true →
      (system counting_env paused_ecs id).1 = result.returned (counting_env.pause (f ())) ∧
        table_find (system counting_env paused_ecs id).2.iSystems id =
          some (counting_env.pause (f ())) ∧
        counting_env.paused (counting_env.pause (f ())) = true ∧
        all_systems_paused (system counting_env paused_ecs id).2 = true) :=
  C36_paused_flag_agrees counting_env paused_ecs counting_env_pause_semantics
    paused_ecs_pause_trace

end neolib
